import Mathlib

/-!
# The JSON scanner and the entry pool of `adam_resume.c`

A shallow embedding of the allocation-free JSON scanner (`JsonValueDataLength`,
`JsonNumberDataLength`, `JsonStringDataLength`, `JsonArrayDataLength`,
`JsonObjectDataLength`, `JsonSkip`), of the key locator and the array iterator built
on it (`JsonSkipToKeyValue`, `JsonSkipToNextValue`, `JsonArrayNextIndex`) and of the
managed entry pool (`TimeFromDateString`, `SetTextSubstr`, `ManagedEntriesInit`,
`ManagedEntriesAppendSubstr`, `ManagedEntriesAppend`), of the entry store and its
ordered traversal (`EntriesInsertAt`, `EntriesFind`, `EntriesTraverseFirst`,
`EntriesTraverseNext`), of the display limit of `ResumePrintPlainText` and of the list
of sections (`ResumeInsertSection`, `ResumeGetSectionCount`, `ResumeGetSectionData`,
`ResumeGetSectionIndex`) and of the filling of a section from a JSON array
(`ResumeFillEntriesFromJsonArray`, `SectionAddEntry`), and theorems about them.

Modelling conventions.

* A `const char*` is the list of `char` values found from the pointer onward.
  A `char` value is an `Int` (the value after integer promotion, so a byte above
  `0x7f` is negative where `char` is signed and positive where it is unsigned;
  the theorems hold for both).  Reading at or past the end of the list reads the
  terminating NUL, `0`.  A list may hold a `0` itself: that is the terminating NUL,
  and what follows it in the list are the bytes that lie after it in memory.
* A returned pointer `json + n` is returned as the offset `n`; a pointer
  comparison `skipPtr != currentPtr` is the comparison `n ≠ 0`.
* A length is a `Nat` (the scanner never produces a negative length).
* `JsonState_t* jsonState` is passed in and returned; "no error code was written"
  is "the returned state is the state passed in", for every state passed in.
* The mutually recursive functions take a first argument `fuel` bounding the
  depth of calls and loop iterations, and return `none` when it is exhausted.
  `JsonSkip_terminates` and its siblings show that `fuelFor json` always suffices.
* A pointer that may be `NULL` (`text`, `start`, `end`, the entry returned) is an
  `Option`.  The outcome of an allocation is a `Bool` parameter (in
  `ResumeFillEntriesFromJsonArray`, a function of the index of the array element for
  which the allocation is made), and the C library functions `sscanf` and `mktime`
  used on dates are parameters.
* `int` arithmetic is exact: overflow of an index or a length is not modelled.
* A `SectionData_t*` is the address of an element of the array `m_ResumeSection` or of
  an object obtained from `malloc`; the memory of the allocated section objects is a
  field of the model of `Resume_t`.  A function that can read through a null pointer
  returns `none` when it does.
-/

namespace Resume

/-- Error state of a scan: `enum JsonState_e`. -/
inductive JsonState
  | JSON_STATE_UNKNOWN
  | JSON_STATE_OK
  | JSON_STATE_ERROR_TOO_MANY_DECIMALS
  | JSON_STATE_ERROR_LEADING_DECIMAL
  | JSON_STATE_ERROR_STRING_MISSING_START
  | JSON_STATE_ERROR_STRING_MISSING_END
  | JSON_STATE_ERROR_STRING_MISSING_ESCAPED_CHAR
  | JSON_STATE_ERROR_STRING_INVALID_FOLLOWER
  | JSON_STATE_ERROR_ARRAY_MISSING_START
  | JSON_STATE_ERROR_ARRAY_MISSING_END
  | JSON_STATE_ERROR_ARRAY_MISSING_NEXT_OR_END_CHAR
  | JSON_STATE_ERROR_OBJECT_MISSING_START
  | JSON_STATE_ERROR_OBJECT_MISSING_END
  | JSON_STATE_ERROR_OBJECT_MISSING_KEY
  | JSON_STATE_ERROR_OBJECT_MISSING_VALUE_START
  | JSON_STATE_ERROR_VALUE_CASE
  | JSON_STATE_ERROR_VALUE_INVALID
  | JSON_STATE_ERROR_VALUE_INVALID_FOLLOWER
  | JSON_STATE_ERROR_COMMA_INVALID_FOLLOWER
  | JSON_STATE_ERROR_UNEXPECTED_CHAR
  deriving DecidableEq, Repr

open JsonState

/-- The `char` values of a string literal (ASCII text). -/
def ofString (s : String) : List Int :=
  s.toList.map (fun c => (c.toNat : Int))

/-- The read `json[pos]`: the terminating NUL at or past the end. -/
def charAt (json : List Int) (pos : Nat) : Int :=
  json.getD pos 0

/-- The value `#define INVALID_POSITION (-1)`. -/
def INVALID_POSITION : Int := -1

/-- The value `#define JSON_VALUE_KEYWORD_MAX_LENGTH 5`. -/
def JSON_VALUE_KEYWORD_MAX_LENGTH : Nat := 5

/-- The keyword `g_JsonKeywordTrue[] = "true"`. -/
def g_JsonKeywordTrue : List Int := [116, 114, 117, 101]

/-- The keyword `g_JsonKeywordFalse[] = "false"`. -/
def g_JsonKeywordFalse : List Int := [102, 97, 108, 115, 101]

/-- The keyword `g_JsonKeywordNull[] = "null"`. -/
def g_JsonKeywordNull : List Int := [110, 117, 108, 108]

/-- The test `#define IS_WHITESPACE(c) ((c) <= ' ')`. -/
def IS_WHITESPACE (c : Int) : Bool :=
  decide (c ≤ 32)

/-- The loop `SKIP_WHITESPACE(ptr)`: the number of characters `ptr` advances. -/
def SKIP_WHITESPACE : List Int → Nat
  | [] => 0
  | c :: cs =>
    if IS_WHITESPACE c then
      if c = 0 then 0 else SKIP_WHITESPACE cs + 1
    else 0

/-- The loop `SKIP_TO_NULL(ptr)`: the number of characters `ptr` advances. -/
def SKIP_TO_NULL : List Int → Nat
  | [] => 0
  | c :: cs => if c ≠ 0 then SKIP_TO_NULL cs + 1 else 0

/-- The C library `tolower` in the "C" locale. -/
def tolower (c : Int) : Int :=
  if 65 ≤ c ∧ c ≤ 90 then c + 32 else c

/-- The loop of `FindUppercase`, with `n = maxChars - pos` iterations left. -/
def FindUppercase_loop : Nat → List Int → Int → Int
  | 0, _, _ => INVALID_POSITION
  | n + 1, text, pos =>
    let current := charAt text 0
    if current = 0 then INVALID_POSITION
    else if current ≠ tolower current then pos
    else FindUppercase_loop n (text.drop 1) (pos + 1)

/-- The function `FindUppercase(text, maxChars)`. -/
def FindUppercase (text : List Int) (maxChars : Nat) : Int :=
  FindUppercase_loop maxChars text 0

/-- The C library `strncmp`: zero exactly when the two strings agree on their
first `n` characters or up to a common NUL (only the zero test is used). -/
def strncmp : List Int → List Int → Nat → Int
  | _, _, 0 => 0
  | a, b, n + 1 =>
    let ca := charAt a 0
    let cb := charAt b 0
    if ca ≠ cb then ca - cb
    else if ca = 0 then 0
    else strncmp (a.drop 1) (b.drop 1) n

/-- The `while` loop of `JsonNumberDataLength`; the argument list is `json + pos`. -/
def JsonNumberDataLength_loop : List Int → Nat → Int → JsonState → Nat × JsonState
  | [], pos, _, jsonState => (pos, jsonState)
  | current :: rest, pos, decimalPos, jsonState =>
    if current = 0 then (pos, jsonState)
    else if current = 46 then
      if pos > 0 then
        if decimalPos = INVALID_POSITION then
          JsonNumberDataLength_loop rest (pos + 1) (pos : Int) jsonState
        else (0, JSON_STATE_ERROR_TOO_MANY_DECIMALS)
      else (0, JSON_STATE_ERROR_LEADING_DECIMAL)
    else if current < 48 ∨ current > 57 then (pos, jsonState)
    else JsonNumberDataLength_loop rest (pos + 1) decimalPos jsonState

/-- The function `JsonNumberDataLength(json, jsonState)`. -/
def JsonNumberDataLength (json : List Int) (jsonState : JsonState) : Nat × JsonState :=
  JsonNumberDataLength_loop json 0 INVALID_POSITION jsonState

/-- The `while` loop of `JsonStringDataLength`; the argument list is `json + pos`.
The result is `some length` for a `return` inside the loop and `none` when the
loop is left (at the NUL, or by `break`), with the state as written so far. -/
def JsonStringDataLength_loop : List Int → Nat → JsonState → Option Nat × JsonState
  | [], _, jsonState => (none, jsonState)
  | current :: rest, pos, jsonState =>
    if current = 0 then (none, jsonState)
    else if current = 34 then (some (pos + 1), jsonState)
    else if current = 92 then
      match rest with
      | [] => (none, JSON_STATE_ERROR_STRING_MISSING_ESCAPED_CHAR)
      | escaped :: rest2 =>
        if escaped = 0 then (none, JSON_STATE_ERROR_STRING_MISSING_ESCAPED_CHAR)
        else JsonStringDataLength_loop rest2 (pos + 2) jsonState
    else JsonStringDataLength_loop rest (pos + 1) jsonState

/-- The function `JsonStringDataLength(json, jsonState)`. -/
def JsonStringDataLength (json : List Int) (jsonState : JsonState) : Nat × JsonState :=
  if charAt json 0 ≠ 34 then (0, JSON_STATE_ERROR_STRING_MISSING_START)
  else
    match JsonStringDataLength_loop (json.drop 1) 1 jsonState with
    | (some length, jsonState1) => (length, jsonState1)
    | (none, _) => (1, JSON_STATE_ERROR_STRING_MISSING_END)

mutual

/-- The function `JsonValueDataLength(json, jsonState)`. -/
def JsonValueDataLength : Nat → List Int → JsonState → Option (Nat × JsonState)
  | 0, _, _ => none
  | fuel + 1, json, jsonState =>
    let current := charAt json 0
    let r : Option (Nat × JsonState) :=
      if current = 91 then JsonArrayDataLength fuel json jsonState
      else if current = 123 then JsonObjectDataLength fuel json jsonState
      else if current = 34 then some (JsonStringDataLength json jsonState)
      else if current ≥ 48 ∨ current ≤ 57 then some (JsonNumberDataLength json jsonState)
      else if FindUppercase json JSON_VALUE_KEYWORD_MAX_LENGTH = INVALID_POSITION then
        if strncmp json g_JsonKeywordTrue 4 = 0 then some (4, jsonState)
        else if strncmp json g_JsonKeywordFalse 5 = 0 then some (5, jsonState)
        else if strncmp json g_JsonKeywordNull 4 = 0 then some (4, jsonState)
        else some (0, jsonState)
      else some (0, JSON_STATE_ERROR_VALUE_CASE)
    match r with
    | none => none
    | some (length, jsonState1) =>
      if length = 0 then some (length, JSON_STATE_ERROR_VALUE_INVALID)
      else some (length, jsonState1)

/-- The `while` loop of `JsonArrayDataLength`, at `current = json[pos]`: `some length`
for a `return` inside the loop, `none` when the loop is left. -/
def JsonArrayDataLength_loop :
    Nat → List Int → Nat → JsonState → Option (Option Nat × JsonState)
  | 0, _, _, _ => none
  | fuel + 1, json, pos, jsonState =>
    let current := charAt json pos
    if current = 0 then some (none, jsonState)
    else if current = 93 then some (some (pos + 1), jsonState)
    else
      match JsonSkip fuel (json.drop pos) jsonState with
      | none => none
      | some (skip, jsonState1) =>
        if skip ≠ 0 then JsonArrayDataLength_loop fuel json (pos + skip) jsonState1
        else some (none, jsonState1)

/-- The function `JsonArrayDataLength(json, jsonState)`. -/
def JsonArrayDataLength : Nat → List Int → JsonState → Option (Nat × JsonState)
  | 0, _, _ => none
  | fuel + 1, json, jsonState =>
    if charAt json 0 ≠ 91 then some (0, JSON_STATE_ERROR_ARRAY_MISSING_START)
    else
      match JsonArrayDataLength_loop fuel json 1 jsonState with
      | none => none
      | some (some length, jsonState1) => some (length, jsonState1)
      | some (none, _) => some (1, JSON_STATE_ERROR_ARRAY_MISSING_END)

/-- The `while` loop of `JsonObjectDataLength`, at `current = json[pos]`. -/
def JsonObjectDataLength_loop :
    Nat → List Int → Nat → JsonState → Option (Option Nat × JsonState)
  | 0, _, _, _ => none
  | fuel + 1, json, pos, jsonState =>
    let current := charAt json pos
    if current = 0 then some (none, jsonState)
    else if current = 125 then some (some (pos + 1), jsonState)
    else
      match JsonSkip fuel (json.drop pos) jsonState with
      | none => none
      | some (skip, jsonState1) =>
        if skip ≠ 0 then JsonObjectDataLength_loop fuel json (pos + skip) jsonState1
        else some (none, jsonState1)

/-- The function `JsonObjectDataLength(json, jsonState)`. -/
def JsonObjectDataLength : Nat → List Int → JsonState → Option (Nat × JsonState)
  | 0, _, _ => none
  | fuel + 1, json, jsonState =>
    if charAt json 0 ≠ 123 then some (0, JSON_STATE_ERROR_OBJECT_MISSING_START)
    else
      match JsonObjectDataLength_loop fuel json 1 jsonState with
      | none => none
      | some (some length, jsonState1) => some (length, jsonState1)
      | some (none, _) => some (1, JSON_STATE_ERROR_OBJECT_MISSING_END)

/-- The function `JsonSkip(json, jsonState)`: the offset `ptr - json` of the returned
pointer, and the state. -/
def JsonSkip : Nat → List Int → JsonState → Option (Nat × JsonState)
  | 0, _, _ => none
  | fuel + 1, json, jsonState =>
    let current := charAt json 0
    if current = 91 then
      match JsonArrayDataLength fuel json jsonState with
      | none => none
      | some (dataLength, jsonState1) =>
        if dataLength ≥ 2 then
          some (dataLength + SKIP_WHITESPACE (json.drop dataLength), jsonState1)
        else some (0, jsonState1)
    else if current = 123 then
      match JsonObjectDataLength fuel json jsonState with
      | none => none
      | some (dataLength, jsonState1) =>
        if dataLength ≥ 2 then
          some (dataLength + SKIP_WHITESPACE (json.drop dataLength), jsonState1)
        else some (0, jsonState1)
    else if current = 34 then
      match JsonStringDataLength json jsonState with
      | (dataLength, jsonState1) =>
        if dataLength ≥ 2 then
          let ptr := dataLength + SKIP_WHITESPACE (json.drop dataLength)
          let current1 := charAt json ptr
          if current1 ≠ 44 ∧ current1 ≠ 93 ∧ current1 ≠ 125 ∧ current1 ≠ 58 ∧ current1 ≠ 0 then
            some (0, JSON_STATE_ERROR_STRING_INVALID_FOLLOWER)
          else some (ptr, jsonState1)
        else some (0, jsonState1)
    else if current = 58 then
      let valuePtr := 1 + SKIP_WHITESPACE (json.drop 1)
      match JsonValueDataLength fuel (json.drop valuePtr) jsonState with
      | none => none
      | some (valueLength, jsonState1) =>
        if valueLength > 0 then
          let ptr := (valuePtr + valueLength) + SKIP_WHITESPACE (json.drop (valuePtr + valueLength))
          let current1 := charAt json ptr
          if current1 ≠ 44 ∧ current1 ≠ 93 ∧ current1 ≠ 125 ∧ current1 ≠ 0 then
            some (0, JSON_STATE_ERROR_VALUE_INVALID_FOLLOWER)
          else some (ptr, jsonState1)
        else some (0, jsonState1)
    else if current = 44 then
      let ptr := 1 + SKIP_WHITESPACE (json.drop 1)
      let current1 := charAt json ptr
      if current1 ≠ 123 ∧ current1 ≠ 91 ∧ current1 ≠ 34 then
        some (0, JSON_STATE_ERROR_COMMA_INVALID_FOLLOWER)
      else some (ptr, jsonState)
    else
      if IS_WHITESPACE current then
        some (1 + SKIP_WHITESPACE (json.drop 1), jsonState)
      else some (0, JSON_STATE_ERROR_UNEXPECTED_CHAR)

end

/-- The `while` loop of `JsonSkipToKeyValue`, with the cursor `json` of the source at
offset `ptr` of the argument, and `current = *json`.  The result is the offset of
the returned pointer. -/
def JsonSkipToKeyValue_loop :
    Nat → List Int → Nat → List Int → JsonState → Option (Nat × JsonState)
  | 0, _, _, _, _ => none
  | fuel + 1, json, ptr, key, jsonState =>
    let current := charAt json ptr
    if current ≠ 0 ∧ current ≠ 125 then
      let keyPtr :=
        if current = 44 then (ptr + 1) + SKIP_WHITESPACE (json.drop (ptr + 1)) else ptr
      match JsonStringDataLength (json.drop keyPtr) jsonState with
      | (keyLength, jsonState1) =>
        if keyLength ≥ 2 then
          let afterKey := (keyPtr + keyLength) + SKIP_WHITESPACE (json.drop (keyPtr + keyLength))
          if strncmp (json.drop (keyPtr + 1)) key (keyLength - 2) = 0 then
            if charAt json afterKey = 58 then
              some ((afterKey + 1) + SKIP_WHITESPACE (json.drop (afterKey + 1)), jsonState1)
            else
              some (afterKey + SKIP_TO_NULL (json.drop afterKey),
                JSON_STATE_ERROR_OBJECT_MISSING_VALUE_START)
          else
            match JsonSkip fuel (json.drop afterKey) jsonState1 with
            | none => none
            | some (skip, jsonState2) =>
              if skip = 0 then
                some (afterKey + SKIP_TO_NULL (json.drop afterKey), jsonState2)
              else JsonSkipToKeyValue_loop fuel json (afterKey + skip) key jsonState2
        else
          some (keyPtr + SKIP_TO_NULL (json.drop keyPtr), JSON_STATE_ERROR_OBJECT_MISSING_KEY)
    else some (ptr, jsonState)

/-- The function `JsonSkipToKeyValue(json, key, jsonState)`: the offset of the
returned pointer from `json`, and the state. -/
def JsonSkipToKeyValue (fuel : Nat) (json key : List Int) (jsonState : JsonState) :
    Option (Nat × JsonState) :=
  JsonSkipToKeyValue_loop fuel json (SKIP_WHITESPACE json) key jsonState

/-- Fuel that always suffices for a scan of `json`. -/
def fuelFor (json : List Int) : Nat :=
  4 * json.length + 4

/-- Elements joined by commas: `x1,x2,...,xn`. -/
def joinComma : List (List Int) → List Int
  | [] => []
  | [x] => x
  | x :: y :: rest => x ++ 44 :: joinComma (y :: rest)

/-- A string in double quotes: the quote, the bytes, the quote. -/
def quoted (s : List Int) : List Int :=
  34 :: (s ++ [34])

/-- A non-empty run of decimal digits, the text of an unsigned decimal integer. -/
def IsDecimal (ds : List Int) : Prop :=
  ds ≠ [] ∧ ∀ c ∈ ds, 48 ≤ c ∧ c ≤ 57

/-- A run of decimal digits, possibly empty. -/
def IsDigits (ds : List Int) : Prop :=
  ∀ c ∈ ds, 48 ≤ c ∧ c ≤ 57

/-- A string body free of double quote, backslash and NUL. -/
def IsPlain (s : List Int) : Prop :=
  ∀ c ∈ s, c ≠ 34 ∧ c ≠ 92 ∧ c ≠ 0

instance IsPlain.instDecidable (s : List Int) : Decidable (IsPlain s) := by
  unfold IsPlain
  infer_instance

instance IsDigits.instDecidable (ds : List Int) : Decidable (IsDigits ds) := by
  unfold IsDigits
  infer_instance

instance IsDecimal.instDecidable (ds : List Int) : Decidable (IsDecimal ds) := by
  unfold IsDecimal
  infer_instance

/-- A string body without NUL that reads left to right as plain bytes (neither
backslash nor double quote) and two-byte escape pairs (a backslash and the byte
after it, both inside the body): every backslash outside a pair starts one, and a
double quote occurs only as the second byte of a pair. -/
def IsEscaped : List Int → Prop
  | [] => True
  | [c] => c ≠ 0 ∧ c ≠ 34 ∧ c ≠ 92
  | c :: d :: rest =>
    c ≠ 0 ∧ c ≠ 34 ∧
      (if c = 92 then d ≠ 0 ∧ IsEscaped rest else IsEscaped (d :: rest))

/-- The pair `"key":"value"` of an object body. -/
def pairText (kv : List Int × List Int) : List Int :=
  quoted kv.1 ++ 58 :: quoted kv.2

/-- The results of `JsonSkipToNextValue`: the returned pointer as an offset from the
argument `json`, `*key` as an offset from `json` (`none` is `NULL`), `*keyLength`, and the
state. -/
structure JsonNextValue where
  json : Nat
  key : Option Nat
  keyLength : Nat
  jsonState : JsonState
  deriving DecidableEq, Repr

/-- The function `JsonSkipToNextValue(json, key, keyLength, jsonState)`.  Every path
through the body of its `while` loop ends in `break`, so the body runs at most once. -/
def JsonSkipToNextValue (json : List Int) (jsonState : JsonState) : JsonNextValue :=
  let ptr := SKIP_WHITESPACE json
  let current := charAt json ptr
  if current ≠ 0 ∧ current ≠ 125 then
    let keyPtr :=
      if current = 44 then (ptr + 1) + SKIP_WHITESPACE (json.drop (ptr + 1)) else ptr
    match JsonStringDataLength (json.drop keyPtr) jsonState with
    | (keyLength, jsonState1) =>
      if keyLength ≥ 2 then
        let afterKey := (keyPtr + keyLength) + SKIP_WHITESPACE (json.drop (keyPtr + keyLength))
        if charAt json afterKey = 58 then
          { json := (afterKey + 1) + SKIP_WHITESPACE (json.drop (afterKey + 1)),
            key := some keyPtr, keyLength := keyLength, jsonState := jsonState1 }
        else
          { json := afterKey + SKIP_TO_NULL (json.drop afterKey),
            key := some keyPtr, keyLength := keyLength,
            jsonState := JSON_STATE_ERROR_OBJECT_MISSING_VALUE_START }
      else
        { json := keyPtr + SKIP_TO_NULL (json.drop keyPtr),
          key := none, keyLength := keyLength,
          jsonState := JSON_STATE_ERROR_OBJECT_MISSING_KEY }
  else { json := ptr, key := none, keyLength := 0, jsonState := jsonState }

/-- The function `JsonArrayNextIndex(json, currentIndex, jsonState)`: the offset of the
returned pointer from `json`, the value left in `*currentIndex`, and the state. -/
def JsonArrayNextIndex (fuel : Nat) (json : List Int) (currentIndex : Int)
    (jsonState : JsonState) : Option (Nat × Int × JsonState) :=
  let ptr := SKIP_WHITESPACE json
  let current := charAt json ptr
  if current = 93 ∨ current = 0 then some (ptr, INVALID_POSITION, jsonState)
  else if currentIndex = INVALID_POSITION then some (ptr, 0, jsonState)
  else
    match JsonSkip fuel (json.drop ptr) jsonState with
    | none => none
    | some (skip, jsonState1) =>
      if skip ≠ 0 then
        let skipPtr := ptr + skip
        if charAt json skipPtr = 44 then
          some ((skipPtr + 1) + SKIP_WHITESPACE (json.drop (skipPtr + 1)), currentIndex + 1,
            jsonState1)
        else if charAt json skipPtr = 93 ∨ charAt json skipPtr = 0 then
          some (skipPtr, INVALID_POSITION, jsonState1)
        else
          some (ptr + SKIP_TO_NULL (json.drop ptr), INVALID_POSITION,
            JSON_STATE_ERROR_ARRAY_MISSING_NEXT_OR_END_CHAR)
      else some (ptr + SKIP_TO_NULL (json.drop ptr), INVALID_POSITION, jsonState1)

/-- The repeated call of `JsonArrayNextIndex` that its contract provides for, after the
first call: while the index is not `INVALID_POSITION`, call `JsonArrayNextIndex` again
with the cursor and the index that the previous call returned.  This is not a function
of the source but the bare use of the iterator, with nothing done at an element; the
loop of `ResumeFillEntriesFromJsonArray` is `ResumeFillEntriesFromJsonArray_loop`.  The
result lists the index and the cursor of every element visited and gives the cursor and
the state after the last call; `count` bounds the calls. -/
def JsonArrayElements_loop (fuel : Nat) (json : List Int) :
    Nat → Nat → Int → JsonState → Option (List (Int × Nat) × Nat × JsonState)
  | 0, _, _, _ => none
  | count + 1, cursor, jsonArrayIndex, jsonState =>
    if jsonArrayIndex ≠ INVALID_POSITION then
      match JsonArrayNextIndex fuel (json.drop cursor) jsonArrayIndex jsonState with
      | none => none
      | some (next, index1, jsonState1) =>
        match JsonArrayElements_loop fuel json count (cursor + next) index1 jsonState1 with
        | none => none
        | some (visited, last, jsonState2) =>
          some ((jsonArrayIndex, cursor) :: visited, last, jsonState2)
    else some ([], cursor, jsonState)

/-- The bare iteration over an array: the call of `JsonArrayNextIndex` with
`INVALID_POSITION` at the first byte after `[`, then the calls with the index and the
cursor returned, until `INVALID_POSITION` is returned. -/
def JsonArrayElements (fuel count : Nat) (json : List Int) (jsonState : JsonState) :
    Option (List (Int × Nat) × Nat × JsonState) :=
  match JsonArrayNextIndex fuel json INVALID_POSITION jsonState with
  | none => none
  | some (first, index0, jsonState1) =>
    JsonArrayElements_loop fuel json count first index0 jsonState1

/-- The enumeration of an object as `JsonSkipToNextValue` documents it:
`cursor := JsonSkipToNextValue(cursor)`, then, while a key is reported (key length 2
or more), `cursor := cursor + JsonValueDataLength(cursor)` and the next call.  The
result lists, for every key reported, the offset of the key, the key length and the
cursor returned (the offset of the value), and gives the last report, whose key
length is below 2, with its cursor as an offset from `json`; `count` bounds the calls. -/
def JsonObjectKeys_loop (fuel : Nat) (json : List Int) :
    Nat → Nat → JsonState → Option (List (Nat × Nat × Nat) × JsonNextValue)
  | 0, _, _ => none
  | count + 1, cursor, jsonState =>
    let r := JsonSkipToNextValue (json.drop cursor) jsonState
    if r.keyLength < 2 then
      some ([], { r with json := cursor + r.json })
    else
      match JsonValueDataLength fuel (json.drop (cursor + r.json)) r.jsonState with
      | none => none
      | some (valueLength, jsonState1) =>
        match JsonObjectKeys_loop fuel json count (cursor + r.json + valueLength) jsonState1 with
        | none => none
        | some (keys, last) =>
          some ((cursor + r.key.getD 0, r.keyLength, cursor + r.json) :: keys, last)

/-- The text `x1,x2,...,xn` followed by `close` and `rest`, read from the separator
before `x1`: what follows an element of an array or a pair of an object. -/
def sepTail (close : Int) (rest : List Int) : List (List Int) → List Int
  | [] => close :: rest
  | x :: xs => 44 :: (x ++ sepTail close rest xs)

/-- The number of bytes from a separator `,` to the closing byte in `sepTail`. -/
def sepLength : List (List Int) → Nat
  | [] => 0
  | x :: xs => 1 + x.length + sepLength xs

/-- The keys that the enumeration of the pairs `"k1":"v1","k2":"v2",...` is to report
when the first pair starts at offset `start`: the offset of each key, its length with
the quotes, and the offset of its value. -/
def expectedKeys : List (List Int × List Int) → Nat → List (Nat × Nat × Nat)
  | [], _ => []
  | kv :: rest, start =>
    (start, kv.1.length + 2, start + kv.1.length + 3)
      :: expectedKeys rest (start + (pairText kv).length + 1)

/-- An array element: a quoted string, or a flat object of string pairs. -/
inductive Element
  | str (s : List Int)
  | obj (pairs : List (List Int × List Int))

/-- The text of an array element. -/
def Element.text : Element → List Int
  | Element.str s => quoted s
  | Element.obj pairs => 123 :: (joinComma (pairs.map pairText) ++ [125])

/-- The strings of an element are all string bodies (`IsEscaped`). -/
def Element.IsValid : Element → Prop
  | Element.str s => IsEscaped s
  | Element.obj pairs => ∀ kv ∈ pairs, IsEscaped kv.1 ∧ IsEscaped kv.2

/-- The indices and cursors that the iteration over the elements is to visit when the
first element has index `index` and starts at offset `start`. -/
def expectedElements : List Element → Int → Nat → List (Int × Nat)
  | [], _, _ => []
  | e :: rest, index, start =>
    (index, start) :: expectedElements rest (index + 1) (start + e.text.length + 1)

/-- Result codes: `enum Result_e`. -/
inductive Result_t
  | RESULT_UNKNOWN
  | RESULT_OK
  | RESULT_WARNING
  | RESULT_ERROR
  | RESULT_NEXT
  | RESULT_YES
  | RESULT_NO
  deriving DecidableEq, Repr

/-- Entry state stored by the pool: `enum EntryState_e`. -/
inductive EntryState_t
  | ENTRY_STATE_UNKNOWN
  | ENTRY_STATE_OK
  | ENTRY_STATE_ERROR_FULL
  | ENTRY_STATE_ERROR_TEXT_EMPTY
  | ENTRY_STATE_ERROR_TEXT_MISSING
  | ENTRY_STATE_ERROR_START_DATE
  | ENTRY_STATE_ERROR_END_DATE
  | ENTRY_STATE_ERROR_START_DATE_MISSING
  | ENTRY_STATE_ERROR_ALLOC
  | ENTRY_STATE_ERROR_SET_TEXT
  | ENTRY_STATE_ERROR_RESIZE
  | ENTRY_STATE_ERROR_SECTION_MISSING
  deriving DecidableEq, Repr

open Result_t EntryState_t

/-- The value `#define TIMESTAMP_UNSET (0)`. -/
def TIMESTAMP_UNSET : Int := 0

/-- The value `#define MAX_STRING_LENGTH 2147483647`. -/
def MAX_STRING_LENGTH : Int := 2147483647

/-- The shared empty text `g_EmptyText[] = ""`. -/
def g_EmptyText : List Int := []

/-- The month `MONTH_JAN` of `enum Month_e`. -/
def MONTH_JAN : Int := 0

/-- The month `MONTH_FEB` of `enum Month_e`. -/
def MONTH_FEB : Int := 1

/-- The month `MONTH_APR` of `enum Month_e`. -/
def MONTH_APR : Int := 3

/-- The month `MONTH_JUN` of `enum Month_e`. -/
def MONTH_JUN : Int := 5

/-- The month `MONTH_SEP` of `enum Month_e`. -/
def MONTH_SEP : Int := 8

/-- The month `MONTH_NOV` of `enum Month_e`. -/
def MONTH_NOV : Int := 10

/-- The month `MONTH_DEC` of `enum Month_e`. -/
def MONTH_DEC : Int := 11

/-- The test `IS_LEAP_YEAR(year)`, with the remainder of C (`Int.tmod`). -/
def IS_LEAP_YEAR (year : Int) : Bool :=
  decide (Int.tmod year 400 = 0 ∨ (Int.tmod year 4 = 0 ∧ Int.tmod year 100 ≠ 0))

/-- The function `GetDaysInMonth(month, year)`. -/
def GetDaysInMonth (month year : Int) : Int :=
  if month = MONTH_FEB then
    if IS_LEAP_YEAR year then 29 else 28
  else if month = MONTH_SEP ∨ month = MONTH_APR ∨ month = MONTH_JUN ∨ month = MONTH_NOV then 30
  else 31

/-- The function `TimeFromDateString(time, date)`.  A pointer argument is an `Option`
(`none` is `NULL`); the result is the result code and the value left in `*time`.
The C library enters as two parameters: `sscanf date` is the three integers stored
when `sscanf(date, "%04d-%02d-%02d", ...)` returns 3 (`none` when it returns anything
else), and `mktime year mon mday` is the value of `mktime` on a `struct tm` with these
three fields and zero elsewhere. -/
def TimeFromDateString (sscanf : List Int → Option (Int × Int × Int))
    (mktime : Int → Int → Int → Int) (time : Option Int) (date : Option (List Int)) :
    Result_t × Option Int :=
  let result0 := if time.isSome then RESULT_OK else RESULT_WARNING
  let time0 := time.map (fun _ => TIMESTAMP_UNSET)
  match date with
  | none => (result0, time0)
  | some d =>
    if charAt d 0 ≠ 0 then
      match sscanf d with
      | some (tm_year, tm_mon0, tm_mday) =>
        let tm_mon := tm_mon0 - 1
        if tm_mon ≥ MONTH_JAN ∧ tm_mon ≤ MONTH_DEC then
          let daysInMonth := GetDaysInMonth tm_mon tm_year
          if tm_mday ≥ 1 ∧ tm_mday ≤ daysInMonth then
            let result1 := if tm_year < 1984 ∨ tm_year > 2084 then RESULT_WARNING else result0
            match time with
            | some _ => (result1, some (mktime (tm_year - 1900) tm_mon tm_mday))
            | none => (RESULT_WARNING, none)
          else (RESULT_ERROR, time0)
        else (RESULT_ERROR, time0)
      | none => (RESULT_ERROR, time0)
    else (result0, time0)

/-- The C library `strlen`: the number of characters before the NUL. -/
def strlen : List Int → Nat
  | [] => 0
  | c :: cs => if c = 0 then 0 else strlen cs + 1

/-- The function `SetTextSubstr(dest, src, srcLength)` for a valid `dest`: the result
code and the text left in `*dest`.  `malloc` tells whether the allocation of the copy
succeeds.  The test `srcLength < length` compares an `int` with an `unsigned long`,
so a negative `srcLength` is converted to a value above every string length. -/
def SetTextSubstr (malloc : Bool) (src : Option (List Int)) (srcLength : Int) :
    Result_t × List Int :=
  let length : Nat :=
    match src with
    | some text =>
      if 0 ≤ srcLength ∧ srcLength < (strlen text : Int) then srcLength.toNat else strlen text
    | none => 0
  if length > 0 then
    if malloc then (RESULT_OK, (src.getD []).take length)
    else (RESULT_ERROR, g_EmptyText)
  else (RESULT_OK, g_EmptyText)

/-- A resume item, `struct Entry_s`: the text and the two timestamps
`m_EntryTimestamp[ENTRY_TIME_START]` and `m_EntryTimestamp[ENTRY_TIME_END]`. -/
structure Entry_t where
  m_EntryText : List Int
  m_EntryTimestampStart : Int
  m_EntryTimestampEnd : Int
  deriving DecidableEq, Repr

/-- An array of entries, `struct Entries_s`: `m_Entries` holds the entries in use
(`m_EntriesUsed` is its length) and `m_EntriesMax` is the allocated size. -/
structure Entries_t where
  m_Entries : List Entry_t
  m_EntriesMax : Int
  deriving DecidableEq, Repr

/-- The count `m_EntriesUsed` of an entry array. -/
def Entries_t.m_EntriesUsed (me : Entries_t) : Int :=
  (me.m_Entries.length : Int)

/-- The pool, `struct ManagedEntries_s`. -/
structure ManagedEntries_t where
  m_ManagedEntries : Entries_t
  m_ManagedEntriesError : EntryState_t
  deriving DecidableEq, Repr

/-- The function `EntriesInit(me)`. -/
def EntriesInit : Entries_t :=
  { m_Entries := [], m_EntriesMax := 0 }

/-- The function `EntriesResize(me, max)`; `realloc` tells whether the allocation
succeeds. -/
def EntriesResize (realloc : Bool) (me : Entries_t) (max : Int) : Result_t × Entries_t :=
  if me.m_EntriesMax ≥ max then (RESULT_OK, me)
  else if max > 0 then
    if realloc then (RESULT_OK, { me with m_EntriesMax := max })
    else (RESULT_ERROR, me)
  else (RESULT_WARNING, me)

/-- The function `ManagedEntriesInit(me, max)`. -/
def ManagedEntriesInit (realloc : Bool) (max : Int) : Result_t × ManagedEntries_t :=
  let r := EntriesResize realloc EntriesInit max
  (r.1, { m_ManagedEntries := r.2, m_ManagedEntriesError := ENTRY_STATE_UNKNOWN })

/-- The pool with its error state set. -/
def ManagedEntries_t.setError (me : ManagedEntries_t) (e : EntryState_t) : ManagedEntries_t :=
  { me with m_ManagedEntriesError := e }

/-- The function `ManagedEntriesAppendSubstr(me, text, textLength, start, end)`: the
entry returned (`none` is `NULL`) and the pool after the call.  `mallocEntry` and
`mallocText` tell whether the allocation of the entry and of its text succeed. -/
def ManagedEntriesAppendSubstr (sscanf : List Int → Option (Int × Int × Int))
    (mktime : Int → Int → Int → Int) (mallocEntry mallocText : Bool)
    (me : ManagedEntries_t) (text : Option (List Int)) (textLength : Int)
    (start end1 : Option (List Int)) : Option Entry_t × ManagedEntries_t :=
  let store (timeStart timeEnd : Int) : Option Entry_t × ManagedEntries_t :=
    if mallocEntry then
      match SetTextSubstr mallocText text textLength with
      | (result, entryText) =>
        if result = RESULT_OK then
          let entry : Entry_t :=
            { m_EntryText := entryText, m_EntryTimestampStart := timeStart,
              m_EntryTimestampEnd := timeEnd }
          (some entry,
            { m_ManagedEntries :=
                { me.m_ManagedEntries with m_Entries := me.m_ManagedEntries.m_Entries ++ [entry] },
              m_ManagedEntriesError := ENTRY_STATE_OK })
        else (none, me.setError ENTRY_STATE_ERROR_SET_TEXT)
    else (none, me.setError ENTRY_STATE_ERROR_ALLOC)
  if me.m_ManagedEntries.m_EntriesUsed = me.m_ManagedEntries.m_EntriesMax then
    (none, me.setError ENTRY_STATE_ERROR_FULL)
  else
    match text with
    | none => (none, me.setError ENTRY_STATE_ERROR_TEXT_MISSING)
    | some t =>
      if charAt t 0 = 0 then (none, me.setError ENTRY_STATE_ERROR_TEXT_EMPTY)
      else
        match start with
        | some startDate =>
          match TimeFromDateString sscanf mktime (some TIMESTAMP_UNSET) (some startDate) with
          | (resultStart, timeStart) =>
            if resultStart = RESULT_ERROR then (none, me.setError ENTRY_STATE_ERROR_START_DATE)
            else
              match end1 with
              | some endDate =>
                match TimeFromDateString sscanf mktime (some TIMESTAMP_UNSET) (some endDate) with
                | (resultEnd, timeEnd) =>
                  if resultEnd = RESULT_ERROR then
                    (none, me.setError ENTRY_STATE_ERROR_END_DATE)
                  else store (timeStart.getD TIMESTAMP_UNSET) (timeEnd.getD TIMESTAMP_UNSET)
              | none => store (timeStart.getD TIMESTAMP_UNSET) TIMESTAMP_UNSET
        | none =>
          match end1 with
          | some _ => (none, me.setError ENTRY_STATE_ERROR_START_DATE_MISSING)
          | none => store TIMESTAMP_UNSET TIMESTAMP_UNSET

/-- The function `ManagedEntriesAppend(me, text, start, end)`. -/
def ManagedEntriesAppend (sscanf : List Int → Option (Int × Int × Int))
    (mktime : Int → Int → Int → Int) (mallocEntry mallocText : Bool)
    (me : ManagedEntries_t) (text start end1 : Option (List Int)) :
    Option Entry_t × ManagedEntries_t :=
  ManagedEntriesAppendSubstr sscanf mktime mallocEntry mallocText me text MAX_STRING_LENGTH
    start end1

/-- A call of `ManagedEntriesAppend` or `ManagedEntriesAppendSubstr` with its
arguments and the outcome of its allocations. -/
structure AppendCall where
  mallocEntry : Bool
  mallocText : Bool
  text : Option (List Int)
  textLength : Int
  start : Option (List Int)
  end1 : Option (List Int)

/-- The pool after a sequence of append calls. -/
def ManagedEntriesAppendAll (sscanf : List Int → Option (Int × Int × Int))
    (mktime : Int → Int → Int → Int) (me : ManagedEntries_t) :
    List AppendCall → ManagedEntries_t
  | [] => me
  | c :: cs =>
    ManagedEntriesAppendAll sscanf mktime
      (ManagedEntriesAppendSubstr sscanf mktime c.mallocEntry c.mallocText me c.text
        c.textLength c.start c.end1).2 cs

/-- The times of an entry: `enum EntryTime_e`. -/
inductive EntryTime_t
  | ENTRY_TIME_START
  | ENTRY_TIME_END
  deriving DecidableEq, Repr

/-- The display order of entries: `enum Order_e`. -/
inductive Order_t
  | ORDER_NEWEST_FIRST
  | ORDER_OLDEST_FIRST
  | ORDER_RANDOM
  | ORDER_COUNT
  deriving DecidableEq, Repr

open EntryTime_t Order_t

/-- The read `entry->m_EntryTimestamp[entryTime]`. -/
def Entry_t.m_EntryTimestamp (entry : Entry_t) : EntryTime_t → Int
  | ENTRY_TIME_START => entry.m_EntryTimestampStart
  | ENTRY_TIME_END => entry.m_EntryTimestampEnd

/-- The write `m_Entries[i] = entry` on an array of which `arr` lists the elements in
use: a write at index `arr.length`, the first element not in use, brings that element
into the list. -/
def arrayWrite (arr : List Entry_t) (i : Nat) (entry : Entry_t) : List Entry_t :=
  if i < arr.length then arr.set i entry else arr ++ [entry]

/-- The function `EntriesAppend(me, entry)`. -/
def EntriesAppend (realloc : Bool) (me : Entries_t) (entry : Option Entry_t) :
    Result_t × Entries_t :=
  match entry with
  | none => (RESULT_WARNING, me)
  | some e =>
    match EntriesResize realloc me (me.m_EntriesUsed + 1) with
    | (result, me1) =>
      if result = RESULT_OK then
        (RESULT_OK, { me1 with m_Entries := arrayWrite me1.m_Entries me1.m_Entries.length e })
      else (RESULT_ERROR, me1)

/-- The shift loop of `EntriesInsertAt`,
`while(shiftIndex >= index) { m_Entries[shiftIndex + 1] = m_Entries[shiftIndex]; shiftIndex--; }`;
the first argument is `shiftIndex + 1`. -/
def EntriesInsertAt_shift (index : Int) : Nat → List Entry_t → List Entry_t
  | 0, arr => arr
  | shiftIndex + 1, arr =>
    if (shiftIndex : Int) ≥ index then
      match arr[shiftIndex]? with
      | some moved => EntriesInsertAt_shift index shiftIndex (arrayWrite arr (shiftIndex + 1) moved)
      | none => arr
    else arr

/-- The function `EntriesInsertAt(me, entry, index)`. -/
def EntriesInsertAt (realloc : Bool) (me : Entries_t) (entry : Option Entry_t) (index : Int) :
    Result_t × Entries_t :=
  match entry with
  | none => (RESULT_WARNING, me)
  | some e =>
    if index < 0 ∨ index > me.m_EntriesUsed then (RESULT_WARNING, me)
    else
      match EntriesResize realloc me (me.m_EntriesUsed + 1) with
      | (result, me1) =>
        if result = RESULT_OK then
          (RESULT_OK,
            { me1 with
              m_Entries :=
                arrayWrite (EntriesInsertAt_shift index me1.m_Entries.length me1.m_Entries)
                  index.toNat e })
        else (RESULT_ERROR, me1)

/-- The function `CallbackEntryIsOlder(entry, entryTime, userData)`, with `userData`
the entry to compare to. -/
def CallbackEntryIsOlder (entry : Entry_t) (entryTime : EntryTime_t)
    (compareToEntry : Entry_t) : Result_t :=
  if compareToEntry.m_EntryTimestamp entryTime = TIMESTAMP_UNSET then RESULT_OK
  else if entry.m_EntryTimestamp entryTime ≠ TIMESTAMP_UNSET then
    if entry.m_EntryTimestamp entryTime < compareToEntry.m_EntryTimestamp entryTime then
      RESULT_OK
    else RESULT_NEXT
  else RESULT_NEXT

/-- The function `CallbackEntryIsNewer(entry, entryTime, userData)`, with `userData`
the entry to compare to. -/
def CallbackEntryIsNewer (entry : Entry_t) (entryTime : EntryTime_t)
    (compareToEntry : Entry_t) : Result_t :=
  if entry.m_EntryTimestamp entryTime = TIMESTAMP_UNSET then RESULT_OK
  else if compareToEntry.m_EntryTimestamp entryTime ≠ TIMESTAMP_UNSET then
    if entry.m_EntryTimestamp entryTime > compareToEntry.m_EntryTimestamp entryTime then
      RESULT_OK
    else RESULT_NEXT
  else RESULT_NEXT

/-- The `while` loop of `EntriesFind`; the list is the entries from `index` on. -/
def EntriesFind_loop {α : Type} (findCallback : Entry_t → EntryTime_t → α → Result_t)
    (entryTime : EntryTime_t) (userData : α) : List Entry_t → Int → Int
  | [], _ => INVALID_POSITION
  | entry :: rest, index =>
    if findCallback entry entryTime userData = RESULT_OK then index
    else if findCallback entry entryTime userData = RESULT_ERROR then INVALID_POSITION
    else EntriesFind_loop findCallback entryTime userData rest (index + 1)

/-- The function `EntriesFind(me, findCallback, entryTime, userData)`. -/
def EntriesFind {α : Type} (me : Entries_t)
    (findCallback : Entry_t → EntryTime_t → α → Result_t) (entryTime : EntryTime_t)
    (userData : α) : Int :=
  EntriesFind_loop findCallback entryTime userData me.m_Entries 0

/-- The traversal state, `struct EntriesTraverse_s`. -/
structure EntriesTraverse_t where
  m_EntriesTraverse : Entries_t
  m_EntriesTraverseNumber : Int
  deriving DecidableEq, Repr

/-- The function `EntriesTraverseInit(me)`. -/
def EntriesTraverseInit : EntriesTraverse_t :=
  { m_EntriesTraverse := EntriesInit, m_EntriesTraverseNumber := INVALID_POSITION }

/-- The function `EntriesTraverseNext(me)`: the entry returned (`none` is `NULL`) and
the traversal state. -/
def EntriesTraverseNext (me : EntriesTraverse_t) : Option Entry_t × EntriesTraverse_t :=
  if me.m_EntriesTraverseNumber < 0 then (none, me)
  else if me.m_EntriesTraverseNumber < me.m_EntriesTraverse.m_EntriesUsed then
    (me.m_EntriesTraverse.m_Entries[me.m_EntriesTraverseNumber.toNat]?,
      { me with m_EntriesTraverseNumber := me.m_EntriesTraverseNumber + 1 })
  else (none, me)

/-- The loop of the `ORDER_RANDOM` case of `EntriesTraverseFirst`; the list is the
source entries from `entryIndex` on, and `rand k` is the value that `rand()` returns
in the iteration with `entryIndex = k`. -/
def EntriesTraverseFirst_random (realloc : Bool) (rand : Nat → Nat) :
    List Entry_t → Nat → Entries_t → Entries_t
  | [], _, traverse => traverse
  | insertEntry :: rest, entryIndex, traverse =>
    let insertIndex : Int := (rand entryIndex : Int) % (traverse.m_EntriesUsed + 1)
    EntriesTraverseFirst_random realloc rand rest (entryIndex + 1)
      (EntriesInsertAt realloc traverse (some insertEntry) insertIndex).2

/-- The insertion sort loop of `EntriesTraverseFirst`; the list is the source entries
from `entryIndex` on. -/
def EntriesTraverseFirst_sorted (realloc : Bool)
    (findCallback : Entry_t → EntryTime_t → Entry_t → Result_t) (entryTime : EntryTime_t) :
    List Entry_t → Entries_t → Entries_t
  | [], traverse => traverse
  | insertEntry :: rest, traverse =>
    let insertIndex := EntriesFind traverse findCallback entryTime insertEntry
    if insertIndex ≠ INVALID_POSITION then
      EntriesTraverseFirst_sorted realloc findCallback entryTime rest
        (EntriesInsertAt realloc traverse (some insertEntry) insertIndex).2
    else
      EntriesTraverseFirst_sorted realloc findCallback entryTime rest
        (EntriesAppend realloc traverse (some insertEntry)).2

/-- The `switch(order)` of `EntriesTraverseFirst` with the loops it selects: the
traversal array filled from the source entries `first :: rest`, after the resize. -/
def EntriesTraverseFirst_ordered (realloc : Bool) (rand : Nat → Nat) (order : Order_t)
    (entryTime : EntryTime_t) (first : Entry_t) (rest : List Entry_t)
    (traverse : Entries_t) : Entries_t :=
  let seeded := (EntriesAppend realloc { traverse with m_Entries := [] } (some first)).2
  match order with
  | ORDER_RANDOM => EntriesTraverseFirst_random realloc rand rest 1 seeded
  | ORDER_OLDEST_FIRST =>
    EntriesTraverseFirst_sorted realloc CallbackEntryIsNewer entryTime rest seeded
  | _ => EntriesTraverseFirst_sorted realloc CallbackEntryIsOlder entryTime rest seeded

/-- The function `EntriesTraverseFirst(me, entries, order, entryTime)`: the entry
returned (`none` is `NULL`) and the traversal state.  The source store `entries` is
only read. -/
def EntriesTraverseFirst (realloc : Bool) (rand : Nat → Nat) (me : EntriesTraverse_t)
    (entries : Option Entries_t) (order : Order_t) (entryTime : EntryTime_t) :
    Option Entry_t × EntriesTraverse_t :=
  match entries with
  | none => (none, { me with m_EntriesTraverseNumber := INVALID_POSITION })
  | some source =>
    match source.m_Entries with
    | [] => (none, { me with m_EntriesTraverseNumber := 0 })
    | first :: rest =>
      match EntriesResize realloc me.m_EntriesTraverse source.m_EntriesUsed with
      | (result, traverse) =>
        if result = RESULT_OK then
          EntriesTraverseNext
            { m_EntriesTraverse :=
                EntriesTraverseFirst_ordered realloc rand order entryTime first rest traverse,
              m_EntriesTraverseNumber := 0 }
        else (none, { m_EntriesTraverse := traverse, m_EntriesTraverseNumber := 0 })

/-- The entries that `EntriesTraverseNext` returns when called until it returns `NULL`;
`count` bounds the calls (`none` when the bound is reached before `NULL`). -/
def EntriesTraverseRest : Nat → EntriesTraverse_t → Option (List Entry_t)
  | 0, _ => none
  | count + 1, me =>
    match EntriesTraverseNext me with
    | (some entry, me1) => (EntriesTraverseRest count me1).map (fun l => entry :: l)
    | (none, _) => some []

/-- The sequence of a traversal: `EntriesTraverseFirst`, then `EntriesTraverseNext`
until `NULL`. -/
def EntriesTraverseAll (count : Nat) (realloc : Bool) (rand : Nat → Nat)
    (me : EntriesTraverse_t) (entries : Entries_t) (order : Order_t)
    (entryTime : EntryTime_t) : Option (List Entry_t) :=
  match EntriesTraverseFirst realloc rand me (some entries) order entryTime with
  | (some entry, me1) => (EntriesTraverseRest count me1).map (fun l => entry :: l)
  | (none, _) => some []

/-- The value `#define DISPLAY_ALL (-1)`. -/
def DISPLAY_ALL : Int := -1

/-- The value `#define DISPLAY_NONE (0)`. -/
def DISPLAY_NONE : Int := 0

/-- The entry loop of `ResumePrintPlainText`, `while(entry) { print; ... }`, over the
sequence of the traversal: the entries printed. -/
def ResumePrintPlainText_entries (displayMax : Int) : List Entry_t → Int → List Entry_t
  | [], _ => []
  | entry :: rest, displayCount =>
    if displayMax ≠ DISPLAY_ALL then
      if displayCount + 1 = displayMax then [entry]
      else entry :: ResumePrintPlainText_entries displayMax rest (displayCount + 1)
    else entry :: ResumePrintPlainText_entries displayMax rest displayCount

/-- The display-limit arithmetic of `ResumePrintPlainText` for one section: the
entries printed, given the section's display max, whether the options hide the
section (`ResumeOptionsIsHiddenSection` returns `RESULT_YES`), the extended display
count of the options and the sequence of the traversal. -/
def ResumePrintPlainText_section (m_SectionDisplayMax : Int) (hidden : Bool)
    (m_ExtendedDisplayCount : Int) (traversed : List Entry_t) : List Entry_t :=
  let displayMax0 := if hidden then 0 else m_SectionDisplayMax
  if m_SectionDisplayMax ≠ DISPLAY_NONE then
    let displayMax :=
      if m_ExtendedDisplayCount = DISPLAY_ALL then DISPLAY_ALL
      else displayMax0 + m_ExtendedDisplayCount
    ResumePrintPlainText_entries displayMax traversed 0
  else []

/-- The value of a date argument as the specification words it: unset when the date
is absent, else the `mktime` value of the year, month and day scanned. -/
def parsedTimestamp (sscanf : List Int → Option (Int × Int × Int))
    (mktime : Int → Int → Int → Int) : Option (List Int) → Int
  | none => TIMESTAMP_UNSET
  | some date =>
    match sscanf date with
    | some (year, month, day) => mktime (year - 1900) (month - 1) day
    | none => TIMESTAMP_UNSET

/-- A date argument that is absent (`NULL`) or valid: a non-empty string that scans as
year, month and day with the month in 1..12 and the day in 1..days of that month. -/
def DateAbsentOrValid (sscanf : List Int → Option (Int × Int × Int)) :
    Option (List Int) → Prop
  | none => True
  | some date =>
    charAt date 0 ≠ 0 ∧
      ∃ year month day, sscanf date = some (year, month, day) ∧
        1 ≤ month ∧ month ≤ 12 ∧ 1 ≤ day ∧ day ≤ GetDaysInMonth (month - 1) year

/-- A list with its first element written twice: the array in the middle of the shift
loop of `EntriesInsertAt`. -/
def dupHead : List Entry_t → List Entry_t
  | [] => []
  | x :: xs => x :: x :: xs

/-- The insertion step of the ordered traversals as the specification words it: scan
the output for the first element that the comparator reports as a match for the
candidate and insert the candidate immediately before it; if none is found, append
the candidate at the end. -/
def insertBeforeMatch (findCallback : Entry_t → EntryTime_t → Entry_t → Result_t)
    (entryTime : EntryTime_t) (output : List Entry_t) (candidate : Entry_t) : List Entry_t :=
  output.takeWhile (fun x => decide (findCallback x entryTime candidate ≠ RESULT_OK))
    ++ candidate
      :: output.dropWhile (fun x => decide (findCallback x entryTime candidate ≠ RESULT_OK))

/-- The value `SECTION_COUNT` of `enum Section_e`: the number of hard-coded sections. -/
def SECTION_COUNT : Nat := 7

/-- The value `SECTION_AT_RUNTIME = SECTION_COUNT` of `enum Section_e`. -/
def SECTION_AT_RUNTIME : Nat := SECTION_COUNT

/-- The value `DATE_OPTION_HIDE_ALL`, `(DATE_OPTION_HIDE_START | DATE_OPTION_HIDE_END)`. -/
def DATE_OPTION_HIDE_ALL : Nat := 0x0077

/-- A non-null `SectionData_t*`: the address of an element of the array
`m_ResumeSection` or of an object obtained from `malloc`. -/
inductive SectionPtr
  | hardCoded (index : Nat)
  | allocated (address : Nat)
  deriving DecidableEq, Repr

/-- A section, `struct SectionData_s`; `m_SectionNext` is `none` for `NULL`. -/
structure SectionData_t where
  m_SectionTitle : List Int
  m_SectionDisplayMax : Int
  m_SectionOrder : Order_t
  m_SectionOrderEntryTime : EntryTime_t
  m_SectionDateOption : Nat
  m_SectionEntries : Entries_t
  m_SectionNext : Option SectionPtr
  deriving DecidableEq, Repr

/-- The fields of a section other than the link `m_SectionNext`. -/
def SectionData_t.content (s : SectionData_t) : SectionData_t :=
  { s with m_SectionNext := none }

/-- The sections of a resume: the fields `m_ResumeSection` and `m_ResumeSectionRuntime`
of `struct Resume_s`, and the memory `allocated` that holds the section objects
obtained from `malloc` (`none` at an address that holds no such object). -/
structure Resume_t where
  m_ResumeSection : List SectionData_t
  m_ResumeSectionRuntime : Option SectionPtr
  allocated : Nat → Option SectionData_t

/-- The read `*p` of a section pointer; `none` when `p` points to no section object. -/
def Resume_t.read (me : Resume_t) : SectionPtr → Option SectionData_t
  | SectionPtr.hardCoded index => me.m_ResumeSection[index]?
  | SectionPtr.allocated address => me.allocated address

/-- The write `*p = s` through a section pointer. -/
def Resume_t.write (me : Resume_t) (p : SectionPtr) (s : SectionData_t) : Resume_t :=
  match p with
  | SectionPtr.hardCoded index =>
    { me with m_ResumeSection := me.m_ResumeSection.set index s }
  | SectionPtr.allocated address =>
    { me with allocated := fun b => if b = address then some s else me.allocated b }

/-- The write `p->m_SectionNext = next`; `none` when `p` points to no section object. -/
def Resume_t.setNext (me : Resume_t) (p : SectionPtr) (next : Option SectionPtr) :
    Option Resume_t :=
  match me.read p with
  | some s => some (me.write p { s with m_SectionNext := next })
  | none => none

/-- The function `SectionDataInit(me)`: the section it leaves in `*me`. -/
def SectionDataInit : SectionData_t :=
  { m_SectionTitle := g_EmptyText
    m_SectionDisplayMax := DISPLAY_ALL
    m_SectionOrder := ORDER_NEWEST_FIRST
    m_SectionOrderEntryTime := ENTRY_TIME_START
    m_SectionDateOption := DATE_OPTION_HIDE_ALL
    m_SectionEntries := EntriesInit
    m_SectionNext := none }

/-- The `while` loop of `ResumeGetSectionCount`; `fuel` bounds the iterations.  The
result is `none` when the fuel is exhausted or the loop reads through a pointer to
no section object. -/
def ResumeGetSectionCount_loop (me : Resume_t) : Nat → Option SectionPtr → Nat → Option Nat
  | 0, _, _ => none
  | _ + 1, none, count => some count
  | fuel + 1, some p, count =>
    match me.read p with
    | some s => ResumeGetSectionCount_loop me fuel s.m_SectionNext (count + 1)
    | none => none

/-- The function `ResumeGetSectionCount(me)`. -/
def ResumeGetSectionCount (fuel : Nat) (me : Resume_t) : Option Nat :=
  ResumeGetSectionCount_loop me fuel me.m_ResumeSectionRuntime SECTION_COUNT

/-- The loop `while(section > 0)` of `ResumeGetSectionData`: the pointer it leaves in
`sectionData`, or `none` when it reads `sectionData->m_SectionNext` through a null
pointer or a pointer to no section object. -/
def ResumeGetSectionData_loop (me : Resume_t) :
    Option SectionPtr → Nat → Option (Option SectionPtr)
  | sectionData, 0 => some sectionData
  | sectionData, sectionIndex + 1 =>
    match sectionData with
    | none => none
    | some p =>
      match me.read p with
      | none => none
      | some s =>
        match s.m_SectionNext with
        | none => some none
        | some next => ResumeGetSectionData_loop me (some next) sectionIndex

/-- The function `ResumeGetSectionData(me, section)`: `some none` is the result `NULL`,
and `none` is a read through a null pointer.  `Section_t` is unsigned, so the test
`section >= 0` after `section -= SECTION_AT_RUNTIME` always holds. -/
def ResumeGetSectionData (me : Resume_t) (sectionIndex : Nat) : Option (Option SectionPtr) :=
  if sectionIndex < SECTION_COUNT then some (some (SectionPtr.hardCoded sectionIndex))
  else
    ResumeGetSectionData_loop me me.m_ResumeSectionRuntime (sectionIndex - SECTION_AT_RUNTIME)

/-- The function `ResumeInsertSection(me, section)`: the pointer returned (`none` is
`NULL`) and the resume after the call; the outer `none` is a read through a null
pointer.  `malloc` is the address that `malloc` returns (`none` for `NULL`). -/
def ResumeInsertSection (malloc : Option Nat) (me : Resume_t) (sectionIndex : Nat) :
    Option (Option SectionPtr × Resume_t) :=
  if sectionIndex < SECTION_AT_RUNTIME then some (none, me)
  else
    match malloc with
    | none => some (none, me)
    | some address =>
      let sectionData := SectionPtr.allocated address
      if sectionIndex > SECTION_AT_RUNTIME then
        match ResumeGetSectionData me (sectionIndex - 1) with
        | none => none
        | some none => some (none, me)
        | some (some previousSectionData) =>
          let me1 := me.write sectionData SectionDataInit
          match me1.read previousSectionData with
          | none => none
          | some previous =>
            match me1.setNext sectionData previous.m_SectionNext with
            | none => none
            | some me2 =>
              match me2.setNext previousSectionData (some sectionData) with
              | none => none
              | some me3 => some (some sectionData, me3)
      else
        let me1 := me.write sectionData SectionDataInit
        match me1.m_ResumeSectionRuntime with
        | some first =>
          match me1.setNext sectionData (some first) with
          | none => none
          | some me2 => some (some sectionData, { me2 with m_ResumeSectionRuntime := some sectionData })
        | none => some (some sectionData, { me1 with m_ResumeSectionRuntime := some sectionData })

/-- The runtime sections form a list: from the pointer `p`, following `m_SectionNext`,
the section objects at the addresses `addresses`, in this order, and then `NULL`. -/
def IsChain (allocated : Nat → Option SectionData_t) : Option SectionPtr → List Nat → Prop
  | p, [] => p = none
  | p, a :: rest =>
    p = some (SectionPtr.allocated a) ∧
      ∃ s, allocated a = some s ∧ IsChain allocated s.m_SectionNext rest

/-- The string `RESUME_STRING_TEXT`. -/
def RESUME_STRING_TEXT : List Int := ofString "text"

/-- The string `RESUME_STRING_DATE_START`. -/
def RESUME_STRING_DATE_START : List Int := ofString "date_start"

/-- The string `RESUME_STRING_DATE_END`. -/
def RESUME_STRING_DATE_END : List Int := ofString "date_end"

/-- The value `INVALID_POSITION` as a `Section_t`, which is `unsigned int`. -/
def INVALID_SECTION : Nat := (INVALID_POSITION % 4294967296).toNat

/-- The loop `while(runtimeSection)` of `ResumeGetSectionIndex`; `count` bounds the
iterations.  The result is `none` when the count is exhausted or the loop reads
`runtimeSection->m_SectionNext` through a pointer to no section object. -/
def ResumeGetSectionIndex_loop (me : Resume_t) (sectionData : SectionPtr) :
    Nat → Option SectionPtr → Nat → Option Nat
  | 0, _, _ => none
  | _ + 1, none, _ => some INVALID_SECTION
  | count + 1, some runtimeSection, sectionIndex =>
    if runtimeSection = sectionData then some sectionIndex
    else
      match me.read runtimeSection with
      | some s =>
        ResumeGetSectionIndex_loop me sectionData count s.m_SectionNext
          ((sectionIndex + 1) % 4294967296)
      | none => none

/-- The function `ResumeGetSectionIndex(me, sectionData)`.  The `do ... while` loop
compares `sectionData` with the addresses of the `SECTION_COUNT` elements of
`m_ResumeSection`, in order, and leaves `SECTION_COUNT` in `section` when none is equal. -/
def ResumeGetSectionIndex (count : Nat) (me : Resume_t) (sectionData : SectionPtr) :
    Option Nat :=
  match (List.range SECTION_COUNT).find?
      (fun sectionIndex => decide (SectionPtr.hardCoded sectionIndex = sectionData)) with
  | some sectionIndex => some sectionIndex
  | none => ResumeGetSectionIndex_loop me sectionData count me.m_ResumeSectionRuntime SECTION_COUNT

/-- The resume with its entries: the sections of `Resume_t` and the fields
`m_ResumeAllEntries`, `m_ResumeErrorInSection` and `m_ResumeErrorInEntry` of
`struct Resume_s`. -/
structure ResumeEntries_t extends Resume_t where
  m_ResumeAllEntries : ManagedEntries_t
  m_ResumeErrorInSection : Nat
  m_ResumeErrorInEntry : EntryState_t

/-- The function `SectionAddEntry(me, resume, text, textLength, start, end)`: the result
code and the resume after the call.  `SectionDataIncludeEntry(me, entry)` is
`EntriesAppend(&me->m_SectionEntries, entry)`.  `mallocEntry`, `mallocText` and `realloc`
tell whether the allocations of the call succeed, and `count` bounds the iterations of
`ResumeGetSectionIndex`.  The result is `none` when `me` points to no section object or
`ResumeGetSectionIndex` gives `none`. -/
def SectionAddEntry (sscanf : List Int → Option (Int × Int × Int))
    (mktime : Int → Int → Int → Int) (mallocEntry mallocText realloc : Bool) (count : Nat)
    (me : SectionPtr) (resume : ResumeEntries_t) (text : Option (List Int))
    (textLength : Int) (start end1 : Option (List Int)) :
    Option (Result_t × ResumeEntries_t) :=
  match ManagedEntriesAppendSubstr sscanf mktime mallocEntry mallocText
      resume.m_ResumeAllEntries text textLength start end1 with
  | (some entry, pool) =>
    match resume.toResume_t.read me with
    | none => none
    | some s =>
      match EntriesAppend realloc s.m_SectionEntries (some entry) with
      | (result, entries) =>
        let sections := resume.toResume_t.write me { s with m_SectionEntries := entries }
        if result = RESULT_ERROR then
          match ResumeGetSectionIndex count sections me with
          | none => none
          | some sectionIndex =>
            some (result,
              { toResume_t := sections, m_ResumeAllEntries := pool,
                m_ResumeErrorInSection := sectionIndex,
                m_ResumeErrorInEntry := ENTRY_STATE_ERROR_RESIZE })
        else
          some (result, { resume with toResume_t := sections, m_ResumeAllEntries := pool })
  | (none, pool) =>
    match ResumeGetSectionIndex count resume.toResume_t me with
    | none => none
    | some sectionIndex =>
      some (RESULT_ERROR,
        { resume with
          m_ResumeAllEntries := pool, m_ResumeErrorInSection := sectionIndex,
          m_ResumeErrorInEntry := pool.m_ManagedEntriesError })

/-- The locals `text`, `textLength`, `startDate` and `endDate` of
`ResumeFillEntriesFromJsonArray`; a pointer is an offset into the buffer, `none` is
`NULL`. -/
structure EntryFields where
  text : Option Nat
  textLength : Int
  startDate : Option Nat
  endDate : Option Nat
  deriving DecidableEq, Repr

/-- The loop `while(keyLength > 2)` of `ResumeFillEntriesFromJsonArray` from the state
`nextJson`, `key`, `keyLength`, the entry fields, `result` and `jsonState`; pointers are
offsets into `json`, and `count` bounds the iterations.  The result is `none` when the
fuel or the count is exhausted or `key` is `NULL` where the loop reads it. -/
def ResumeFillEntriesFromJsonArray_keys (fuel : Nat) (json : List Int) :
    Nat → Nat → Option Nat → Nat → EntryFields → Result_t → JsonState →
      Option (EntryFields × Result_t × JsonState)
  | 0, _, _, _, _, _, _ => none
  | count + 1, nextJson, key, keyLength, fields, result, jsonState =>
    if keyLength > 2 then
      let value := nextJson
      match JsonValueDataLength fuel (json.drop nextJson) jsonState with
      | none => none
      | some (valueLength, jsonState1) =>
        if valueLength = 0 then some (fields, RESULT_ERROR, jsonState1)
        else
          let next := JsonSkipToNextValue (json.drop (nextJson + valueLength)) jsonState1
          match key with
          | none => none
          | some keyPtr =>
            let keyText := json.drop (keyPtr + 1)
            let fields1 : EntryFields :=
              if strncmp RESUME_STRING_TEXT keyText (keyLength - 2) = 0 then
                if valueLength ≥ 2 then
                  { fields with text := some (value + 1), textLength := (valueLength : Int) - 2 }
                else fields
              else if strncmp RESUME_STRING_DATE_START keyText (keyLength - 2) = 0 then
                if valueLength > 2 then { fields with startDate := some (value + 1) } else fields
              else if strncmp RESUME_STRING_DATE_END keyText (keyLength - 2) = 0 then
                if valueLength > 2 then { fields with endDate := some (value + 1) } else fields
              else fields
            ResumeFillEntriesFromJsonArray_keys fuel json count
              (nextJson + valueLength + next.json)
              (next.key.map (fun k => nextJson + valueLength + k)) next.keyLength fields1
              result next.jsonState
    else some (fields, result, jsonState)

/-- The body of the element loop of `ResumeFillEntriesFromJsonArray` before the call
that advances to the next element, at the element at offset `cursor`: the block run
when `json[0]` is the opening brace of an object, with the resume, `result` and
`jsonState` that it leaves. -/
def ResumeFillEntriesFromJsonArray_element (sscanf : List Int → Option (Int × Int × Int))
    (mktime : Int → Int → Int → Int) (mallocEntry mallocText realloc : Bool)
    (fuel count : Nat) (sectionData : SectionPtr) (json : List Int) (cursor : Nat)
    (me : ResumeEntries_t) (result : Result_t) (jsonState : JsonState) :
    Option (ResumeEntries_t × Result_t × JsonState) :=
  if charAt json cursor = 123 then
    let first := JsonSkipToNextValue (json.drop (cursor + 1)) jsonState
    match ResumeFillEntriesFromJsonArray_keys fuel json count (cursor + 1 + first.json)
        (first.key.map (fun k => cursor + 1 + k)) first.keyLength
        { text := none, textLength := 0, startDate := none, endDate := none }
        result first.jsonState with
    | none => none
    | some (fields, result1, jsonState1) =>
      match SectionAddEntry sscanf mktime mallocEntry mallocText realloc count sectionData me
          (fields.text.map (fun p => json.drop p)) fields.textLength
          (fields.startDate.map (fun p => json.drop p))
          (fields.endDate.map (fun p => json.drop p)) with
      | none => none
      | some (added, me1) =>
        some (me1, if added = RESULT_ERROR then RESULT_ERROR else result1, jsonState1)
  else some (me, result, jsonState)

/-- The element loop `while(jsonArrayIndex != INVALID_POSITION)` of
`ResumeFillEntriesFromJsonArray` from the state `json` (the offset `cursor`),
`jsonArrayIndex`, the resume, `result` and `jsonState`.  The allocations made for the
element of index `i` succeed as `mallocEntry i`, `mallocText i` and `realloc i` tell;
`count` bounds the iterations of every loop, and the first argument after the buffer
counts down the iterations of this one. -/
def ResumeFillEntriesFromJsonArray_loop (sscanf : List Int → Option (Int × Int × Int))
    (mktime : Int → Int → Int → Int) (mallocEntry mallocText realloc : Int → Bool)
    (fuel count : Nat) (sectionData : SectionPtr) (json : List Int) :
    Nat → Nat → Int → ResumeEntries_t → Result_t → JsonState →
      Option (Result_t × ResumeEntries_t)
  | 0, _, _, _, _, _ => none
  | remaining + 1, cursor, jsonArrayIndex, me, result, jsonState =>
    if jsonArrayIndex ≠ INVALID_POSITION then
      match ResumeFillEntriesFromJsonArray_element sscanf mktime (mallocEntry jsonArrayIndex)
          (mallocText jsonArrayIndex) (realloc jsonArrayIndex) fuel count sectionData json
          cursor me result jsonState with
      | none => none
      | some (me1, result1, jsonState1) =>
        match JsonArrayNextIndex fuel (json.drop cursor) jsonArrayIndex jsonState1 with
        | none => none
        | some (next, index1, jsonState2) =>
          ResumeFillEntriesFromJsonArray_loop sscanf mktime mallocEntry mallocText realloc
            fuel count sectionData json remaining (cursor + next) index1 me1
            (if jsonState2 ≠ JSON_STATE_OK then RESULT_ERROR else result1) jsonState2
    else some (result, me)

/-- The function `ResumeFillEntriesFromJsonArray(me, sectionData, json)`: the result
code and the resume after the call. -/
def ResumeFillEntriesFromJsonArray (sscanf : List Int → Option (Int × Int × Int))
    (mktime : Int → Int → Int → Int) (mallocEntry mallocText realloc : Int → Bool)
    (fuel count : Nat) (me : ResumeEntries_t) (sectionData : SectionPtr)
    (json : List Int) : Option (Result_t × ResumeEntries_t) :=
  let start := SKIP_WHITESPACE json
  if charAt json start = 91 then
    match JsonArrayNextIndex fuel (json.drop (start + 1)) INVALID_POSITION JSON_STATE_OK with
    | none => none
    | some (first, jsonArrayIndex, jsonState) =>
      if jsonState = JSON_STATE_OK then
        ResumeFillEntriesFromJsonArray_loop sscanf mktime mallocEntry mallocText realloc
          fuel count sectionData json count (start + 1 + first) jsonArrayIndex me RESULT_OK
          jsonState
      else some (RESULT_ERROR, me)
  else some (RESULT_ERROR, me)

/-- The sections of a resume are well formed for a call that adds entries to the
section at `sectionData`: the runtime sections form a list, and `sectionData` points to
a section object. -/
def SectionsValid (me : Resume_t) (sectionData : SectionPtr) (l : List Nat) : Prop :=
  IsChain me.allocated me.m_ResumeSectionRuntime l ∧ (me.read sectionData).isSome

/-! ## Reading the buffer -/

theorem charAt_nil (pos : Nat) : charAt [] pos = 0 := by
  simp [charAt]

theorem charAt_cons_zero (c : Int) (cs : List Int) : charAt (c :: cs) 0 = c := by
  simp [charAt]

theorem charAt_cons_succ (c : Int) (cs : List Int) (pos : Nat) :
    charAt (c :: cs) (pos + 1) = charAt cs pos := by
  simp [charAt]

theorem charAt_drop (json : List Int) (pos k : Nat) :
    charAt (json.drop pos) k = charAt json (pos + k) := by
  induction pos generalizing json with
  | zero => simp
  | succ n ih =>
    cases json with
    | nil => simp [charAt]
    | cons c cs =>
      have h : n + 1 + k = (n + k) + 1 := by omega
      rw [List.drop_succ_cons, ih, h, charAt_cons_succ]

theorem charAt_append_length (pre suf : List Int) (k : Nat) :
    charAt (pre ++ suf) (pre.length + k) = charAt suf k := by
  induction pre with
  | nil => simp
  | cons c cs ih =>
    have h : (c :: cs).length + k = (cs.length + k) + 1 := by simp; omega
    rw [List.cons_append, h, charAt_cons_succ, ih]

theorem lt_length_of_charAt_ne_zero (json : List Int) (pos : Nat)
    (h : charAt json pos ≠ 0) : pos < json.length := by
  by_contra hlt
  apply h
  unfold charAt
  rw [List.getD_eq_default]
  omega

/-! ## Termination: `fuelFor json` is enough fuel -/

theorem JsonArrayDataLength_loop_isSome (json : List Int)
    (hskip : ∀ pos fuel st, 1 ≤ pos → pos < json.length →
      4 * (json.length - pos) + 4 ≤ fuel → (JsonSkip fuel (json.drop pos) st).isSome) :
    ∀ fuel pos st, 1 ≤ pos → 4 * (json.length - pos) + 5 ≤ fuel →
      (JsonArrayDataLength_loop fuel json pos st).isSome := by
  intro fuel
  induction fuel with
  | zero => intro pos st _ h; omega
  | succ f ih =>
    intro pos st hpos hf
    rw [JsonArrayDataLength_loop]
    by_cases h0 : charAt json pos = 0
    · simp [h0]
    · by_cases h1 : charAt json pos = 93
      · simp [h1]
      · have hlt := lt_length_of_charAt_ne_zero json pos h0
        have hs := hskip pos f st hpos hlt (by omega)
        obtain ⟨⟨skip, st1⟩, hr⟩ := Option.isSome_iff_exists.mp hs
        simp only [h0, h1, if_false, hr]
        by_cases hk : skip = 0
        · simp [hk]
        · simp only [ne_eq, hk, not_false_eq_true, if_true]
          exact ih (pos + skip) st1 (by omega) (by omega)

theorem JsonObjectDataLength_loop_isSome (json : List Int)
    (hskip : ∀ pos fuel st, 1 ≤ pos → pos < json.length →
      4 * (json.length - pos) + 4 ≤ fuel → (JsonSkip fuel (json.drop pos) st).isSome) :
    ∀ fuel pos st, 1 ≤ pos → 4 * (json.length - pos) + 5 ≤ fuel →
      (JsonObjectDataLength_loop fuel json pos st).isSome := by
  intro fuel
  induction fuel with
  | zero => intro pos st _ h; omega
  | succ f ih =>
    intro pos st hpos hf
    rw [JsonObjectDataLength_loop]
    by_cases h0 : charAt json pos = 0
    · simp [h0]
    · by_cases h1 : charAt json pos = 125
      · simp [h1]
      · have hlt := lt_length_of_charAt_ne_zero json pos h0
        have hs := hskip pos f st hpos hlt (by omega)
        obtain ⟨⟨skip, st1⟩, hr⟩ := Option.isSome_iff_exists.mp hs
        simp only [h0, h1, if_false, hr]
        by_cases hk : skip = 0
        · simp [hk]
        · simp only [ne_eq, hk, not_false_eq_true, if_true]
          exact ih (pos + skip) st1 (by omega) (by omega)

theorem JsonArrayDataLength_isSome (json : List Int)
    (hskip : ∀ pos fuel st, 1 ≤ pos → pos < json.length →
      4 * (json.length - pos) + 4 ≤ fuel → (JsonSkip fuel (json.drop pos) st).isSome) :
    ∀ fuel st, 4 * json.length + 2 ≤ fuel → (JsonArrayDataLength fuel json st).isSome := by
  intro fuel st hf
  obtain ⟨f, rfl⟩ : ∃ f, fuel = f + 1 := ⟨fuel - 1, by omega⟩
  rw [JsonArrayDataLength]
  by_cases h : charAt json 0 = 91
  · have hlt := lt_length_of_charAt_ne_zero json 0 (by rw [h]; decide)
    have hl := JsonArrayDataLength_loop_isSome json hskip f 1 st (le_refl 1) (by omega)
    obtain ⟨⟨o, st1⟩, hr⟩ := Option.isSome_iff_exists.mp hl
    cases o <;> simp [h, hr]
  · simp [h]

theorem JsonObjectDataLength_isSome (json : List Int)
    (hskip : ∀ pos fuel st, 1 ≤ pos → pos < json.length →
      4 * (json.length - pos) + 4 ≤ fuel → (JsonSkip fuel (json.drop pos) st).isSome) :
    ∀ fuel st, 4 * json.length + 2 ≤ fuel → (JsonObjectDataLength fuel json st).isSome := by
  intro fuel st hf
  obtain ⟨f, rfl⟩ : ∃ f, fuel = f + 1 := ⟨fuel - 1, by omega⟩
  rw [JsonObjectDataLength]
  by_cases h : charAt json 0 = 123
  · have hlt := lt_length_of_charAt_ne_zero json 0 (by rw [h]; decide)
    have hl := JsonObjectDataLength_loop_isSome json hskip f 1 st (le_refl 1) (by omega)
    obtain ⟨⟨o, st1⟩, hr⟩ := Option.isSome_iff_exists.mp hl
    cases o <;> simp [h, hr]
  · simp [h]

theorem JsonValueDataLength_isSome (json : List Int)
    (hskip : ∀ pos fuel st, 1 ≤ pos → pos < json.length →
      4 * (json.length - pos) + 4 ≤ fuel → (JsonSkip fuel (json.drop pos) st).isSome) :
    ∀ fuel st, 4 * json.length + 3 ≤ fuel → (JsonValueDataLength fuel json st).isSome := by
  intro fuel st hf
  obtain ⟨f, rfl⟩ : ∃ f, fuel = f + 1 := ⟨fuel - 1, by omega⟩
  rw [JsonValueDataLength]
  have ha := JsonArrayDataLength_isSome json hskip f st (by omega)
  have ho := JsonObjectDataLength_isSome json hskip f st (by omega)
  obtain ⟨⟨la, sa⟩, hra⟩ := Option.isSome_iff_exists.mp ha
  obtain ⟨⟨lo, so⟩, hro⟩ := Option.isSome_iff_exists.mp ho
  simp only [hra, hro]
  split_ifs <;> simp <;> split_ifs <;> simp

theorem JsonSkip_isSome (json : List Int)
    (hskip : ∀ pos fuel st, 1 ≤ pos → pos < json.length →
      4 * (json.length - pos) + 4 ≤ fuel → (JsonSkip fuel (json.drop pos) st).isSome)
    (hvalue : ∀ pos fuel st, 1 ≤ pos → 0 < json.length →
      4 * (json.length - pos) + 3 ≤ fuel →
      (JsonValueDataLength fuel (json.drop pos) st).isSome) :
    ∀ fuel st, 4 * json.length + 4 ≤ fuel → (JsonSkip fuel json st).isSome := by
  intro fuel st hf
  obtain ⟨f, rfl⟩ : ∃ f, fuel = f + 1 := ⟨fuel - 1, by omega⟩
  rw [JsonSkip]
  have ha := JsonArrayDataLength_isSome json hskip f st (by omega)
  have ho := JsonObjectDataLength_isSome json hskip f st (by omega)
  obtain ⟨⟨la, sa⟩, hra⟩ := Option.isSome_iff_exists.mp ha
  obtain ⟨⟨lo, so⟩, hro⟩ := Option.isSome_iff_exists.mp ho
  by_cases h58 : charAt json 0 = 58
  · have hlt := lt_length_of_charAt_ne_zero json 0 (by rw [h58]; decide)
    have hv := hvalue (1 + SKIP_WHITESPACE (json.drop 1)) f st (by omega) hlt (by omega)
    obtain ⟨⟨lv, sv⟩, hrv⟩ := Option.isSome_iff_exists.mp hv
    simp only [h58, hrv]
    simp
    split_ifs <;> simp
  · simp only [hra, hro, h58, if_false]
    split_ifs <;> simp

theorem terminates_aux : ∀ n (json : List Int), json.length < n →
    (∀ fuel st, 4 * json.length + 4 ≤ fuel → (JsonSkip fuel json st).isSome) ∧
    (∀ fuel st, 4 * json.length + 3 ≤ fuel → (JsonValueDataLength fuel json st).isSome) := by
  intro n
  induction n with
  | zero => intro json h; omega
  | succ n ih =>
    intro json hlen
    have hskip : ∀ pos fuel st, 1 ≤ pos → pos < json.length →
        4 * (json.length - pos) + 4 ≤ fuel → (JsonSkip fuel (json.drop pos) st).isSome := by
      intro pos fuel st h1 h2 hf
      have hl : (json.drop pos).length = json.length - pos := List.length_drop pos json
      exact (ih (json.drop pos) (by omega)).1 fuel st (by omega)
    have hvalue : ∀ pos fuel st, 1 ≤ pos → 0 < json.length →
        4 * (json.length - pos) + 3 ≤ fuel →
        (JsonValueDataLength fuel (json.drop pos) st).isSome := by
      intro pos fuel st h1 h2 hf
      have hl : (json.drop pos).length = json.length - pos := List.length_drop pos json
      exact (ih (json.drop pos) (by omega)).2 fuel st (by omega)
    exact ⟨JsonSkip_isSome json hskip hvalue, JsonValueDataLength_isSome json hskip⟩

/-- With `fuelFor json` or more fuel `JsonSkip` returns. -/
theorem JsonSkip_terminates (json : List Int) (fuel : Nat) (st : JsonState)
    (hf : fuelFor json ≤ fuel) : (JsonSkip fuel json st).isSome :=
  (terminates_aux (json.length + 1) json (by omega)).1 fuel st (by unfold fuelFor at hf; omega)

/-- With `fuelFor json` or more fuel `JsonValueDataLength` returns. -/
theorem JsonValueDataLength_terminates (json : List Int) (fuel : Nat) (st : JsonState)
    (hf : fuelFor json ≤ fuel) : (JsonValueDataLength fuel json st).isSome :=
  (terminates_aux (json.length + 1) json (by omega)).2 fuel st (by unfold fuelFor at hf; omega)

theorem JsonSkip_drop_isSome (json : List Int) (pos fuel : Nat) (st : JsonState)
    (hf : 4 * (json.length - pos) + 4 ≤ fuel) : (JsonSkip fuel (json.drop pos) st).isSome := by
  have hl : (json.drop pos).length = json.length - pos := List.length_drop pos json
  exact JsonSkip_terminates _ fuel st (by unfold fuelFor; omega)

/-- With `fuelFor json` or more fuel `JsonArrayDataLength` returns. -/
theorem JsonArrayDataLength_terminates (json : List Int) (fuel : Nat) (st : JsonState)
    (hf : fuelFor json ≤ fuel) : (JsonArrayDataLength fuel json st).isSome :=
  JsonArrayDataLength_isSome json
    (fun pos fuel st _ _ h => JsonSkip_drop_isSome json pos fuel st h) fuel st
    (by unfold fuelFor at hf; omega)

/-- With `fuelFor json` or more fuel `JsonObjectDataLength` returns. -/
theorem JsonObjectDataLength_terminates (json : List Int) (fuel : Nat) (st : JsonState)
    (hf : fuelFor json ≤ fuel) : (JsonObjectDataLength fuel json st).isSome :=
  JsonObjectDataLength_isSome json
    (fun pos fuel st _ _ h => JsonSkip_drop_isSome json pos fuel st h) fuel st
    (by unfold fuelFor at hf; omega)

/-! ## Pointer arithmetic on the buffer -/

theorem drop_add_length {json a b : List Int} {pos : Nat} (h : json.drop pos = a ++ b) :
    json.drop (pos + a.length) = b := by
  have h2 : json.drop (pos + a.length) = (json.drop pos).drop a.length := by
    rw [List.drop_drop, Nat.add_comm]
  rw [h2, h, List.drop_left]

theorem charAt_of_drop {json tail : List Int} {pos : Nat} {c : Int}
    (h : json.drop pos = c :: tail) : charAt json pos = c := by
  have h2 := charAt_drop json pos 0
  rw [h, charAt_cons_zero] at h2
  simpa using h2.symm

theorem charAt_add_of_drop {json a tail : List Int} {pos : Nat} {c : Int}
    (h : json.drop pos = a ++ c :: tail) : charAt json (pos + a.length) = c :=
  charAt_of_drop (drop_add_length h)

theorem SKIP_WHITESPACE_of_gt (c : Int) (cs : List Int) (h : 32 < c) :
    SKIP_WHITESPACE (c :: cs) = 0 := by
  have h2 : ¬ c ≤ 32 := by omega
  simp [SKIP_WHITESPACE, IS_WHITESPACE, h2]

/-! ## C1: the literals `true`, `false`, `null` -/

/-- C1 (fails on the code): on every buffer that begins with `true`, with `false` or
with `null`, `JsonValueDataLength` takes the number branch, whose test
`current >= '0' || current <= '9'` holds for every character, gets length 0 from
`JsonNumberDataLength` and returns 0 with the value-invalid error, where the claim
and the doc comment of the function promise 4, 5 and 4 with no error. -/
theorem C1_JsonValueDataLength_literal_rejected (fuel : Nat) (rest : List Int)
    (st : JsonState) :
    JsonValueDataLength (fuel + 1) (g_JsonKeywordTrue ++ rest) st
        = some (0, JSON_STATE_ERROR_VALUE_INVALID) ∧
      JsonValueDataLength (fuel + 1) (g_JsonKeywordFalse ++ rest) st
        = some (0, JSON_STATE_ERROR_VALUE_INVALID) ∧
      JsonValueDataLength (fuel + 1) (g_JsonKeywordNull ++ rest) st
        = some (0, JSON_STATE_ERROR_VALUE_INVALID) := by
  refine ⟨?_, ?_, ?_⟩ <;>
    simp [JsonValueDataLength, charAt, JsonNumberDataLength, JsonNumberDataLength_loop,
      g_JsonKeywordTrue, g_JsonKeywordFalse, g_JsonKeywordNull]

/-! ## C2: arrays of numbers -/

theorem JsonSkip_unexpected (fuel : Nat) (c : Int) (tail : List Int) (st : JsonState)
    (h32 : 32 < c) (h1 : c ≠ 91) (h2 : c ≠ 123) (h3 : c ≠ 34) (h4 : c ≠ 58) (h5 : c ≠ 44) :
    JsonSkip (fuel + 1) (c :: tail) st = some (0, JSON_STATE_ERROR_UNEXPECTED_CHAR) := by
  have h6 : ¬ c ≤ 32 := by omega
  simp [JsonSkip, charAt, IS_WHITESPACE, h1, h2, h3, h4, h5, h6]

theorem joinComma_decimal_head (nums : List (List Int)) (hn : nums ≠ [])
    (hd : ∀ ds ∈ nums, IsDecimal ds) (tail : List Int) :
    ∃ c cs, joinComma nums ++ tail = c :: cs ∧ 48 ≤ c ∧ c ≤ 57 := by
  match nums, hn with
  | [x], _ =>
    obtain ⟨hne, hdig⟩ := hd x (by simp)
    cases x with
    | nil => exact absurd rfl hne
    | cons c cs => exact ⟨c, cs ++ tail, by simp [joinComma], hdig c (by simp)⟩
  | x :: y :: l, _ =>
    obtain ⟨hne, hdig⟩ := hd x (by simp)
    cases x with
    | nil => exact absurd rfl hne
    | cons c cs =>
      exact ⟨c, cs ++ 44 :: joinComma (y :: l) ++ tail, by simp [joinComma], hdig c (by simp)⟩

/-- C2 (the claim as stated fails): on `[1,2,3]`, seven bytes long, `JsonArrayDataLength`
returns 1 and leaves array-missing-end. -/
theorem C2_counterexample :
    JsonArrayDataLength (fuelFor (ofString "[1,2,3]")) (ofString "[1,2,3]") JSON_STATE_OK
        = some (1, JSON_STATE_ERROR_ARRAY_MISSING_END) ∧
      (ofString "[1,2,3]").length = 7 := by
  decide

/-- C2 (amended): for every list of two or more unsigned decimal integers,
`JsonArrayDataLength` applied to `[` + the integers joined by `,` + `]` (followed by
any bytes) returns 1 and leaves array-missing-end: an array of comma-separated
numbers is not measured. -/
theorem C2_JsonArrayDataLength_numbers (nums : List (List Int)) (rest : List Int)
    (st : JsonState) (fuel : Nat) (hn : 2 ≤ nums.length) (hd : ∀ ds ∈ nums, IsDecimal ds)
    (hf : fuelFor (91 :: (joinComma nums ++ 93 :: rest)) ≤ fuel) :
    JsonArrayDataLength fuel (91 :: (joinComma nums ++ 93 :: rest)) st
      = some (1, JSON_STATE_ERROR_ARRAY_MISSING_END) := by
  have hne : nums ≠ [] := by
    intro h
    rw [h] at hn
    simp at hn
  obtain ⟨c, cs, hc, h48, h57⟩ := joinComma_decimal_head nums hne hd (93 :: rest)
  obtain ⟨f, rfl⟩ : ∃ f, fuel = f + 1 + 1 + 1 := ⟨fuel - 3, by unfold fuelFor at hf; omega⟩
  have hskip := JsonSkip_unexpected f c cs st (by omega) (by omega) (by omega) (by omega)
    (by omega) (by omega)
  have hc0 : c ≠ 0 := by omega
  have hc93 : c ≠ 93 := by omega
  rw [hc]
  simp [JsonArrayDataLength, JsonArrayDataLength_loop, charAt, hc0, hc93, hskip]

/-- C2 (amended), at `[1,2,3]`. -/
theorem C2_JsonArrayDataLength_numbers_witness :
    JsonArrayDataLength 32 (91 :: (joinComma [[49], [50], [51]] ++ 93 :: [])) JSON_STATE_OK
      = some (1, JSON_STATE_ERROR_ARRAY_MISSING_END) :=
  C2_JsonArrayDataLength_numbers [[49], [50], [51]] [] JSON_STATE_OK 32 (by decide)
    (by simp [IsDecimal]) (by decide)

/-! ## C3, C4: an error reported by a value after `:` -/

/-- C3 (fails on the code): on the buffer `:[` with the cursor at its first byte,
`JsonSkip` writes array-missing-end and still returns the cursor advanced by 2, to
the terminating NUL.  The `:` case accepts any value length above 0, and
`JsonValueDataLength` passes on the length 1 that `JsonArrayDataLength` returns for
an unterminated array. -/
theorem C3_JsonSkip_advances_with_error :
    JsonSkip (fuelFor (ofString ":[")) (ofString ":[") JSON_STATE_OK
      = some (2, JSON_STATE_ERROR_ARRAY_MISSING_END) := by
  decide

/-- C4 (fails on the code): `JsonObjectDataLength` returns 7, the full length, on
`{"a":[}` and leaves array-missing-end, and `JsonArrayDataLength` returns 4, the full
length, on `[:"]` and leaves string-missing-end: a length of 2 or more comes with an
error code written during the call. -/
theorem C4_length_with_error :
    JsonObjectDataLength (fuelFor (ofString "\x7b\"a\":[\x7d")) (ofString "\x7b\"a\":[\x7d")
        JSON_STATE_OK = some (7, JSON_STATE_ERROR_ARRAY_MISSING_END) ∧
      JsonArrayDataLength (fuelFor (ofString "[:\"]")) (ofString "[:\"]") JSON_STATE_OK
        = some (4, JSON_STATE_ERROR_STRING_MISSING_END) := by
  decide

/-! ## C5: strings -/

theorem JsonStringDataLength_loop_quote (tail : List Int) (pos : Nat) (st : JsonState) :
    JsonStringDataLength_loop (34 :: tail) pos st = (some (pos + 1), st) := by
  cases tail <;> simp [JsonStringDataLength_loop]

theorem JsonStringDataLength_loop_plain (c : Int) (tail : List Int) (pos : Nat)
    (st : JsonState) (h0 : c ≠ 0) (h34 : c ≠ 34) (h92 : c ≠ 92) :
    JsonStringDataLength_loop (c :: tail) pos st
      = JsonStringDataLength_loop tail (pos + 1) st := by
  cases tail <;> simp [JsonStringDataLength_loop, h0, h34, h92]

theorem JsonStringDataLength_loop_pair (d : Int) (tail : List Int) (pos : Nat)
    (st : JsonState) (hd : d ≠ 0) :
    JsonStringDataLength_loop (92 :: d :: tail) pos st
      = JsonStringDataLength_loop tail (pos + 2) st := by
  simp [JsonStringDataLength_loop, hd]

theorem JsonStringDataLength_loop_escaped (tail : List Int) (st : JsonState) :
    ∀ (n : Nat) (s : List Int) (pos : Nat), s.length ≤ n → IsEscaped s →
      JsonStringDataLength_loop (s ++ 34 :: tail) pos st = (some (pos + s.length + 1), st) := by
  intro n
  induction n with
  | zero =>
    intro s pos hlen _
    have hs : s = [] := List.length_eq_zero.mp (by omega)
    subst hs
    simp [JsonStringDataLength_loop_quote]
  | succ n ih =>
    intro s pos hlen hs
    match s, hs, hlen with
    | [], _, _ => simp [JsonStringDataLength_loop_quote]
    | [c], hs, _ =>
      simp only [IsEscaped] at hs
      obtain ⟨h0, h34, h92⟩ := hs
      simp [JsonStringDataLength_loop_plain _ _ _ _ h0 h34 h92,
        JsonStringDataLength_loop_quote]
    | c :: d :: r, hs, hlen =>
      simp only [IsEscaped] at hs
      obtain ⟨h0, h34, hrest⟩ := hs
      have hl : r.length + 2 ≤ n + 1 := by simpa using hlen
      by_cases h92 : c = 92
      · rw [if_pos h92] at hrest
        obtain ⟨hd0, hr⟩ := hrest
        have hih := ih r (pos + 2) (by omega) hr
        subst h92
        rw [List.cons_append, List.cons_append, JsonStringDataLength_loop_pair _ _ _ _ hd0, hih]
        simp
        omega
      · rw [if_neg h92] at hrest
        have hih := ih (d :: r) (pos + 1) (by simp; omega) hrest
        rw [List.cons_append, JsonStringDataLength_loop_plain _ _ _ _ h0 h34 h92, hih]
        simp
        omega

theorem JsonStringDataLength_escaped (s tail : List Int) (st : JsonState)
    (hs : IsEscaped s) :
    JsonStringDataLength (34 :: (s ++ 34 :: tail)) st = (s.length + 2, st) := by
  have h := JsonStringDataLength_loop_escaped tail st s.length s 1 (le_refl _) hs
  simp only [JsonStringDataLength, charAt_cons_zero, List.drop_succ_cons, List.drop_zero, h]
  simp
  omega

/-- C5: for every byte string `s` without NUL that reads as plain bytes and two-byte
escape pairs (every backslash outside a pair starts a pair inside `s`, a double quote
occurs only as the second byte of a pair), `JsonStringDataLength` applied to
`"` + `s` + `"` followed by any bytes returns `len(s) + 2` and writes no error code. -/
theorem C5_JsonStringDataLength_valid (s tail : List Int) (st : JsonState)
    (hs : IsEscaped s) :
    JsonStringDataLength (34 :: (s ++ 34 :: tail)) st = (s.length + 2, st) :=
  JsonStringDataLength_escaped s tail st hs

/-- C5 at the string `a\"b`, whose body holds an escaped double quote. -/
theorem C5_JsonStringDataLength_valid_witness :
    IsEscaped [97, 92, 34, 98] ∧
      JsonStringDataLength (34 :: ([97, 92, 34, 98] ++ 34 :: [44])) JSON_STATE_OK
        = (6, JSON_STATE_OK) :=
  ⟨by simp [IsEscaped],
    C5_JsonStringDataLength_valid [97, 92, 34, 98] [44] JSON_STATE_OK (by simp [IsEscaped])⟩

/-! ## C6, C7: arrays and objects of strings -/

theorem IsEscaped_of_IsPlain : ∀ (s : List Int), IsPlain s → IsEscaped s
  | [], _ => by simp [IsEscaped]
  | [c], h => by
    have hc := h c (by simp)
    simp only [IsEscaped]
    exact ⟨hc.2.2, hc.1, hc.2.1⟩
  | c :: d :: r, h => by
    have hc := h c (by simp)
    have hr : IsPlain (d :: r) := fun x hx => h x (List.mem_cons_of_mem c hx)
    simp only [IsEscaped, if_neg hc.2.1]
    exact ⟨hc.2.2, hc.1, IsEscaped_of_IsPlain (d :: r) hr⟩

theorem JsonStringDataLength_quoted (s tail : List Int) (st : JsonState) (hs : IsEscaped s) :
    JsonStringDataLength (quoted s ++ tail) st = (s.length + 2, st) := by
  have h := JsonStringDataLength_escaped s tail st hs
  simpa [quoted] using h

theorem quoted_length (s : List Int) : (quoted s).length = s.length + 2 := by
  simp [quoted]

theorem drop_quoted (s tail : List Int) : (quoted s ++ tail).drop (s.length + 2) = tail := by
  rw [← quoted_length s, List.drop_left]

theorem charAt_quoted (s tail : List Int) : charAt (quoted s ++ tail) (s.length + 2) = charAt tail 0 := by
  have h := charAt_drop (quoted s ++ tail) (s.length + 2) 0
  rw [drop_quoted] at h
  simpa using h.symm

theorem JsonSkip_quoted (fuel : Nat) (s tail : List Int) (c : Int) (st : JsonState)
    (hs : IsEscaped s) (hc : c = 44 ∨ c = 93 ∨ c = 125 ∨ c = 58) :
    JsonSkip (fuel + 1) (quoted s ++ c :: tail) st = some (s.length + 2, st) := by
  have h32 : 32 < c := by omega
  have hstr := JsonStringDataLength_quoted s (c :: tail) st hs
  have h0 : charAt (quoted s ++ c :: tail) 0 = 34 := by simp [quoted, charAt]
  have hfol : ¬ (c ≠ 44 ∧ c ≠ 93 ∧ c ≠ 125 ∧ c ≠ 58 ∧ c ≠ 0) := by omega
  rw [JsonSkip]
  simp only [h0, hstr, drop_quoted, SKIP_WHITESPACE_of_gt c tail h32, Nat.add_zero,
    charAt_quoted, charAt_cons_zero, if_neg hfol]
  simp

theorem JsonSkip_comma (fuel : Nat) (c : Int) (tail : List Int) (st : JsonState)
    (hc : c = 123 ∨ c = 91 ∨ c = 34) :
    JsonSkip (fuel + 1) (44 :: c :: tail) st = some (1, st) := by
  have h32 : 32 < c := by omega
  have hfol : ¬ (c ≠ 123 ∧ c ≠ 91 ∧ c ≠ 34) := by omega
  rw [JsonSkip]
  simp [charAt, SKIP_WHITESPACE_of_gt c tail h32, hfol]

theorem JsonValueDataLength_quoted (fuel : Nat) (s tail : List Int) (st : JsonState)
    (hs : IsEscaped s) :
    JsonValueDataLength (fuel + 1) (quoted s ++ tail) st = some (s.length + 2, st) := by
  have hstr := JsonStringDataLength_quoted s tail st hs
  have h0 : charAt (quoted s ++ tail) 0 = 34 := by simp [quoted, charAt]
  rw [JsonValueDataLength]
  simp [h0, hstr]

theorem JsonSkip_colon_quoted (fuel : Nat) (s tail : List Int) (c : Int) (st : JsonState)
    (hs : IsEscaped s) (hc : c = 44 ∨ c = 93 ∨ c = 125) :
    JsonSkip (fuel + 2) (58 :: (quoted s ++ c :: tail)) st = some (s.length + 3, st) := by
  have h32 : 32 < c := by omega
  have hval := JsonValueDataLength_quoted fuel s (c :: tail) st hs
  have hq : SKIP_WHITESPACE (quoted s ++ c :: tail) = 0 := by
    simp [quoted, SKIP_WHITESPACE, IS_WHITESPACE]
  have hfol : ¬ (c ≠ 44 ∧ c ≠ 93 ∧ c ≠ 125 ∧ c ≠ 0) := by omega
  have hd : (58 :: (quoted s ++ c :: tail)).drop (1 + (s.length + 2)) = c :: tail := by
    rw [Nat.add_comm 1, List.drop_succ_cons, drop_quoted]
  have hc2 : charAt (58 :: (quoted s ++ c :: tail)) (1 + (s.length + 2)) = c := by
    rw [Nat.add_comm 1, charAt_cons_succ, charAt_quoted, charAt_cons_zero]
  rw [JsonSkip]
  simp only [charAt_cons_zero, List.drop_succ_cons, List.drop_zero, hq, Nat.add_zero, hval,
    hd, SKIP_WHITESPACE_of_gt c tail h32, hc2, if_neg hfol]
  simp
  omega

theorem joinComma_head (xs : List (List Int)) (tail : List Int) (hne : xs ≠ [])
    (hh : ∀ x ∈ xs, ∃ r, x = 34 :: r) : ∃ etail, joinComma xs ++ tail = 34 :: etail := by
  match xs, hne, hh with
  | [x], _, hh =>
    obtain ⟨r, rfl⟩ := hh x (by simp)
    exact ⟨r ++ tail, by simp [joinComma]⟩
  | x :: y :: l, _, hh =>
    obtain ⟨r, rfl⟩ := hh x (by simp)
    exact ⟨r ++ 44 :: joinComma (y :: l) ++ tail, by simp [joinComma]⟩

theorem JsonArrayDataLength_loop_close (fuel : Nat) (json tail : List Int) (pos : Nat)
    (st : JsonState) (h : json.drop pos = 93 :: tail) :
    JsonArrayDataLength_loop (fuel + 1) json pos st = some (some (pos + 1), st) := by
  rw [JsonArrayDataLength_loop]
  simp [charAt_of_drop h]

theorem JsonArrayDataLength_loop_step (fuel : Nat) (json : List Int) (pos skip : Nat)
    (st : JsonState) (h0 : charAt json pos ≠ 0) (h93 : charAt json pos ≠ 93)
    (hskip : JsonSkip fuel (json.drop pos) st = some (skip, st)) (hne : skip ≠ 0) :
    JsonArrayDataLength_loop (fuel + 1) json pos st
      = JsonArrayDataLength_loop fuel json (pos + skip) st := by
  rw [JsonArrayDataLength_loop]
  simp [h0, h93, hskip, hne]

theorem JsonArrayDataLength_loop_quoted (rest : List Int) (st : JsonState) :
    ∀ (strs : List (List Int)) (json : List Int) (pos fuel : Nat),
      (∀ s ∈ strs, IsEscaped s) →
      json.drop pos = joinComma (strs.map quoted) ++ 93 :: rest →
      2 * strs.length + 1 ≤ fuel →
      JsonArrayDataLength_loop fuel json pos st
        = some (some (pos + (joinComma (strs.map quoted)).length + 1), st) := by
  intro strs
  induction strs with
  | nil =>
    intro json pos fuel _ hd hf
    obtain ⟨f, rfl⟩ : ∃ f, fuel = f + 1 := ⟨fuel - 1, by omega⟩
    simp only [List.map_nil, joinComma, List.nil_append] at hd
    simpa [joinComma] using JsonArrayDataLength_loop_close f json rest pos st hd
  | cons x t ih =>
    intro json pos fuel hs hd hf
    have hx : IsEscaped x := hs x (by simp)
    have ht : ∀ s ∈ t, IsEscaped s := fun s h => hs s (List.mem_cons_of_mem x h)
    simp only [List.length_cons] at hf
    obtain ⟨f, rfl⟩ : ∃ f, fuel = f + 1 + 1 := ⟨fuel - 2, by omega⟩
    cases t with
    | nil =>
      simp only [List.map_cons, List.map_nil, joinComma] at hd ⊢
      have hc : charAt json pos = 34 := by
        have h2 : json.drop pos = 34 :: (x ++ 34 :: 93 :: rest) := by simpa [quoted] using hd
        exact charAt_of_drop h2
      have hsk : JsonSkip (f + 1) (json.drop pos) st = some (x.length + 2, st) := by
        rw [hd]
        exact JsonSkip_quoted f x rest 93 st hx (by omega)
      rw [JsonArrayDataLength_loop_step (f + 1) json pos (x.length + 2) st (by rw [hc]; decide)
        (by rw [hc]; decide) hsk (by omega)]
      have hd2 : json.drop (pos + (x.length + 2)) = 93 :: rest := by
        have h3 := drop_add_length hd
        rwa [quoted_length] at h3
      rw [JsonArrayDataLength_loop_close f json rest _ st hd2, quoted_length]
    | cons y l =>
      have hd1 : json.drop pos
          = quoted x ++ 44 :: (joinComma ((y :: l).map quoted) ++ 93 :: rest) := by
        simpa [joinComma] using hd
      have hc : charAt json pos = 34 := by
        have h2 : json.drop pos = 34 :: (x ++ 34 :: 44 ::
            (joinComma ((y :: l).map quoted) ++ 93 :: rest)) := by simpa [quoted] using hd1
        exact charAt_of_drop h2
      have hsk : JsonSkip (f + 1) (json.drop pos) st = some (x.length + 2, st) := by
        rw [hd1]
        exact JsonSkip_quoted f x _ 44 st hx (by omega)
      rw [JsonArrayDataLength_loop_step (f + 1) json pos (x.length + 2) st (by rw [hc]; decide)
        (by rw [hc]; decide) hsk (by omega)]
      have hd2 : json.drop (pos + (x.length + 2))
          = 44 :: (joinComma ((y :: l).map quoted) ++ 93 :: rest) := by
        have h3 := drop_add_length hd1
        rwa [quoted_length] at h3
      have hc2 : charAt json (pos + (x.length + 2)) = 44 := charAt_of_drop hd2
      obtain ⟨etail, he⟩ := joinComma_head ((y :: l).map quoted) (93 :: rest) (by simp)
        (by
          intro e hmem
          obtain ⟨a, _, rfl⟩ := List.mem_map.mp hmem
          exact ⟨_, rfl⟩)
      obtain ⟨f2, rfl⟩ : ∃ f2, f = f2 + 1 := ⟨f - 1, by simp at hf; omega⟩
      have hsk2 : JsonSkip (f2 + 1) (json.drop (pos + (x.length + 2))) st = some (1, st) := by
        rw [hd2, he]
        exact JsonSkip_comma f2 34 etail st (by omega)
      rw [JsonArrayDataLength_loop_step (f2 + 1) json _ 1 st (by rw [hc2]; decide)
        (by rw [hc2]; decide) hsk2 (by omega)]
      have hd3 : json.drop (pos + (x.length + 2) + 1)
          = joinComma ((y :: l).map quoted) ++ 93 :: rest := by
        have h3 : json.drop (pos + (x.length + 2)) = [44] ++
            (joinComma ((y :: l).map quoted) ++ 93 :: rest) := by simpa using hd2
        simpa using drop_add_length h3
      rw [ih json (pos + (x.length + 2) + 1) (f2 + 1) ht hd3 (by simp at hf ⊢; omega)]
      simp [joinComma, quoted_length]
      omega

theorem joinComma_quoted_length (strs : List (List Int)) :
    strs.length ≤ (joinComma (strs.map quoted)).length + 1 := by
  induction strs with
  | nil => simp
  | cons x t ih =>
    cases t with
    | nil => simp [joinComma]
    | cons y l =>
      simp only [List.map_cons, joinComma, List.length_append, List.length_cons] at ih ⊢
      omega

theorem JsonArrayDataLength_quoted (strs : List (List Int)) (rest : List Int)
    (st : JsonState) (fuel : Nat) (hs : ∀ s ∈ strs, IsEscaped s)
    (hf : 2 * strs.length + 2 ≤ fuel) :
    JsonArrayDataLength fuel (91 :: (joinComma (strs.map quoted) ++ 93 :: rest)) st
      = some ((joinComma (strs.map quoted)).length + 2, st) := by
  obtain ⟨f, rfl⟩ : ∃ f, fuel = f + 1 := ⟨fuel - 1, by omega⟩
  have hl := JsonArrayDataLength_loop_quoted rest st strs
    (91 :: (joinComma (strs.map quoted) ++ 93 :: rest)) 1 f hs (by simp) (by omega)
  rw [JsonArrayDataLength]
  simp only [charAt_cons_zero, hl]
  simp
  omega

/-- C6: for every list, possibly empty, of strings that contain no double quote,
backslash or NUL, `JsonArrayDataLength` applied to `[` + the quoted strings joined
by `,` + `]` (followed by any bytes), with `fuelFor` of that text or more fuel,
returns the byte length of the text from `[` to `]` and writes no error code. -/
theorem C6_JsonArrayDataLength_strings (strs : List (List Int)) (rest : List Int)
    (st : JsonState) (fuel : Nat) (hs : ∀ s ∈ strs, IsPlain s)
    (hf : fuelFor (91 :: (joinComma (strs.map quoted) ++ 93 :: rest)) ≤ fuel) :
    JsonArrayDataLength fuel (91 :: (joinComma (strs.map quoted) ++ 93 :: rest)) st
      = some ((91 :: (joinComma (strs.map quoted) ++ [93])).length, st) := by
  have hlen := joinComma_quoted_length strs
  have h := JsonArrayDataLength_quoted strs rest st fuel
    (fun x hx => IsEscaped_of_IsPlain x (hs x hx)) (by simp [fuelFor] at hf; omega)
  rw [h]
  simp

/-- C6 at `["value1","value2"]`, 19 bytes long. -/
theorem C6_JsonArrayDataLength_strings_witness :
    JsonArrayDataLength 80
        (91 :: (joinComma ([ofString "value1", ofString "value2"].map quoted) ++ 93 :: [])) JSON_STATE_OK
      = some (19, JSON_STATE_OK) :=
  C6_JsonArrayDataLength_strings [ofString "value1", ofString "value2"] [] JSON_STATE_OK 80
    (by decide) (by decide)

theorem JsonObjectDataLength_loop_close (fuel : Nat) (json tail : List Int) (pos : Nat)
    (st : JsonState) (h : json.drop pos = 125 :: tail) :
    JsonObjectDataLength_loop (fuel + 1) json pos st = some (some (pos + 1), st) := by
  rw [JsonObjectDataLength_loop]
  simp [charAt_of_drop h]

theorem JsonObjectDataLength_loop_step (fuel : Nat) (json : List Int) (pos skip : Nat)
    (st : JsonState) (h0 : charAt json pos ≠ 0) (h125 : charAt json pos ≠ 125)
    (hskip : JsonSkip fuel (json.drop pos) st = some (skip, st)) (hne : skip ≠ 0) :
    JsonObjectDataLength_loop (fuel + 1) json pos st
      = JsonObjectDataLength_loop fuel json (pos + skip) st := by
  rw [JsonObjectDataLength_loop]
  simp [h0, h125, hskip, hne]

theorem pairText_length (kv : List Int × List Int) :
    (pairText kv).length = kv.1.length + kv.2.length + 5 := by
  simp [pairText, quoted]
  omega

theorem JsonObjectDataLength_loop_pair (fuel : Nat) (json tail : List Int) (pos : Nat)
    (kv : List Int × List Int) (c : Int) (st : JsonState)
    (hk : IsEscaped kv.1) (hv : IsEscaped kv.2) (hc : c = 44 ∨ c = 125)
    (hd : json.drop pos = pairText kv ++ c :: tail) :
    JsonObjectDataLength_loop (fuel + 4) json pos st
      = JsonObjectDataLength_loop (fuel + 2) json (pos + (pairText kv).length) st := by
  have hd1 : json.drop pos = quoted kv.1 ++ 58 :: (quoted kv.2 ++ c :: tail) := by
    simpa [pairText] using hd
  have hc1 : charAt json pos = 34 := by
    have h2 : json.drop pos = 34 :: (kv.1 ++ 34 :: 58 :: (quoted kv.2 ++ c :: tail)) := by
      simpa [quoted] using hd1
    exact charAt_of_drop h2
  have hsk1 : JsonSkip (fuel + 3) (json.drop pos) st = some (kv.1.length + 2, st) := by
    rw [hd1]
    exact JsonSkip_quoted (fuel + 2) kv.1 _ 58 st hk (by omega)
  rw [JsonObjectDataLength_loop_step (fuel + 3) json pos (kv.1.length + 2) st
    (by rw [hc1]; decide) (by rw [hc1]; decide) hsk1 (by omega)]
  have hd2 : json.drop (pos + (kv.1.length + 2)) = 58 :: (quoted kv.2 ++ c :: tail) := by
    have h3 := drop_add_length hd1
    rwa [quoted_length] at h3
  have hc2 : charAt json (pos + (kv.1.length + 2)) = 58 := charAt_of_drop hd2
  have hsk2 : JsonSkip (fuel + 2) (json.drop (pos + (kv.1.length + 2))) st
      = some (kv.2.length + 3, st) := by
    rw [hd2]
    exact JsonSkip_colon_quoted fuel kv.2 tail c st hv (by omega)
  rw [JsonObjectDataLength_loop_step (fuel + 2) json _ (kv.2.length + 3) st
    (by rw [hc2]; decide) (by rw [hc2]; decide) hsk2 (by omega)]
  have hp : pos + (kv.1.length + 2) + (kv.2.length + 3) = pos + (pairText kv).length := by
    rw [pairText_length]
    omega
  rw [hp]

theorem JsonObjectDataLength_loop_pairs (rest : List Int) (st : JsonState) :
    ∀ (pairs : List (List Int × List Int)) (json : List Int) (pos fuel : Nat),
      (∀ kv ∈ pairs, IsEscaped kv.1 ∧ IsEscaped kv.2) →
      json.drop pos = joinComma (pairs.map pairText) ++ 125 :: rest →
      3 * pairs.length + 2 ≤ fuel →
      JsonObjectDataLength_loop fuel json pos st
        = some (some (pos + (joinComma (pairs.map pairText)).length + 1), st) := by
  intro pairs
  induction pairs with
  | nil =>
    intro json pos fuel _ hd hf
    obtain ⟨f, rfl⟩ : ∃ f, fuel = f + 1 := ⟨fuel - 1, by omega⟩
    simp only [List.map_nil, joinComma, List.nil_append] at hd
    simpa [joinComma] using JsonObjectDataLength_loop_close f json rest pos st hd
  | cons x t ih =>
    intro json pos fuel hs hd hf
    have hx := hs x (by simp)
    have ht : ∀ kv ∈ t, IsEscaped kv.1 ∧ IsEscaped kv.2 :=
      fun kv h => hs kv (List.mem_cons_of_mem x h)
    simp only [List.length_cons] at hf
    obtain ⟨f, rfl⟩ : ∃ f, fuel = f + 4 := ⟨fuel - 4, by omega⟩
    cases t with
    | nil =>
      simp only [List.map_cons, List.map_nil, joinComma] at hd ⊢
      rw [JsonObjectDataLength_loop_pair f json rest pos x 125 st hx.1 hx.2 (by omega) hd]
      rw [JsonObjectDataLength_loop_close (f + 1) json rest _ st (drop_add_length hd)]
    | cons y l =>
      have hd1 : json.drop pos
          = pairText x ++ 44 :: (joinComma ((y :: l).map pairText) ++ 125 :: rest) := by
        simpa [joinComma] using hd
      rw [JsonObjectDataLength_loop_pair f json _ pos x 44 st hx.1 hx.2 (by omega) hd1]
      have hd2 := drop_add_length hd1
      have hc2 : charAt json (pos + (pairText x).length) = 44 := charAt_of_drop hd2
      obtain ⟨etail, he⟩ := joinComma_head ((y :: l).map pairText) (125 :: rest) (by simp)
        (by
          intro e hmem
          obtain ⟨a, _, rfl⟩ := List.mem_map.mp hmem
          exact ⟨_, rfl⟩)
      have hsk2 : JsonSkip (f + 1) (json.drop (pos + (pairText x).length)) st
          = some (1, st) := by
        rw [hd2, he]
        exact JsonSkip_comma f 34 etail st (by omega)
      rw [JsonObjectDataLength_loop_step (f + 1) json _ 1 st (by rw [hc2]; decide)
        (by rw [hc2]; decide) hsk2 (by omega)]
      have hd3 : json.drop (pos + (pairText x).length + 1)
          = joinComma ((y :: l).map pairText) ++ 125 :: rest := by
        have h3 : json.drop (pos + (pairText x).length) = [44] ++
            (joinComma ((y :: l).map pairText) ++ 125 :: rest) := by simpa using hd2
        simpa using drop_add_length h3
      rw [ih json (pos + (pairText x).length + 1) (f + 1) ht hd3 (by simp at hf ⊢; omega)]
      simp [joinComma]
      omega

theorem joinComma_pairText_length (pairs : List (List Int × List Int)) :
    pairs.length ≤ (joinComma (pairs.map pairText)).length := by
  induction pairs with
  | nil => simp
  | cons x t ih =>
    cases t with
    | nil => simp [joinComma, pairText_length]
    | cons y l =>
      simp only [List.map_cons, joinComma, List.length_append, List.length_cons,
        pairText_length] at ih ⊢
      omega

theorem JsonObjectDataLength_pairs (pairs : List (List Int × List Int)) (rest : List Int)
    (st : JsonState) (fuel : Nat) (hs : ∀ kv ∈ pairs, IsEscaped kv.1 ∧ IsEscaped kv.2)
    (hf : 3 * pairs.length + 3 ≤ fuel) :
    JsonObjectDataLength fuel (123 :: (joinComma (pairs.map pairText) ++ 125 :: rest)) st
      = some ((joinComma (pairs.map pairText)).length + 2, st) := by
  obtain ⟨f, rfl⟩ : ∃ f, fuel = f + 1 := ⟨fuel - 1, by omega⟩
  have hl := JsonObjectDataLength_loop_pairs rest st pairs
    (123 :: (joinComma (pairs.map pairText) ++ 125 :: rest)) 1 f hs (by simp) (by omega)
  rw [JsonObjectDataLength]
  simp only [charAt_cons_zero, hl]
  simp
  omega

/-- C7: for every list, possibly empty, of key/value pairs whose keys and values are
strings containing no double quote, backslash or NUL, `JsonObjectDataLength` applied
to `{` + the pairs written `"key":"value"` and joined by `,` + `}` (followed by any
bytes), with `fuelFor` of that text or more fuel, returns the byte length of the text
from `{` to `}` and writes no error code. -/
theorem C7_JsonObjectDataLength_pairs (pairs : List (List Int × List Int))
    (rest : List Int) (st : JsonState) (fuel : Nat)
    (hs : ∀ kv ∈ pairs, IsPlain kv.1 ∧ IsPlain kv.2)
    (hf : fuelFor (123 :: (joinComma (pairs.map pairText) ++ 125 :: rest)) ≤ fuel) :
    JsonObjectDataLength fuel (123 :: (joinComma (pairs.map pairText) ++ 125 :: rest)) st
      = some ((123 :: (joinComma (pairs.map pairText) ++ [125])).length, st) := by
  have hlen := joinComma_pairText_length pairs
  have h := JsonObjectDataLength_pairs pairs rest st fuel
    (fun kv hkv => ⟨IsEscaped_of_IsPlain kv.1 (hs kv hkv).1,
      IsEscaped_of_IsPlain kv.2 (hs kv hkv).2⟩) (by simp [fuelFor] at hf; omega)
  rw [h]
  simp

/-- C7 at `{"key":"value"}`, 15 bytes long. -/
theorem C7_JsonObjectDataLength_pairs_witness :
    JsonObjectDataLength 64
        (123 :: (joinComma ([(ofString "key", ofString "value")].map pairText) ++ 125 :: []))
        JSON_STATE_OK
      = some (15, JSON_STATE_OK) :=
  C7_JsonObjectDataLength_pairs [(ofString "key", ofString "value")] [] JSON_STATE_OK 64
    (by decide) (by decide)

/-! ## C8: arrays without a start or an end -/

theorem JsonArrayDataLength_loop_return (json : List Int) :
    ∀ (fuel pos : Nat) (st st1 : JsonState) (n : Nat),
      JsonArrayDataLength_loop fuel json pos st = some (some n, st1) →
      ∃ k, charAt json k = 93 := by
  intro fuel
  induction fuel with
  | zero =>
    intro pos st st1 n h
    simp [JsonArrayDataLength_loop] at h
  | succ f ih =>
    intro pos st st1 n h
    rw [JsonArrayDataLength_loop] at h
    by_cases h0 : charAt json pos = 0
    · simp [h0] at h
    · by_cases h93 : charAt json pos = 93
      · exact ⟨pos, h93⟩
      · simp only [h0, h93, if_false] at h
        cases hsk : JsonSkip f (json.drop pos) st with
        | none => simp [hsk] at h
        | some r =>
          obtain ⟨skip, st2⟩ := r
          simp only [hsk] at h
          by_cases hk : skip = 0
          · simp [hk] at h
          · simp only [ne_eq, hk, not_false_eq_true, if_true] at h
            exact ih _ _ _ _ h

theorem mem_of_charAt (json : List Int) (k : Nat) (c : Int) (hc : c ≠ 0)
    (h : charAt json k = c) : c ∈ json := by
  have hlt := lt_length_of_charAt_ne_zero json k (by rw [h]; exact hc)
  have hg : json[k] = c := by
    unfold charAt at h
    rwa [List.getD_eq_getElem json 0 hlt] at h
  rw [← hg]
  exact List.getElem_mem hlt

theorem JsonArrayDataLength_no_close (json : List Int) (st : JsonState) (fuel : Nat)
    (hstart : charAt json 0 = 91) (hclose : (93 : Int) ∉ json) (hf : fuelFor json ≤ fuel) :
    JsonArrayDataLength fuel json st = some (1, JSON_STATE_ERROR_ARRAY_MISSING_END) := by
  have hsome := JsonArrayDataLength_terminates json fuel st hf
  obtain ⟨f, rfl⟩ : ∃ f, fuel = f + 1 := ⟨fuel - 1, by unfold fuelFor at hf; omega⟩
  rw [JsonArrayDataLength] at hsome ⊢
  simp only [hstart, ne_eq, not_true_eq_false, if_false] at hsome ⊢
  cases hl : JsonArrayDataLength_loop f json 1 st with
  | none => simp [hl] at hsome
  | some r =>
    obtain ⟨o, st1⟩ := r
    cases o with
    | none => rfl
    | some n =>
      obtain ⟨k, hk⟩ := JsonArrayDataLength_loop_return json f 1 st st1 n hl
      exact absurd (mem_of_charAt json k 93 (by decide) hk) hclose

theorem JsonArrayDataLength_no_start (json : List Int) (st : JsonState) (fuel : Nat)
    (hstart : charAt json 0 ≠ 91) :
    JsonArrayDataLength (fuel + 1) json st = some (0, JSON_STATE_ERROR_ARRAY_MISSING_START) := by
  rw [JsonArrayDataLength]
  simp [hstart]

/-- C8: with `fuelFor json` or more fuel, on every buffer that begins with `[` and
holds no `]` byte `JsonArrayDataLength` returns 1 and leaves array-missing-end, and
on every buffer that does not begin with `[` it returns 0 and leaves
array-missing-start. -/
theorem C8_JsonArrayDataLength_missing (json : List Int) (st : JsonState) (fuel : Nat)
    (hf : fuelFor json ≤ fuel) :
    (charAt json 0 = 91 → (93 : Int) ∉ json →
        JsonArrayDataLength fuel json st = some (1, JSON_STATE_ERROR_ARRAY_MISSING_END)) ∧
      (charAt json 0 ≠ 91 →
        JsonArrayDataLength fuel json st = some (0, JSON_STATE_ERROR_ARRAY_MISSING_START)) := by
  refine ⟨fun hstart hclose => JsonArrayDataLength_no_close json st fuel hstart hclose hf, ?_⟩
  intro hstart
  obtain ⟨f, rfl⟩ : ∃ f, fuel = f + 1 := ⟨fuel - 1, by unfold fuelFor at hf; omega⟩
  exact JsonArrayDataLength_no_start json st f hstart

/-- C8 at `[1,2,3`, which has no `]`, and at `1,2,3]`, which has no `[`. -/
theorem C8_JsonArrayDataLength_missing_witness :
    JsonArrayDataLength 28 (ofString "[1,2,3") JSON_STATE_OK
        = some (1, JSON_STATE_ERROR_ARRAY_MISSING_END) ∧
      JsonArrayDataLength 28 (ofString "1,2,3]") JSON_STATE_OK
        = some (0, JSON_STATE_ERROR_ARRAY_MISSING_START) :=
  ⟨(C8_JsonArrayDataLength_missing (ofString "[1,2,3") JSON_STATE_OK 28 (by decide)).1
      (by decide) (by decide),
    (C8_JsonArrayDataLength_missing (ofString "1,2,3]") JSON_STATE_OK 28 (by decide)).2
      (by decide)⟩

/-! ## C9: a second decimal point -/

theorem JsonNumberDataLength_loop_digits (tail : List Int) (decimalPos : Int)
    (st : JsonState) :
    ∀ (ds : List Int) (pos : Nat), IsDigits ds →
      JsonNumberDataLength_loop (ds ++ tail) pos decimalPos st
        = JsonNumberDataLength_loop tail (pos + ds.length) decimalPos st := by
  intro ds
  induction ds with
  | nil => intro pos _; simp
  | cons c cs ih =>
    intro pos hd
    have hc := hd c (by simp)
    have hcs : IsDigits cs := fun x hx => hd x (List.mem_cons_of_mem c hx)
    have h0 : c ≠ 0 := by omega
    have h46 : c ≠ 46 := by omega
    have hr : ¬ (c < 48 ∨ c > 57) := by omega
    rw [List.cons_append, JsonNumberDataLength_loop]
    simp only [h0, h46, hr, if_false]
    have hp : pos + 1 + cs.length = pos + (c :: cs).length := by
      simp only [List.length_cons]
      omega
    rw [ih (pos + 1) hcs, hp]

theorem JsonNumberDataLength_two_points (d1 d2 rest : List Int) (st : JsonState)
    (h1 : IsDecimal d1) (h2 : IsDigits d2) :
    JsonNumberDataLength (d1 ++ 46 :: (d2 ++ 46 :: rest)) st
      = (0, JSON_STATE_ERROR_TOO_MANY_DECIMALS) := by
  have hpos : 0 < d1.length := List.length_pos.mpr h1.1
  have hpos2 : 0 + d1.length + 1 + d2.length > 0 := by omega
  have hdp : ¬ ((↑(0 + d1.length) : Int) = INVALID_POSITION) := by
    unfold INVALID_POSITION
    omega
  have hpos1 : 0 + d1.length > 0 := by omega
  unfold JsonNumberDataLength
  rw [JsonNumberDataLength_loop_digits _ _ _ d1 0 h1.2, JsonNumberDataLength_loop]
  simp only [show (46 : Int) ≠ 0 by decide, if_false, if_true, hpos1]
  rw [JsonNumberDataLength_loop_digits _ _ _ d2 _ h2, JsonNumberDataLength_loop]
  simp only [show (46 : Int) ≠ 0 by decide, if_false, if_true, hpos2, hdp]

/-- C9: for every buffer `d1 . d2 . rest` with `d1` a non-empty run of decimal digits
and `d2` a possibly empty run of decimal digits, `JsonNumberDataLength` returns 0 and
sets the error state to too-many-decimals. -/
theorem C9_JsonNumberDataLength_too_many_decimals (d1 d2 rest : List Int)
    (st : JsonState) (h1 : IsDecimal d1) (h2 : IsDigits d2) :
    JsonNumberDataLength (d1 ++ 46 :: (d2 ++ 46 :: rest)) st
      = (0, JSON_STATE_ERROR_TOO_MANY_DECIMALS) :=
  JsonNumberDataLength_two_points d1 d2 rest st h1 h2

/-- C9 at `12.3.4`. -/
theorem C9_JsonNumberDataLength_too_many_decimals_witness :
    JsonNumberDataLength ([49, 50] ++ 46 :: ([51] ++ 46 :: [52])) JSON_STATE_OK
      = (0, JSON_STATE_ERROR_TOO_MANY_DECIMALS) :=
  C9_JsonNumberDataLength_too_many_decimals [49, 50] [51] [52] JSON_STATE_OK
    (by decide) (by decide)

/-! ## C10: the key comparison of `JsonSkipToKeyValue` -/

/-- C10 (fails on the code): `JsonSkipToKeyValue` compares only as many bytes as the
key in the buffer holds.  In the body `"a":"x","ab":"y"}` the search key `ab` selects
the pair with key `a`, a proper prefix of it (the cursor returned is offset 4, the
value `"x"`, not offset 13, the value `"y"`); in the body `"":"x","k":"y"}` the
search key `k` selects the pair with the empty key (offset 3, not offset 11). -/
theorem C10_JsonSkipToKeyValue_prefix_selected :
    JsonSkipToKeyValue 72 (ofString "\"a\":\"x\",\"ab\":\"y\"\x7d") (ofString "ab")
        JSON_STATE_OK = some (4, JSON_STATE_OK) ∧
      JsonSkipToKeyValue 68 (ofString "\"\":\"x\",\"k\":\"y\"\x7d") (ofString "k")
        JSON_STATE_OK = some (3, JSON_STATE_OK) := by
  decide

/-! ## C11: the keys of an object in encounter order -/

theorem joinComma_cons_append (close : Int) (rest : List Int) :
    ∀ (x : List Int) (xs : List (List Int)),
      joinComma (x :: xs) ++ close :: rest = x ++ sepTail close rest xs
  | x, [] => by simp [joinComma, sepTail]
  | x, y :: l => by
    have ih := joinComma_cons_append close rest y l
    simp only [joinComma, sepTail, List.append_assoc, List.cons_append, ih]

theorem joinComma_cons_length :
    ∀ (x : List Int) (xs : List (List Int)),
      (joinComma (x :: xs)).length = x.length + sepLength xs
  | x, [] => by simp [joinComma, sepLength]
  | x, y :: l => by
    have ih := joinComma_cons_length y l
    simp only [joinComma, sepLength, List.length_append, List.length_cons, ih]
    omega

theorem sepTail_head (close : Int) (rest : List Int) (xs : List (List Int))
    (hclose : close = 93 ∨ close = 125) :
    ∃ c tail, sepTail close rest xs = c :: tail ∧ (c = 44 ∨ c = 93 ∨ c = 125) := by
  cases xs with
  | nil => exact ⟨close, rest, rfl, by omega⟩
  | cons x l => exact ⟨44, _, rfl, by omega⟩

theorem SKIP_WHITESPACE_quoted (s tail : List Int) : SKIP_WHITESPACE (quoted s ++ tail) = 0 := by
  simp [quoted, SKIP_WHITESPACE, IS_WHITESPACE]

theorem JsonSkipToNextValue_close (rest : List Int) (st : JsonState) :
    JsonSkipToNextValue (125 :: rest) st
      = { json := 0, key := none, keyLength := 0, jsonState := st } := by
  simp [JsonSkipToNextValue, SKIP_WHITESPACE, IS_WHITESPACE, charAt]

theorem JsonSkipToNextValue_first (k tail : List Int) (c : Int) (st : JsonState)
    (hk : IsEscaped k) (hc : 32 < c) :
    JsonSkipToNextValue (quoted k ++ 58 :: c :: tail) st
      = { json := k.length + 3, key := some 0, keyLength := k.length + 2, jsonState := st } := by
  have hstr := JsonStringDataLength_quoted k (58 :: c :: tail) st hk
  have h0 : charAt (quoted k ++ 58 :: c :: tail) 0 = 34 := by simp [quoted, charAt]
  have hd1 : (quoted k ++ 58 :: c :: tail).drop (k.length + 2 + 1) = c :: tail := by
    rw [← List.drop_drop, drop_quoted]
    rfl
  have hw1 := SKIP_WHITESPACE_of_gt 58 (c :: tail) (by decide)
  have hw2 := SKIP_WHITESPACE_of_gt c tail hc
  have hq := charAt_quoted k (58 :: c :: tail)
  have hdq := drop_quoted k (58 :: c :: tail)
  unfold JsonSkipToNextValue
  simp only [SKIP_WHITESPACE_quoted, h0, List.drop_zero, hstr, Nat.zero_add, Nat.add_zero,
    show ¬ ((34 : Int) = 44) by decide, if_false, hdq, hw1, hq, charAt_cons_zero, hd1, hw2,
    show (k.length + 2 ≥ 2) by omega, if_true]
  rw [if_pos (by decide)]

theorem JsonSkipToNextValue_next (k tail : List Int) (c : Int) (st : JsonState)
    (hk : IsEscaped k) (hc : 32 < c) :
    JsonSkipToNextValue (44 :: (quoted k ++ 58 :: c :: tail)) st
      = { json := k.length + 4, key := some 1, keyLength := k.length + 2, jsonState := st } := by
  have hstr := JsonStringDataLength_quoted k (58 :: c :: tail) st hk
  have h0 : charAt (44 :: (quoted k ++ 58 :: c :: tail)) 0 = 44 := charAt_cons_zero _ _
  have hw0 := SKIP_WHITESPACE_of_gt 44 (quoted k ++ 58 :: c :: tail) (by decide)
  have hd1 : (44 :: (quoted k ++ 58 :: c :: tail)).drop (0 + 1) = quoted k ++ 58 :: c :: tail := rfl
  have hd2 : (44 :: (quoted k ++ 58 :: c :: tail)).drop (0 + 1 + (k.length + 2))
      = 58 :: c :: tail := by
    have h : 0 + 1 + (k.length + 2) = (k.length + 2) + 1 := by omega
    rw [h, List.drop_succ_cons, drop_quoted]
  have hc2 : charAt (44 :: (quoted k ++ 58 :: c :: tail)) (0 + 1 + (k.length + 2)) = 58 :=
    charAt_of_drop hd2
  have hd3 : (44 :: (quoted k ++ 58 :: c :: tail)).drop (0 + 1 + (k.length + 2) + 1)
      = c :: tail := by
    rw [← List.drop_drop, hd2]
    rfl
  have hw1 := SKIP_WHITESPACE_of_gt 58 (c :: tail) (by decide)
  have hw2 := SKIP_WHITESPACE_of_gt c tail hc
  have hlen : 1 + (k.length + 2) + 1 = k.length + 4 := by omega
  unfold JsonSkipToNextValue
  simp only [hw0, h0, if_true, hd1, SKIP_WHITESPACE_quoted, Nat.add_zero, hstr, hd2, hw1, hc2,
    hd3, hw2, show (k.length + 2 ≥ 2) by omega, Nat.zero_add]
  rw [if_pos (by decide), hlen]

theorem JsonObjectKeys_loop_step (fuel count : Nat) (json v tail : List Int)
    (cursor adv keyOff keyLength : Nat) (st : JsonState)
    (keys : List (Nat × Nat × Nat)) (last : JsonNextValue)
    (hr : JsonSkipToNextValue (json.drop cursor) st
      = { json := adv, key := some keyOff, keyLength := keyLength, jsonState := st })
    (hlen : 2 ≤ keyLength) (hv : IsEscaped v)
    (hd : json.drop (cursor + adv) = quoted v ++ tail)
    (hnext : JsonObjectKeys_loop (fuel + 1) json count (cursor + adv + (v.length + 2)) st
      = some (keys, last)) :
    JsonObjectKeys_loop (fuel + 1) json (count + 1) cursor st
      = some ((cursor + keyOff, keyLength, cursor + adv) :: keys, last) := by
  have hval : JsonValueDataLength (fuel + 1) (json.drop (cursor + adv)) st
      = some (v.length + 2, st) := by
    rw [hd]
    exact JsonValueDataLength_quoted fuel v tail st hv
  have hlt : ¬ keyLength < 2 := by omega
  rw [JsonObjectKeys_loop]
  simp only [hr, hlt, if_false, hval, hnext, Option.getD_some]

theorem JsonObjectKeys_loop_tail (fuel : Nat) (json rest : List Int) (st : JsonState) :
    ∀ (pairs : List (List Int × List Int)) (cursor count : Nat),
      (∀ kv ∈ pairs, IsEscaped kv.1 ∧ IsEscaped kv.2) →
      json.drop cursor = sepTail 125 rest (pairs.map pairText) →
      pairs.length + 1 ≤ count →
      JsonObjectKeys_loop (fuel + 1) json count cursor st
        = some (expectedKeys pairs (cursor + 1),
            { json := cursor + sepLength (pairs.map pairText), key := none, keyLength := 0,
              jsonState := st }) := by
  intro pairs
  induction pairs with
  | nil =>
    intro cursor count _ hd hc
    obtain ⟨n, rfl⟩ : ∃ n, count = n + 1 := ⟨count - 1, by simp at hc; omega⟩
    simp only [List.map_nil, sepTail] at hd
    rw [JsonObjectKeys_loop]
    simp [hd, JsonSkipToNextValue_close, expectedKeys, sepLength]
  | cons kv t ih =>
    intro cursor count hs hd hc
    have hkv := hs kv (by simp)
    have ht : ∀ p ∈ t, IsEscaped p.1 ∧ IsEscaped p.2 :=
      fun p h => hs p (List.mem_cons_of_mem kv h)
    obtain ⟨n, rfl⟩ : ∃ n, count = n + 1 := ⟨count - 1, by simp at hc; omega⟩
    have hd1 : json.drop cursor = 44 :: (quoted kv.1 ++ 58 :: 34 ::
        (kv.2 ++ 34 :: sepTail 125 rest (t.map pairText))) := by
      simpa [sepTail, pairText, quoted] using hd
    have hr := JsonSkipToNextValue_next kv.1 (kv.2 ++ 34 :: sepTail 125 rest (t.map pairText))
      34 st hkv.1 (by decide)
    rw [← hd1] at hr
    have hd2 : json.drop (cursor + (kv.1.length + 4))
        = quoted kv.2 ++ sepTail 125 rest (t.map pairText) := by
      have h3 : json.drop cursor = (44 :: (quoted kv.1 ++ [58])) ++
          (quoted kv.2 ++ sepTail 125 rest (t.map pairText)) := by
        simpa [quoted] using hd1
      have h4 := drop_add_length h3
      have h5 : (44 :: (quoted kv.1 ++ [58])).length = kv.1.length + 4 := by
        simp [quoted]
      rwa [h5] at h4
    have hd3 : json.drop (cursor + (kv.1.length + 4) + (kv.2.length + 2))
        = sepTail 125 rest (t.map pairText) := by
      have h4 := drop_add_length hd2
      rwa [quoted_length] at h4
    have hih := ih (cursor + (kv.1.length + 4) + (kv.2.length + 2)) n ht hd3
      (by simp at hc; omega)
    rw [JsonObjectKeys_loop_step fuel n json kv.2 _ cursor (kv.1.length + 4) 1
      (kv.1.length + 2) st _ _ hr (by omega) hkv.2 hd2 hih]
    have hp := pairText_length kv
    simp only [expectedKeys, List.map_cons, sepLength, hp]
    have e1 : cursor + (kv.1.length + 4) = cursor + 1 + kv.1.length + 3 := by omega
    have e2 : cursor + (kv.1.length + 4) + (kv.2.length + 2) + 1
        = cursor + 1 + (kv.1.length + kv.2.length + 5) + 1 := by omega
    have e3 : cursor + (kv.1.length + 4) + (kv.2.length + 2) + sepLength (t.map pairText)
        = cursor + (1 + (kv.1.length + kv.2.length + 5) + sepLength (t.map pairText)) := by
      omega
    rw [e2, e3, e1]

theorem JsonObjectKeys_loop_pairs (fuel : Nat) (rest : List Int) (st : JsonState)
    (pairs : List (List Int × List Int)) (count : Nat)
    (hs : ∀ kv ∈ pairs, IsEscaped kv.1 ∧ IsEscaped kv.2) (hc : pairs.length + 1 ≤ count) :
    JsonObjectKeys_loop (fuel + 1) (joinComma (pairs.map pairText) ++ 125 :: rest) count 0 st
      = some (expectedKeys pairs 0,
          { json := (joinComma (pairs.map pairText)).length, key := none, keyLength := 0,
            jsonState := st }) := by
  cases pairs with
  | nil =>
    obtain ⟨n, rfl⟩ : ∃ n, count = n + 1 := ⟨count - 1, by simp at hc; omega⟩
    rw [JsonObjectKeys_loop]
    simp [joinComma, JsonSkipToNextValue_close, expectedKeys]
  | cons kv t =>
    have hkv := hs kv (by simp)
    have ht : ∀ p ∈ t, IsEscaped p.1 ∧ IsEscaped p.2 :=
      fun p h => hs p (List.mem_cons_of_mem kv h)
    obtain ⟨n, rfl⟩ : ∃ n, count = n + 1 := ⟨count - 1, by simp at hc; omega⟩
    have hj := joinComma_cons_append 125 rest (pairText kv) (t.map pairText)
    have hjl := joinComma_cons_length (pairText kv) (t.map pairText)
    rw [List.map_cons, hj, hjl]
    generalize hjson : pairText kv ++ sepTail 125 rest (t.map pairText) = json
    have hd1 : json.drop 0 = quoted kv.1 ++ 58 :: 34 ::
        (kv.2 ++ 34 :: sepTail 125 rest (t.map pairText)) := by
      rw [← hjson]
      simp [pairText, quoted]
    have hr := JsonSkipToNextValue_first kv.1 (kv.2 ++ 34 :: sepTail 125 rest (t.map pairText))
      34 st hkv.1 (by decide)
    rw [← hd1] at hr
    have hd2 : json.drop (0 + (kv.1.length + 3))
        = quoted kv.2 ++ sepTail 125 rest (t.map pairText) := by
      have h3 : json.drop 0 = (quoted kv.1 ++ [58]) ++
          (quoted kv.2 ++ sepTail 125 rest (t.map pairText)) := by
        simpa [quoted] using hd1
      have h4 := drop_add_length h3
      have h5 : (quoted kv.1 ++ [58]).length = kv.1.length + 3 := by
        simp [quoted]
      rwa [h5] at h4
    have hd3 : json.drop (0 + (kv.1.length + 3) + (kv.2.length + 2))
        = sepTail 125 rest (t.map pairText) := by
      have h4 := drop_add_length hd2
      rwa [quoted_length] at h4
    have hih := JsonObjectKeys_loop_tail fuel json rest st t
      (0 + (kv.1.length + 3) + (kv.2.length + 2)) n ht hd3 (by simp at hc; omega)
    rw [JsonObjectKeys_loop_step fuel n json kv.2 _ 0 (kv.1.length + 3) 0
      (kv.1.length + 2) st _ _ hr (by omega) hkv.2 hd2 hih]
    have hp := pairText_length kv
    simp only [expectedKeys, hp]
    have e1 : 0 + (kv.1.length + 3) = 0 + kv.1.length + 3 := by omega
    have e2 : 0 + (kv.1.length + 3) + (kv.2.length + 2) + 1
        = 0 + (kv.1.length + kv.2.length + 5) + 1 := by omega
    have e3 : 0 + (kv.1.length + 3) + (kv.2.length + 2) + sepLength (t.map pairText)
        = kv.1.length + kv.2.length + 5 + sepLength (t.map pairText) := by omega
    rw [e2, e3, e1]

/-- C11: for every object body made of pairs `"k":"v"` whose keys and values are string
bodies (plain bytes and escape pairs, so every quote-free string without a dangling
backslash), joined by `,` and closed by `}`, the enumeration
`cursor := JsonSkipToNextValue(cursor); cursor := cursor + JsonValueDataLength(cursor)`
reports the keys in encounter order, each with key length `len(k) + 2` and the cursor
at the first byte of its value, then reports key length 0 (and no key) with the
cursor at `}`, and writes no error code. -/
theorem C11_JsonSkipToNextValue_order (pairs : List (List Int × List Int))
    (rest : List Int) (st : JsonState) (fuel count : Nat)
    (hs : ∀ kv ∈ pairs, IsEscaped kv.1 ∧ IsEscaped kv.2)
    (hf : fuelFor (joinComma (pairs.map pairText) ++ 125 :: rest) ≤ fuel)
    (hc : pairs.length + 1 ≤ count) :
    JsonObjectKeys_loop fuel (joinComma (pairs.map pairText) ++ 125 :: rest) count 0 st
      = some (expectedKeys pairs 0,
          { json := (joinComma (pairs.map pairText)).length, key := none, keyLength := 0,
            jsonState := st }) := by
  obtain ⟨f, rfl⟩ : ∃ f, fuel = f + 1 := ⟨fuel - 1, by unfold fuelFor at hf; omega⟩
  exact JsonObjectKeys_loop_pairs f rest st pairs count hs hc

/-- C11 at the body `"k1":"v1","k2":"v2"}`: the keys at offsets 0 and 10, both of
length 4, with their values at offsets 5 and 15, then the end at offset 19. -/
theorem C11_JsonSkipToNextValue_order_witness :
    JsonObjectKeys_loop 84
        (joinComma ([(ofString "k1", ofString "v1"), (ofString "k2", ofString "v2")].map
          pairText) ++ 125 :: []) 3 0 JSON_STATE_OK
      = some ([(0, 4, 5), (10, 4, 15)],
          { json := 19, key := none, keyLength := 0, jsonState := JSON_STATE_OK }) :=
  C11_JsonSkipToNextValue_order [(ofString "k1", ofString "v1"), (ofString "k2", ofString "v2")]
    [] JSON_STATE_OK 84 3 (by simp [ofString, IsEscaped]) (by decide) (by decide)

/-- C11 fails for the key that is one backslash, a non-empty quote-free string: in the
body `"\":"v"}` the backslash escapes the closing quote of the key, so the string that
`JsonStringDataLength` measures is `"\":"` and the key is reported with length 5, not
3, with the cursor at the terminating NUL (offset 8), not at the value (offset 4), and
error codes are written; the keys that the claim expects are listed last. -/
theorem C11_counterexample :
    JsonSkipToNextValue (joinComma ([([92], [118])].map pairText) ++ 125 :: [])
        JSON_STATE_OK
      = { json := 8, key := some 0, keyLength := 5,
          jsonState := JSON_STATE_ERROR_OBJECT_MISSING_VALUE_START } ∧
    JsonObjectKeys_loop 36 (joinComma ([([92], [118])].map pairText) ++ 125 :: []) 2 0
        JSON_STATE_OK
      = some ([(0, 5, 8)],
          { json := 8, key := none, keyLength := 0,
            jsonState := JSON_STATE_ERROR_VALUE_INVALID }) ∧
    expectedKeys [([92], [118])] 0 = [(0, 3, 4)] := by
  decide

/-! ## C12: a search key that no key of the object equals -/

/-- C12 (fails on the code): in the object body `"a":"x"}` no key equals the search key
`ab`, and `JsonSkipToKeyValue` does not return the cursor at the closing `}` (offset 7):
it returns offset 4, the value of the key `a`, because the comparison
`strncmp((json + 1), key, (keyLength - 2))` stops after the one byte of the key `a`.
The search key `b`, of which `a` is no prefix, does give offset 7. -/
theorem C12_JsonSkipToKeyValue_not_at_close :
    JsonSkipToKeyValue 36 (ofString "\"a\":\"x\"\x7d") (ofString "ab") JSON_STATE_OK
        = some (4, JSON_STATE_OK) ∧
      charAt (ofString "\"a\":\"x\"\x7d") 7 = 125 ∧
      JsonSkipToKeyValue 36 (ofString "\"a\":\"x\"\x7d") (ofString "b") JSON_STATE_OK
        = some (7, JSON_STATE_OK) := by
  decide

/-! ## C13: the key length reported with an error -/

theorem JsonStringDataLength_loop_state (st : JsonState) :
    ∀ (n : Nat) (json : List Int) (pos len : Nat) (st1 : JsonState), json.length ≤ n →
      JsonStringDataLength_loop json pos st = (some len, st1) → st1 = st := by
  intro n
  induction n with
  | zero =>
    intro json pos len st1 hlen h
    have hj : json = [] := List.length_eq_zero.mp (by omega)
    subst hj
    simp [JsonStringDataLength_loop] at h
  | succ n ih =>
    intro json pos len st1 hlen h
    match json, hlen, h with
    | [], _, h => simp [JsonStringDataLength_loop] at h
    | [c], _, h =>
      simp only [JsonStringDataLength_loop] at h
      split_ifs at h <;> simp_all [JsonStringDataLength_loop]
    | c :: d :: r, hlen, h =>
      simp only [JsonStringDataLength_loop] at h
      have hl : r.length + 2 ≤ n + 1 := by simpa using hlen
      split_ifs at h
      · simp at h
      · simp only [Prod.mk.injEq] at h
        exact h.2.symm
      · simp at h
      · exact ih r _ _ _ (by omega) h
      · exact ih (d :: r) _ _ _ (by simp; omega) h

theorem JsonStringDataLength_state (json : List Int) (st st1 : JsonState) (len : Nat)
    (h : JsonStringDataLength json st = (len, st1)) (hlen : 2 ≤ len) : st1 = st := by
  unfold JsonStringDataLength at h
  split_ifs at h with h0
  · simp only [Prod.mk.injEq] at h
    omega
  · cases hl : JsonStringDataLength_loop (json.drop 1) 1 st with
    | mk o st2 =>
      rw [hl] at h
      cases o with
      | none =>
        simp only [Prod.mk.injEq] at h
        omega
      | some m =>
        simp only [Prod.mk.injEq] at h
        have h2 := JsonStringDataLength_loop_state st _ (json.drop 1) 1 m st2 (le_refl _) hl
        rw [← h.2, h2]

theorem charAt_SKIP_TO_NULL : ∀ (json : List Int), charAt json (SKIP_TO_NULL json) = 0
  | [] => by simp [SKIP_TO_NULL, charAt]
  | c :: cs => by
    by_cases hc : c = 0
    · simp [SKIP_TO_NULL, hc, charAt]
    · simp only [SKIP_TO_NULL, ne_eq, hc, not_false_eq_true, if_true, charAt_cons_succ]
      exact charAt_SKIP_TO_NULL cs

theorem charAt_add_SKIP_TO_NULL (json : List Int) (pos : Nat) :
    charAt json (pos + SKIP_TO_NULL (json.drop pos)) = 0 := by
  rw [← charAt_drop]
  exact charAt_SKIP_TO_NULL _

/-- C13 (the claim as stated fails): on the buffer `"a"x` the call writes
object-missing-value-start and reports the key at offset 0 with key length 3. -/
theorem C13_counterexample :
    JsonSkipToNextValue (ofString "\"a\"x") JSON_STATE_OK
      = { json := 4, key := some 0, keyLength := 3,
          jsonState := JSON_STATE_ERROR_OBJECT_MISSING_VALUE_START } := by
  decide

/-- C13 (amended): for every buffer, if the call of `JsonSkipToNextValue` changes the
error state then either no key was found, and the key length reported is below 2 and
the key pointer is null, or a key was found that no `:` follows, and then the error is
object-missing-value-start, the key is reported (length 2 or more, pointer not null)
and the cursor returned is at the terminating NUL. -/
theorem C13_JsonSkipToNextValue_error (json : List Int) (st : JsonState)
    (herr : (JsonSkipToNextValue json st).jsonState ≠ st) :
    ((JsonSkipToNextValue json st).keyLength < 2 ∧ (JsonSkipToNextValue json st).key = none) ∨
      ((JsonSkipToNextValue json st).jsonState = JSON_STATE_ERROR_OBJECT_MISSING_VALUE_START ∧
        2 ≤ (JsonSkipToNextValue json st).keyLength ∧
        (JsonSkipToNextValue json st).key ≠ none ∧
        charAt json (JsonSkipToNextValue json st).json = 0) := by
  unfold JsonSkipToNextValue at herr ⊢
  simp only at herr ⊢
  split_ifs at herr ⊢
  · exact absurd (JsonStringDataLength_state _ _ _ _ rfl (by assumption)) herr
  · right
    exact ⟨rfl, by assumption, by simp, charAt_add_SKIP_TO_NULL _ _⟩
  · left
    exact ⟨by simp only; omega, rfl⟩
  · exact absurd (JsonStringDataLength_state _ _ _ _ rfl (by assumption)) herr
  · right
    exact ⟨rfl, by assumption, by simp, charAt_add_SKIP_TO_NULL _ _⟩
  · left
    exact ⟨by simp only; omega, rfl⟩
  · exact absurd rfl herr

/-- C13 (amended), at the buffers `"a"x` (a key without `:`) and `x` (no key). -/
theorem C13_JsonSkipToNextValue_error_witness :
    ((JsonSkipToNextValue (ofString "\"a\"x") JSON_STATE_OK).jsonState
        = JSON_STATE_ERROR_OBJECT_MISSING_VALUE_START ∧
      2 ≤ (JsonSkipToNextValue (ofString "\"a\"x") JSON_STATE_OK).keyLength) ∧
    ((JsonSkipToNextValue (ofString "x") JSON_STATE_OK).keyLength < 2 ∨
      (JsonSkipToNextValue (ofString "x") JSON_STATE_OK).jsonState
        = JSON_STATE_ERROR_OBJECT_MISSING_VALUE_START) :=
  ⟨by decide,
    (C13_JsonSkipToNextValue_error (ofString "x") JSON_STATE_OK (by decide)).elim
      (fun h => Or.inl h.1) (fun h => Or.inr h.1)⟩

/-! ## C14, C15: the iteration over an array -/

theorem Element.text_head (e : Element) :
    ∃ c tail, e.text = c :: tail ∧ (c = 34 ∨ c = 123) := by
  cases e with
  | str s => exact ⟨34, s ++ [34], rfl, Or.inl rfl⟩
  | obj pairs => exact ⟨123, joinComma (pairs.map pairText) ++ [125], rfl, Or.inr rfl⟩

theorem Element.text_length_pos (e : Element) : 0 < e.text.length := by
  obtain ⟨c, tail, h, _⟩ := e.text_head
  rw [h]
  simp

theorem JsonSkip_element (e : Element) (c : Int) (tail : List Int) (st : JsonState)
    (fuel : Nat) (he : e.IsValid) (hc : c = 44 ∨ c = 93) (hf : fuelFor e.text ≤ fuel) :
    JsonSkip fuel (e.text ++ c :: tail) st = some (e.text.length, st) := by
  obtain ⟨f, rfl⟩ : ∃ f, fuel = f + 1 := ⟨fuel - 1, by unfold fuelFor at hf; omega⟩
  cases e with
  | str s =>
    have h := JsonSkip_quoted f s tail c st he (by omega)
    simpa [Element.text, quoted_length] using h
  | obj pairs =>
    have hlen := joinComma_pairText_length pairs
    have hobj := JsonObjectDataLength_pairs pairs (c :: tail) st f he
      (by simp [fuelFor, Element.text] at hf; omega)
    have htext : (Element.obj pairs).text ++ c :: tail
        = 123 :: (joinComma (pairs.map pairText) ++ 125 :: c :: tail) := by
      simp [Element.text]
    have hd : (123 :: (joinComma (pairs.map pairText) ++ 125 :: c :: tail)).drop
        ((joinComma (pairs.map pairText)).length + 2) = c :: tail := by
      have h1 : (123 :: (joinComma (pairs.map pairText) ++ 125 :: c :: tail))
          = (123 :: (joinComma (pairs.map pairText) ++ [125])) ++ c :: tail := by simp
      have h2 : (123 :: (joinComma (pairs.map pairText) ++ [125])).length
          = (joinComma (pairs.map pairText)).length + 2 := by simp
      rw [h1, ← h2, List.drop_left]
    have h32 : 32 < c := by omega
    rw [htext, JsonSkip]
    simp only [charAt_cons_zero, hobj, hd, SKIP_WHITESPACE_of_gt c tail h32]
    simp [Element.text]

theorem SKIP_WHITESPACE_element (e : Element) (tail : List Int) :
    SKIP_WHITESPACE (e.text ++ tail) = 0 := by
  obtain ⟨c, t, h, hc⟩ := e.text_head
  rw [h, List.cons_append]
  exact SKIP_WHITESPACE_of_gt c _ (by omega)

theorem JsonArrayNextIndex_first (e : Element) (tail : List Int) (st : JsonState)
    (fuel : Nat) :
    JsonArrayNextIndex fuel (e.text ++ tail) INVALID_POSITION st = some (0, 0, st) := by
  obtain ⟨c, t, h, hc⟩ := e.text_head
  have hw := SKIP_WHITESPACE_element e tail
  have h0 : charAt (e.text ++ tail) 0 = c := by rw [h]; rfl
  have hne : ¬ (c = 93 ∨ c = 0) := by omega
  unfold JsonArrayNextIndex
  simp only [hw, h0, hne, if_false, if_true]

theorem JsonArrayNextIndex_end (rest : List Int) (index : Int) (st : JsonState)
    (fuel : Nat) :
    JsonArrayNextIndex fuel (93 :: rest) index st = some (0, INVALID_POSITION, st) := by
  unfold JsonArrayNextIndex
  simp [SKIP_WHITESPACE, IS_WHITESPACE, charAt]

theorem JsonArrayNextIndex_comma (e : Element) (c : Int) (tail : List Int) (index : Int)
    (st : JsonState) (fuel : Nat) (he : e.IsValid) (hc : 32 < c)
    (hi : index ≠ INVALID_POSITION) (hf : fuelFor e.text ≤ fuel) :
    JsonArrayNextIndex fuel (e.text ++ 44 :: c :: tail) index st
      = some (e.text.length + 1, index + 1, st) := by
  obtain ⟨c0, t0, h, hc0⟩ := e.text_head
  have hw := SKIP_WHITESPACE_element e (44 :: c :: tail)
  have h0 : charAt (e.text ++ 44 :: c :: tail) 0 = c0 := by rw [h]; rfl
  have hne : ¬ (c0 = 93 ∨ c0 = 0) := by omega
  have hsk := JsonSkip_element e 44 (c :: tail) st fuel he (by omega) hf
  have hpos := e.text_length_pos
  have hlen : e.text.length ≠ 0 := by omega
  have hd0 : (e.text ++ 44 :: c :: tail).drop 0 = e.text ++ 44 :: c :: tail := rfl
  have hc1 : charAt (e.text ++ 44 :: c :: tail) (0 + e.text.length) = 44 :=
    charAt_add_of_drop hd0
  have hd1 : (e.text ++ 44 :: c :: tail).drop (0 + e.text.length + 1) = c :: tail := by
    have h1 : (e.text ++ 44 :: c :: tail) = (e.text ++ [44]) ++ c :: tail := by simp
    have h2 : (e.text ++ [44]).length = 0 + e.text.length + 1 := by simp
    rw [h1, ← h2, List.drop_left]
  simp only [Nat.zero_add] at hc1 hd1
  unfold JsonArrayNextIndex
  simp only [hw, h0, hne, hi, if_false, List.drop_zero, hsk, ne_eq, hlen,
    not_false_eq_true, if_true, hc1, hd1, SKIP_WHITESPACE_of_gt c tail hc, Nat.zero_add,
    Nat.add_zero]

theorem JsonArrayNextIndex_close (e : Element) (rest : List Int) (index : Int)
    (st : JsonState) (fuel : Nat) (he : e.IsValid)
    (hi : index ≠ INVALID_POSITION) (hf : fuelFor e.text ≤ fuel) :
    JsonArrayNextIndex fuel (e.text ++ 93 :: rest) index st
      = some (e.text.length, INVALID_POSITION, st) := by
  obtain ⟨c0, t0, h, hc0⟩ := e.text_head
  have hw := SKIP_WHITESPACE_element e (93 :: rest)
  have h0 : charAt (e.text ++ 93 :: rest) 0 = c0 := by rw [h]; rfl
  have hne : ¬ (c0 = 93 ∨ c0 = 0) := by omega
  have hsk := JsonSkip_element e 93 rest st fuel he (by omega) hf
  have hpos := e.text_length_pos
  have hlen : e.text.length ≠ 0 := by omega
  have hd0 : (e.text ++ 93 :: rest).drop 0 = e.text ++ 93 :: rest := rfl
  have hc1 : charAt (e.text ++ 93 :: rest) (0 + e.text.length) = 93 :=
    charAt_add_of_drop hd0
  simp only [Nat.zero_add] at hc1
  unfold JsonArrayNextIndex
  simp only [hw, h0, hne, hi, if_false, List.drop_zero, hsk, ne_eq, hlen,
    not_false_eq_true, if_true, hc1, Nat.zero_add]
  simp

theorem JsonArrayElements_loop_exit (fuel count : Nat)
    (json : List Int) (cursor : Nat) (st : JsonState) :
    JsonArrayElements_loop fuel json (count + 1) cursor INVALID_POSITION st
      = some ([], cursor, st) := by
  rw [JsonArrayElements_loop]
  simp

theorem length_le_joinComma : ∀ (xs : List (List Int)) (x : List Int),
    x ∈ xs → x.length ≤ (joinComma xs).length
  | [], x, h => by simp at h
  | [y], x, h => by
    have hx : x = y := by simpa using h
    rw [hx]
    simp [joinComma]
  | y :: z :: l, x, h => by
    simp only [joinComma, List.length_append, List.length_cons]
    rcases List.mem_cons.mp h with hx | hx
    · rw [hx]
      omega
    · have ih := length_le_joinComma (z :: l) x hx
      omega

theorem JsonArrayElements_loop_elements (fuel : Nat) (json rest : List Int)
    (st : JsonState) :
    ∀ (t : List Element) (e : Element) (cursor : Nat) (index : Int) (count : Nat),
      0 ≤ index → e.IsValid → fuelFor e.text ≤ fuel →
      (∀ x ∈ t, x.IsValid ∧ fuelFor x.text ≤ fuel) →
      json.drop cursor = e.text ++ sepTail 93 rest (t.map Element.text) →
      t.length + 2 ≤ count →
      JsonArrayElements_loop fuel json count cursor index st
        = some ((index, cursor)
              :: expectedElements t (index + 1) (cursor + e.text.length + 1),
            cursor + e.text.length + sepLength (t.map Element.text), st) := by
  intro t
  induction t with
  | nil =>
    intro e cursor index count hi he hf _ hd hc
    obtain ⟨n, rfl⟩ : ∃ n, count = n + 1 + 1 := ⟨count - 2, by simp at hc; omega⟩
    have hne : index ≠ INVALID_POSITION := by unfold INVALID_POSITION; omega
    simp only [List.map_nil, sepTail] at hd
    have hnx := JsonArrayNextIndex_close e rest index st fuel he hne hf
    rw [← hd] at hnx
    rw [JsonArrayElements_loop]
    simp only [ne_eq, hne, not_false_eq_true, if_true, hnx, JsonArrayElements_loop_exit]
    simp [expectedElements, sepLength]
  | cons e2 t2 ih =>
    intro e cursor index count hi he hf ht hd hc
    obtain ⟨n, rfl⟩ : ∃ n, count = n + 1 := ⟨count - 1, by simp at hc; omega⟩
    have hne : index ≠ INVALID_POSITION := by unfold INVALID_POSITION; omega
    have he2 := ht e2 (by simp)
    have ht2 : ∀ x ∈ t2, x.IsValid ∧ fuelFor x.text ≤ fuel :=
      fun x h => ht x (List.mem_cons_of_mem e2 h)
    obtain ⟨c0, t0, hh, hc0⟩ := e2.text_head
    have hd1 : json.drop cursor
        = e.text ++ 44 :: c0 :: (t0 ++ sepTail 93 rest (t2.map Element.text)) := by
      rw [hd]
      simp [sepTail, hh]
    have hnx := JsonArrayNextIndex_comma e c0 (t0 ++ sepTail 93 rest (t2.map Element.text))
      index st fuel he (by omega) hne hf
    rw [← hd1] at hnx
    have hd2 : json.drop (cursor + (e.text.length + 1))
        = e2.text ++ sepTail 93 rest (t2.map Element.text) := by
      have h1 : json.drop cursor = (e.text ++ [44]) ++
          (e2.text ++ sepTail 93 rest (t2.map Element.text)) := by
        rw [hd]
        simp [sepTail]
      have h2 := drop_add_length h1
      have h3 : (e.text ++ [44]).length = e.text.length + 1 := by simp
      rwa [h3] at h2
    have hih := ih e2 (cursor + (e.text.length + 1)) (index + 1) n (by omega) he2.1 he2.2
      ht2 hd2 (by simp at hc; omega)
    rw [JsonArrayElements_loop]
    simp only [ne_eq, hne, not_false_eq_true, if_true, hnx, hih]
    simp only [expectedElements, List.map_cons, sepLength]
    have e1 : cursor + (e.text.length + 1) = cursor + e.text.length + 1 := by omega
    have e2' : cursor + e.text.length + 1 + e2.text.length + sepLength (t2.map Element.text)
        = cursor + e.text.length + (1 + e2.text.length + sepLength (t2.map Element.text)) := by
      omega
    rw [e1, e2']

theorem JsonArrayElements_elements (fuel count : Nat) (rest : List Int) (st : JsonState)
    (elems : List Element) (hv : ∀ x ∈ elems, x.IsValid ∧ fuelFor x.text ≤ fuel)
    (hc : elems.length + 1 ≤ count) :
    JsonArrayElements fuel count
        (joinComma (elems.map Element.text) ++ 93 :: rest) st
      = some (expectedElements elems 0 0, (joinComma (elems.map Element.text)).length, st) := by
  cases elems with
  | nil =>
    obtain ⟨n, rfl⟩ : ∃ n, count = n + 1 := ⟨count - 1, by simp at hc; omega⟩
    unfold JsonArrayElements
    simp only [List.map_nil, joinComma, List.nil_append, JsonArrayNextIndex_end,
      JsonArrayElements_loop_exit]
    simp [expectedElements]
  | cons e t =>
    have he := hv e (by simp)
    have ht : ∀ x ∈ t, x.IsValid ∧ fuelFor x.text ≤ fuel :=
      fun x h => hv x (List.mem_cons_of_mem e h)
    have hj := joinComma_cons_append 93 rest e.text (t.map Element.text)
    have hjl := joinComma_cons_length e.text (t.map Element.text)
    rw [List.map_cons, hj, hjl]
    have hl := JsonArrayElements_loop_elements fuel
      (e.text ++ sepTail 93 rest (t.map Element.text)) rest st t e 0 0 count (le_refl 0)
      he.1 he.2 ht rfl (by simp at hc; omega)
    unfold JsonArrayElements
    simp only [JsonArrayNextIndex_first, hl]
    simp [expectedElements]

/-- C14: for every array body of `n >= 0` elements, each a quoted string body or a flat
object of string pairs (keys and values string bodies), separated by `,` and closed by
`]`, the iteration that starts `JsonArrayNextIndex` with `INVALID_POSITION` and calls it
again with each index and cursor it returns visits the indices `0, 1, ..., n-1`, each
with the cursor at the first byte of that element, ends with `INVALID_POSITION` and
the cursor at `]`, and writes no error code. -/
theorem C14_JsonArrayNextIndex_enumerates (elems : List Element) (rest : List Int)
    (st : JsonState) (fuel count : Nat) (hv : ∀ x ∈ elems, x.IsValid)
    (hf : fuelFor (joinComma (elems.map Element.text) ++ 93 :: rest) ≤ fuel)
    (hc : elems.length + 1 ≤ count) :
    JsonArrayElements fuel count
        (joinComma (elems.map Element.text) ++ 93 :: rest) st
      = some (expectedElements elems 0 0, (joinComma (elems.map Element.text)).length, st) := by
  refine JsonArrayElements_elements fuel count rest st elems ?_ hc
  intro x hx
  refine ⟨hv x hx, ?_⟩
  have h1 := length_le_joinComma (elems.map Element.text) x.text (List.mem_map_of_mem _ hx)
  simp only [fuelFor, List.length_append, List.length_cons] at hf ⊢
  omega

/-- C14 at the body `"a",{"k":"v"},"b"]`: the indices 0, 1, 2 with the cursors 0, 4, 14,
then the end at offset 17. -/
theorem C14_JsonArrayNextIndex_enumerates_witness :
    JsonArrayElements 76 4
        (joinComma ([Element.str [97], Element.obj [([107], [118])], Element.str [98]].map
          Element.text) ++ 93 :: []) JSON_STATE_OK
      = some ([(0, 0), (1, 4), (2, 14)], 17, JSON_STATE_OK) :=
  C14_JsonArrayNextIndex_enumerates
    [Element.str [97], Element.obj [([107], [118])], Element.str [98]] [] JSON_STATE_OK 76 4
    (by simp [Element.IsValid, IsEscaped]) (by decide) (by decide)

/-- C14 fails for the element that is one backslash, a quote-free quoted string: in the
body `"\"]` the backslash escapes the closing quote, so the string has no end; the
iteration visits index 0 and then ends with the cursor at the terminating NUL (offset
4), not at `]` (offset 3), and the error string-missing-end is written. -/
theorem C14_counterexample :
    JsonArrayElements 20 2 (joinComma ([Element.str [92]].map Element.text) ++ 93 :: [])
        JSON_STATE_OK
      = some ([(0, 0)], 4, JSON_STATE_ERROR_STRING_MISSING_END) ∧
    (joinComma ([Element.str [92]].map Element.text)).length = 3 := by
  decide

/-- C15 (fails on the code): on the buffer `{"a":[},"b"]` with current index 0,
`JsonArrayNextIndex` writes array-missing-end and still returns index 1, with the
cursor at offset 8: `JsonSkip` advances over the object although the value after `:`
is an unterminated array (the `:` case accepts any value length above 0). -/
theorem C15_JsonArrayNextIndex_index_with_error :
    JsonArrayNextIndex 56 (ofString "\x7b\"a\":[\x7d,\"b\"]") 0 JSON_STATE_OK
      = some (8, 1, JSON_STATE_ERROR_ARRAY_MISSING_END) := by
  decide

theorem JsonArrayNextIndex_advances (json : List Int) (index : Int) (st : JsonState)
    (fuel : Nat) (hf : fuelFor json ≤ fuel) (hi : index ≠ INVALID_POSITION) :
    ∃ next index1 st1, JsonArrayNextIndex fuel json index st = some (next, index1, st1) ∧
      (index1 = INVALID_POSITION ∨ (0 < next ∧ json ≠ [])) := by
  unfold JsonArrayNextIndex
  simp only
  by_cases hend : charAt json (SKIP_WHITESPACE json) = 93 ∨ charAt json (SKIP_WHITESPACE json) = 0
  · exact ⟨_, _, _, by rw [if_pos hend], Or.inl rfl⟩
  · have hne : json ≠ [] := by
      intro h
      apply hend
      right
      rw [h]
      exact charAt_nil _
    have hsome := JsonSkip_drop_isSome json (SKIP_WHITESPACE json) fuel st
      (by unfold fuelFor at hf; omega)
    obtain ⟨⟨skip, st1⟩, hr⟩ := Option.isSome_iff_exists.mp hsome
    rw [if_neg hend, if_neg hi, hr]
    simp only
    by_cases hk : skip = 0
    · simp only [hk, ne_eq, not_true_eq_false, if_false]
      exact ⟨_, _, _, rfl, Or.inl rfl⟩
    · simp only [ne_eq, hk, not_false_eq_true, if_true]
      split_ifs
      · exact ⟨_, _, _, rfl, Or.inr ⟨by omega, hne⟩⟩
      · exact ⟨_, _, _, rfl, Or.inl rfl⟩
      · exact ⟨_, _, _, rfl, Or.inl rfl⟩

theorem JsonArrayElements_loop_isSome (fuel : Nat)
    (json : List Int) (hf : fuelFor json ≤ fuel) :
    ∀ (count cursor : Nat) (index : Int) (st : JsonState),
      json.length - cursor + 2 ≤ count →
      (JsonArrayElements_loop fuel json count cursor index st).isSome := by
  intro count
  induction count with
  | zero => intro cursor index st h; omega
  | succ n ih =>
    intro cursor index st hc
    rw [JsonArrayElements_loop]
    by_cases hi : index = INVALID_POSITION
    · simp [hi]
    · have hl : (json.drop cursor).length = json.length - cursor := List.length_drop cursor json
      have hfd : fuelFor (json.drop cursor) ≤ fuel := by
        unfold fuelFor at hf ⊢
        omega
      obtain ⟨next, index1, st1, hr, hprog⟩ :=
        JsonArrayNextIndex_advances (json.drop cursor) index st fuel hfd hi
      simp only [ne_eq, hi, not_false_eq_true, if_true, hr]
      have hrec : (JsonArrayElements_loop fuel json n (cursor + next) index1 st1).isSome := by
        rcases hprog with hinv | ⟨hpos, hne⟩
        · obtain ⟨m, rfl⟩ : ∃ m, n = m + 1 := ⟨n - 1, by omega⟩
          rw [hinv, JsonArrayElements_loop_exit]
          rfl
        · have hlt : 0 < (json.drop cursor).length := List.length_pos.mpr hne
          exact ih (cursor + next) index1 st1 (by omega)
      obtain ⟨⟨visited, last, st2⟩, hres⟩ := Option.isSome_iff_exists.mp hrec
      simp [hres]

/-! ## C17 to C20: the managed entry pool -/

theorem strlen_pos (text : List Int) (h : charAt text 0 ≠ 0) : 0 < strlen text := by
  cases text with
  | nil => exact absurd (charAt_nil 0) h
  | cons c cs =>
    rw [charAt_cons_zero] at h
    simp [strlen, h]

/-- C17 (fails on the code): from the pool of `ManagedEntriesInit` with room for one
entry, the call `ManagedEntriesAppend(me, "x", "", "2020-01-01")` stores an entry whose
start timestamp is `TIMESTAMP_UNSET` and whose end timestamp is the `mktime` value of
2020-01-01: the start date is tested against `NULL` only, and `TimeFromDateString`
accepts the empty string and leaves the timestamp unset. -/
theorem C17_end_without_start (sscanf : List Int → Option (Int × Int × Int))
    (mktime : Int → Int → Int → Int)
    (hscan : sscanf (ofString "2020-01-01") = some (2020, 1, 1)) :
    ManagedEntriesAppendAll sscanf mktime (ManagedEntriesInit true 1).2
        [{ mallocEntry := true, mallocText := true, text := some (ofString "x"),
           textLength := MAX_STRING_LENGTH, start := some [],
           end1 := some (ofString "2020-01-01") }]
      = { m_ManagedEntries :=
            { m_Entries := [{ m_EntryText := ofString "x",
                              m_EntryTimestampStart := TIMESTAMP_UNSET,
                              m_EntryTimestampEnd := mktime 120 0 1 }],
              m_EntriesMax := 1 },
          m_ManagedEntriesError := ENTRY_STATE_OK } := by
  have h1 : charAt (ofString "2020-01-01") 0 ≠ 0 := by decide
  have h2 : charAt (ofString "x") 0 ≠ 0 := by decide
  have h3 : SetTextSubstr true (some (ofString "x")) MAX_STRING_LENGTH
      = (RESULT_OK, ofString "x") := by decide
  have h4 : TimeFromDateString sscanf mktime (some TIMESTAMP_UNSET) (some [])
      = (RESULT_OK, some TIMESTAMP_UNSET) := by
    simp [TimeFromDateString, charAt]
  have h5 : TimeFromDateString sscanf mktime (some TIMESTAMP_UNSET)
      (some (ofString "2020-01-01")) = (RESULT_OK, some (mktime 120 0 1)) := by
    simp only [TimeFromDateString, h1, hscan]
    simp [MONTH_JAN, MONTH_DEC, GetDaysInMonth, MONTH_FEB, MONTH_SEP, MONTH_APR, MONTH_JUN,
      MONTH_NOV]
    exact fun h => absurd h h1
  have h6 : (ManagedEntriesInit true 1).2
      = { m_ManagedEntries := { m_Entries := [], m_EntriesMax := 1 },
          m_ManagedEntriesError := ENTRY_STATE_UNKNOWN } := by decide
  simp only [ManagedEntriesAppendAll, ManagedEntriesAppendSubstr, h6, h2, h3, h4, h5,
    Entries_t.m_EntriesUsed]
  simp

/-- C17 with a scanner that reads every date as 2020-01-01 and a clock that gives
1577836800 for every date: the entry stored has its end set and its start unset. -/
theorem C17_end_without_start_witness :
    ManagedEntriesAppendAll (fun _ => some (2020, 1, 1)) (fun _ _ _ => 1577836800)
        (ManagedEntriesInit true 1).2
        [{ mallocEntry := true, mallocText := true, text := some (ofString "x"),
           textLength := MAX_STRING_LENGTH, start := some [],
           end1 := some (ofString "2020-01-01") }]
      = { m_ManagedEntries :=
            { m_Entries := [{ m_EntryText := ofString "x",
                              m_EntryTimestampStart := TIMESTAMP_UNSET,
                              m_EntryTimestampEnd := 1577836800 }],
              m_EntriesMax := 1 },
          m_ManagedEntriesError := ENTRY_STATE_OK } :=
  C17_end_without_start (fun _ => some (2020, 1, 1)) (fun _ _ _ => 1577836800) rfl

/-- C18 (fails on the code): for every pool that is not full and every text pointer
at a byte other than NUL, `ManagedEntriesAppendSubstr` with text length 0 and no dates
returns an entry whose text is empty and stores it: the text is tested with
`text[0] == 0` only, and `SetTextSubstr` with length 0 sets the shared empty text and
returns `RESULT_OK`.  The JSON entry object `{"text": ""}` makes this call, with the
text pointer at the closing quote. -/
theorem C18_empty_text_stored (sscanf : List Int → Option (Int × Int × Int))
    (mktime : Int → Int → Int → Int) (mallocText : Bool) (me : ManagedEntries_t)
    (text : List Int)
    (hfree : me.m_ManagedEntries.m_EntriesUsed ≠ me.m_ManagedEntries.m_EntriesMax)
    (htext : charAt text 0 ≠ 0) :
    ManagedEntriesAppendSubstr sscanf mktime true mallocText me (some text) 0 none none
      = (some { m_EntryText := [], m_EntryTimestampStart := TIMESTAMP_UNSET,
                m_EntryTimestampEnd := TIMESTAMP_UNSET },
          { m_ManagedEntries :=
              { me.m_ManagedEntries with
                m_Entries := me.m_ManagedEntries.m_Entries ++
                  [{ m_EntryText := [], m_EntryTimestampStart := TIMESTAMP_UNSET,
                     m_EntryTimestampEnd := TIMESTAMP_UNSET }] },
            m_ManagedEntriesError := ENTRY_STATE_OK }) := by
  have hlen := strlen_pos text htext
  have hset : SetTextSubstr mallocText (some text) 0 = (RESULT_OK, g_EmptyText) := by
    have hc : (0 : Int) ≤ 0 ∧ (0 : Int) < (strlen text : Int) := ⟨le_refl 0, by omega⟩
    simp [SetTextSubstr, hc]
  simp only [ManagedEntriesAppendSubstr, hfree, htext, hset, if_false, if_true, g_EmptyText]

/-- C18 at the pool of `ManagedEntriesInit` with room for one entry and the text
pointer at the closing quote of `{"text": ""}`. -/
theorem C18_empty_text_stored_witness :
    ManagedEntriesAppendSubstr (fun _ => none) (fun _ _ _ => 0) true true
        (ManagedEntriesInit true 1).2 (some (ofString "\"\x7d")) 0 none none
      = (some { m_EntryText := [], m_EntryTimestampStart := TIMESTAMP_UNSET,
                m_EntryTimestampEnd := TIMESTAMP_UNSET },
          { m_ManagedEntries :=
              { m_Entries := [{ m_EntryText := [], m_EntryTimestampStart := TIMESTAMP_UNSET,
                                m_EntryTimestampEnd := TIMESTAMP_UNSET }],
                m_EntriesMax := 1 },
            m_ManagedEntriesError := ENTRY_STATE_OK }) :=
  C18_empty_text_stored (fun _ => none) (fun _ _ _ => 0) true (ManagedEntriesInit true 1).2
    (ofString "\"\x7d") (by decide) (by decide)

/-- C19: for every pool whose used count equals its capacity and for every text, start
and end argument, `ManagedEntriesAppend` returns no entry, records the error kind
full, and leaves the entry array (the used count, the capacity and every stored entry)
unchanged. -/
theorem C19_ManagedEntriesAppend_full (sscanf : List Int → Option (Int × Int × Int))
    (mktime : Int → Int → Int → Int) (mallocEntry mallocText : Bool)
    (me : ManagedEntries_t) (text start end1 : Option (List Int))
    (hfull : me.m_ManagedEntries.m_EntriesUsed = me.m_ManagedEntries.m_EntriesMax) :
    ManagedEntriesAppend sscanf mktime mallocEntry mallocText me text start end1
      = (none, { m_ManagedEntries := me.m_ManagedEntries,
                 m_ManagedEntriesError := ENTRY_STATE_ERROR_FULL }) := by
  simp [ManagedEntriesAppend, ManagedEntriesAppendSubstr, hfull, ManagedEntries_t.setError]

/-- C19 at a pool of capacity 1 that holds one entry. -/
theorem C19_ManagedEntriesAppend_full_witness :
    ManagedEntriesAppend (fun _ => none) (fun _ _ _ => 0) true true
        { m_ManagedEntries :=
            { m_Entries := [{ m_EntryText := [97], m_EntryTimestampStart := 0,
                              m_EntryTimestampEnd := 0 }],
              m_EntriesMax := 1 },
          m_ManagedEntriesError := ENTRY_STATE_OK }
        (some [98]) none none
      = (none,
          { m_ManagedEntries :=
              { m_Entries := [{ m_EntryText := [97], m_EntryTimestampStart := 0,
                                m_EntryTimestampEnd := 0 }],
                m_EntriesMax := 1 },
            m_ManagedEntriesError := ENTRY_STATE_ERROR_FULL }) :=
  C19_ManagedEntriesAppend_full (fun _ => none) (fun _ _ _ => 0) true true _ (some [98])
    none none (by decide)

/-- C20: for every pool that is not full and every non-empty text,
`ManagedEntriesAppend` with an end date given and the start date absent (null) returns
no entry, records start-date-missing, and leaves the entry array (the used count and
the stored entries) unchanged. -/
theorem C20_ManagedEntriesAppend_start_missing
    (sscanf : List Int → Option (Int × Int × Int)) (mktime : Int → Int → Int → Int)
    (mallocEntry mallocText : Bool) (me : ManagedEntries_t) (text endDate : List Int)
    (hfree : me.m_ManagedEntries.m_EntriesUsed ≠ me.m_ManagedEntries.m_EntriesMax)
    (htext : charAt text 0 ≠ 0) :
    ManagedEntriesAppend sscanf mktime mallocEntry mallocText me (some text) none
        (some endDate)
      = (none, { m_ManagedEntries := me.m_ManagedEntries,
                 m_ManagedEntriesError := ENTRY_STATE_ERROR_START_DATE_MISSING }) := by
  simp [ManagedEntriesAppend, ManagedEntriesAppendSubstr, hfree, htext,
    ManagedEntries_t.setError]

/-- C20 at the empty pool of capacity 1, the text `x` and the end date `2020-01-01`. -/
theorem C20_ManagedEntriesAppend_start_missing_witness :
    ManagedEntriesAppend (fun _ => some (2020, 1, 1)) (fun _ _ _ => 1577836800) true true
        (ManagedEntriesInit true 1).2 (some (ofString "x")) none
        (some (ofString "2020-01-01"))
      = (none, { m_ManagedEntries := (ManagedEntriesInit true 1).2.m_ManagedEntries,
                 m_ManagedEntriesError := ENTRY_STATE_ERROR_START_DATE_MISSING }) :=
  C20_ManagedEntriesAppend_start_missing (fun _ => some (2020, 1, 1))
    (fun _ _ _ => 1577836800) true true (ManagedEntriesInit true 1).2 (ofString "x")
    (ofString "2020-01-01") (by decide) (by decide)

/-! ## C29: `EntriesInsertAt` -/

theorem arrayWrite_length (arr : List Entry_t) (e : Entry_t) :
    arrayWrite arr arr.length e = arr ++ [e] := by
  simp [arrayWrite]

theorem arrayWrite_append_cons (pre post : List Entry_t) (x e : Entry_t) :
    arrayWrite (pre ++ x :: post) pre.length e = pre ++ e :: post := by
  have h : pre.length < (pre ++ x :: post).length := by simp
  simp [arrayWrite, h]

theorem EntriesInsertAt_shift_spec (index : Int) (h0 : 0 ≤ index) :
    ∀ (A B : List Entry_t), index ≤ A.length →
      EntriesInsertAt_shift index A.length (A ++ dupHead B)
        = A.take index.toNat ++ dupHead (A.drop index.toNat ++ B) := by
  intro A
  induction A using List.reverseRecOn with
  | nil =>
    intro B hi
    have hz : index = 0 := by simp at hi; omega
    simp [EntriesInsertAt_shift, hz]
  | append_singleton A a ih =>
    intro B hi
    have hlen : (A ++ [a]).length = A.length + 1 := by simp
    rw [hlen, EntriesInsertAt_shift]
    by_cases hge : (A.length : Int) ≥ index
    · have hget : (A ++ [a] ++ dupHead B)[A.length]? = some a := by
        rw [List.append_assoc, List.getElem?_append_right (le_refl _)]
        simp
      have hw : arrayWrite (A ++ [a] ++ dupHead B) (A.length + 1) a
          = A ++ dupHead (a :: B) := by
        cases B with
        | nil =>
          have h1 := arrayWrite_length (A ++ [a]) a
          simpa [dupHead] using h1
        | cons b B1 =>
          have h1 := arrayWrite_append_cons (A ++ [a]) (b :: B1) b a
          simpa [dupHead] using h1
      have hle : index.toNat ≤ A.length := by omega
      simp only [hge, if_true, hget, hw]
      rw [ih (a :: B) (by omega), List.take_append_of_le_length hle,
        List.drop_append_of_le_length hle]
      simp
    · have hi2 : index.toNat = A.length + 1 := by
        rw [hlen] at hi
        push_cast at hi
        omega
      simp only [hge, if_false]
      rw [hi2, ← hlen, List.take_length, List.drop_length]
      simp

theorem EntriesResize_ok (me : Entries_t) (max : Int) (hmax : 0 < max) :
    (EntriesResize true me max).1 = RESULT_OK ∧
      (EntriesResize true me max).2.m_Entries = me.m_Entries := by
  unfold EntriesResize
  by_cases h : me.m_EntriesMax ≥ max
  · simp [h]
  · simp [h, hmax]

theorem EntriesInsertAt_entries (me : Entries_t) (e : Entry_t) (index : Int)
    (h0 : 0 ≤ index) (h1 : index ≤ me.m_EntriesUsed) :
    (EntriesInsertAt true me (some e) index).1 = RESULT_OK ∧
      (EntriesInsertAt true me (some e) index).2.m_Entries
        = me.m_Entries.take index.toNat ++ e :: me.m_Entries.drop index.toNat := by
  have hused : (0 : Int) < me.m_EntriesUsed + 1 := by
    unfold Entries_t.m_EntriesUsed
    omega
  obtain ⟨hr1, hr2⟩ := EntriesResize_ok me (me.m_EntriesUsed + 1) hused
  have hcond : ¬ (index < 0 ∨ index > me.m_EntriesUsed) := by omega
  have hshift := EntriesInsertAt_shift_spec index h0 me.m_Entries []
    (by unfold Entries_t.m_EntriesUsed at h1; exact h1)
  rw [show dupHead ([] : List Entry_t) = [] from rfl, List.append_nil, List.append_nil]
    at hshift
  have hle : index.toNat ≤ me.m_Entries.length := by
    unfold Entries_t.m_EntriesUsed at h1
    omega
  have hwrite : arrayWrite (me.m_Entries.take index.toNat ++ dupHead (me.m_Entries.drop index.toNat))
      index.toNat e = me.m_Entries.take index.toNat ++ e :: me.m_Entries.drop index.toNat := by
    have htl : (me.m_Entries.take index.toNat).length = index.toNat := by
      rw [List.length_take]
      omega
    cases hd : me.m_Entries.drop index.toNat with
    | nil =>
      have h2 := arrayWrite_length (me.m_Entries.take index.toNat) e
      rw [htl] at h2
      simpa [dupHead] using h2
    | cons x r =>
      have h2 := arrayWrite_append_cons (me.m_Entries.take index.toNat) (x :: r) x e
      rw [htl] at h2
      simpa [dupHead] using h2
  unfold EntriesInsertAt
  simp only [hcond, if_false, hr1, if_true, hr2, hshift, hwrite]
  exact ⟨trivial, trivial⟩

/-- C29: for every store holding the entry sequence `L`, every entry `e` and every
index `i` with `0 <= i <= |L|`, `EntriesInsertAt` with the allocation succeeding
returns `RESULT_OK` and the store then holds the first `i` entries of `L`, then `e`,
then the remaining entries of `L` in their order; for a null entry or an index outside
`0..|L|` it returns `RESULT_WARNING` and the store is unchanged. -/
theorem C29_EntriesInsertAt (realloc : Bool) (me : Entries_t) (e : Entry_t) (index : Int) :
    ((0 ≤ index ∧ index ≤ me.m_EntriesUsed) →
        (EntriesInsertAt true me (some e) index).1 = RESULT_OK ∧
          (EntriesInsertAt true me (some e) index).2.m_Entries
            = me.m_Entries.take index.toNat ++ e :: me.m_Entries.drop index.toNat) ∧
      EntriesInsertAt realloc me none index = (RESULT_WARNING, me) ∧
      ((index < 0 ∨ index > me.m_EntriesUsed) →
        EntriesInsertAt realloc me (some e) index = (RESULT_WARNING, me)) := by
  refine ⟨fun h => EntriesInsertAt_entries me e index h.1 h.2, rfl, ?_⟩
  intro h
  simp [EntriesInsertAt, h]

/-- C29 at the store `[a, b, c]`: inserting `x` at index 1 gives `[a, x, b, c]`, and
index 4 is refused. -/
theorem C29_EntriesInsertAt_witness :
    (EntriesInsertAt true
        { m_Entries := [⟨[97], 0, 0⟩, ⟨[98], 0, 0⟩, ⟨[99], 0, 0⟩], m_EntriesMax := 3 }
        (some ⟨[120], 0, 0⟩) 1).2.m_Entries
        = [⟨[97], 0, 0⟩, ⟨[120], 0, 0⟩, ⟨[98], 0, 0⟩, ⟨[99], 0, 0⟩] ∧
      EntriesInsertAt true
        { m_Entries := [⟨[97], 0, 0⟩, ⟨[98], 0, 0⟩, ⟨[99], 0, 0⟩], m_EntriesMax := 3 }
        (some ⟨[120], 0, 0⟩) 4
        = (RESULT_WARNING,
            { m_Entries := [⟨[97], 0, 0⟩, ⟨[98], 0, 0⟩, ⟨[99], 0, 0⟩], m_EntriesMax := 3 }) :=
  ⟨((C29_EntriesInsertAt true
        { m_Entries := [⟨[97], 0, 0⟩, ⟨[98], 0, 0⟩, ⟨[99], 0, 0⟩], m_EntriesMax := 3 }
        ⟨[120], 0, 0⟩ 1).1 (by decide)).2,
    (C29_EntriesInsertAt true
        { m_Entries := [⟨[97], 0, 0⟩, ⟨[98], 0, 0⟩, ⟨[99], 0, 0⟩], m_EntriesMax := 3 }
        ⟨[120], 0, 0⟩ 4).2.2 (by decide)⟩

/-! ## C30: `EntriesFind` -/

theorem EntriesFind_loop_continue {α : Type}
    (cb : Entry_t → EntryTime_t → α → Result_t) (entryTime : EntryTime_t) (userData : α) :
    ∀ (pre suf : List Entry_t) (index : Int),
      (∀ y ∈ pre, cb y entryTime userData ≠ RESULT_OK ∧ cb y entryTime userData ≠ RESULT_ERROR) →
      EntriesFind_loop cb entryTime userData (pre ++ suf) index
        = EntriesFind_loop cb entryTime userData suf (index + pre.length) := by
  intro pre
  induction pre with
  | nil => intro suf index _; simp
  | cons x xs ih =>
    intro suf index h
    have hx := h x (by simp)
    have hxs : ∀ y ∈ xs, cb y entryTime userData ≠ RESULT_OK ∧
        cb y entryTime userData ≠ RESULT_ERROR := fun y hy => h y (List.mem_cons_of_mem x hy)
    rw [List.cons_append, EntriesFind_loop]
    simp only [hx.1, hx.2, if_false]
    rw [ih suf (index + 1) hxs]
    congr 1
    simp only [List.length_cons]
    push_cast
    omega

theorem EntriesFind_loop_none {α : Type}
    (cb : Entry_t → EntryTime_t → α → Result_t) (entryTime : EntryTime_t) (userData : α) :
    ∀ (entries : List Entry_t) (index : Int),
      (∀ y ∈ entries, cb y entryTime userData ≠ RESULT_OK) →
      EntriesFind_loop cb entryTime userData entries index = INVALID_POSITION := by
  intro entries
  induction entries with
  | nil => intro index _; rfl
  | cons x xs ih =>
    intro index h
    have hx := h x (by simp)
    rw [EntriesFind_loop]
    simp only [hx, if_false]
    split_ifs
    · rfl
    · exact ih (index + 1) (fun y hy => h y (List.mem_cons_of_mem x hy))

theorem EntriesFind_loop_abort {α : Type}
    (cb : Entry_t → EntryTime_t → α → Result_t) (entryTime : EntryTime_t) (userData : α) :
    ∀ (pre : List Entry_t) (x : Entry_t) (post : List Entry_t) (index : Int),
      (∀ y ∈ pre, cb y entryTime userData ≠ RESULT_OK) →
      cb x entryTime userData = RESULT_ERROR →
      EntriesFind_loop cb entryTime userData (pre ++ x :: post) index = INVALID_POSITION := by
  intro pre
  induction pre with
  | nil =>
    intro x post index _ hx
    simp [EntriesFind_loop, hx]
  | cons p ps ih =>
    intro x post index h hx
    have hp := h p (by simp)
    rw [List.cons_append, EntriesFind_loop]
    simp only [hp, if_false]
    split_ifs
    · rfl
    · exact ih x post (index + 1) (fun y hy => h y (List.mem_cons_of_mem p hy)) hx

/-- C30: for every store and every tri-state predicate, `EntriesFind` returns the index
`i` of an entry that the predicate reports as a match (`RESULT_OK`) when the predicate
reports continue (neither `RESULT_OK` nor `RESULT_ERROR`) for every index below `i`, so
`i` is the least index of a match; it returns `INVALID_POSITION` when the predicate
reports abort (`RESULT_ERROR`) at an index with no match below it, and when it reports
a match for none of the entries in use. -/
theorem C30_EntriesFind {α : Type} (me : Entries_t)
    (cb : Entry_t → EntryTime_t → α → Result_t) (entryTime : EntryTime_t) (userData : α) :
    (∀ (pre : List Entry_t) (x : Entry_t) (post : List Entry_t),
        me.m_Entries = pre ++ x :: post → cb x entryTime userData = RESULT_OK →
        (∀ y ∈ pre, cb y entryTime userData ≠ RESULT_OK ∧
          cb y entryTime userData ≠ RESULT_ERROR) →
        EntriesFind me cb entryTime userData = (pre.length : Int)) ∧
      (∀ (pre : List Entry_t) (x : Entry_t) (post : List Entry_t),
        me.m_Entries = pre ++ x :: post → cb x entryTime userData = RESULT_ERROR →
        (∀ y ∈ pre, cb y entryTime userData ≠ RESULT_OK) →
        EntriesFind me cb entryTime userData = INVALID_POSITION) ∧
      ((∀ y ∈ me.m_Entries, cb y entryTime userData ≠ RESULT_OK) →
        EntriesFind me cb entryTime userData = INVALID_POSITION) := by
  refine ⟨?_, ?_, ?_⟩
  · intro pre x post hL hx hpre
    unfold EntriesFind
    rw [hL, EntriesFind_loop_continue cb entryTime userData pre (x :: post) 0 hpre,
      EntriesFind_loop]
    simp [hx]
  · intro pre x post hL hx hpre
    unfold EntriesFind
    rw [hL]
    exact EntriesFind_loop_abort cb entryTime userData pre x post 0 hpre hx
  · intro h
    exact EntriesFind_loop_none cb entryTime userData me.m_Entries 0 h

/-- C30 at the store `[a, b, c]` with the predicate that matches the text `b`: the
index found is 1. -/
theorem C30_EntriesFind_witness :
    EntriesFind { m_Entries := [⟨[97], 0, 0⟩, ⟨[98], 0, 0⟩, ⟨[99], 0, 0⟩], m_EntriesMax := 3 }
        (fun entry _ (text : List Int) =>
          if entry.m_EntryText = text then RESULT_OK else RESULT_NEXT)
        ENTRY_TIME_START [98]
      = 1 :=
  (C30_EntriesFind { m_Entries := [⟨[97], 0, 0⟩, ⟨[98], 0, 0⟩, ⟨[99], 0, 0⟩], m_EntriesMax := 3 }
      (fun entry _ (text : List Int) =>
        if entry.m_EntryText = text then RESULT_OK else RESULT_NEXT)
      ENTRY_TIME_START [98]).1 [⟨[97], 0, 0⟩] ⟨[98], 0, 0⟩ [⟨[99], 0, 0⟩] rfl (by decide)
    (by decide)

/-! ## C24, C25: the two comparators -/

/-- C24 (the claim as stated fails): with a placed entry `X` that has a start
timestamp and a candidate `Y` that has none, `CallbackEntryIsNewer(X, Y)` reports
continue, not a match; with `X` undated and `Y` dated it reports a match. -/
theorem C24_counterexample :
    CallbackEntryIsNewer ⟨[88], 100, 0⟩ ENTRY_TIME_START ⟨[89], 0, 0⟩ = RESULT_NEXT ∧
      CallbackEntryIsNewer ⟨[88], 0, 0⟩ ENTRY_TIME_START ⟨[89], 100, 0⟩ = RESULT_OK := by
  decide

/-- C24 (amended): for every placed entry `X` and candidate `Y`, `CallbackEntryIsNewer(X, Y)`
reports a match (`RESULT_OK`) when `X` has no governing timestamp, reports continue
(`RESULT_NEXT`) when `X` has a timestamp but `Y` has none, and when both have
timestamps reports a match exactly when the timestamp of `X` is greater than that of
`Y`, and continue otherwise. -/
theorem C24_CallbackEntryIsNewer (x y : Entry_t) (entryTime : EntryTime_t) :
    (x.m_EntryTimestamp entryTime = TIMESTAMP_UNSET →
        CallbackEntryIsNewer x entryTime y = RESULT_OK) ∧
      (x.m_EntryTimestamp entryTime ≠ TIMESTAMP_UNSET →
        y.m_EntryTimestamp entryTime = TIMESTAMP_UNSET →
        CallbackEntryIsNewer x entryTime y = RESULT_NEXT) ∧
      (x.m_EntryTimestamp entryTime ≠ TIMESTAMP_UNSET →
        y.m_EntryTimestamp entryTime ≠ TIMESTAMP_UNSET →
        (CallbackEntryIsNewer x entryTime y = RESULT_OK ↔
          x.m_EntryTimestamp entryTime > y.m_EntryTimestamp entryTime) ∧
        (CallbackEntryIsNewer x entryTime y = RESULT_NEXT ↔
          ¬ x.m_EntryTimestamp entryTime > y.m_EntryTimestamp entryTime)) := by
  refine ⟨?_, ?_, ?_⟩
  · intro hx
    simp [CallbackEntryIsNewer, hx]
  · intro hx hy
    simp [CallbackEntryIsNewer, hx, hy]
  · intro hx hy
    unfold CallbackEntryIsNewer
    simp only [hx, hy, if_false, ne_eq, not_false_eq_true, if_true]
    split_ifs with h <;> simp [h]

/-- C24 (amended), at a placed entry of timestamp 200 and a candidate of timestamp 100. -/
theorem C24_CallbackEntryIsNewer_witness :
    CallbackEntryIsNewer ⟨[88], 200, 0⟩ ENTRY_TIME_START ⟨[89], 100, 0⟩ = RESULT_OK :=
  ((C24_CallbackEntryIsNewer ⟨[88], 200, 0⟩ ⟨[89], 100, 0⟩ ENTRY_TIME_START).2.2 (by decide)
    (by decide)).1.mpr (by decide)

/-- C25: for every placed entry `X` and candidate `Y`, `CallbackEntryIsOlder(X, Y)`
reports a match (`RESULT_OK`) when `Y` has no governing timestamp, reports continue
(`RESULT_NEXT`) when `Y` has a timestamp but `X` has none, and when both have
timestamps reports a match exactly when the timestamp of `X` is strictly less than
that of `Y`, and continue otherwise; it never reports abort (`RESULT_ERROR`). -/
theorem C25_CallbackEntryIsOlder (x y : Entry_t) (entryTime : EntryTime_t) :
    (y.m_EntryTimestamp entryTime = TIMESTAMP_UNSET →
        CallbackEntryIsOlder x entryTime y = RESULT_OK) ∧
      (y.m_EntryTimestamp entryTime ≠ TIMESTAMP_UNSET →
        x.m_EntryTimestamp entryTime = TIMESTAMP_UNSET →
        CallbackEntryIsOlder x entryTime y = RESULT_NEXT) ∧
      (y.m_EntryTimestamp entryTime ≠ TIMESTAMP_UNSET →
        x.m_EntryTimestamp entryTime ≠ TIMESTAMP_UNSET →
        (CallbackEntryIsOlder x entryTime y = RESULT_OK ↔
          x.m_EntryTimestamp entryTime < y.m_EntryTimestamp entryTime) ∧
        (CallbackEntryIsOlder x entryTime y = RESULT_NEXT ↔
          ¬ x.m_EntryTimestamp entryTime < y.m_EntryTimestamp entryTime)) ∧
      CallbackEntryIsOlder x entryTime y ≠ RESULT_ERROR := by
  refine ⟨?_, ?_, ?_, ?_⟩
  · intro hy
    simp [CallbackEntryIsOlder, hy]
  · intro hy hx
    simp [CallbackEntryIsOlder, hx, hy]
  · intro hy hx
    unfold CallbackEntryIsOlder
    simp only [hx, hy, if_false, ne_eq, not_false_eq_true, if_true]
    split_ifs with h <;> simp [h]
  · unfold CallbackEntryIsOlder
    split_ifs <;> simp

/-- C25 at a placed entry of timestamp 100 and a candidate of timestamp 200. -/
theorem C25_CallbackEntryIsOlder_witness :
    CallbackEntryIsOlder ⟨[88], 100, 0⟩ ENTRY_TIME_START ⟨[89], 200, 0⟩ = RESULT_OK :=
  ((C25_CallbackEntryIsOlder ⟨[88], 100, 0⟩ ⟨[89], 200, 0⟩ ENTRY_TIME_START).2.2.1 (by decide)
    (by decide)).1.mpr (by decide)

/-! ## The traversal: its sequence and its array -/

theorem EntriesAppend_entries (me : Entries_t) (e : Entry_t) :
    (EntriesAppend true me (some e)).2.m_Entries = me.m_Entries ++ [e] := by
  have hused : (0 : Int) < me.m_EntriesUsed + 1 := by
    unfold Entries_t.m_EntriesUsed
    omega
  obtain ⟨hr1, hr2⟩ := EntriesResize_ok me (me.m_EntriesUsed + 1) hused
  unfold EntriesAppend
  simp only [hr1, if_true, hr2, arrayWrite_length]

theorem EntriesInsertAt_perm (me : Entries_t) (e : Entry_t) (index : Int)
    (h0 : 0 ≤ index) (h1 : index ≤ me.m_EntriesUsed) :
    ((EntriesInsertAt true me (some e) index).2.m_Entries).Perm (me.m_Entries ++ [e]) := by
  rw [(EntriesInsertAt_entries me e index h0 h1).2]
  have h := List.take_append_drop index.toNat me.m_Entries
  calc (me.m_Entries.take index.toNat ++ e :: me.m_Entries.drop index.toNat).Perm
        (e :: (me.m_Entries.take index.toNat ++ me.m_Entries.drop index.toNat)) :=
          List.perm_middle
    _ = e :: me.m_Entries := by rw [h]
    _ |>.Perm (me.m_Entries ++ [e]) := (List.perm_append_singleton e me.m_Entries).symm

theorem EntriesFind_loop_range {α : Type}
    (cb : Entry_t → EntryTime_t → α → Result_t) (entryTime : EntryTime_t) (userData : α) :
    ∀ (entries : List Entry_t) (index : Int),
      EntriesFind_loop cb entryTime userData entries index = INVALID_POSITION ∨
        (index ≤ EntriesFind_loop cb entryTime userData entries index ∧
          EntriesFind_loop cb entryTime userData entries index < index + entries.length) := by
  intro entries
  induction entries with
  | nil => intro index; left; rfl
  | cons x xs ih =>
    intro index
    rw [EntriesFind_loop]
    split_ifs
    · right
      simp only [List.length_cons]
      push_cast
      omega
    · left; rfl
    · rcases ih (index + 1) with h | h
      · left; exact h
      · right
        simp only [List.length_cons]
        push_cast
        omega

theorem EntriesTraverseFirst_sorted_perm
    (cb : Entry_t → EntryTime_t → Entry_t → Result_t) (entryTime : EntryTime_t) :
    ∀ (rest : List Entry_t) (traverse : Entries_t),
      ((EntriesTraverseFirst_sorted true cb entryTime rest traverse).m_Entries).Perm
        (traverse.m_Entries ++ rest) := by
  intro rest
  induction rest with
  | nil => intro traverse; simp [EntriesTraverseFirst_sorted]
  | cons e es ih =>
    intro traverse
    rw [EntriesTraverseFirst_sorted]
    split_ifs with hfind
    · have hrange := EntriesFind_loop_range cb entryTime e traverse.m_Entries 0
      have h0 : 0 ≤ EntriesFind traverse cb entryTime e ∧
          EntriesFind traverse cb entryTime e ≤ traverse.m_EntriesUsed := by
        unfold EntriesFind Entries_t.m_EntriesUsed at *
        rcases hrange with h | h
        · exact absurd h hfind
        · omega
      have hp := EntriesInsertAt_perm traverse e _ h0.1 h0.2
      refine (ih _).trans ?_
      have h2 := hp.append_right es
      simpa using h2
    · refine (ih _).trans ?_
      rw [EntriesAppend_entries]
      simp

theorem EntriesTraverseFirst_random_perm (rand : Nat → Nat) :
    ∀ (rest : List Entry_t) (entryIndex : Nat) (traverse : Entries_t),
      ((EntriesTraverseFirst_random true rand rest entryIndex traverse).m_Entries).Perm
        (traverse.m_Entries ++ rest) := by
  intro rest
  induction rest with
  | nil => intro entryIndex traverse; simp [EntriesTraverseFirst_random]
  | cons e es ih =>
    intro entryIndex traverse
    rw [EntriesTraverseFirst_random]
    have hpos : (0 : Int) < traverse.m_EntriesUsed + 1 := by
      unfold Entries_t.m_EntriesUsed
      omega
    have h0 : 0 ≤ (rand entryIndex : Int) % (traverse.m_EntriesUsed + 1) :=
      Int.emod_nonneg _ (by omega)
    have h1 : (rand entryIndex : Int) % (traverse.m_EntriesUsed + 1)
        < traverse.m_EntriesUsed + 1 := Int.emod_lt_of_pos _ hpos
    have hp := EntriesInsertAt_perm traverse e _ h0 (by omega)
    refine (ih _ _).trans ?_
    have h2 := hp.append_right es
    simpa using h2

theorem EntriesTraverseFirst_ordered_perm (rand : Nat → Nat) (order : Order_t)
    (entryTime : EntryTime_t) (first : Entry_t) (rest : List Entry_t) (traverse : Entries_t) :
    ((EntriesTraverseFirst_ordered true rand order entryTime first rest traverse).m_Entries).Perm
      (first :: rest) := by
  have hseed : (EntriesAppend true { traverse with m_Entries := [] } (some first)).2.m_Entries
      = [first] := by
    rw [EntriesAppend_entries]
    rfl
  unfold EntriesTraverseFirst_ordered
  cases order
  · have h := EntriesTraverseFirst_sorted_perm CallbackEntryIsOlder entryTime rest
      (EntriesAppend true { traverse with m_Entries := [] } (some first)).2
    rw [hseed] at h
    simpa using h
  · have h := EntriesTraverseFirst_sorted_perm CallbackEntryIsNewer entryTime rest
      (EntriesAppend true { traverse with m_Entries := [] } (some first)).2
    rw [hseed] at h
    simpa using h
  · have h := EntriesTraverseFirst_random_perm rand rest 1
      (EntriesAppend true { traverse with m_Entries := [] } (some first)).2
    rw [hseed] at h
    simpa using h
  · have h := EntriesTraverseFirst_sorted_perm CallbackEntryIsOlder entryTime rest
      (EntriesAppend true { traverse with m_Entries := [] } (some first)).2
    rw [hseed] at h
    simpa using h

theorem EntriesTraverseRest_drop (entries : List Entry_t) (max : Int) :
    ∀ (count k : Nat), k ≤ entries.length → entries.length - k + 1 ≤ count →
      EntriesTraverseRest count
          { m_EntriesTraverse := { m_Entries := entries, m_EntriesMax := max },
            m_EntriesTraverseNumber := (k : Int) }
        = some (entries.drop k) := by
  intro count
  induction count with
  | zero => intro k _ h; omega
  | succ n ih =>
    intro k hk hc
    rw [EntriesTraverseRest]
    unfold EntriesTraverseNext
    have hneg : ¬ ((k : Int) < 0) := by omega
    simp only [hneg, if_false, Entries_t.m_EntriesUsed]
    by_cases hlt : k < entries.length
    · have hlt2 : (k : Int) < (entries.length : Int) := by omega
      have hget : entries[k]? = some entries[k] := List.getElem?_eq_getElem hlt
      simp only [hlt2, if_true, Int.toNat_ofNat, hget]
      have hnext := ih (k + 1) (by omega) (by omega)
      have hcast : ((k : Int) + 1) = ((k + 1 : Nat) : Int) := by push_cast; rfl
      rw [hcast, hnext]
      simp only [Option.map_some']
      rw [List.drop_eq_getElem_cons hlt]
    · have hlt2 : ¬ ((k : Int) < (entries.length : Int)) := by omega
      have hk2 : k = entries.length := by omega
      simp only [hlt2, if_false]
      rw [hk2, List.drop_length]

theorem EntriesTraverseAll_ordered (count : Nat) (rand : Nat → Nat) (me : EntriesTraverse_t)
    (source : Entries_t) (order : Order_t) (entryTime : EntryTime_t) (first : Entry_t)
    (rest : List Entry_t) (hsource : source.m_Entries = first :: rest)
    (hc : source.m_Entries.length + 1 ≤ count) :
    EntriesTraverseAll count true rand me source order entryTime
      = some (EntriesTraverseFirst_ordered true rand order entryTime first rest
          (EntriesResize true me.m_EntriesTraverse source.m_EntriesUsed).2).m_Entries := by
  have hused : (0 : Int) < source.m_EntriesUsed := by
    unfold Entries_t.m_EntriesUsed
    rw [hsource]
    simp
  obtain ⟨hr1, _⟩ := EntriesResize_ok me.m_EntriesTraverse source.m_EntriesUsed hused
  have hperm := EntriesTraverseFirst_ordered_perm rand order entryTime first rest
    (EntriesResize true me.m_EntriesTraverse source.m_EntriesUsed).2
  generalize hT : EntriesTraverseFirst_ordered true rand order entryTime first rest
    (EntriesResize true me.m_EntriesTraverse source.m_EntriesUsed).2 = T at hperm ⊢
  have hlen : T.m_Entries.length = rest.length + 1 := by
    have := hperm.length_eq
    simpa using this
  obtain ⟨f, r, hTe⟩ : ∃ f r, T.m_Entries = f :: r := by
    cases hc2 : T.m_Entries with
    | nil => rw [hc2] at hlen; simp at hlen
    | cons f r => exact ⟨f, r, rfl⟩
  have hrest := EntriesTraverseRest_drop T.m_Entries T.m_EntriesMax count 1
    (by omega) (by rw [hsource] at hc; simp at hc; omega)
  unfold EntriesTraverseAll EntriesTraverseFirst
  simp only [hsource, hr1, if_true, hT]
  unfold EntriesTraverseNext
  have hpos : (0 : Int) < T.m_EntriesUsed := by
    unfold Entries_t.m_EntriesUsed
    omega
  simp only [lt_self_iff_false, if_false, hpos, if_true, Int.toNat_zero, hTe,
    List.getElem?_cons_zero]
  have hstate : ({ m_EntriesTraverse := T, m_EntriesTraverseNumber := (0 : Int) + 1 }
      : EntriesTraverse_t)
      = { m_EntriesTraverse := { m_Entries := T.m_Entries, m_EntriesMax := T.m_EntriesMax },
          m_EntriesTraverseNumber := ((1 : Nat) : Int) } := by
    simp
  rw [hstate, hrest, hTe]
  simp

theorem EntriesFind_loop_takeWhile
    (cb : Entry_t → EntryTime_t → Entry_t → Result_t) (entryTime : EntryTime_t)
    (e : Entry_t) (hcb : ∀ x, cb x entryTime e ≠ RESULT_ERROR) :
    ∀ (entries : List Entry_t) (index : Int),
      (entries.dropWhile (fun x => decide (cb x entryTime e ≠ RESULT_OK)) = [] →
        EntriesFind_loop cb entryTime e entries index = INVALID_POSITION) ∧
      (entries.dropWhile (fun x => decide (cb x entryTime e ≠ RESULT_OK)) ≠ [] →
        EntriesFind_loop cb entryTime e entries index
          = index + ((entries.takeWhile
              (fun x => decide (cb x entryTime e ≠ RESULT_OK))).length : Int)) := by
  intro entries
  induction entries with
  | nil =>
    intro index
    exact ⟨fun _ => rfl, fun h => absurd rfl h⟩
  | cons x xs ih =>
    intro index
    rw [EntriesFind_loop]
    by_cases hx : cb x entryTime e = RESULT_OK
    · simp [hx, List.dropWhile, List.takeWhile]
    · have hq : decide (cb x entryTime e ≠ RESULT_OK) = true := by simp [hx]
      simp only [hx, hcb x, if_false, List.dropWhile_cons, List.takeWhile_cons, hq, if_true,
        List.length_cons]
      obtain ⟨h1, h2⟩ := ih (index + 1)
      refine ⟨h1, fun h => ?_⟩
      rw [h2 h]
      push_cast
      omega

theorem EntriesTraverseFirst_sorted_step
    (cb : Entry_t → EntryTime_t → Entry_t → Result_t) (entryTime : EntryTime_t)
    (e : Entry_t) (hcb : ∀ x, cb x entryTime e ≠ RESULT_ERROR) (traverse : Entries_t) :
    (if EntriesFind traverse cb entryTime e ≠ INVALID_POSITION then
        (EntriesInsertAt true traverse (some e) (EntriesFind traverse cb entryTime e)).2
      else (EntriesAppend true traverse (some e)).2).m_Entries
      = insertBeforeMatch cb entryTime traverse.m_Entries e := by
  obtain ⟨h1, h2⟩ := EntriesFind_loop_takeWhile cb entryTime e hcb traverse.m_Entries 0
  have hsplit := List.takeWhile_append_dropWhile
    (fun x => decide (cb x entryTime e ≠ RESULT_OK)) traverse.m_Entries
  unfold insertBeforeMatch
  by_cases hd : traverse.m_Entries.dropWhile (fun x => decide (cb x entryTime e ≠ RESULT_OK)) = []
  · have hf : EntriesFind traverse cb entryTime e = INVALID_POSITION := h1 hd
    rw [hd, List.append_nil] at hsplit
    simp only [hf, ne_eq, not_true_eq_false, if_false, EntriesAppend_entries, hd, hsplit]
  · have hf : EntriesFind traverse cb entryTime e
        = ((traverse.m_Entries.takeWhile
            (fun x => decide (cb x entryTime e ≠ RESULT_OK))).length : Int) := by
      have := h2 hd
      simpa [EntriesFind] using this
    have hne : EntriesFind traverse cb entryTime e ≠ INVALID_POSITION := by
      rw [hf]
      unfold INVALID_POSITION
      omega
    have hle : (traverse.m_Entries.takeWhile
        (fun x => decide (cb x entryTime e ≠ RESULT_OK))).length ≤ traverse.m_Entries.length := by
      have := congrArg List.length hsplit
      simp only [List.length_append] at this
      omega
    have hins := (EntriesInsertAt_entries traverse e (EntriesFind traverse cb entryTime e)
      (by rw [hf]; omega) (by rw [hf]; unfold Entries_t.m_EntriesUsed; omega)).2
    have htake : traverse.m_Entries.take (traverse.m_Entries.takeWhile
        (fun x => decide (cb x entryTime e ≠ RESULT_OK))).length
        = traverse.m_Entries.takeWhile (fun x => decide (cb x entryTime e ≠ RESULT_OK)) := by
      have hgen : ∀ (a b l : List Entry_t), a ++ b = l → l.take a.length = a := by
        intro a b l h
        rw [← h, List.take_left]
      exact hgen _ _ _ hsplit
    have hdrop : traverse.m_Entries.drop (traverse.m_Entries.takeWhile
        (fun x => decide (cb x entryTime e ≠ RESULT_OK))).length
        = traverse.m_Entries.dropWhile (fun x => decide (cb x entryTime e ≠ RESULT_OK)) := by
      have hgen : ∀ (a b l : List Entry_t), a ++ b = l → l.drop a.length = b := by
        intro a b l h
        rw [← h, List.drop_left]
      exact hgen _ _ _ hsplit
    rw [if_pos hne, hins, hf, Int.toNat_ofNat, htake, hdrop]

theorem EntriesTraverseFirst_sorted_entries
    (cb : Entry_t → EntryTime_t → Entry_t → Result_t) (entryTime : EntryTime_t)
    (hcb : ∀ x y, cb x entryTime y ≠ RESULT_ERROR) :
    ∀ (rest : List Entry_t) (traverse : Entries_t),
      (EntriesTraverseFirst_sorted true cb entryTime rest traverse).m_Entries
        = rest.foldl (insertBeforeMatch cb entryTime) traverse.m_Entries := by
  intro rest
  induction rest with
  | nil => intro traverse; rfl
  | cons e es ih =>
    intro traverse
    have hstep := EntriesTraverseFirst_sorted_step cb entryTime e (fun x => hcb x e) traverse
    rw [EntriesTraverseFirst_sorted, List.foldl_cons, ← hstep]
    split_ifs with h
    · rw [ih]
    · rw [ih]

theorem CallbackEntryIsOlder_ne_error (x y : Entry_t) (entryTime : EntryTime_t) :
    CallbackEntryIsOlder x entryTime y ≠ RESULT_ERROR := by
  unfold CallbackEntryIsOlder
  split_ifs <;> simp

theorem CallbackEntryIsNewer_ne_error (x y : Entry_t) (entryTime : EntryTime_t) :
    CallbackEntryIsNewer x entryTime y ≠ RESULT_ERROR := by
  unfold CallbackEntryIsNewer
  split_ifs <;> simp

theorem EntriesTraverseFirst_ordered_seed (realloc : Bool) (traverse : Entries_t)
    (first : Entry_t) (h : realloc = true) :
    (EntriesAppend realloc { traverse with m_Entries := [] } (some first)).2.m_Entries
      = [first] := by
  rw [h, EntriesAppend_entries]
  rfl

theorem EntriesTraverseFirst_ordered_newest (rand : Nat → Nat) (entryTime : EntryTime_t)
    (first : Entry_t) (rest : List Entry_t) (traverse : Entries_t) :
    (EntriesTraverseFirst_ordered true rand ORDER_NEWEST_FIRST entryTime first rest
        traverse).m_Entries
      = rest.foldl (insertBeforeMatch CallbackEntryIsOlder entryTime) [first] := by
  unfold EntriesTraverseFirst_ordered
  simp only
  rw [EntriesTraverseFirst_sorted_entries CallbackEntryIsOlder entryTime
    (fun x y => CallbackEntryIsOlder_ne_error x y entryTime),
    EntriesTraverseFirst_ordered_seed true traverse first rfl]

theorem EntriesTraverseFirst_ordered_oldest (rand : Nat → Nat) (entryTime : EntryTime_t)
    (first : Entry_t) (rest : List Entry_t) (traverse : Entries_t) :
    (EntriesTraverseFirst_ordered true rand ORDER_OLDEST_FIRST entryTime first rest
        traverse).m_Entries
      = rest.foldl (insertBeforeMatch CallbackEntryIsNewer entryTime) [first] := by
  unfold EntriesTraverseFirst_ordered
  simp only
  rw [EntriesTraverseFirst_sorted_entries CallbackEntryIsNewer entryTime
    (fun x y => CallbackEntryIsNewer_ne_error x y entryTime),
    EntriesTraverseFirst_ordered_seed true traverse first rfl]

/-! ## C22: the newest-first order of an undated and two dated entries -/

/-- C22: for every three entries in original order `[A, B, C]` where `A` has no
governing timestamp and `B` and `C` have governing timestamps with `B` earlier than
`C`, the `ORDER_NEWEST_FIRST` traversal (`EntriesTraverseFirst`, then
`EntriesTraverseNext` until null), with the allocation succeeding, yields exactly
`[A, C, B]`. -/
theorem C22_newest_first_three (a b c : Entry_t) (entryTime : EntryTime_t) (max : Int)
    (rand : Nat → Nat) (me : EntriesTraverse_t) (count : Nat)
    (ha : a.m_EntryTimestamp entryTime = TIMESTAMP_UNSET)
    (hb : b.m_EntryTimestamp entryTime ≠ TIMESTAMP_UNSET)
    (hc : c.m_EntryTimestamp entryTime ≠ TIMESTAMP_UNSET)
    (hbc : b.m_EntryTimestamp entryTime < c.m_EntryTimestamp entryTime)
    (hcount : 4 ≤ count) :
    EntriesTraverseAll count true rand me { m_Entries := [a, b, c], m_EntriesMax := max }
        ORDER_NEWEST_FIRST entryTime
      = some [a, c, b] := by
  rw [EntriesTraverseAll_ordered count rand me _ ORDER_NEWEST_FIRST entryTime a [b, c] rfl
    (by simpa using hcount), EntriesTraverseFirst_ordered_newest]
  simp [insertBeforeMatch, CallbackEntryIsOlder, ha, hb, hc, hbc, List.takeWhile,
    List.dropWhile]

/-- C22 at `A` undated, `B` of timestamp 100 and `C` of timestamp 200. -/
theorem C22_newest_first_three_witness :
    EntriesTraverseAll 4 true (fun _ => 0) EntriesTraverseInit
        { m_Entries := [⟨[65], 0, 0⟩, ⟨[66], 100, 0⟩, ⟨[67], 200, 0⟩], m_EntriesMax := 3 }
        ORDER_NEWEST_FIRST ENTRY_TIME_START
      = some [⟨[65], 0, 0⟩, ⟨[67], 200, 0⟩, ⟨[66], 100, 0⟩] :=
  C22_newest_first_three ⟨[65], 0, 0⟩ ⟨[66], 100, 0⟩ ⟨[67], 200, 0⟩ ENTRY_TIME_START 3
    (fun _ => 0) EntriesTraverseInit 4 (by decide) (by decide) (by decide) (by decide)
    (by decide)

/-! ## C26: the traversal is a permutation -/

/-- C26: for every entry store, every order policy (newest-first, oldest-first, random
with any sequence of draws, and any other value, treated as newest-first), either
governing timestamp field and any previous state of the traversal object, the
sequence produced by `EntriesTraverseFirst` followed by `EntriesTraverseNext` until
null, with the allocation succeeding, is a permutation of the store's entries (same
length, every entry exactly once).  The source store is only read by the traversal. -/
theorem C26_traversal_permutation (count : Nat) (rand : Nat → Nat) (me : EntriesTraverse_t)
    (source : Entries_t) (order : Order_t) (entryTime : EntryTime_t)
    (hc : source.m_Entries.length + 1 ≤ count) :
    ∃ out, EntriesTraverseAll count true rand me source order entryTime = some out ∧
      out.Perm source.m_Entries := by
  cases hs : source.m_Entries with
  | nil =>
    refine ⟨[], ?_, List.Perm.refl _⟩
    simp [EntriesTraverseAll, EntriesTraverseFirst, hs]
  | cons first rest =>
    refine ⟨_, EntriesTraverseAll_ordered count rand me source order entryTime first rest hs hc,
      ?_⟩
    exact EntriesTraverseFirst_ordered_perm rand order entryTime first rest _

/-- C26 at a store of three entries in random order with the draws 0, 1, 2, ...: the
traversal returns. -/
theorem C26_traversal_permutation_witness :
    ∃ out, EntriesTraverseAll 4 true (fun k => k) EntriesTraverseInit
        { m_Entries := [⟨[65], 0, 0⟩, ⟨[66], 100, 0⟩, ⟨[67], 200, 0⟩], m_EntriesMax := 3 }
        ORDER_RANDOM ENTRY_TIME_START = some out ∧
      out.Perm [⟨[65], 0, 0⟩, ⟨[66], 100, 0⟩, ⟨[67], 200, 0⟩] :=
  C26_traversal_permutation 4 (fun k => k) EntriesTraverseInit
    { m_Entries := [⟨[65], 0, 0⟩, ⟨[66], 100, 0⟩, ⟨[67], 200, 0⟩], m_EntriesMax := 3 }
    ORDER_RANDOM ENTRY_TIME_START (by decide)

/-! ## C27: the ordered traversals are a stable sort on dated entries -/

theorem insertBeforeMatch_nil (cb : Entry_t → EntryTime_t → Entry_t → Result_t)
    (entryTime : EntryTime_t) (e : Entry_t) : insertBeforeMatch cb entryTime [] e = [e] := rfl

theorem insertBeforeMatch_cons_ok (cb : Entry_t → EntryTime_t → Entry_t → Result_t)
    (entryTime : EntryTime_t) (e x : Entry_t) (xs : List Entry_t)
    (h : cb x entryTime e = RESULT_OK) :
    insertBeforeMatch cb entryTime (x :: xs) e = e :: x :: xs := by
  simp [insertBeforeMatch, List.takeWhile, List.dropWhile, h]

theorem insertBeforeMatch_cons_next (cb : Entry_t → EntryTime_t → Entry_t → Result_t)
    (entryTime : EntryTime_t) (e x : Entry_t) (xs : List Entry_t)
    (h : cb x entryTime e ≠ RESULT_OK) :
    insertBeforeMatch cb entryTime (x :: xs) e = x :: insertBeforeMatch cb entryTime xs e := by
  simp [insertBeforeMatch, List.takeWhile, List.dropWhile, h]

theorem mem_insertBeforeMatch (cb : Entry_t → EntryTime_t → Entry_t → Result_t)
    (entryTime : EntryTime_t) (e y : Entry_t) :
    ∀ (acc : List Entry_t), y ∈ insertBeforeMatch cb entryTime acc e ↔ y = e ∨ y ∈ acc := by
  intro acc
  induction acc with
  | nil => simp [insertBeforeMatch_nil]
  | cons x xs ih =>
    by_cases h : cb x entryTime e = RESULT_OK
    · rw [insertBeforeMatch_cons_ok cb entryTime e x xs h]
      simp
    · rw [insertBeforeMatch_cons_next cb entryTime e x xs h, List.mem_cons, ih, List.mem_cons]
      tauto

theorem insertBeforeMatch_sorted (cb : Entry_t → EntryTime_t → Entry_t → Result_t)
    (entryTime : EntryTime_t) (k : Entry_t → Int) (e : Entry_t) :
    ∀ (acc : List Entry_t), (∀ x ∈ acc, (cb x entryTime e = RESULT_OK ↔ k x < k e)) →
      acc.Pairwise (fun a b => k b ≤ k a) →
      (insertBeforeMatch cb entryTime acc e).Pairwise (fun a b => k b ≤ k a) ∧
      ∀ t, (insertBeforeMatch cb entryTime acc e).filter (fun x => decide (k x = t))
          = acc.filter (fun x => decide (k x = t))
            ++ [e].filter (fun x => decide (k x = t)) := by
  intro acc
  induction acc with
  | nil =>
    intro _ _
    exact ⟨by simp [insertBeforeMatch_nil], fun t => by simp [insertBeforeMatch_nil]⟩
  | cons x xs ih =>
    intro hcb hs
    rw [List.pairwise_cons] at hs
    obtain ⟨hx, hxs⟩ := hs
    by_cases h : cb x entryTime e = RESULT_OK
    · have hlt : k x < k e := (hcb x (List.mem_cons_self _ _)).1 h
      rw [insertBeforeMatch_cons_ok cb entryTime e x xs h]
      refine ⟨?_, fun t => ?_⟩
      · rw [List.pairwise_cons]
        refine ⟨?_, List.pairwise_cons.2 ⟨hx, hxs⟩⟩
        intro y hy
        rcases List.mem_cons.1 hy with rfl | hy
        · omega
        · have := hx y hy
          omega
      · by_cases ht : k e = t
        · have hnone : (x :: xs).filter (fun y => decide (k y = t)) = [] := by
            rw [List.filter_eq_nil_iff]
            intro y hy
            have hyx : k y ≤ k x := by
              rcases List.mem_cons.1 hy with rfl | hy
              · exact le_refl _
              · exact hx y hy
            simp only [decide_eq_true_eq]
            omega
          rw [List.filter_cons, hnone]
          simp [ht]
        · rw [List.filter_cons]
          simp [ht]
    · have hge : ¬ k x < k e := fun hlt => h ((hcb x (List.mem_cons_self _ _)).2 hlt)
      rw [insertBeforeMatch_cons_next cb entryTime e x xs h]
      obtain ⟨ih1, ih2⟩ := ih (fun y hy => hcb y (List.mem_cons_of_mem _ hy)) hxs
      refine ⟨?_, fun t => ?_⟩
      · rw [List.pairwise_cons]
        refine ⟨?_, ih1⟩
        intro y hy
        rcases (mem_insertBeforeMatch cb entryTime e y xs).1 hy with rfl | hy
        · omega
        · exact hx y hy
      · rw [List.filter_cons, List.filter_cons, ih2 t]
        split_ifs <;> simp

theorem foldl_insertBeforeMatch_sorted (cb : Entry_t → EntryTime_t → Entry_t → Result_t)
    (entryTime : EntryTime_t) (k : Entry_t → Int) (dated : Entry_t → Prop)
    (hcb : ∀ x y, dated x → dated y → (cb x entryTime y = RESULT_OK ↔ k x < k y)) :
    ∀ (rest acc : List Entry_t), (∀ x ∈ acc, dated x) → (∀ x ∈ rest, dated x) →
      acc.Pairwise (fun a b => k b ≤ k a) →
      (rest.foldl (insertBeforeMatch cb entryTime) acc).Pairwise (fun a b => k b ≤ k a) ∧
      ∀ t, (rest.foldl (insertBeforeMatch cb entryTime) acc).filter (fun x => decide (k x = t))
          = acc.filter (fun x => decide (k x = t))
            ++ rest.filter (fun x => decide (k x = t)) := by
  intro rest
  induction rest with
  | nil =>
    intro acc _ _ hs
    exact ⟨hs, fun t => by simp⟩
  | cons e es ih =>
    intro acc hacc hrest hs
    have he : dated e := hrest e (List.mem_cons_self _ _)
    obtain ⟨s1, s2⟩ := insertBeforeMatch_sorted cb entryTime k e acc
      (fun x hx => hcb x e (hacc x hx) he) hs
    have hacc1 : ∀ x ∈ insertBeforeMatch cb entryTime acc e, dated x := by
      intro x hx
      rcases (mem_insertBeforeMatch cb entryTime e x acc).1 hx with rfl | hx
      · exact he
      · exact hacc x hx
    obtain ⟨r1, r2⟩ := ih (insertBeforeMatch cb entryTime acc e) hacc1
      (fun x hx => hrest x (List.mem_cons_of_mem _ hx)) s1
    rw [List.foldl_cons]
    refine ⟨r1, fun t => ?_⟩
    rw [r2 t, s2 t, List.append_assoc, ← List.filter_append, List.singleton_append]

/-- C27: for every entry store in which every entry has its governing timestamp set
(either field), with the allocation succeeding and any previous state of the
traversal object, the `ORDER_NEWEST_FIRST` traversal returns a permutation of the
entries with non-increasing timestamps and the `ORDER_OLDEST_FIRST` traversal a
permutation with non-decreasing timestamps, and in both the entries of each
timestamp value `t` come in their original relative order (the output filtered to
timestamp `t` is the source filtered to timestamp `t`). -/
theorem C27_ordered_traversal_stable (count : Nat) (rand : Nat → Nat)
    (me : EntriesTraverse_t) (source : Entries_t) (entryTime : EntryTime_t)
    (hdated : ∀ e ∈ source.m_Entries, e.m_EntryTimestamp entryTime ≠ TIMESTAMP_UNSET)
    (hc : source.m_Entries.length + 1 ≤ count) :
    (∃ out, EntriesTraverseAll count true rand me source ORDER_NEWEST_FIRST entryTime = some out ∧
      out.Perm source.m_Entries ∧
      out.Pairwise (fun a b => b.m_EntryTimestamp entryTime ≤ a.m_EntryTimestamp entryTime) ∧
      ∀ t, out.filter (fun x => decide (x.m_EntryTimestamp entryTime = t))
        = source.m_Entries.filter (fun x => decide (x.m_EntryTimestamp entryTime = t))) ∧
    (∃ out, EntriesTraverseAll count true rand me source ORDER_OLDEST_FIRST entryTime = some out ∧
      out.Perm source.m_Entries ∧
      out.Pairwise (fun a b => a.m_EntryTimestamp entryTime ≤ b.m_EntryTimestamp entryTime) ∧
      ∀ t, out.filter (fun x => decide (x.m_EntryTimestamp entryTime = t))
        = source.m_Entries.filter (fun x => decide (x.m_EntryTimestamp entryTime = t))) := by
  cases hs : source.m_Entries with
  | nil =>
    constructor
    · exact ⟨[], by simp [EntriesTraverseAll, EntriesTraverseFirst, hs], List.Perm.refl _,
        List.Pairwise.nil, fun _ => rfl⟩
    · exact ⟨[], by simp [EntriesTraverseAll, EntriesTraverseFirst, hs], List.Perm.refl _,
        List.Pairwise.nil, fun _ => rfl⟩
  | cons first rest =>
    rw [hs] at hdated
    have hfirst := hdated first (List.mem_cons_self _ _)
    have hrest : ∀ x ∈ rest, x.m_EntryTimestamp entryTime ≠ TIMESTAMP_UNSET :=
      fun x hx => hdated x (List.mem_cons_of_mem _ hx)
    have hseed : ∀ x ∈ [first], x.m_EntryTimestamp entryTime ≠ TIMESTAMP_UNSET := by
      intro x hx
      rw [List.mem_singleton] at hx
      rw [hx]
      exact hfirst
    constructor
    · obtain ⟨p1, p2⟩ := foldl_insertBeforeMatch_sorted CallbackEntryIsOlder entryTime
        (fun x => x.m_EntryTimestamp entryTime)
        (fun x => x.m_EntryTimestamp entryTime ≠ TIMESTAMP_UNSET)
        (fun x y hx hy => by simp [CallbackEntryIsOlder, hx, hy])
        rest [first] hseed hrest (List.pairwise_singleton _ _)
      refine ⟨_, EntriesTraverseAll_ordered count rand me source ORDER_NEWEST_FIRST entryTime
        first rest hs hc, EntriesTraverseFirst_ordered_perm rand ORDER_NEWEST_FIRST entryTime
        first rest _, ?_, ?_⟩
      · rw [EntriesTraverseFirst_ordered_newest]
        exact p1
      · intro t
        rw [EntriesTraverseFirst_ordered_newest, p2 t, ← List.filter_append,
          List.singleton_append]
    · obtain ⟨p1, p2⟩ := foldl_insertBeforeMatch_sorted CallbackEntryIsNewer entryTime
        (fun x => - x.m_EntryTimestamp entryTime)
        (fun x => x.m_EntryTimestamp entryTime ≠ TIMESTAMP_UNSET)
        (fun x y hx hy => by simp [CallbackEntryIsNewer, hx, hy])
        rest [first] hseed hrest (List.pairwise_singleton _ _)
      refine ⟨_, EntriesTraverseAll_ordered count rand me source ORDER_OLDEST_FIRST entryTime
        first rest hs hc, EntriesTraverseFirst_ordered_perm rand ORDER_OLDEST_FIRST entryTime
        first rest _, ?_, ?_⟩
      · rw [EntriesTraverseFirst_ordered_oldest]
        exact p1.imp (fun h => by omega)
      · intro t
        have hflt : ∀ l : List Entry_t,
            l.filter (fun x => decide (x.m_EntryTimestamp entryTime = t))
              = l.filter (fun x => decide (- x.m_EntryTimestamp entryTime = - t)) := by
          intro l
          apply List.filter_congr
          intro x _
          simp
        rw [EntriesTraverseFirst_ordered_oldest, hflt, hflt (first :: rest), p2 (- t),
          ← List.filter_append, List.singleton_append]

/-- C27 at the store of timestamps 100, 200, 100, 200 (texts A, B, C, D) ordered by
the start time. -/
theorem C27_ordered_traversal_stable_witness :
    (∃ out, EntriesTraverseAll 5 true (fun _ => 0) EntriesTraverseInit
        { m_Entries := [⟨[65], 100, 0⟩, ⟨[66], 200, 0⟩, ⟨[67], 100, 0⟩, ⟨[68], 200, 0⟩],
          m_EntriesMax := 4 } ORDER_NEWEST_FIRST ENTRY_TIME_START = some out ∧
      out.Perm [⟨[65], 100, 0⟩, ⟨[66], 200, 0⟩, ⟨[67], 100, 0⟩, ⟨[68], 200, 0⟩] ∧
      out.Pairwise (fun a b => b.m_EntryTimestamp ENTRY_TIME_START
        ≤ a.m_EntryTimestamp ENTRY_TIME_START) ∧
      ∀ t, out.filter (fun x => decide (x.m_EntryTimestamp ENTRY_TIME_START = t))
        = ([⟨[65], 100, 0⟩, ⟨[66], 200, 0⟩, ⟨[67], 100, 0⟩, ⟨[68], 200, 0⟩] : List Entry_t).filter
            (fun x => decide (x.m_EntryTimestamp ENTRY_TIME_START = t))) ∧
    (∃ out, EntriesTraverseAll 5 true (fun _ => 0) EntriesTraverseInit
        { m_Entries := [⟨[65], 100, 0⟩, ⟨[66], 200, 0⟩, ⟨[67], 100, 0⟩, ⟨[68], 200, 0⟩],
          m_EntriesMax := 4 } ORDER_OLDEST_FIRST ENTRY_TIME_START = some out ∧
      out.Perm [⟨[65], 100, 0⟩, ⟨[66], 200, 0⟩, ⟨[67], 100, 0⟩, ⟨[68], 200, 0⟩] ∧
      out.Pairwise (fun a b => a.m_EntryTimestamp ENTRY_TIME_START
        ≤ b.m_EntryTimestamp ENTRY_TIME_START) ∧
      ∀ t, out.filter (fun x => decide (x.m_EntryTimestamp ENTRY_TIME_START = t))
        = ([⟨[65], 100, 0⟩, ⟨[66], 200, 0⟩, ⟨[67], 100, 0⟩, ⟨[68], 200, 0⟩] : List Entry_t).filter
            (fun x => decide (x.m_EntryTimestamp ENTRY_TIME_START = t))) :=
  C27_ordered_traversal_stable 5 (fun _ => 0) EntriesTraverseInit
    { m_Entries := [⟨[65], 100, 0⟩, ⟨[66], 200, 0⟩, ⟨[67], 100, 0⟩, ⟨[68], 200, 0⟩],
      m_EntriesMax := 4 } ENTRY_TIME_START (by decide) (by decide)

/-! ## C23: position 0 of the random order -/

theorem EntriesTraverseFirst_random_step (rand : Nat → Nat) (entryIndex : Nat)
    (traverse : Entries_t) (e : Entry_t) (ht : traverse.m_Entries.length = entryIndex) :
    (EntriesInsertAt true traverse (some e)
        ((rand entryIndex : Int) % (traverse.m_EntriesUsed + 1))).2.m_Entries
      = traverse.m_Entries.take (rand entryIndex % (entryIndex + 1))
        ++ e :: traverse.m_Entries.drop (rand entryIndex % (entryIndex + 1)) := by
  have hidx : (rand entryIndex : Int) % (traverse.m_EntriesUsed + 1)
      = ((rand entryIndex % (entryIndex + 1) : Nat) : Int) := by
    unfold Entries_t.m_EntriesUsed
    rw [ht]
    norm_cast
  have hlt : rand entryIndex % (entryIndex + 1) < entryIndex + 1 :=
    Nat.mod_lt _ (Nat.succ_pos _)
  rw [hidx, (EntriesInsertAt_entries traverse e _ (by omega)
    (by unfold Entries_t.m_EntriesUsed; rw [ht]; omega)).2, Int.toNat_ofNat]

theorem EntriesTraverseFirst_random_keeps_head (rand : Nat → Nat) :
    ∀ (rest : List Entry_t) (entryIndex : Nat) (traverse : Entries_t),
      traverse.m_Entries.length = entryIndex → 1 ≤ entryIndex →
      (∀ k, entryIndex ≤ k → k < entryIndex + rest.length → rand k % (k + 1) ≠ 0) →
      (EntriesTraverseFirst_random true rand rest entryIndex traverse).m_Entries.head?
        = traverse.m_Entries.head? := by
  intro rest
  induction rest with
  | nil => intro entryIndex traverse _ _ _; rfl
  | cons e es ih =>
    intro entryIndex traverse ht hi hk
    have hstep := EntriesTraverseFirst_random_step rand entryIndex traverse e ht
    have hne : rand entryIndex % (entryIndex + 1) ≠ 0 :=
      hk entryIndex (le_refl _) (by simp)
    rw [EntriesTraverseFirst_random, ih (entryIndex + 1) _
      (by rw [hstep]; simp; omega) (by omega)
      (fun k h1 h2 => hk k (by omega) (by simp only [List.length_cons]; omega)), hstep]
    obtain ⟨n, hn⟩ : ∃ n, rand entryIndex % (entryIndex + 1) = n + 1 :=
      ⟨rand entryIndex % (entryIndex + 1) - 1, by omega⟩
    rw [hn]
    cases hl : traverse.m_Entries with
    | nil => rw [hl] at ht; simp at ht; omega
    | cons x xs => simp

theorem EntriesTraverseFirst_random_head (rand : Nat → Nat) :
    ∀ (rest : List Entry_t) (entryIndex : Nat) (traverse : Entries_t),
      traverse.m_Entries.length = entryIndex → 1 ≤ entryIndex →
      ∀ k, entryIndex ≤ k → k < entryIndex + rest.length → rand k % (k + 1) = 0 →
      (∀ j, k < j → j < entryIndex + rest.length → rand j % (j + 1) ≠ 0) →
      (EntriesTraverseFirst_random true rand rest entryIndex traverse).m_Entries.head?
        = rest[k - entryIndex]? := by
  intro rest
  induction rest with
  | nil =>
    intro entryIndex traverse _ _ k h1 h2 _ _
    simp at h2
    omega
  | cons e es ih =>
    intro entryIndex traverse ht hi k h1 h2 hk0 hlater
    have hstep := EntriesTraverseFirst_random_step rand entryIndex traverse e ht
    have hlen : (EntriesInsertAt true traverse (some e)
        ((rand entryIndex : Int) % (traverse.m_EntriesUsed + 1))).2.m_Entries.length
        = entryIndex + 1 := by
      have hlt : rand entryIndex % (entryIndex + 1) < entryIndex + 1 :=
        Nat.mod_lt _ (Nat.succ_pos _)
      rw [hstep]
      simp
      omega
    simp only [List.length_cons] at h2 hlater
    rw [EntriesTraverseFirst_random]
    by_cases hki : k = entryIndex
    · subst hki
      rw [EntriesTraverseFirst_random_keeps_head rand es (k + 1) _ hlen
        (by omega) (fun j hj1 hj2 => hlater j (by omega) (by omega)), hstep, hk0]
      simp
    · rw [ih (entryIndex + 1) _ hlen (by omega) k (by omega) (by omega) hk0
        (fun j hj1 hj2 => hlater j hj1 (by omega))]
      obtain ⟨d, hd⟩ : ∃ d, k - entryIndex = d + 1 := ⟨k - entryIndex - 1, by omega⟩
      have hd2 : k - (entryIndex + 1) = d := by omega
      rw [hd, hd2, List.getElem?_cons_succ]

/-- C23 fails.  The store `[A, B]` in random order with the draw 0 (a draw with
`rand() % 2 = 0`) yields `[B, A]`: the first entry of the original order is at position
1 of the output, not 0. -/
theorem C23_counterexample :
    EntriesTraverseAll 3 true (fun _ => 0) EntriesTraverseInit
        { m_Entries := [⟨[65], 0, 0⟩, ⟨[66], 0, 0⟩], m_EntriesMax := 2 }
        ORDER_RANDOM ENTRY_TIME_START
      = some [⟨[66], 0, 0⟩, ⟨[65], 0, 0⟩] := by
  decide

/-- C23 amended: for every store `first :: rest`, every sequence of draws (`rand k` is
the draw of the iteration that inserts the source entry of index `k`), either timestamp
field and any previous state of the traversal object, the `ORDER_RANDOM` traversal,
with the allocation succeeding, returns a sequence `out` such that: when no draw
selects the insertion index 0 (`rand k % (k + 1) ≠ 0` for every `k` in
`1..rest.length`), position 0 of `out` holds `first`; and when the draw `k` selects the
insertion index 0 and no later draw does, position 0 of `out` holds the source entry
of index `k`. -/
theorem C23_random_position_zero (count : Nat) (rand : Nat → Nat) (me : EntriesTraverse_t)
    (source : Entries_t) (entryTime : EntryTime_t) (first : Entry_t) (rest : List Entry_t)
    (hsource : source.m_Entries = first :: rest)
    (hc : source.m_Entries.length + 1 ≤ count) :
    ∃ out, EntriesTraverseAll count true rand me source ORDER_RANDOM entryTime = some out ∧
      ((∀ k, 1 ≤ k → k ≤ rest.length → rand k % (k + 1) ≠ 0) → out.head? = some first) ∧
      (∀ k, 1 ≤ k → k ≤ rest.length → rand k % (k + 1) = 0 →
        (∀ j, k < j → j ≤ rest.length → rand j % (j + 1) ≠ 0) →
        out.head? = source.m_Entries[k]?) := by
  refine ⟨_, EntriesTraverseAll_ordered count rand me source ORDER_RANDOM entryTime first rest
    hsource hc, ?_, ?_⟩
  · intro hk
    unfold EntriesTraverseFirst_ordered
    simp only
    rw [EntriesTraverseFirst_random_keeps_head rand rest 1 _
      (by rw [EntriesTraverseFirst_ordered_seed true _ first rfl]; rfl) (le_refl _)
      (fun k h1 h2 => hk k h1 (by omega)),
      EntriesTraverseFirst_ordered_seed true _ first rfl]
    rfl
  · intro k h1 h2 hk0 hlater
    unfold EntriesTraverseFirst_ordered
    simp only
    rw [EntriesTraverseFirst_random_head rand rest 1 _
      (by rw [EntriesTraverseFirst_ordered_seed true _ first rfl]; rfl) (le_refl _)
      k h1 (by omega) hk0 (fun j hj1 hj2 => hlater j hj1 (by omega)), hsource]
    obtain ⟨d, hd⟩ : ∃ d, k = d + 1 := ⟨k - 1, by omega⟩
    rw [hd, List.getElem?_cons_succ]
    simp

/-- C23 amended at the store `[A, B, C]`: with the draws 1, 2 (no draw selects the
insertion index 0) position 0 holds `A`, and with the draws 0, 1 (the draw that inserts
`B` selects the insertion index 0, the later one does not) position 0 holds `B`. -/
theorem C23_random_position_zero_witness :
    (∃ out, EntriesTraverseAll 4 true (fun k => k) EntriesTraverseInit
        { m_Entries := [⟨[65], 0, 0⟩, ⟨[66], 0, 0⟩, ⟨[67], 0, 0⟩], m_EntriesMax := 3 }
        ORDER_RANDOM ENTRY_TIME_START = some out ∧ out.head? = some ⟨[65], 0, 0⟩) ∧
    (∃ out, EntriesTraverseAll 4 true (fun k => k - 1) EntriesTraverseInit
        { m_Entries := [⟨[65], 0, 0⟩, ⟨[66], 0, 0⟩, ⟨[67], 0, 0⟩], m_EntriesMax := 3 }
        ORDER_RANDOM ENTRY_TIME_START = some out ∧ out.head? = some ⟨[66], 0, 0⟩) := by
  constructor
  · obtain ⟨out, h1, h2, _⟩ := C23_random_position_zero 4 (fun k => k) EntriesTraverseInit
      { m_Entries := [⟨[65], 0, 0⟩, ⟨[66], 0, 0⟩, ⟨[67], 0, 0⟩], m_EntriesMax := 3 }
      ENTRY_TIME_START ⟨[65], 0, 0⟩ [⟨[66], 0, 0⟩, ⟨[67], 0, 0⟩] rfl (by decide)
    refine ⟨out, h1, h2 ?_⟩
    intro k hk1 hk2
    simp only [List.length_cons, List.length_nil] at hk2
    interval_cases k <;> decide
  · obtain ⟨out, h1, _, h3⟩ := C23_random_position_zero 4 (fun k => k - 1) EntriesTraverseInit
      { m_Entries := [⟨[65], 0, 0⟩, ⟨[66], 0, 0⟩, ⟨[67], 0, 0⟩], m_EntriesMax := 3 }
      ENTRY_TIME_START ⟨[65], 0, 0⟩ [⟨[66], 0, 0⟩, ⟨[67], 0, 0⟩] rfl (by decide)
    refine ⟨out, h1, h3 1 (by decide) (by decide) (by decide) ?_⟩
    intro j hj1 hj2
    simp only [List.length_cons, List.length_nil] at hj2
    interval_cases j
    decide

/-! ## C21: a successful append -/

theorem TimeFromDateString_valid (sscanf : List Int → Option (Int × Int × Int))
    (mktime : Int → Int → Int → Int) (date : List Int)
    (h : DateAbsentOrValid sscanf (some date)) :
    ∃ r, r ≠ RESULT_ERROR ∧
      TimeFromDateString sscanf mktime (some TIMESTAMP_UNSET) (some date)
        = (r, some (parsedTimestamp sscanf mktime (some date))) := by
  obtain ⟨hne, year, month, day, hs, hm1, hm2, hd1, hd2⟩ := h
  have hmon : month - 1 ≥ MONTH_JAN ∧ month - 1 ≤ MONTH_DEC := by
    unfold MONTH_JAN MONTH_DEC
    omega
  have hday : day ≥ 1 ∧ day ≤ GetDaysInMonth (month - 1) year := ⟨hd1, hd2⟩
  refine ⟨if year < 1984 ∨ year > 2084 then RESULT_WARNING else RESULT_OK, ?_, ?_⟩
  · split_ifs <;> simp
  · unfold TimeFromDateString parsedTimestamp
    simp only [hne, ne_eq, not_false_eq_true, if_true, hs, hmon, hday, and_self,
      Option.isSome_some]

theorem SetTextSubstr_whole (text : List Int) (htext : charAt text 0 ≠ 0)
    (hlen : (strlen text : Int) ≤ MAX_STRING_LENGTH) :
    SetTextSubstr true (some text) MAX_STRING_LENGTH
      = (RESULT_OK, text.take (strlen text)) := by
  have hpos := strlen_pos text htext
  unfold SetTextSubstr
  have hnot : ¬ (0 ≤ MAX_STRING_LENGTH ∧ MAX_STRING_LENGTH < (strlen text : Int)) := by
    intro h
    omega
  simp only [hnot, if_false, gt_iff_lt, hpos, if_true, Option.getD_some]

/-- C21: for every pool that is not full, every non-empty text (of at most
`MAX_STRING_LENGTH` characters, the range of the `int` lengths), and every pair of
absent-or-valid dates with the start present whenever the end is, `ManagedEntriesAppend`
with both allocations succeeding returns a new entry whose text is the given text and
whose start and end timestamps are the parsed dates (`TIMESTAMP_UNSET` when absent),
appends it after the unchanged earlier entries (so the used count grows by exactly 1
and the entry is at the last used index), and records the state ok.  `sscanf` and
`mktime` are arbitrary. -/
theorem C21_ManagedEntriesAppend_success (sscanf : List Int → Option (Int × Int × Int))
    (mktime : Int → Int → Int → Int) (me : ManagedEntries_t) (text : List Int)
    (start end1 : Option (List Int))
    (hfull : me.m_ManagedEntries.m_EntriesUsed ≠ me.m_ManagedEntries.m_EntriesMax)
    (htext : charAt text 0 ≠ 0)
    (hlen : (strlen text : Int) ≤ MAX_STRING_LENGTH)
    (hstart : DateAbsentOrValid sscanf start) (hend : DateAbsentOrValid sscanf end1)
    (horder : start = none → end1 = none) :
    ManagedEntriesAppend sscanf mktime true true me (some text) start end1
        = (some ⟨text.take (strlen text), parsedTimestamp sscanf mktime start,
              parsedTimestamp sscanf mktime end1⟩,
            { m_ManagedEntries :=
                { me.m_ManagedEntries with
                  m_Entries := me.m_ManagedEntries.m_Entries
                    ++ [⟨text.take (strlen text), parsedTimestamp sscanf mktime start,
                          parsedTimestamp sscanf mktime end1⟩] },
              m_ManagedEntriesError := ENTRY_STATE_OK }) ∧
      (ManagedEntriesAppend sscanf mktime true true me (some text) start
          end1).2.m_ManagedEntries.m_EntriesUsed
        = me.m_ManagedEntries.m_EntriesUsed + 1 ∧
      (ManagedEntriesAppend sscanf mktime true true me (some text) start
          end1).2.m_ManagedEntries.m_Entries[me.m_ManagedEntries.m_Entries.length]?
        = some ⟨text.take (strlen text), parsedTimestamp sscanf mktime start,
            parsedTimestamp sscanf mktime end1⟩ := by
  have hset := SetTextSubstr_whole text htext hlen
  have hmain : ManagedEntriesAppend sscanf mktime true true me (some text) start end1
      = (some ⟨text.take (strlen text), parsedTimestamp sscanf mktime start,
            parsedTimestamp sscanf mktime end1⟩,
          { m_ManagedEntries :=
              { me.m_ManagedEntries with
                m_Entries := me.m_ManagedEntries.m_Entries
                  ++ [⟨text.take (strlen text), parsedTimestamp sscanf mktime start,
                        parsedTimestamp sscanf mktime end1⟩] },
            m_ManagedEntriesError := ENTRY_STATE_OK }) := by
    unfold ManagedEntriesAppend ManagedEntriesAppendSubstr
    cases start with
    | none =>
      rw [horder rfl]
      simp only [hfull, if_false, htext, hset, if_true, parsedTimestamp]
    | some startDate =>
      obtain ⟨r1, hr1, ht1⟩ := TimeFromDateString_valid sscanf mktime startDate hstart
      cases end1 with
      | none =>
        simp only [hfull, if_false, htext, hset, if_true, ht1, hr1, Option.getD_some]
        rfl
      | some endDate =>
        obtain ⟨r2, hr2, ht2⟩ := TimeFromDateString_valid sscanf mktime endDate hend
        simp only [hfull, if_false, htext, hset, if_true, ht1, hr1, ht2, hr2,
          Option.getD_some]
  refine ⟨hmain, ?_, ?_⟩
  · rw [hmain]
    simp [Entries_t.m_EntriesUsed]
  · rw [hmain]
    simp

/-- C21 at the empty pool of size 1 with the text `"x"`, the start date `"2020-01-02"`
and no end date, for a `sscanf` that reads every date as 2020-01-02. -/
theorem C21_ManagedEntriesAppend_success_witness :
    ManagedEntriesAppend (fun _ => some (2020, 1, 2)) (fun y m d => y * 10000 + m * 100 + d)
        true true (ManagedEntriesInit true 1).2 (some (ofString "x"))
        (some (ofString "2020-01-02")) none
        = (some ⟨(ofString "x").take (strlen (ofString "x")),
              parsedTimestamp (fun _ => some (2020, 1, 2))
                (fun y m d => y * 10000 + m * 100 + d) (some (ofString "2020-01-02")),
              parsedTimestamp (fun _ => some (2020, 1, 2))
                (fun y m d => y * 10000 + m * 100 + d) none⟩,
            { m_ManagedEntries :=
                { (ManagedEntriesInit true 1).2.m_ManagedEntries with
                  m_Entries := (ManagedEntriesInit true 1).2.m_ManagedEntries.m_Entries
                    ++ [⟨(ofString "x").take (strlen (ofString "x")),
                          parsedTimestamp (fun _ => some (2020, 1, 2))
                            (fun y m d => y * 10000 + m * 100 + d)
                            (some (ofString "2020-01-02")),
                          parsedTimestamp (fun _ => some (2020, 1, 2))
                            (fun y m d => y * 10000 + m * 100 + d) none⟩] },
              m_ManagedEntriesError := ENTRY_STATE_OK }) ∧
      (ManagedEntriesAppend (fun _ => some (2020, 1, 2))
          (fun y m d => y * 10000 + m * 100 + d) true true (ManagedEntriesInit true 1).2
          (some (ofString "x")) (some (ofString "2020-01-02"))
          none).2.m_ManagedEntries.m_EntriesUsed
        = (ManagedEntriesInit true 1).2.m_ManagedEntries.m_EntriesUsed + 1 ∧
      (ManagedEntriesAppend (fun _ => some (2020, 1, 2))
          (fun y m d => y * 10000 + m * 100 + d) true true (ManagedEntriesInit true 1).2
          (some (ofString "x")) (some (ofString "2020-01-02"))
          none).2.m_ManagedEntries.m_Entries[
            (ManagedEntriesInit true 1).2.m_ManagedEntries.m_Entries.length]?
        = some ⟨(ofString "x").take (strlen (ofString "x")),
            parsedTimestamp (fun _ => some (2020, 1, 2))
              (fun y m d => y * 10000 + m * 100 + d) (some (ofString "2020-01-02")),
            parsedTimestamp (fun _ => some (2020, 1, 2))
              (fun y m d => y * 10000 + m * 100 + d) none⟩ :=
  C21_ManagedEntriesAppend_success (fun _ => some (2020, 1, 2))
    (fun y m d => y * 10000 + m * 100 + d) (ManagedEntriesInit true 1).2 (ofString "x")
    (some (ofString "2020-01-02")) none (by decide) (by decide) (by decide)
    ⟨by decide, 2020, 1, 2, rfl, by decide, by decide, by decide, by decide⟩ trivial
    (fun h => absurd h (by simp))

/-! ## C28: the plain-text display limit of a section that displays all -/

theorem ResumePrintPlainText_entries_all (traversed : List Entry_t) :
    ∀ displayCount, ResumePrintPlainText_entries DISPLAY_ALL traversed displayCount
      = traversed := by
  induction traversed with
  | nil => intro _; rfl
  | cons e es ih =>
    intro displayCount
    rw [ResumePrintPlainText_entries, if_neg (by simp), ih]

theorem ResumePrintPlainText_entries_passed (displayMax : Int) (traversed : List Entry_t) :
    ∀ displayCount, displayMax ≤ displayCount →
      ResumePrintPlainText_entries displayMax traversed displayCount = traversed := by
  induction traversed with
  | nil => intro _ _; rfl
  | cons e es ih =>
    intro displayCount h
    have hne : ¬ displayCount + 1 = displayMax := by omega
    rw [ResumePrintPlainText_entries, ih (displayCount + 1) (by omega), ih displayCount h]
    simp only [hne, if_false, ite_self]

theorem ResumePrintPlainText_entries_limit (displayMax : Int)
    (hmax : displayMax ≠ DISPLAY_ALL) (traversed : List Entry_t) :
    ∀ displayCount, displayCount < displayMax →
      ResumePrintPlainText_entries displayMax traversed displayCount
        = traversed.take (displayMax - displayCount).toNat := by
  induction traversed with
  | nil => intro _ _; simp [ResumePrintPlainText_entries]
  | cons e es ih =>
    intro displayCount h
    obtain ⟨n, hn⟩ : ∃ n, (displayMax - displayCount).toNat = n + 1 :=
      ⟨(displayMax - displayCount).toNat - 1, by omega⟩
    rw [ResumePrintPlainText_entries, if_pos hmax, hn, List.take_succ_cons]
    by_cases heq : displayCount + 1 = displayMax
    · have hn0 : n = 0 := by omega
      rw [if_pos heq, hn0, List.take_zero]
    · have hn1 : (displayMax - (displayCount + 1)).toNat = n := by omega
      rw [if_neg heq, ih (displayCount + 1) (by omega), hn1]

/-- C28 fails in the code.  For a section whose display max is `DISPLAY_ALL` and that
the options do not hide, and for every sequence of traversed entries, the plain-text
loop prints all the entries when the extended count is below 2 (0, 1, `DISPLAY_ALL`),
but only the first `k - 1` of them when the extended count is `k ≥ 2`: the count is
added to the value -1 of `DISPLAY_ALL`.  With the extended count 2 and three entries,
one entry is printed. -/
theorem C28_plain_text_display_all (k : Int) (traversed : List Entry_t) :
    ResumePrintPlainText_section DISPLAY_ALL false k traversed
      = if 2 ≤ k then traversed.take (k - 1).toNat else traversed := by
  unfold ResumePrintPlainText_section
  simp only [show DISPLAY_ALL ≠ DISPLAY_NONE by decide, ne_eq, not_false_eq_true, if_true,
    Bool.false_eq_true, if_false]
  by_cases hall : k = DISPLAY_ALL
  · have h2 : ¬ (2 : Int) ≤ k := by rw [hall]; decide
    rw [if_pos hall, if_neg h2, ResumePrintPlainText_entries_all]
  · rw [if_neg hall]
    by_cases h2 : 2 ≤ k
    · rw [if_pos h2, ResumePrintPlainText_entries_limit _
        (by unfold DISPLAY_ALL; omega) traversed 0 (by unfold DISPLAY_ALL; omega)]
      unfold DISPLAY_ALL
      congr 2
      omega
    · rw [if_neg h2]
      by_cases h0 : k = 0
      · rw [h0]
        exact ResumePrintPlainText_entries_all traversed 0
      · exact ResumePrintPlainText_entries_passed _ traversed 0
          (by unfold DISPLAY_ALL at *; omega)

/-! ## C31: the days of a month -/

theorem IS_LEAP_YEAR_iff (year : Int) :
    IS_LEAP_YEAR year = true
      ↔ ((400 : Int) ∣ year ∨ ((4 : Int) ∣ year ∧ ¬ (100 : Int) ∣ year)) := by
  have h (n : Int) : Int.tmod year n = 0 ↔ n ∣ year :=
    ⟨Int.dvd_of_tmod_eq_zero, Int.tmod_eq_zero_of_dvd⟩
  unfold IS_LEAP_YEAR
  rw [decide_eq_true_iff, h 400, h 4, ne_eq, h 100]

/-- C31: for every month index and every year, `GetDaysInMonth` returns 29 for
February (`MONTH_FEB`) when the year is divisible by 400, or divisible by 4 and not by
100, and 28 for February otherwise; it returns 30 for April, June, September and
November, and 31 for every other month index. -/
theorem C31_GetDaysInMonth (month year : Int) :
    (month = MONTH_FEB →
      (((400 : Int) ∣ year ∨ ((4 : Int) ∣ year ∧ ¬ (100 : Int) ∣ year)) →
        GetDaysInMonth month year = 29) ∧
      (¬ ((400 : Int) ∣ year ∨ ((4 : Int) ∣ year ∧ ¬ (100 : Int) ∣ year)) →
        GetDaysInMonth month year = 28)) ∧
    (month = MONTH_APR ∨ month = MONTH_JUN ∨ month = MONTH_SEP ∨ month = MONTH_NOV →
      GetDaysInMonth month year = 30) ∧
    (month ≠ MONTH_FEB → month ≠ MONTH_APR → month ≠ MONTH_JUN → month ≠ MONTH_SEP →
      month ≠ MONTH_NOV → GetDaysInMonth month year = 31) := by
  refine ⟨fun hm => ⟨fun hl => ?_, fun hl => ?_⟩, fun hm => ?_, fun h1 h2 h3 h4 h5 => ?_⟩
  · have := (IS_LEAP_YEAR_iff year).2 hl
    simp [GetDaysInMonth, hm, this]
  · have : IS_LEAP_YEAR year = false := by
      rw [← Bool.not_eq_true]
      exact fun h => hl ((IS_LEAP_YEAR_iff year).1 h)
    simp [GetDaysInMonth, hm, this]
  · have hne : month ≠ MONTH_FEB := by
      unfold MONTH_FEB MONTH_APR MONTH_JUN MONTH_SEP MONTH_NOV at *
      omega
    have hor : month = MONTH_SEP ∨ month = MONTH_APR ∨ month = MONTH_JUN ∨ month = MONTH_NOV := by
      tauto
    simp only [GetDaysInMonth, hne, if_false, hor, if_true]
  · simp [GetDaysInMonth, h1, h2, h3, h4, h5]

/-- C31 at February of 2000 and of 1900, at April and at January. -/
theorem C31_GetDaysInMonth_witness :
    GetDaysInMonth 1 2000 = 29 ∧ GetDaysInMonth 1 1900 = 28 ∧ GetDaysInMonth 3 2023 = 30 ∧
      GetDaysInMonth 0 2023 = 31 :=
  ⟨((C31_GetDaysInMonth 1 2000).1 rfl).1 (by decide),
    ((C31_GetDaysInMonth 1 1900).1 rfl).2 (by decide),
    (C31_GetDaysInMonth 3 2023).2.1 (Or.inl rfl),
    (C31_GetDaysInMonth 0 2023).2.2 (by decide) (by decide) (by decide) (by decide) (by decide)⟩

/-! ## C32: the result of `TimeFromDateString` -/

/-- C32: for every date string that is not empty and scans into the integers
(year, month, day), and for a present or a null `time` pointer, `TimeFromDateString`
returns `RESULT_ERROR` exactly when the month is outside 1..12 or the day is outside
1..`GetDaysInMonth(month - 1, year)`; with month and day valid and the year outside
1984..2084 it returns `RESULT_WARNING`; for a null date and for an empty date string
it returns without error (`RESULT_OK`, or `RESULT_WARNING` when `time` is null) and
leaves the timestamp `TIMESTAMP_UNSET`.  `sscanf` and `mktime` are arbitrary. -/
theorem C32_TimeFromDateString (sscanf : List Int → Option (Int × Int × Int))
    (mktime : Int → Int → Int → Int) (time : Option Int) :
    (∀ (date : List Int) (year month day : Int), charAt date 0 ≠ 0 →
      sscanf date = some (year, month, day) →
      ((TimeFromDateString sscanf mktime time (some date)).1 = RESULT_ERROR
        ↔ (month < 1 ∨ month > 12 ∨ day < 1 ∨ day > GetDaysInMonth (month - 1) year)) ∧
      (1 ≤ month → month ≤ 12 → 1 ≤ day → day ≤ GetDaysInMonth (month - 1) year →
        (year < 1984 ∨ year > 2084) →
        (TimeFromDateString sscanf mktime time (some date)).1 = RESULT_WARNING)) ∧
    ((TimeFromDateString sscanf mktime time none).1 ≠ RESULT_ERROR ∧
      (TimeFromDateString sscanf mktime time none).2 = time.map (fun _ => TIMESTAMP_UNSET)) ∧
    (∀ date : List Int, charAt date 0 = 0 →
      (TimeFromDateString sscanf mktime time (some date)).1 ≠ RESULT_ERROR ∧
      (TimeFromDateString sscanf mktime time (some date)).2
        = time.map (fun _ => TIMESTAMP_UNSET)) := by
  refine ⟨?_, ?_, ?_⟩
  · intro date year month day hne hs
    unfold TimeFromDateString
    simp only [hne, ne_eq, not_false_eq_true, if_true, hs]
    by_cases hm : month - 1 ≥ MONTH_JAN ∧ month - 1 ≤ MONTH_DEC
    · by_cases hd : day ≥ 1 ∧ day ≤ GetDaysInMonth (month - 1) year
      · have hm2 := hm
        unfold MONTH_JAN MONTH_DEC at hm2
        simp only [hm, hd, and_self, if_true]
        constructor
        · constructor
          · intro h
            exfalso
            cases time <;> simp at h
            split_ifs at h
          · intro h
            omega
        · intro _ _ _ _ hy
          cases time <;> simp [hy]
      · have hm2 := hm
        unfold MONTH_JAN MONTH_DEC at hm2
        simp only [hm, hd, and_self, if_true, if_false]
        constructor
        · constructor
          · intro _
            rw [not_and_or] at hd
            omega
          · intro _
            trivial
        · intro _ _ h3 h4
          exact absurd ⟨h3, h4⟩ hd
    · have hm2 := hm
      unfold MONTH_JAN MONTH_DEC at hm2
      simp only [hm, if_false]
      constructor
      · constructor
        · intro _
          omega
        · intro _
          trivial
      · intro h1 h2
        omega
  · cases time <;> simp [TimeFromDateString]
  · intro date h0
    cases time <;> simp [TimeFromDateString, h0]

/-- C32 at the date strings `"2020-02-30"` (error: February has 29 days in 2020) and
`"1970-01-01"` (warning only), for a `sscanf` that reads them as written. -/
theorem C32_TimeFromDateString_witness :
    (TimeFromDateString (fun _ => some (2020, 2, 30)) (fun _ _ _ => 1) (some 5)
        (some (ofString "2020-02-30"))).1 = RESULT_ERROR ∧
      (TimeFromDateString (fun _ => some (1970, 1, 1)) (fun _ _ _ => 1) (some 5)
        (some (ofString "1970-01-01"))).1 = RESULT_WARNING :=
  ⟨(((C32_TimeFromDateString (fun _ => some (2020, 2, 30)) (fun _ _ _ => 1) (some 5)).1
      (ofString "2020-02-30") 2020 2 30 (by decide) rfl).1).2
      (Or.inr (Or.inr (Or.inr (by decide)))),
    ((C32_TimeFromDateString (fun _ => some (1970, 1, 1)) (fun _ _ _ => 1) (some 5)).1
      (ofString "1970-01-01") 1970 1 1 (by decide) rfl).2 (by decide) (by decide) (by decide)
      (by decide) (Or.inl (by decide))⟩

/-! ## C39, C40: undated entries in the ordered traversals -/

theorem insertBeforeMatch_append_next (cb : Entry_t → EntryTime_t → Entry_t → Result_t)
    (entryTime : EntryTime_t) (e : Entry_t) (b : List Entry_t) :
    ∀ (a : List Entry_t), (∀ x ∈ a, cb x entryTime e ≠ RESULT_OK) →
      insertBeforeMatch cb entryTime (a ++ b) e = a ++ insertBeforeMatch cb entryTime b e := by
  intro a
  induction a with
  | nil => intro _; rfl
  | cons x xs ih =>
    intro h
    rw [List.cons_append, insertBeforeMatch_cons_next cb entryTime e x (xs ++ b)
      (h x (List.mem_cons_self _ _)), ih (fun y hy => h y (List.mem_cons_of_mem _ hy)),
      List.cons_append]

theorem insertBeforeMatch_all_ok (cb : Entry_t → EntryTime_t → Entry_t → Result_t)
    (entryTime : EntryTime_t) (e : Entry_t) (b : List Entry_t)
    (h : ∀ x ∈ b, cb x entryTime e = RESULT_OK) :
    insertBeforeMatch cb entryTime b e = e :: b := by
  cases b with
  | nil => rfl
  | cons x xs => exact insertBeforeMatch_cons_ok cb entryTime e x xs (h x (List.mem_cons_self _ _))

theorem insertBeforeMatch_append_ok (cb : Entry_t → EntryTime_t → Entry_t → Result_t)
    (entryTime : EntryTime_t) (e : Entry_t) (b : List Entry_t)
    (h : ∀ x ∈ b, cb x entryTime e = RESULT_OK) :
    ∀ (a : List Entry_t),
      insertBeforeMatch cb entryTime (a ++ b) e = insertBeforeMatch cb entryTime a e ++ b := by
  intro a
  induction a with
  | nil =>
    rw [List.nil_append, insertBeforeMatch_all_ok cb entryTime e b h, insertBeforeMatch_nil]
    rfl
  | cons x xs ih =>
    by_cases hx : cb x entryTime e = RESULT_OK
    · rw [List.cons_append, insertBeforeMatch_cons_ok cb entryTime e x (xs ++ b) hx,
        insertBeforeMatch_cons_ok cb entryTime e x xs hx]
      rfl
    · rw [List.cons_append, insertBeforeMatch_cons_next cb entryTime e x (xs ++ b) hx,
        insertBeforeMatch_cons_next cb entryTime e x xs hx, ih]
      rfl

theorem insertBeforeMatch_perm (cb : Entry_t → EntryTime_t → Entry_t → Result_t)
    (entryTime : EntryTime_t) (e : Entry_t) :
    ∀ (acc : List Entry_t), (insertBeforeMatch cb entryTime acc e).Perm (e :: acc) := by
  intro acc
  induction acc with
  | nil => exact List.Perm.refl _
  | cons x xs ih =>
    by_cases hx : cb x entryTime e = RESULT_OK
    · rw [insertBeforeMatch_cons_ok cb entryTime e x xs hx]
    · rw [insertBeforeMatch_cons_next cb entryTime e x xs hx]
      exact (List.Perm.cons x ih).trans (List.Perm.swap e x xs)

theorem foldl_insertBeforeMatch_older (entryTime : EntryTime_t) :
    ∀ (l u d : List Entry_t),
      (∀ x ∈ u, x.m_EntryTimestamp entryTime = TIMESTAMP_UNSET) →
      (∀ x ∈ d, x.m_EntryTimestamp entryTime ≠ TIMESTAMP_UNSET) →
      d.Pairwise (fun a b => b.m_EntryTimestamp entryTime ≤ a.m_EntryTimestamp entryTime) →
      ∃ d1, l.foldl (insertBeforeMatch CallbackEntryIsOlder entryTime) (u ++ d)
          = ((l.filter (fun x => decide (x.m_EntryTimestamp entryTime = TIMESTAMP_UNSET))).reverse
              ++ u) ++ d1 ∧
        (∀ x ∈ d1, x.m_EntryTimestamp entryTime ≠ TIMESTAMP_UNSET) ∧
        d1.Pairwise (fun a b => b.m_EntryTimestamp entryTime ≤ a.m_EntryTimestamp entryTime) ∧
        d1.Perm (d ++ l.filter
          (fun x => decide (x.m_EntryTimestamp entryTime ≠ TIMESTAMP_UNSET))) ∧
        ∀ t, d1.filter (fun x => decide (x.m_EntryTimestamp entryTime = t))
          = d.filter (fun x => decide (x.m_EntryTimestamp entryTime = t))
            ++ (l.filter (fun x => decide (x.m_EntryTimestamp entryTime ≠ TIMESTAMP_UNSET))).filter
                (fun x => decide (x.m_EntryTimestamp entryTime = t)) := by
  intro l
  induction l with
  | nil =>
    intro u d _ hd hs
    exact ⟨d, by simp, hd, hs, by simp, fun t => by simp⟩
  | cons e es ih =>
    intro u d hu hd hs
    rw [List.foldl_cons]
    by_cases he : e.m_EntryTimestamp entryTime = TIMESTAMP_UNSET
    · have hall : ∀ x ∈ u ++ d, CallbackEntryIsOlder x entryTime e = RESULT_OK := by
        intro x _
        simp [CallbackEntryIsOlder, he]
      rw [insertBeforeMatch_all_ok CallbackEntryIsOlder entryTime e (u ++ d) hall,
        ← List.cons_append]
      obtain ⟨d1, h1, h2, h3, h4, h5⟩ := ih (e :: u) d
        (by
          intro x hx
          rcases List.mem_cons.1 hx with rfl | hx
          · exact he
          · exact hu x hx) hd hs
      refine ⟨d1, ?_, h2, h3, ?_, ?_⟩
      · rw [h1]
        simp [List.filter_cons, he]
      · simpa [List.filter_cons, he] using h4
      · intro t
        rw [h5 t]
        simp [List.filter_cons, he]
    · have hnext : ∀ x ∈ u, CallbackEntryIsOlder x entryTime e ≠ RESULT_OK := by
        intro x hx
        simp [CallbackEntryIsOlder, he, hu x hx]
      rw [insertBeforeMatch_append_next CallbackEntryIsOlder entryTime e d u hnext]
      obtain ⟨s1, s2⟩ := insertBeforeMatch_sorted CallbackEntryIsOlder entryTime
        (fun x => x.m_EntryTimestamp entryTime) e d
        (fun x hx => by simp [CallbackEntryIsOlder, he, hd x hx]) hs
      have hd1 : ∀ x ∈ insertBeforeMatch CallbackEntryIsOlder entryTime d e,
          x.m_EntryTimestamp entryTime ≠ TIMESTAMP_UNSET := by
        intro x hx
        rcases (mem_insertBeforeMatch CallbackEntryIsOlder entryTime e x d).1 hx with rfl | hx
        · exact he
        · exact hd x hx
      obtain ⟨d1, h1, h2, h3, h4, h5⟩ := ih u _ hu hd1 s1
      refine ⟨d1, ?_, h2, h3, ?_, ?_⟩
      · rw [h1]
        simp [List.filter_cons, he]
      · refine h4.trans ?_
        have hp := (insertBeforeMatch_perm CallbackEntryIsOlder entryTime e d).append_right
          (es.filter (fun x => decide (x.m_EntryTimestamp entryTime ≠ TIMESTAMP_UNSET)))
        refine hp.trans ?_
        simp only [List.filter_cons, he, ne_eq, not_false_eq_true, decide_True, if_true,
          List.cons_append]
        exact List.perm_middle.symm
      · intro t
        rw [h5 t, s2 t, List.append_assoc, ← List.filter_append, List.singleton_append]
        simp [List.filter_cons, he]

theorem foldl_insertBeforeMatch_newer (entryTime : EntryTime_t) :
    ∀ (l u d : List Entry_t),
      (∀ x ∈ u, x.m_EntryTimestamp entryTime = TIMESTAMP_UNSET) →
      (∀ x ∈ d, x.m_EntryTimestamp entryTime ≠ TIMESTAMP_UNSET) →
      d.Pairwise (fun a b => - b.m_EntryTimestamp entryTime ≤ - a.m_EntryTimestamp entryTime) →
      ∃ d1, l.foldl (insertBeforeMatch CallbackEntryIsNewer entryTime) (d ++ u)
          = d1 ++ ((l.filter
              (fun x => decide (x.m_EntryTimestamp entryTime = TIMESTAMP_UNSET))).reverse ++ u) ∧
        (∀ x ∈ d1, x.m_EntryTimestamp entryTime ≠ TIMESTAMP_UNSET) ∧
        d1.Pairwise
          (fun a b => - b.m_EntryTimestamp entryTime ≤ - a.m_EntryTimestamp entryTime) ∧
        d1.Perm (d ++ l.filter
          (fun x => decide (x.m_EntryTimestamp entryTime ≠ TIMESTAMP_UNSET))) ∧
        ∀ t, d1.filter (fun x => decide (- x.m_EntryTimestamp entryTime = t))
          = d.filter (fun x => decide (- x.m_EntryTimestamp entryTime = t))
            ++ (l.filter (fun x => decide (x.m_EntryTimestamp entryTime ≠ TIMESTAMP_UNSET))).filter
                (fun x => decide (- x.m_EntryTimestamp entryTime = t)) := by
  intro l
  induction l with
  | nil =>
    intro u d _ hd hs
    exact ⟨d, by simp, hd, hs, by simp, fun t => by simp⟩
  | cons e es ih =>
    intro u d hu hd hs
    rw [List.foldl_cons]
    by_cases he : e.m_EntryTimestamp entryTime = TIMESTAMP_UNSET
    · have hnext : ∀ x ∈ d, CallbackEntryIsNewer x entryTime e ≠ RESULT_OK := by
        intro x hx
        simp [CallbackEntryIsNewer, he, hd x hx]
      have hall : ∀ x ∈ u, CallbackEntryIsNewer x entryTime e = RESULT_OK := by
        intro x hx
        simp [CallbackEntryIsNewer, hu x hx]
      rw [insertBeforeMatch_append_next CallbackEntryIsNewer entryTime e u d hnext,
        insertBeforeMatch_all_ok CallbackEntryIsNewer entryTime e u hall]
      obtain ⟨d1, h1, h2, h3, h4, h5⟩ := ih (e :: u) d
        (by
          intro x hx
          rcases List.mem_cons.1 hx with rfl | hx
          · exact he
          · exact hu x hx) hd hs
      refine ⟨d1, ?_, h2, h3, ?_, ?_⟩
      · rw [h1]
        simp [List.filter_cons, he]
      · simpa [List.filter_cons, he] using h4
      · intro t
        rw [h5 t]
        simp [List.filter_cons, he]
    · have hall : ∀ x ∈ u, CallbackEntryIsNewer x entryTime e = RESULT_OK := by
        intro x hx
        simp [CallbackEntryIsNewer, hu x hx]
      rw [insertBeforeMatch_append_ok CallbackEntryIsNewer entryTime e u hall d]
      obtain ⟨s1, s2⟩ := insertBeforeMatch_sorted CallbackEntryIsNewer entryTime
        (fun x => - x.m_EntryTimestamp entryTime) e d
        (fun x hx => by simp [CallbackEntryIsNewer, he, hd x hx]) hs
      have hd1 : ∀ x ∈ insertBeforeMatch CallbackEntryIsNewer entryTime d e,
          x.m_EntryTimestamp entryTime ≠ TIMESTAMP_UNSET := by
        intro x hx
        rcases (mem_insertBeforeMatch CallbackEntryIsNewer entryTime e x d).1 hx with rfl | hx
        · exact he
        · exact hd x hx
      obtain ⟨d1, h1, h2, h3, h4, h5⟩ := ih u _ hu hd1 s1
      refine ⟨d1, ?_, h2, h3, ?_, ?_⟩
      · rw [h1]
        simp [List.filter_cons, he]
      · refine h4.trans ?_
        have hp := (insertBeforeMatch_perm CallbackEntryIsNewer entryTime e d).append_right
          (es.filter (fun x => decide (x.m_EntryTimestamp entryTime ≠ TIMESTAMP_UNSET)))
        refine hp.trans ?_
        simp only [List.filter_cons, he, ne_eq, not_false_eq_true, decide_True, if_true,
          List.cons_append]
        exact List.perm_middle.symm
      · intro t
        rw [h5 t, s2 t, List.append_assoc, ← List.filter_append, List.singleton_append]
        simp [List.filter_cons, he]

/-- C39: for every entry store (the empty one included), either governing timestamp
field and any previous state of the traversal object, the `ORDER_NEWEST_FIRST`
traversal with the allocation succeeding returns the entries without a governing
timestamp in reverse original order, followed by a sequence `d` that holds the
entries with a timestamp (a permutation of them) in non-increasing timestamp order
with the entries of each timestamp value in their original relative order; so every
undated entry precedes every dated entry. -/
theorem C39_newest_first_undated_first (count : Nat) (rand : Nat → Nat)
    (me : EntriesTraverse_t) (source : Entries_t) (entryTime : EntryTime_t)
    (hc : source.m_Entries.length + 1 ≤ count) :
    ∃ d, EntriesTraverseAll count true rand me source ORDER_NEWEST_FIRST entryTime
        = some ((source.m_Entries.filter
            (fun x => decide (x.m_EntryTimestamp entryTime = TIMESTAMP_UNSET))).reverse ++ d) ∧
      d.Perm (source.m_Entries.filter
        (fun x => decide (x.m_EntryTimestamp entryTime ≠ TIMESTAMP_UNSET))) ∧
      d.Pairwise (fun a b => b.m_EntryTimestamp entryTime ≤ a.m_EntryTimestamp entryTime) ∧
      ∀ t, d.filter (fun x => decide (x.m_EntryTimestamp entryTime = t))
        = (source.m_Entries.filter
            (fun x => decide (x.m_EntryTimestamp entryTime ≠ TIMESTAMP_UNSET))).filter
            (fun x => decide (x.m_EntryTimestamp entryTime = t)) := by
  cases hs : source.m_Entries with
  | nil =>
    exact ⟨[], by simp [EntriesTraverseAll, EntriesTraverseFirst, hs], List.Perm.refl _,
      List.Pairwise.nil, fun _ => rfl⟩
  | cons first rest =>
    obtain ⟨d, h1, _, h3, h4, h5⟩ := foldl_insertBeforeMatch_older entryTime (first :: rest)
      [] [] (fun _ h => absurd h (List.not_mem_nil _)) (fun _ h => absurd h (List.not_mem_nil _))
      List.Pairwise.nil
    refine ⟨d, ?_, by simpa using h4, h3, fun t => by simpa using h5 t⟩
    rw [EntriesTraverseAll_ordered count rand me source ORDER_NEWEST_FIRST entryTime first rest
      hs hc, EntriesTraverseFirst_ordered_newest]
    rw [List.foldl_cons, List.append_nil, insertBeforeMatch_nil, List.append_nil] at h1
    rw [h1]

/-- C39 at the store `[A, B, C, D]` with `A` and `C` undated, `B` of timestamp 100 and
`D` of timestamp 200. -/
theorem C39_newest_first_undated_first_witness :
    ∃ d, EntriesTraverseAll 5 true (fun _ => 0) EntriesTraverseInit
        { m_Entries := [⟨[65], 0, 0⟩, ⟨[66], 100, 0⟩, ⟨[67], 0, 0⟩, ⟨[68], 200, 0⟩],
          m_EntriesMax := 4 } ORDER_NEWEST_FIRST ENTRY_TIME_START
        = some ((([⟨[65], 0, 0⟩, ⟨[66], 100, 0⟩, ⟨[67], 0, 0⟩, ⟨[68], 200, 0⟩] :
            List Entry_t).filter
            (fun x => decide (x.m_EntryTimestamp ENTRY_TIME_START = TIMESTAMP_UNSET))).reverse
            ++ d) ∧
      d.Perm (([⟨[65], 0, 0⟩, ⟨[66], 100, 0⟩, ⟨[67], 0, 0⟩, ⟨[68], 200, 0⟩] :
        List Entry_t).filter
        (fun x => decide (x.m_EntryTimestamp ENTRY_TIME_START ≠ TIMESTAMP_UNSET))) ∧
      d.Pairwise (fun a b => b.m_EntryTimestamp ENTRY_TIME_START
        ≤ a.m_EntryTimestamp ENTRY_TIME_START) ∧
      ∀ t, d.filter (fun x => decide (x.m_EntryTimestamp ENTRY_TIME_START = t))
        = (([⟨[65], 0, 0⟩, ⟨[66], 100, 0⟩, ⟨[67], 0, 0⟩, ⟨[68], 200, 0⟩] : List Entry_t).filter
            (fun x => decide (x.m_EntryTimestamp ENTRY_TIME_START ≠ TIMESTAMP_UNSET))).filter
            (fun x => decide (x.m_EntryTimestamp ENTRY_TIME_START = t)) :=
  C39_newest_first_undated_first 5 (fun _ => 0) EntriesTraverseInit
    { m_Entries := [⟨[65], 0, 0⟩, ⟨[66], 100, 0⟩, ⟨[67], 0, 0⟩, ⟨[68], 200, 0⟩],
      m_EntriesMax := 4 } ENTRY_TIME_START (by decide)

/-- C40: for every entry store (the empty one included), either governing timestamp
field and any previous state of the traversal object, the `ORDER_OLDEST_FIRST`
traversal with the allocation succeeding returns a sequence `d` that holds the
entries with a timestamp (a permutation of them) in non-decreasing timestamp order
with the entries of each timestamp value in their original relative order, followed
by the entries without a governing timestamp in reverse original order; so every
dated entry precedes every undated entry. -/
theorem C40_oldest_first_undated_last (count : Nat) (rand : Nat → Nat)
    (me : EntriesTraverse_t) (source : Entries_t) (entryTime : EntryTime_t)
    (hc : source.m_Entries.length + 1 ≤ count) :
    ∃ d, EntriesTraverseAll count true rand me source ORDER_OLDEST_FIRST entryTime
        = some (d ++ (source.m_Entries.filter
            (fun x => decide (x.m_EntryTimestamp entryTime = TIMESTAMP_UNSET))).reverse) ∧
      d.Perm (source.m_Entries.filter
        (fun x => decide (x.m_EntryTimestamp entryTime ≠ TIMESTAMP_UNSET))) ∧
      d.Pairwise (fun a b => a.m_EntryTimestamp entryTime ≤ b.m_EntryTimestamp entryTime) ∧
      ∀ t, d.filter (fun x => decide (x.m_EntryTimestamp entryTime = t))
        = (source.m_Entries.filter
            (fun x => decide (x.m_EntryTimestamp entryTime ≠ TIMESTAMP_UNSET))).filter
            (fun x => decide (x.m_EntryTimestamp entryTime = t)) := by
  cases hs : source.m_Entries with
  | nil =>
    exact ⟨[], by simp [EntriesTraverseAll, EntriesTraverseFirst, hs], List.Perm.refl _,
      List.Pairwise.nil, fun _ => rfl⟩
  | cons first rest =>
    obtain ⟨d, h1, _, h3, h4, h5⟩ := foldl_insertBeforeMatch_newer entryTime (first :: rest)
      [] [] (fun _ h => absurd h (List.not_mem_nil _)) (fun _ h => absurd h (List.not_mem_nil _))
      List.Pairwise.nil
    have hflt : ∀ (t : Int) (l : List Entry_t),
        l.filter (fun x => decide (x.m_EntryTimestamp entryTime = t))
          = l.filter (fun x => decide (- x.m_EntryTimestamp entryTime = - t)) := by
      intro t l
      apply List.filter_congr
      intro x _
      simp
    refine ⟨d, ?_, by simpa using h4, h3.imp (fun h => by omega), fun t => ?_⟩
    · rw [EntriesTraverseAll_ordered count rand me source ORDER_OLDEST_FIRST entryTime first
        rest hs hc, EntriesTraverseFirst_ordered_oldest]
      rw [List.foldl_cons, List.append_nil, insertBeforeMatch_nil, List.append_nil] at h1
      rw [h1]
    · rw [hflt t d, hflt t, h5 (- t)]
      simp

/-- C40 at the store `[A, B, C, D]` with `A` and `C` undated, `B` of timestamp 200 and
`D` of timestamp 100. -/
theorem C40_oldest_first_undated_last_witness :
    ∃ d, EntriesTraverseAll 5 true (fun _ => 0) EntriesTraverseInit
        { m_Entries := [⟨[65], 0, 0⟩, ⟨[66], 200, 0⟩, ⟨[67], 0, 0⟩, ⟨[68], 100, 0⟩],
          m_EntriesMax := 4 } ORDER_OLDEST_FIRST ENTRY_TIME_START
        = some (d ++ (([⟨[65], 0, 0⟩, ⟨[66], 200, 0⟩, ⟨[67], 0, 0⟩, ⟨[68], 100, 0⟩] :
            List Entry_t).filter
            (fun x => decide (x.m_EntryTimestamp ENTRY_TIME_START = TIMESTAMP_UNSET))).reverse) ∧
      d.Perm (([⟨[65], 0, 0⟩, ⟨[66], 200, 0⟩, ⟨[67], 0, 0⟩, ⟨[68], 100, 0⟩] :
        List Entry_t).filter
        (fun x => decide (x.m_EntryTimestamp ENTRY_TIME_START ≠ TIMESTAMP_UNSET))) ∧
      d.Pairwise (fun a b => a.m_EntryTimestamp ENTRY_TIME_START
        ≤ b.m_EntryTimestamp ENTRY_TIME_START) ∧
      ∀ t, d.filter (fun x => decide (x.m_EntryTimestamp ENTRY_TIME_START = t))
        = (([⟨[65], 0, 0⟩, ⟨[66], 200, 0⟩, ⟨[67], 0, 0⟩, ⟨[68], 100, 0⟩] : List Entry_t).filter
            (fun x => decide (x.m_EntryTimestamp ENTRY_TIME_START ≠ TIMESTAMP_UNSET))).filter
            (fun x => decide (x.m_EntryTimestamp ENTRY_TIME_START = t)) :=
  C40_oldest_first_undated_last 5 (fun _ => 0) EntriesTraverseInit
    { m_Entries := [⟨[65], 0, 0⟩, ⟨[66], 200, 0⟩, ⟨[67], 0, 0⟩, ⟨[68], 100, 0⟩],
      m_EntriesMax := 4 } ENTRY_TIME_START (by decide)

/-! ## C33, C34: the list of sections -/

theorem IsChain_frame (h1 h2 : Nat → Option SectionData_t) :
    ∀ (l : List Nat) (p : Option SectionPtr), (∀ b ∈ l, h2 b = h1 b) →
      IsChain h1 p l → IsChain h2 p l := by
  intro l
  induction l with
  | nil => intro p _ h; exact h
  | cons a rest ih =>
    intro p hf h
    obtain ⟨hp, s, hs, hrest⟩ := h
    exact ⟨hp, s, by rw [hf a (List.mem_cons_self _ _)]; exact hs,
      ih _ (fun b hb => hf b (List.mem_cons_of_mem _ hb)) hrest⟩

theorem IsChain_unique (h : Nat → Option SectionData_t) :
    ∀ (l1 l2 : List Nat) (p : Option SectionPtr), IsChain h p l1 → IsChain h p l2 → l1 = l2 := by
  intro l1
  induction l1 with
  | nil =>
    intro l2 p h1 h2
    cases l2 with
    | nil => rfl
    | cons b r =>
      obtain ⟨hp, _⟩ := h2
      rw [show p = none from h1] at hp
      exact absurd hp (by simp)
  | cons a rest ih =>
    intro l2 p h1 h2
    obtain ⟨hp, s, hs, hrest⟩ := h1
    cases l2 with
    | nil =>
      rw [show p = none from h2] at hp
      exact absurd hp (by simp)
    | cons b r =>
      obtain ⟨hp2, s2, hs2, hrest2⟩ := h2
      rw [hp] at hp2
      have hab : a = b := by
        injection hp2 with h3
        injection h3
      subst hab
      rw [hs] at hs2
      injection hs2 with hs3
      subst hs3
      rw [ih r _ hrest hrest2]

theorem IsChain_suffix (h : Nat → Option SectionData_t) :
    ∀ (pre : List Nat) (a : Nat) (post : List Nat) (p : Option SectionPtr),
      IsChain h p (pre ++ a :: post) →
      IsChain h (some (SectionPtr.allocated a)) (a :: post) := by
  intro pre
  induction pre with
  | nil =>
    intro a post p hc
    obtain ⟨_, s, hs, hrest⟩ := hc
    exact ⟨rfl, s, hs, hrest⟩
  | cons x xs ih =>
    intro a post p hc
    obtain ⟨_, s, hs, hrest⟩ := hc
    exact ih a post _ hrest

theorem IsChain_nodup (h : Nat → Option SectionData_t) :
    ∀ (l : List Nat) (p : Option SectionPtr), IsChain h p l → l.Nodup := by
  intro l
  induction l with
  | nil => intro _ _; exact List.nodup_nil
  | cons a rest ih =>
    intro p hc
    have hc2 := hc
    obtain ⟨hp, s, hs, hrest⟩ := hc
    refine List.nodup_cons.2 ⟨?_, ih _ hrest⟩
    intro hmem
    obtain ⟨r1, r2, hr⟩ := List.append_of_mem hmem
    rw [hr] at hrest
    have hsuf := IsChain_suffix h r1 a r2 _ hrest
    rw [hp, hr] at hc2
    have := IsChain_unique h _ _ _ hsuf hc2
    have hlen := congrArg List.length this
    simp at hlen
    omega

theorem IsChain_allocated (h : Nat → Option SectionData_t) :
    ∀ (l : List Nat) (p : Option SectionPtr), IsChain h p l → ∀ b ∈ l, h b ≠ none := by
  intro l
  induction l with
  | nil => intro _ _ b hb; exact absurd hb (List.not_mem_nil _)
  | cons a rest ih =>
    intro p hc b hb
    obtain ⟨_, s, hs, hrest⟩ := hc
    rcases List.mem_cons.1 hb with rfl | hb
    · rw [hs]; simp
    · exact ih _ hrest b hb

theorem ResumeGetSectionCount_loop_chain (me : Resume_t) :
    ∀ (l : List Nat) (p : Option SectionPtr) (fuel count : Nat),
      IsChain me.allocated p l → l.length + 1 ≤ fuel →
      ResumeGetSectionCount_loop me fuel p count = some (count + l.length) := by
  intro l
  induction l with
  | nil =>
    intro p fuel count hc hf
    obtain ⟨f, rfl⟩ : ∃ f, fuel = f + 1 := ⟨fuel - 1, by simp at hf; omega⟩
    rw [show p = none from hc]
    rfl
  | cons a rest ih =>
    intro p fuel count hc hf
    obtain ⟨hp, s, hs, hrest⟩ := hc
    simp only [List.length_cons] at hf
    obtain ⟨f, rfl⟩ : ∃ f, fuel = f + 1 := ⟨fuel - 1, by omega⟩
    rw [hp, ResumeGetSectionCount_loop]
    simp only [Resume_t.read, hs]
    rw [ih _ f (count + 1) hrest (by omega)]
    simp only [List.length_cons]
    congr 1
    omega

theorem ResumeGetSectionData_loop_chain (me : Resume_t) :
    ∀ (l : List Nat) (a : Nat) (n : Nat),
      IsChain me.allocated (some (SectionPtr.allocated a)) (a :: l) →
      ResumeGetSectionData_loop me (some (SectionPtr.allocated a)) n
        = some (((a :: l)[n]?).map SectionPtr.allocated) := by
  intro l
  induction l with
  | nil =>
    intro a n hc
    obtain ⟨_, s, hs, hrest⟩ := hc
    cases n with
    | zero => rfl
    | succ n =>
      rw [ResumeGetSectionData_loop]
      simp only [Resume_t.read, hs, show s.m_SectionNext = none from hrest]
      simp
  | cons b rest ih =>
    intro a n hc
    obtain ⟨_, s, hs, hrest⟩ := hc
    cases n with
    | zero => rfl
    | succ n =>
      have hnext : s.m_SectionNext = some (SectionPtr.allocated b) := hrest.1
      rw [hnext] at hrest
      rw [ResumeGetSectionData_loop]
      simp only [Resume_t.read, hs, hnext]
      rw [ih b n hrest, List.getElem?_cons_succ]

theorem ResumeGetSectionData_chain (me : Resume_t) (l : List Nat) (sectionIndex : Nat)
    (hc : IsChain me.allocated me.m_ResumeSectionRuntime l) (hl : l ≠ [])
    (hs : SECTION_COUNT ≤ sectionIndex) :
    ResumeGetSectionData me sectionIndex
      = some ((l[sectionIndex - SECTION_COUNT]?).map SectionPtr.allocated) := by
  cases l with
  | nil => exact absurd rfl hl
  | cons a rest =>
    have hp : me.m_ResumeSectionRuntime = some (SectionPtr.allocated a) := hc.1
    rw [hp] at hc
    unfold ResumeGetSectionData
    rw [if_neg (by omega), hp]
    exact ResumeGetSectionData_loop_chain me rest a _ hc

theorem IsChain_insert_after (h h2 : Nat → Option SectionData_t) (a prev : Nat)
    (sp na : SectionData_t) (post : List Nat)
    (hpost : IsChain h sp.m_SectionNext post)
    (hapost : a ∉ post) (hprevpost : prev ∉ post)
    (h2prev : h2 prev = some { sp with m_SectionNext := some (SectionPtr.allocated a) })
    (h2a : h2 a = some na) (hna : na.m_SectionNext = sp.m_SectionNext)
    (h2other : ∀ b, b ≠ prev → b ≠ a → h2 b = h b) :
    ∀ (pre : List Nat) (p : Option SectionPtr), a ∉ pre → prev ∉ pre →
      IsChain h p (pre ++ prev :: post) → IsChain h2 p (pre ++ prev :: a :: post) := by
  intro pre
  induction pre with
  | nil =>
    intro p _ _ hc
    refine ⟨hc.1, _, h2prev, rfl, na, h2a, ?_⟩
    rw [hna]
    refine IsChain_frame h h2 post _ (fun b hb => h2other b ?_ ?_) hpost
    · exact fun hbp => hprevpost (hbp ▸ hb)
    · exact fun hba => hapost (hba ▸ hb)
  | cons x xs ih =>
    intro p hax hpx hc
    obtain ⟨hp, s, hs, hrest⟩ := hc
    have hxa : x ≠ a := fun hxa => hax (hxa ▸ List.mem_cons_self _ _)
    have hxp : x ≠ prev := fun hxp => hpx (hxp ▸ List.mem_cons_self _ _)
    refine ⟨hp, s, by rw [h2other x hxp hxa]; exact hs, ?_⟩
    exact ih _ (fun hm => hax (List.mem_cons_of_mem _ hm))
      (fun hm => hpx (List.mem_cons_of_mem _ hm)) hrest

theorem SectionDataInit_content : SectionDataInit.content = SectionDataInit := rfl

theorem ResumeInsertSection_first (me : Resume_t) (l : List Nat) (a : Nat)
    (hc : IsChain me.allocated me.m_ResumeSectionRuntime l) (hfresh : me.allocated a = none) :
    ∃ me1, ResumeInsertSection (some a) me SECTION_AT_RUNTIME
        = some (some (SectionPtr.allocated a), me1) ∧
      IsChain me1.allocated me1.m_ResumeSectionRuntime (a :: l) ∧
      me1.m_ResumeSection = me.m_ResumeSection ∧
      (me1.allocated a).map SectionData_t.content = some SectionDataInit ∧
      ∀ b, b ≠ a → me1.allocated b = me.allocated b := by
  have hal : ∀ b ∈ l, b ≠ a := by
    intro b hb hba
    exact IsChain_allocated me.allocated l _ hc b hb (hba ▸ hfresh)
  unfold ResumeInsertSection
  simp only [lt_irrefl, if_false, gt_iff_lt]
  cases hr : me.m_ResumeSectionRuntime with
  | none =>
    rw [hr] at hc
    have hl : l = [] := by
      cases l with
      | nil => rfl
      | cons x xs => exact absurd hc.1 (by simp)
    subst hl
    simp only [Resume_t.write, hr]
    refine ⟨_, rfl, ⟨rfl, SectionDataInit, by simp, rfl⟩, rfl, by simp [SectionDataInit_content],
      fun b hb => by simp [hb]⟩
  | some first =>
    rw [hr] at hc
    simp only [Resume_t.write, hr, Resume_t.setNext, Resume_t.read, if_true]
    refine ⟨_, rfl, ⟨rfl, { SectionDataInit with m_SectionNext := some first }, by simp, ?_⟩,
      rfl, by simp [SectionData_t.content, SectionDataInit], fun b hb => by simp [hb]⟩
    exact IsChain_frame me.allocated _ l _ (fun b hb => by simp [hal b hb]) hc

theorem ResumeInsertSection_after (me : Resume_t) (pre post : List Nat) (prev a : Nat)
    (hc : IsChain me.allocated me.m_ResumeSectionRuntime (pre ++ prev :: post))
    (hfresh : me.allocated a = none) :
    ∃ me1, ResumeInsertSection (some a) me (SECTION_AT_RUNTIME + pre.length + 1)
        = some (some (SectionPtr.allocated a), me1) ∧
      IsChain me1.allocated me1.m_ResumeSectionRuntime (pre ++ prev :: a :: post) ∧
      me1.m_ResumeSection = me.m_ResumeSection ∧
      (me1.allocated a).map SectionData_t.content = some SectionDataInit ∧
      ∀ b, b ≠ a → (me1.allocated b).map SectionData_t.content
        = (me.allocated b).map SectionData_t.content := by
  have hal : ∀ b ∈ pre ++ prev :: post, b ≠ a := by
    intro b hb hba
    exact IsChain_allocated me.allocated _ _ hc b hb (hba ▸ hfresh)
  have hnodup := IsChain_nodup me.allocated _ _ hc
  have hpa : prev ≠ a := hal prev (by simp)
  have hsuf := IsChain_suffix me.allocated pre prev post _ hc
  obtain ⟨_, sp, hsp, hpost⟩ := hsuf
  have hget : ResumeGetSectionData me (SECTION_AT_RUNTIME + pre.length + 1 - 1)
      = some (some (SectionPtr.allocated prev)) := by
    rw [ResumeGetSectionData_chain me (pre ++ prev :: post) _ hc (by simp)
      (by unfold SECTION_AT_RUNTIME; omega)]
    have hidx : SECTION_AT_RUNTIME + pre.length + 1 - 1 - SECTION_COUNT = pre.length := by
      unfold SECTION_AT_RUNTIME
      omega
    rw [hidx, List.getElem?_append_right (le_refl _)]
    simp
  have hgt : SECTION_AT_RUNTIME + pre.length + 1 > SECTION_AT_RUNTIME := by omega
  have hlt : ¬ SECTION_AT_RUNTIME + pre.length + 1 < SECTION_AT_RUNTIME := by omega
  unfold ResumeInsertSection
  simp only [hlt, if_false, hgt, if_true, hget, Resume_t.write, Resume_t.read, hpa, hsp,
    Resume_t.setNext]
  refine ⟨_, rfl, ?_, rfl, by simp [hpa.symm, SectionData_t.content, SectionDataInit], ?_⟩
  · have hmid : prev ∉ pre ∧ prev ∉ post := by
      have h1 := List.nodup_append.1 hnodup
      have h2 := List.nodup_cons.1 h1.2.1
      refine ⟨fun hm => ?_, h2.1⟩
      exact h1.2.2 hm (List.mem_cons_self _ _) 
    refine IsChain_insert_after me.allocated _ a prev sp
      { SectionDataInit with m_SectionNext := sp.m_SectionNext } post hpost
      (fun hm => hal a (by simp [hm]) rfl) hmid.2 (by simp) (by simp [hpa.symm]) rfl
      (fun b hb1 hb2 => by simp [hb1, hb2]) pre _
      (fun hm => hal a (by simp [hm]) rfl) hmid.1 hc
  · intro b hb
    by_cases hbp : b = prev
    · subst hbp
      simp [hsp, SectionData_t.content]
    · simp [hbp, hb]

theorem ResumeInsertSection_chain (me : Resume_t) (l : List Nat) (a k : Nat)
    (hc : IsChain me.allocated me.m_ResumeSectionRuntime l) (hfresh : me.allocated a = none)
    (hk : k ≤ l.length) :
    ∃ me1 l1 l2, l = l1 ++ l2 ∧ l1.length = k ∧
      ResumeInsertSection (some a) me (SECTION_AT_RUNTIME + k)
        = some (some (SectionPtr.allocated a), me1) ∧
      IsChain me1.allocated me1.m_ResumeSectionRuntime (l1 ++ a :: l2) ∧
      me1.m_ResumeSection = me.m_ResumeSection ∧
      (me1.allocated a).map SectionData_t.content = some SectionDataInit ∧
      ∀ b, b ≠ a → (me1.allocated b).map SectionData_t.content
        = (me.allocated b).map SectionData_t.content := by
  cases k with
  | zero =>
    obtain ⟨me1, h1, h2, h3, h4, h5⟩ := ResumeInsertSection_first me l a hc hfresh
    exact ⟨me1, [], l, rfl, rfl, h1, h2, h3, h4, fun b hb => by rw [h5 b hb]⟩
  | succ n =>
    have hn : n < l.length := by omega
    have hsplit : l = l.take n ++ l[n] :: l.drop (n + 1) := by
      conv_lhs => rw [← List.take_append_drop n l, List.drop_eq_getElem_cons hn]
    have hlen : (l.take n).length = n := by
      rw [List.length_take]
      omega
    have hc2 := hc
    rw [hsplit] at hc2
    obtain ⟨me1, h1, h2, h3, h4, h5⟩ :=
      ResumeInsertSection_after me (l.take n) (l.drop (n + 1)) l[n] a hc2 hfresh
    rw [hlen] at h1
    refine ⟨me1, l.take n ++ [l[n]], l.drop (n + 1), ?_, ?_, h1, ?_, h3, h4, h5⟩
    · rw [List.append_assoc, List.singleton_append]
      exact hsplit
    · rw [List.length_append, hlen]
      rfl
    · rw [List.append_assoc, List.singleton_append]
      exact h2

/-- C33: for every resume whose runtime sections form a list (the section objects at
the addresses `l`, allocated, linked by `m_SectionNext` from `m_ResumeSectionRuntime`
and ended by `NULL`), every section index `s` with
`SECTION_AT_RUNTIME <= s <= ResumeGetSectionCount(me)` and every address `a` that
`malloc` returns (an address that holds no section object yet), `ResumeInsertSection`
returns the pointer to the new object, initialised with the defaults of
`SectionDataInit` (apart from its link); afterwards `ResumeGetSectionData(s)` is that
pointer, the section count has grown by exactly 1, the pointer formerly returned for
an index `i >= s` is returned for `i + 1`, the pointers for indexes below `s` are the
same, and the hard-coded sections and the fields of the other section objects (apart
from the links) are unchanged. -/
theorem C33_ResumeInsertSection (me : Resume_t) (l : List Nat) (a s : Nat)
    (hc : IsChain me.allocated me.m_ResumeSectionRuntime l) (hfresh : me.allocated a = none)
    (h1 : SECTION_AT_RUNTIME ≤ s) (h2 : s ≤ SECTION_COUNT + l.length) :
    ResumeGetSectionCount (l.length + 1) me = some (SECTION_COUNT + l.length) ∧
    ∃ me1, ResumeInsertSection (some a) me s = some (some (SectionPtr.allocated a), me1) ∧
      (me1.read (SectionPtr.allocated a)).map SectionData_t.content = some SectionDataInit ∧
      ResumeGetSectionData me1 s = some (some (SectionPtr.allocated a)) ∧
      ResumeGetSectionCount (l.length + 2) me1 = some (SECTION_COUNT + l.length + 1) ∧
      (∀ i, i < SECTION_COUNT + l.length →
        ResumeGetSectionData me1 (if i < s then i else i + 1) = ResumeGetSectionData me i) ∧
      me1.m_ResumeSection = me.m_ResumeSection ∧
      (∀ b, b ≠ a → (me1.allocated b).map SectionData_t.content
        = (me.allocated b).map SectionData_t.content) := by
  have hs7 : SECTION_COUNT ≤ s := h1
  refine ⟨ResumeGetSectionCount_loop_chain me l _ _ _ hc (le_refl _), ?_⟩
  obtain ⟨me1, l1, l2, hl, hl1, hins, hc1, harr, hnew, hold⟩ :=
    ResumeInsertSection_chain me l a (s - SECTION_COUNT) hc hfresh (by omega)
  have hidx : SECTION_AT_RUNTIME + (s - SECTION_COUNT) = s := by
    unfold SECTION_AT_RUNTIME
    omega
  rw [hidx] at hins
  have hlen : l.length = l1.length + l2.length := by rw [hl, List.length_append]
  refine ⟨me1, hins, hnew, ?_, ?_, ?_, harr, hold⟩
  · rw [ResumeGetSectionData_chain me1 _ s hc1 (by simp) hs7,
      List.getElem?_append_right (by omega)]
    have h0 : s - SECTION_COUNT - l1.length = 0 := by omega
    rw [h0]
    simp
  · have := ResumeGetSectionCount_loop_chain me1 _ _ (l.length + 2) SECTION_COUNT hc1
      (by simp; omega)
    unfold ResumeGetSectionCount
    rw [this]
    congr 1
    simp
    omega
  · intro i hi
    by_cases hi7 : i < SECTION_COUNT
    · have his : i < s := by omega
      rw [if_pos his]
      unfold ResumeGetSectionData
      rw [if_pos hi7, if_pos hi7]
    · have hne : l ≠ [] := by
        intro h
        rw [h] at hi
        simp at hi
        omega
      rw [ResumeGetSectionData_chain me l i hc hne (by omega)]
      by_cases his : i < s
      · rw [if_pos his, ResumeGetSectionData_chain me1 _ i hc1 (by simp) (by omega), hl,
          List.getElem?_append_left (by omega), List.getElem?_append_left (by omega)]
      · rw [if_neg his, ResumeGetSectionData_chain me1 _ (i + 1) hc1 (by simp) (by omega), hl,
          List.getElem?_append_right (by omega), List.getElem?_append_right (by omega)]
        have hj : i + 1 - SECTION_COUNT - l1.length = (i - SECTION_COUNT - l1.length) + 1 := by
          omega
        rw [hj, List.getElem?_cons_succ]

/-- C33 at a resume with one runtime section, at address 100, and the section index 8
(after that section), with the new object at address 101. -/
theorem C33_ResumeInsertSection_witness :
    ResumeGetSectionCount ([100].length + 1)
        { m_ResumeSection := List.replicate 7 SectionDataInit,
          m_ResumeSectionRuntime := some (SectionPtr.allocated 100),
          allocated := fun b => if b = 100 then some SectionDataInit else none }
      = some (SECTION_COUNT + [100].length) ∧
    ∃ me1, ResumeInsertSection (some 101)
        { m_ResumeSection := List.replicate 7 SectionDataInit,
          m_ResumeSectionRuntime := some (SectionPtr.allocated 100),
          allocated := fun b => if b = 100 then some SectionDataInit else none } 8
        = some (some (SectionPtr.allocated 101), me1) ∧
      (me1.read (SectionPtr.allocated 101)).map SectionData_t.content = some SectionDataInit ∧
      ResumeGetSectionData me1 8 = some (some (SectionPtr.allocated 101)) ∧
      ResumeGetSectionCount ([100].length + 2) me1 = some (SECTION_COUNT + [100].length + 1) ∧
      (∀ i, i < SECTION_COUNT + [100].length →
        ResumeGetSectionData me1 (if i < 8 then i else i + 1)
          = ResumeGetSectionData
              { m_ResumeSection := List.replicate 7 SectionDataInit,
                m_ResumeSectionRuntime := some (SectionPtr.allocated 100),
                allocated := fun b => if b = 100 then some SectionDataInit else none } i) ∧
      me1.m_ResumeSection = List.replicate 7 SectionDataInit ∧
      (∀ b, b ≠ 101 → (me1.allocated b).map SectionData_t.content
        = ((fun b => if b = 100 then some SectionDataInit else none :
            Nat → Option SectionData_t) b).map SectionData_t.content) :=
  C33_ResumeInsertSection
    { m_ResumeSection := List.replicate 7 SectionDataInit,
      m_ResumeSectionRuntime := some (SectionPtr.allocated 100),
      allocated := fun b => if b = 100 then some SectionDataInit else none } [100] 101 8
    ⟨rfl, SectionDataInit, rfl, rfl⟩ rfl (by decide) (by decide)

/-- C34 fails in the code.  For every resume whose runtime sections form a list at
the addresses `l`: `ResumeGetSectionCount` is `SECTION_COUNT` plus the length of `l`;
`ResumeGetSectionData` returns the hard-coded section for an index below
`SECTION_COUNT`; with at least one runtime section it returns the runtime section of
that index when the index is below the count and `NULL` when it is not; with no
runtime section it returns `NULL` for the index `SECTION_COUNT`, but for every index
above `SECTION_COUNT` it reads `m_SectionNext` through the null pointer
`m_ResumeSectionRuntime` (the model's `none`). -/
theorem C34_ResumeGetSectionData (me : Resume_t) (l : List Nat) (sectionIndex : Nat)
    (hc : IsChain me.allocated me.m_ResumeSectionRuntime l) :
    ResumeGetSectionCount (l.length + 1) me = some (SECTION_COUNT + l.length) ∧
    (sectionIndex < SECTION_COUNT →
      ResumeGetSectionData me sectionIndex = some (some (SectionPtr.hardCoded sectionIndex))) ∧
    (l ≠ [] → SECTION_COUNT ≤ sectionIndex →
      ResumeGetSectionData me sectionIndex
        = some ((l[sectionIndex - SECTION_COUNT]?).map SectionPtr.allocated)) ∧
    (l = [] → ResumeGetSectionData me SECTION_COUNT = some none) ∧
    (l = [] → SECTION_COUNT < sectionIndex → ResumeGetSectionData me sectionIndex = none) := by
  refine ⟨ResumeGetSectionCount_loop_chain me l _ _ _ hc (le_refl _), ?_, ?_, ?_, ?_⟩
  · intro h
    unfold ResumeGetSectionData
    rw [if_pos h]
  · intro hl hs
    exact ResumeGetSectionData_chain me l sectionIndex hc hl hs
  · intro hl
    rw [hl] at hc
    unfold ResumeGetSectionData
    rw [if_neg (lt_irrefl _), show me.m_ResumeSectionRuntime = none from hc]
    rfl
  · intro hl hs
    rw [hl] at hc
    obtain ⟨n, hn⟩ : ∃ n, sectionIndex - SECTION_AT_RUNTIME = n + 1 :=
      ⟨sectionIndex - SECTION_AT_RUNTIME - 1, by unfold SECTION_AT_RUNTIME; omega⟩
    unfold ResumeGetSectionData
    rw [if_neg (by omega), show me.m_ResumeSectionRuntime = none from hc, hn]
    rfl

/-- C34 at the resume left by `ResumeInit` (no runtime section) and the section index
`SECTION_COUNT + 1`: the lookup reads through the null pointer. -/
theorem C34_ResumeGetSectionData_witness :
    ResumeGetSectionData
        { m_ResumeSection := List.replicate 7 SectionDataInit, m_ResumeSectionRuntime := none,
          allocated := fun _ => none } 8 = none :=
  (C34_ResumeGetSectionData
    { m_ResumeSection := List.replicate 7 SectionDataInit, m_ResumeSectionRuntime := none,
      allocated := fun _ => none } [] 8 rfl).2.2.2.2 rfl (by decide)

/-! ## The terminating NUL -/

theorem strlen_spec : ∀ (json : List Int) (p : Nat),
    p ≤ strlen json ↔ ∀ q, q < p → charAt json q ≠ 0
  | [], p => by
    simp only [strlen, Nat.le_zero, charAt_nil, ne_eq, not_true_eq_false, imp_false, not_lt]
    constructor
    · intro h q
      omega
    · intro h
      have := h 0
      omega
  | c :: cs, p => by
    by_cases hc : c = 0
    · simp only [strlen, hc, if_true, Nat.le_zero]
      constructor
      · intro h q hq
        omega
      · intro h
        by_contra hp
        exact h 0 (by omega) (charAt_cons_zero 0 cs)
    · simp only [strlen, hc, if_false]
      cases p with
      | zero =>
        constructor
        · intro _ q hq
          omega
        · intro _
          omega
      | succ n =>
        have ih := strlen_spec cs n
        constructor
        · intro h q hq
          cases q with
          | zero => rw [charAt_cons_zero]; exact hc
          | succ m =>
            rw [charAt_cons_succ]
            exact ih.1 (by omega) m (by omega)
        · intro h
          have : n ≤ strlen cs := ih.2 (fun q hq => by
            have := h (q + 1) (by omega)
            rwa [charAt_cons_succ] at this)
          omega

theorem charAt_strlen : ∀ (json : List Int), charAt json (strlen json) = 0
  | [] => by simp [strlen, charAt]
  | c :: cs => by
    by_cases hc : c = 0
    · simp [strlen, hc, charAt]
    · simp only [strlen, hc, if_false, charAt_cons_succ]
      exact charAt_strlen cs

theorem le_strlen_add (json : List Int) (p n : Nat) (hp : p ≤ strlen json)
    (hn : n ≤ strlen (json.drop p)) : p + n ≤ strlen json := by
  rw [strlen_spec] at hp hn ⊢
  intro q hq
  by_cases h : q < p
  · exact hp q h
  · have := hn (q - p) (by omega)
    rw [charAt_drop] at this
    have hpq : p + (q - p) = q := by omega
    rwa [hpq] at this

theorem succ_le_strlen (json : List Int) (p : Nat) (hp : p ≤ strlen json)
    (hc : charAt json p ≠ 0) : p + 1 ≤ strlen json := by
  rw [strlen_spec] at hp ⊢
  intro q hq
  by_cases h : q < p
  · exact hp q h
  · have hqp : q = p := by omega
    rw [hqp]
    exact hc

theorem strlen_eq_zero (json : List Int) (h : charAt json 0 = 0) : strlen json = 0 := by
  by_contra hne
  have h1 : 1 ≤ strlen json := by omega
  rw [strlen_spec] at h1
  exact h1 0 (by omega) h

theorem SKIP_WHITESPACE_le : ∀ (json : List Int), SKIP_WHITESPACE json ≤ strlen json
  | [] => by simp [SKIP_WHITESPACE]
  | c :: cs => by
    have ih := SKIP_WHITESPACE_le cs
    by_cases hc : c = 0
    · simp [SKIP_WHITESPACE, strlen, hc]
    · simp only [SKIP_WHITESPACE, strlen, hc, if_false]
      split_ifs
      · omega
      · omega

theorem le_strlen_skip (json : List Int) (p : Nat) (hp : p ≤ strlen json) :
    p + SKIP_WHITESPACE (json.drop p) ≤ strlen json :=
  le_strlen_add json p _ hp (SKIP_WHITESPACE_le _)

theorem JsonNumberDataLength_loop_le : ∀ (json : List Int) (pos : Nat) (decimalPos : Int)
    (st : JsonState),
    (JsonNumberDataLength_loop json pos decimalPos st).1 ≤ pos + strlen json
  | [], pos, _, st => by simp [JsonNumberDataLength_loop]
  | c :: cs, pos, decimalPos, st => by
    rw [JsonNumberDataLength_loop]
    by_cases hc : c = 0
    · simp [hc]
    · have h1 := JsonNumberDataLength_loop_le cs (pos + 1) (pos : Int) st
      have h2 := JsonNumberDataLength_loop_le cs (pos + 1) decimalPos st
      simp only [hc, if_false, strlen]
      split_ifs <;> simp <;> omega

theorem JsonNumberDataLength_le (json : List Int) (st : JsonState) :
    (JsonNumberDataLength json st).1 ≤ strlen json := by
  have := JsonNumberDataLength_loop_le json 0 INVALID_POSITION st
  unfold JsonNumberDataLength
  omega

theorem JsonNumberDataLength_loop_state : ∀ (json : List Int) (pos : Nat) (decimalPos : Int)
    (st : JsonState),
    (JsonNumberDataLength_loop json pos decimalPos st).1 = 0 ∨
      (JsonNumberDataLength_loop json pos decimalPos st).2 = st
  | [], pos, _, st => by simp [JsonNumberDataLength_loop]
  | c :: cs, pos, decimalPos, st => by
    rw [JsonNumberDataLength_loop]
    have h1 := JsonNumberDataLength_loop_state cs (pos + 1) (pos : Int) st
    have h2 := JsonNumberDataLength_loop_state cs (pos + 1) decimalPos st
    split_ifs
    · exact Or.inr rfl
    · exact h1
    · exact Or.inl rfl
    · exact Or.inl rfl
    · exact Or.inr rfl
    · exact h2

theorem JsonNumberDataLength_state (json : List Int) (st : JsonState) :
    (JsonNumberDataLength json st).1 = 0 ∨ (JsonNumberDataLength json st).2 = st :=
  JsonNumberDataLength_loop_state json 0 INVALID_POSITION st

theorem JsonStringDataLength_loop_le :
    ∀ (k : Nat) (json : List Int) (pos n : Nat) (st st1 : JsonState), json.length ≤ k →
      JsonStringDataLength_loop json pos st = (some n, st1) →
      n ≤ pos + strlen json ∧ pos + 1 ≤ n ∧ charAt json (n - 1 - pos) = 34 := by
  intro k
  induction k with
  | zero =>
    intro json pos n st st1 hlen h
    have hj : json = [] := List.length_eq_zero.mp (by omega)
    subst hj
    simp [JsonStringDataLength_loop] at h
  | succ k ih =>
    intro json pos n st st1 hlen h
    cases json with
    | nil => simp [JsonStringDataLength_loop] at h
    | cons c cs =>
      by_cases h0 : c = 0
      · cases cs <;> simp [JsonStringDataLength_loop, h0] at h
      · by_cases h34 : c = 34
        · subst h34
          rw [JsonStringDataLength_loop_quote] at h
          simp only [Prod.mk.injEq, Option.some.injEq] at h
          obtain ⟨hn, _⟩ := h
          subst hn
          have hz : pos + 1 - 1 - pos = 0 := by omega
          rw [hz, charAt_cons_zero]
          simp [strlen]
        · by_cases h92 : c = 92
          · subst h92
            cases cs with
            | nil => simp [JsonStringDataLength_loop] at h
            | cons d r =>
              by_cases hd : d = 0
              · simp [JsonStringDataLength_loop, hd] at h
              · rw [JsonStringDataLength_loop_pair d r pos st hd] at h
                have hl : r.length ≤ k := by
                  simp only [List.length_cons] at hlen
                  omega
                obtain ⟨i1, i2, i3⟩ := ih r (pos + 2) n st st1 hl h
                have hidx : n - 1 - pos = (n - 1 - (pos + 2)) + 1 + 1 := by omega
                rw [hidx, charAt_cons_succ, charAt_cons_succ]
                simp only [strlen, hd, if_false]
                refine ⟨?_, by omega, i3⟩
                simp
                omega
          · rw [JsonStringDataLength_loop_plain c cs pos st h0 h34 h92] at h
            have hl : cs.length ≤ k := by
              simp only [List.length_cons] at hlen
              omega
            obtain ⟨i1, i2, i3⟩ := ih cs (pos + 1) n st st1 hl h
            have hidx : n - 1 - pos = (n - 1 - (pos + 1)) + 1 := by omega
            rw [hidx, charAt_cons_succ]
            simp only [strlen, h0, if_false]
            exact ⟨by omega, by omega, i3⟩

theorem JsonStringDataLength_cases (json : List Int) (st : JsonState) :
    JsonStringDataLength json st = (0, JSON_STATE_ERROR_STRING_MISSING_START) ∨
      (JsonStringDataLength json st = (1, JSON_STATE_ERROR_STRING_MISSING_END) ∧
        charAt json 0 = 34) ∨
      ((JsonStringDataLength json st).2 = st ∧ 2 ≤ (JsonStringDataLength json st).1 ∧
        (JsonStringDataLength json st).1 ≤ strlen json ∧
        charAt json ((JsonStringDataLength json st).1 - 1) = 34) := by
  unfold JsonStringDataLength
  by_cases h : charAt json 0 = 34
  · simp only [h, ne_eq, not_true_eq_false, if_false]
    cases hl : JsonStringDataLength_loop (json.drop 1) 1 st with
    | mk o st1 =>
      cases o with
      | none => exact Or.inr (Or.inl ⟨rfl, trivial⟩)
      | some n =>
        right; right
        have hst := JsonStringDataLength_loop_state st _ (json.drop 1) 1 n st1 (le_refl _) hl
        obtain ⟨i1, i2, i3⟩ := JsonStringDataLength_loop_le _ (json.drop 1) 1 n st st1
          (le_refl _) hl
        have h1 : 1 ≤ strlen json := by
          have := succ_le_strlen json 0 (Nat.zero_le _) (by rw [h]; decide)
          omega
        have hle := le_strlen_add json 1 (n - 1) h1 (by omega)
        rw [charAt_drop] at i3
        have hidx : 1 + (n - 1 - 1) = n - 1 := by omega
        rw [hidx] at i3
        dsimp only
        exact ⟨hst, i2, by omega, i3⟩
  · simp [h]

theorem JsonValueDataLength_succ (fuel : Nat) (json : List Int) (st : JsonState) :
    JsonValueDataLength (fuel + 1) json st
      = match (if charAt json 0 = 91 then JsonArrayDataLength fuel json st
          else if charAt json 0 = 123 then JsonObjectDataLength fuel json st
          else if charAt json 0 = 34 then some (JsonStringDataLength json st)
          else some (JsonNumberDataLength json st)) with
        | none => none
        | some (length, st1) =>
          if length = 0 then some (length, JSON_STATE_ERROR_VALUE_INVALID)
          else some (length, st1) := by
  have h : charAt json 0 ≥ 48 ∨ charAt json 0 ≤ 57 := by omega
  rw [JsonValueDataLength]
  simp only [h, if_true]

theorem JsonValueDataLength_bound_step (f : Nat)
    (hA : ∀ json st n st1, JsonArrayDataLength f json st = some (n, st1) → n ≤ strlen json)
    (hO : ∀ json st n st1, JsonObjectDataLength f json st = some (n, st1) → n ≤ strlen json) :
    ∀ json st n st1, JsonValueDataLength (f + 1) json st = some (n, st1) → n ≤ strlen json := by
  intro json st n st1 h
  rw [JsonValueDataLength_succ] at h
  have key : ∀ r : Option (Nat × JsonState),
      (∀ m s, r = some (m, s) → m ≤ strlen json) →
      (match r with
        | none => none
        | some (length, s1) =>
          if length = 0 then some (length, JSON_STATE_ERROR_VALUE_INVALID)
          else some (length, s1)) = some (n, st1) → n ≤ strlen json := by
    intro r hr hm
    cases r with
    | none => simp at hm
    | some p =>
      obtain ⟨m, s⟩ := p
      have hb := hr m s rfl
      dsimp only at hm
      split_ifs at hm <;> simp only [Option.some.injEq, Prod.mk.injEq] at hm <;> omega
  refine key _ ?_ h
  intro m s hr
  split_ifs at hr
  · exact hA _ _ _ _ hr
  · exact hO _ _ _ _ hr
  · have hc := JsonStringDataLength_cases json st
    simp only [Option.some.injEq] at hr
    rw [hr] at hc
    rcases hc with hc | hc | hc
    · simp only [Prod.mk.injEq] at hc
      omega
    · have h1 := succ_le_strlen json 0 (Nat.zero_le _) (by rw [hc.2]; decide)
      have h2 := hc.1
      simp only [Prod.mk.injEq] at h2
      omega
    · exact hc.2.2.1
  · have hc := JsonNumberDataLength_le json st
    simp only [Option.some.injEq] at hr
    rw [hr] at hc
    exact hc

theorem JsonArrayDataLength_loop_bound_step (f : Nat)
    (hS : ∀ json st n st1, charAt json 0 ≠ 0 → JsonSkip f json st = some (n, st1) →
      n ≤ strlen json)
    (hL : ∀ json pos st n st1, pos ≤ strlen json →
      JsonArrayDataLength_loop f json pos st = some (some n, st1) →
      n ≤ strlen json ∧ pos + 1 ≤ n ∧ charAt json (n - 1) = 93) :
    ∀ json pos st n st1, pos ≤ strlen json →
      JsonArrayDataLength_loop (f + 1) json pos st = some (some n, st1) →
      n ≤ strlen json ∧ pos + 1 ≤ n ∧ charAt json (n - 1) = 93 := by
  intro json pos st n st1 hpos h
  rw [JsonArrayDataLength_loop] at h
  by_cases h0 : charAt json pos = 0
  · simp [h0] at h
  · by_cases h93 : charAt json pos = 93
    · simp only [h93, show ¬ ((93 : Int) = 0) by decide, if_false, if_true, Option.some.injEq,
        Prod.mk.injEq] at h
      obtain ⟨hn, _⟩ := h
      subst hn
      exact ⟨succ_le_strlen json pos hpos h0, le_refl _, by simpa using h93⟩
    · simp only [h0, h93, if_false] at h
      cases hsk : JsonSkip f (json.drop pos) st with
      | none => simp [hsk] at h
      | some r =>
        obtain ⟨skip, st2⟩ := r
        simp only [hsk] at h
        by_cases hk : skip = 0
        · simp [hk] at h
        · simp only [ne_eq, hk, not_false_eq_true, if_true] at h
          have hc : charAt (json.drop pos) 0 ≠ 0 := by
            rw [charAt_drop]
            exact h0
          have hb := hS (json.drop pos) st skip st2 hc hsk
          obtain ⟨i1, i2, i3⟩ := hL json (pos + skip) st2 n st1
            (le_strlen_add json pos skip hpos hb) h
          exact ⟨i1, by omega, i3⟩

theorem JsonArrayDataLength_bound_step (f : Nat)
    (hL : ∀ json pos st n st1, pos ≤ strlen json →
      JsonArrayDataLength_loop f json pos st = some (some n, st1) →
      n ≤ strlen json ∧ pos + 1 ≤ n ∧ charAt json (n - 1) = 93) :
    ∀ json st n st1, JsonArrayDataLength (f + 1) json st = some (n, st1) →
      n ≤ strlen json ∧ (2 ≤ n → charAt json (n - 1) = 93) := by
  intro json st n st1 h
  rw [JsonArrayDataLength] at h
  by_cases h91 : charAt json 0 = 91
  · have h1 : 1 ≤ strlen json := by
      have := succ_le_strlen json 0 (Nat.zero_le _) (by rw [h91]; decide)
      omega
    simp only [h91, ne_eq, not_true_eq_false, if_false] at h
    cases hl : JsonArrayDataLength_loop f json 1 st with
    | none => simp [hl] at h
    | some r =>
      obtain ⟨o, st2⟩ := r
      cases o with
      | none =>
        simp only [hl, Option.some.injEq, Prod.mk.injEq] at h
        exact ⟨by omega, fun h2 => by omega⟩
      | some m =>
        simp only [hl, Option.some.injEq, Prod.mk.injEq] at h
        obtain ⟨i1, _, i3⟩ := hL json 1 st m st2 h1 hl
        rw [← h.1]
        exact ⟨i1, fun _ => i3⟩
  · simp only [h91, ne_eq, not_false_eq_true, if_true, Option.some.injEq, Prod.mk.injEq] at h
    exact ⟨by omega, fun h2 => by omega⟩

theorem JsonObjectDataLength_loop_bound_step (f : Nat)
    (hS : ∀ json st n st1, charAt json 0 ≠ 0 → JsonSkip f json st = some (n, st1) →
      n ≤ strlen json)
    (hL : ∀ json pos st n st1, pos ≤ strlen json →
      JsonObjectDataLength_loop f json pos st = some (some n, st1) →
      n ≤ strlen json ∧ pos + 1 ≤ n ∧ charAt json (n - 1) = 125) :
    ∀ json pos st n st1, pos ≤ strlen json →
      JsonObjectDataLength_loop (f + 1) json pos st = some (some n, st1) →
      n ≤ strlen json ∧ pos + 1 ≤ n ∧ charAt json (n - 1) = 125 := by
  intro json pos st n st1 hpos h
  rw [JsonObjectDataLength_loop] at h
  by_cases h0 : charAt json pos = 0
  · simp [h0] at h
  · by_cases h125 : charAt json pos = 125
    · simp only [h125, show ¬ ((125 : Int) = 0) by decide, if_false, if_true,
        Option.some.injEq, Prod.mk.injEq] at h
      obtain ⟨hn, _⟩ := h
      subst hn
      exact ⟨succ_le_strlen json pos hpos h0, le_refl _, by simpa using h125⟩
    · simp only [h0, h125, if_false] at h
      cases hsk : JsonSkip f (json.drop pos) st with
      | none => simp [hsk] at h
      | some r =>
        obtain ⟨skip, st2⟩ := r
        simp only [hsk] at h
        by_cases hk : skip = 0
        · simp [hk] at h
        · simp only [ne_eq, hk, not_false_eq_true, if_true] at h
          have hc : charAt (json.drop pos) 0 ≠ 0 := by
            rw [charAt_drop]
            exact h0
          have hb := hS (json.drop pos) st skip st2 hc hsk
          obtain ⟨i1, i2, i3⟩ := hL json (pos + skip) st2 n st1
            (le_strlen_add json pos skip hpos hb) h
          exact ⟨i1, by omega, i3⟩

theorem JsonObjectDataLength_bound_step (f : Nat)
    (hL : ∀ json pos st n st1, pos ≤ strlen json →
      JsonObjectDataLength_loop f json pos st = some (some n, st1) →
      n ≤ strlen json ∧ pos + 1 ≤ n ∧ charAt json (n - 1) = 125) :
    ∀ json st n st1, JsonObjectDataLength (f + 1) json st = some (n, st1) →
      n ≤ strlen json ∧ (2 ≤ n → charAt json (n - 1) = 125) := by
  intro json st n st1 h
  rw [JsonObjectDataLength] at h
  by_cases h123 : charAt json 0 = 123
  · have h1 : 1 ≤ strlen json := by
      have := succ_le_strlen json 0 (Nat.zero_le _) (by rw [h123]; decide)
      omega
    simp only [h123, ne_eq, not_true_eq_false, if_false] at h
    cases hl : JsonObjectDataLength_loop f json 1 st with
    | none => simp [hl] at h
    | some r =>
      obtain ⟨o, st2⟩ := r
      cases o with
      | none =>
        simp only [hl, Option.some.injEq, Prod.mk.injEq] at h
        exact ⟨by omega, fun h2 => by omega⟩
      | some m =>
        simp only [hl, Option.some.injEq, Prod.mk.injEq] at h
        obtain ⟨i1, _, i3⟩ := hL json 1 st m st2 h1 hl
        rw [← h.1]
        exact ⟨i1, fun _ => i3⟩
  · simp only [h123, ne_eq, not_false_eq_true, if_true, Option.some.injEq, Prod.mk.injEq] at h
    exact ⟨by omega, fun h2 => by omega⟩

theorem JsonStringDataLength_le (json : List Int) (st : JsonState) :
    (JsonStringDataLength json st).1 ≤ strlen json := by
  rcases JsonStringDataLength_cases json st with hc | hc | hc
  · rw [hc]
    exact Nat.zero_le _
  · have h1 := succ_le_strlen json 0 (Nat.zero_le _) (by rw [hc.2]; decide)
    rw [hc.1]
    omega
  · exact hc.2.2.1

theorem JsonSkip_bound_step (f : Nat)
    (hA : ∀ json st n st1, JsonArrayDataLength f json st = some (n, st1) → n ≤ strlen json)
    (hO : ∀ json st n st1, JsonObjectDataLength f json st = some (n, st1) → n ≤ strlen json)
    (hV : ∀ json st n st1, JsonValueDataLength f json st = some (n, st1) → n ≤ strlen json) :
    ∀ json st n st1, charAt json 0 ≠ 0 → JsonSkip (f + 1) json st = some (n, st1) →
      n ≤ strlen json := by
  intro json st n st1 h0 h
  have h1 : 1 ≤ strlen json := by
    have := succ_le_strlen json 0 (Nat.zero_le _) h0
    omega
  rw [JsonSkip] at h
  by_cases h91 : charAt json 0 = 91
  · simp only [h91, if_true] at h
    cases hr : JsonArrayDataLength f json st with
    | none => simp [hr] at h
    | some r =>
      obtain ⟨dl, s⟩ := r
      have hb := hA json st dl s hr
      simp only [hr] at h
      split_ifs at h <;> simp only [Option.some.injEq, Prod.mk.injEq] at h
      · rw [← h.1]
        exact le_strlen_skip json dl hb
      · omega
  · by_cases h123 : charAt json 0 = 123
    · simp only [h123, show ¬ ((123 : Int) = 91) by decide, if_false, if_true] at h
      cases hr : JsonObjectDataLength f json st with
      | none => simp [hr] at h
      | some r =>
        obtain ⟨dl, s⟩ := r
        have hb := hO json st dl s hr
        simp only [hr] at h
        split_ifs at h <;> simp only [Option.some.injEq, Prod.mk.injEq] at h
        · rw [← h.1]
          exact le_strlen_skip json dl hb
        · omega
    · by_cases h34 : charAt json 0 = 34
      · simp only [h34, show ¬ ((34 : Int) = 91) by decide, show ¬ ((34 : Int) = 123) by decide,
          if_false, if_true] at h
        have hb := JsonStringDataLength_le json st
        cases hr : JsonStringDataLength json st with
        | mk dl s =>
          rw [hr] at h hb
          dsimp only at h hb
          split_ifs at h <;> simp only [Option.some.injEq, Prod.mk.injEq] at h
          · omega
          · rw [← h.1]
            exact le_strlen_skip json dl hb
          · omega
      · by_cases h58 : charAt json 0 = 58
        · simp only [h58, show ¬ ((58 : Int) = 91) by decide,
            show ¬ ((58 : Int) = 123) by decide, show ¬ ((58 : Int) = 34) by decide,
            if_false, if_true] at h
          have hvp := le_strlen_skip json 1 h1
          cases hr : JsonValueDataLength f (json.drop (1 + SKIP_WHITESPACE (json.drop 1))) st with
          | none =>
            simp only [hr] at h
            simp at h
          | some r =>
            obtain ⟨vl, s⟩ := r
            have hb := hV _ st vl s hr
            have hb2 := le_strlen_add json _ vl hvp hb
            simp only [hr] at h
            split_ifs at h <;> simp only [Option.some.injEq, Prod.mk.injEq] at h
            · omega
            · rw [← h.1]
              exact le_strlen_skip json _ hb2
            · omega
        · by_cases h44 : charAt json 0 = 44
          · simp only [h44, show ¬ ((44 : Int) = 91) by decide,
              show ¬ ((44 : Int) = 123) by decide, show ¬ ((44 : Int) = 34) by decide,
              show ¬ ((44 : Int) = 58) by decide, if_false, if_true] at h
            split_ifs at h <;> simp only [Option.some.injEq, Prod.mk.injEq] at h
            · omega
            · rw [← h.1]
              exact le_strlen_skip json 1 h1
          · simp only [h91, h123, h34, h58, h44, if_false] at h
            split_ifs at h <;> simp only [Option.some.injEq, Prod.mk.injEq] at h
            · rw [← h.1]
              exact le_strlen_skip json 1 h1
            · omega

theorem scan_bounds : ∀ (fuel : Nat),
    (∀ json st n st1, JsonValueDataLength fuel json st = some (n, st1) → n ≤ strlen json) ∧
    (∀ json pos st n st1, pos ≤ strlen json →
      JsonArrayDataLength_loop fuel json pos st = some (some n, st1) →
      n ≤ strlen json ∧ pos + 1 ≤ n ∧ charAt json (n - 1) = 93) ∧
    (∀ json st n st1, JsonArrayDataLength fuel json st = some (n, st1) →
      n ≤ strlen json ∧ (2 ≤ n → charAt json (n - 1) = 93)) ∧
    (∀ json pos st n st1, pos ≤ strlen json →
      JsonObjectDataLength_loop fuel json pos st = some (some n, st1) →
      n ≤ strlen json ∧ pos + 1 ≤ n ∧ charAt json (n - 1) = 125) ∧
    (∀ json st n st1, JsonObjectDataLength fuel json st = some (n, st1) →
      n ≤ strlen json ∧ (2 ≤ n → charAt json (n - 1) = 125)) ∧
    (∀ json st n st1, charAt json 0 ≠ 0 → JsonSkip fuel json st = some (n, st1) →
      n ≤ strlen json) := by
  intro fuel
  induction fuel with
  | zero =>
    refine ⟨?_, ?_, ?_, ?_, ?_, ?_⟩
    · intro json st n st1 h
      simp [JsonValueDataLength] at h
    · intro json pos st n st1 _ h
      simp [JsonArrayDataLength_loop] at h
    · intro json st n st1 h
      simp [JsonArrayDataLength] at h
    · intro json pos st n st1 _ h
      simp [JsonObjectDataLength_loop] at h
    · intro json st n st1 h
      simp [JsonObjectDataLength] at h
    · intro json st n st1 _ h
      simp [JsonSkip] at h
  | succ f ih =>
    obtain ⟨hV, hAL, hA, hOL, hO, hS⟩ := ih
    have hA1 : ∀ json st n st1, JsonArrayDataLength f json st = some (n, st1) →
        n ≤ strlen json := fun json st n st1 h => (hA json st n st1 h).1
    have hO1 : ∀ json st n st1, JsonObjectDataLength f json st = some (n, st1) →
        n ≤ strlen json := fun json st n st1 h => (hO json st n st1 h).1
    exact ⟨JsonValueDataLength_bound_step f hA1 hO1,
      JsonArrayDataLength_loop_bound_step f hS hAL,
      JsonArrayDataLength_bound_step f hAL,
      JsonObjectDataLength_loop_bound_step f hS hOL,
      JsonObjectDataLength_bound_step f hOL,
      JsonSkip_bound_step f hA1 hO1 hV⟩

/-- C37: for every buffer (a list of bytes, ended by its first NUL or by its end) and
every state passed in, the results of `JsonStringDataLength` and `JsonNumberDataLength`,
and with `fuelFor json` or more fuel the results that `JsonArrayDataLength`,
`JsonObjectDataLength` and `JsonValueDataLength` return, are each at most `strlen json`,
the number of bytes before the terminating NUL; and a result `n` of 2 or more from the
string, array or object function has the closing `"`, `]` or `}` at `json[n - 1]`. -/
theorem C37_lengths_within_buffer (json : List Int) (st : JsonState) (fuel : Nat)
    (hf : fuelFor json ≤ fuel) :
    ((JsonStringDataLength json st).1 ≤ strlen json ∧
      (2 ≤ (JsonStringDataLength json st).1 →
        charAt json ((JsonStringDataLength json st).1 - 1) = 34)) ∧
    (JsonNumberDataLength json st).1 ≤ strlen json ∧
    (∃ n st1, JsonArrayDataLength fuel json st = some (n, st1) ∧ n ≤ strlen json ∧
      (2 ≤ n → charAt json (n - 1) = 93)) ∧
    (∃ n st1, JsonObjectDataLength fuel json st = some (n, st1) ∧ n ≤ strlen json ∧
      (2 ≤ n → charAt json (n - 1) = 125)) ∧
    (∃ n st1, JsonValueDataLength fuel json st = some (n, st1) ∧ n ≤ strlen json) := by
  obtain ⟨hV, _, hA, _, hO, _⟩ := scan_bounds fuel
  refine ⟨⟨JsonStringDataLength_le json st, ?_⟩, JsonNumberDataLength_le json st, ?_, ?_, ?_⟩
  · intro h2
    rcases JsonStringDataLength_cases json st with hc | hc | hc
    · rw [hc] at h2
      simp at h2
    · rw [hc.1] at h2
      simp at h2
    · exact hc.2.2.2
  · obtain ⟨⟨n, st1⟩, hr⟩ :=
      Option.isSome_iff_exists.mp (JsonArrayDataLength_terminates json fuel st hf)
    exact ⟨n, st1, hr, hA json st n st1 hr⟩
  · obtain ⟨⟨n, st1⟩, hr⟩ :=
      Option.isSome_iff_exists.mp (JsonObjectDataLength_terminates json fuel st hf)
    exact ⟨n, st1, hr, hO json st n st1 hr⟩
  · obtain ⟨⟨n, st1⟩, hr⟩ :=
      Option.isSome_iff_exists.mp (JsonValueDataLength_terminates json fuel st hf)
    exact ⟨n, st1, hr, hV json st n st1 hr⟩

/-- C37 at the buffer `["a",["b"]]x`. -/
theorem C37_lengths_within_buffer_witness :
    ((JsonStringDataLength (ofString "[\"a\",[\"b\"]]x") JSON_STATE_OK).1
        ≤ strlen (ofString "[\"a\",[\"b\"]]x") ∧
      (2 ≤ (JsonStringDataLength (ofString "[\"a\",[\"b\"]]x") JSON_STATE_OK).1 →
        charAt (ofString "[\"a\",[\"b\"]]x")
          ((JsonStringDataLength (ofString "[\"a\",[\"b\"]]x") JSON_STATE_OK).1 - 1) = 34)) ∧
    (JsonNumberDataLength (ofString "[\"a\",[\"b\"]]x") JSON_STATE_OK).1
      ≤ strlen (ofString "[\"a\",[\"b\"]]x") ∧
    (∃ n st1, JsonArrayDataLength 52 (ofString "[\"a\",[\"b\"]]x") JSON_STATE_OK
        = some (n, st1) ∧ n ≤ strlen (ofString "[\"a\",[\"b\"]]x") ∧
      (2 ≤ n → charAt (ofString "[\"a\",[\"b\"]]x") (n - 1) = 93)) ∧
    (∃ n st1, JsonObjectDataLength 52 (ofString "[\"a\",[\"b\"]]x") JSON_STATE_OK
        = some (n, st1) ∧ n ≤ strlen (ofString "[\"a\",[\"b\"]]x") ∧
      (2 ≤ n → charAt (ofString "[\"a\",[\"b\"]]x") (n - 1) = 125)) ∧
    (∃ n st1, JsonValueDataLength 52 (ofString "[\"a\",[\"b\"]]x") JSON_STATE_OK
        = some (n, st1) ∧ n ≤ strlen (ofString "[\"a\",[\"b\"]]x")) :=
  C37_lengths_within_buffer (ofString "[\"a\",[\"b\"]]x") JSON_STATE_OK 52 (by decide)

/-- C38 fails in the code.  With the cursor at the terminating NUL, `JsonSkip` takes the
`default` case, where `IS_WHITESPACE` holds of the NUL, and returns the cursor advanced by
one and then over the whitespace that follows the NUL, with no error written: the
cursor returned is past the NUL and bytes after it are read.  With the cursor at any
other byte the cursor returned is at or before the NUL.  `JsonSkipToKeyValue` calls
`JsonSkip` at the NUL when the object body ends right after a non-matching key: on the
body `"a"`, NUL, `"b":5` with the search key `b` it returns the cursor at offset 8, the
`5` that lies after the NUL at offset 3. -/
theorem C38_JsonSkip_past_NUL (fuel : Nat) (json : List Int) (st : JsonState) :
    (charAt json 0 = 0 →
      JsonSkip (fuel + 1) json st = some (1 + SKIP_WHITESPACE (json.drop 1), st) ∧
        strlen json = 0) ∧
    (charAt json 0 ≠ 0 → ∀ n st1, JsonSkip fuel json st = some (n, st1) → n ≤ strlen json) ∧
    (JsonSkipToKeyValue 40 (ofString "\"a\"" ++ 0 :: ofString "\"b\":5") (ofString "b")
        JSON_STATE_OK = some (8, JSON_STATE_OK) ∧
      strlen (ofString "\"a\"" ++ 0 :: ofString "\"b\":5") = 3) := by
  refine ⟨fun h0 => ⟨?_, strlen_eq_zero json h0⟩,
    fun h0 n st1 h => (scan_bounds fuel).2.2.2.2.2 json st n st1 h0 h, by decide⟩
  rw [JsonSkip]
  simp only [h0, show ¬ ((0 : Int) = 91) by decide, show ¬ ((0 : Int) = 123) by decide,
    show ¬ ((0 : Int) = 34) by decide, show ¬ ((0 : Int) = 58) by decide,
    show ¬ ((0 : Int) = 44) by decide, if_false, show IS_WHITESPACE 0 = true by decide, if_true]

/-- C38 at the empty buffer, whose first byte is the terminating NUL: `JsonSkip` returns
the cursor at offset 1. -/
theorem C38_JsonSkip_past_NUL_witness :
    JsonSkip 1 [] JSON_STATE_OK = some (1 + SKIP_WHITESPACE (([] : List Int).drop 1),
        JSON_STATE_OK) ∧ strlen [] = 0 :=
  (C38_JsonSkip_past_NUL 0 [] JSON_STATE_OK).1 rfl

/-! ## C35: the error state left by `JsonValueDataLength` -/

theorem JsonStringDataLength_written (json : List Int) (st : JsonState) :
    (JsonStringDataLength json st).2 = st ∨
      (JsonStringDataLength json st).2 = JSON_STATE_ERROR_STRING_MISSING_START ∨
      (JsonStringDataLength json st).2 = JSON_STATE_ERROR_STRING_MISSING_END := by
  unfold JsonStringDataLength
  by_cases h : charAt json 0 = 34
  · simp only [h, ne_eq, not_true_eq_false, if_false]
    cases hl : JsonStringDataLength_loop (json.drop 1) 1 st with
    | mk o st1 =>
      cases o with
      | none => exact Or.inr (Or.inr rfl)
      | some n =>
        exact Or.inl (JsonStringDataLength_loop_state st _ (json.drop 1) 1 n st1 (le_refl _) hl)
  · simp [h]

theorem JsonValueDataLength_zero (fuel : Nat) (json : List Int) (st st1 : JsonState)
    (h : JsonValueDataLength fuel json st = some (0, st1)) :
    st1 = JSON_STATE_ERROR_VALUE_INVALID := by
  cases fuel with
  | zero => simp [JsonValueDataLength] at h
  | succ f =>
    rw [JsonValueDataLength_succ] at h
    generalize (if charAt json 0 = 91 then JsonArrayDataLength f json st
      else if charAt json 0 = 123 then JsonObjectDataLength f json st
      else if charAt json 0 = 34 then some (JsonStringDataLength json st)
      else some (JsonNumberDataLength json st)) = r at h
    cases r with
    | none => simp at h
    | some p =>
      obtain ⟨m, s⟩ := p
      dsimp only at h
      split_ifs at h with hm
      · simp only [Option.some.injEq, Prod.mk.injEq] at h
        exact h.2.symm
      · simp only [Option.some.injEq, Prod.mk.injEq] at h
        omega

theorem JsonValueDataLength_state_step (f : Nat)
    (hA : ∀ json st n st1, JsonArrayDataLength f json st = some (n, st1) →
      st1 = st ∨ (st1 ≠ JSON_STATE_ERROR_VALUE_CASE ∧ st1 ≠ JSON_STATE_ERROR_LEADING_DECIMAL ∧
        st1 ≠ JSON_STATE_ERROR_TOO_MANY_DECIMALS))
    (hO : ∀ json st n st1, JsonObjectDataLength f json st = some (n, st1) →
      st1 = st ∨ (st1 ≠ JSON_STATE_ERROR_VALUE_CASE ∧ st1 ≠ JSON_STATE_ERROR_LEADING_DECIMAL ∧
        st1 ≠ JSON_STATE_ERROR_TOO_MANY_DECIMALS)) :
    ∀ json st n st1, JsonValueDataLength (f + 1) json st = some (n, st1) →
      st1 = st ∨ (st1 ≠ JSON_STATE_ERROR_VALUE_CASE ∧ st1 ≠ JSON_STATE_ERROR_LEADING_DECIMAL ∧
        st1 ≠ JSON_STATE_ERROR_TOO_MANY_DECIMALS) := by
  intro json st n st1 h
  rw [JsonValueDataLength_succ] at h
  have key : ∀ r : Option (Nat × JsonState),
      (∀ m s, r = some (m, s) → m ≠ 0 →
        s = st ∨ (s ≠ JSON_STATE_ERROR_VALUE_CASE ∧ s ≠ JSON_STATE_ERROR_LEADING_DECIMAL ∧
          s ≠ JSON_STATE_ERROR_TOO_MANY_DECIMALS)) →
      (match r with
        | none => none
        | some (length, s1) =>
          if length = 0 then some (length, JSON_STATE_ERROR_VALUE_INVALID)
          else some (length, s1)) = some (n, st1) →
      st1 = st ∨ (st1 ≠ JSON_STATE_ERROR_VALUE_CASE ∧ st1 ≠ JSON_STATE_ERROR_LEADING_DECIMAL ∧
        st1 ≠ JSON_STATE_ERROR_TOO_MANY_DECIMALS) := by
    intro r hr hm
    cases r with
    | none => simp at hm
    | some p =>
      obtain ⟨m, s⟩ := p
      dsimp only at hm
      split_ifs at hm with h0
      · simp only [Option.some.injEq, Prod.mk.injEq] at hm
        rw [← hm.2]
        exact Or.inr (by decide)
      · simp only [Option.some.injEq, Prod.mk.injEq] at hm
        rw [← hm.2]
        exact hr m s rfl h0
  refine key _ ?_ h
  intro m s hr hm
  split_ifs at hr
  · exact hA _ _ _ _ hr
  · exact hO _ _ _ _ hr
  · simp only [Option.some.injEq] at hr
    have hw := JsonStringDataLength_written json st
    rw [hr] at hw
    dsimp only at hw
    rcases hw with hw | hw | hw
    · exact Or.inl hw
    · exact Or.inr (by rw [hw]; decide)
    · exact Or.inr (by rw [hw]; decide)
  · simp only [Option.some.injEq] at hr
    have hw := JsonNumberDataLength_state json st
    rw [hr] at hw
    rcases hw with hw | hw
    · exact absurd hw hm
    · exact Or.inl hw

theorem JsonArrayDataLength_loop_state_step (f : Nat)
    (hS : ∀ json st n st1, JsonSkip f json st = some (n, st1) →
      st1 = st ∨ (st1 ≠ JSON_STATE_ERROR_VALUE_CASE ∧ st1 ≠ JSON_STATE_ERROR_LEADING_DECIMAL ∧
        st1 ≠ JSON_STATE_ERROR_TOO_MANY_DECIMALS))
    (hL : ∀ json pos st o st1, JsonArrayDataLength_loop f json pos st = some (o, st1) →
      st1 = st ∨ (st1 ≠ JSON_STATE_ERROR_VALUE_CASE ∧ st1 ≠ JSON_STATE_ERROR_LEADING_DECIMAL ∧
        st1 ≠ JSON_STATE_ERROR_TOO_MANY_DECIMALS)) :
    ∀ json pos st o st1, JsonArrayDataLength_loop (f + 1) json pos st = some (o, st1) →
      st1 = st ∨ (st1 ≠ JSON_STATE_ERROR_VALUE_CASE ∧ st1 ≠ JSON_STATE_ERROR_LEADING_DECIMAL ∧
        st1 ≠ JSON_STATE_ERROR_TOO_MANY_DECIMALS) := by
  intro json pos st o st1 h
  rw [JsonArrayDataLength_loop] at h
  by_cases h0 : charAt json pos = 0
  · simp only [h0, if_true, Option.some.injEq, Prod.mk.injEq] at h
    exact Or.inl h.2.symm
  · by_cases h93 : charAt json pos = 93
    · simp only [h93, show ¬ ((93 : Int) = 0) by decide, if_false, if_true, Option.some.injEq,
        Prod.mk.injEq] at h
      exact Or.inl h.2.symm
    · simp only [h0, h93, if_false] at h
      cases hsk : JsonSkip f (json.drop pos) st with
      | none =>
        simp only [hsk] at h
        simp at h
      | some r =>
        obtain ⟨skip, st2⟩ := r
        simp only [hsk] at h
        have h2 := hS _ _ _ _ hsk
        by_cases hk : skip = 0
        · simp only [hk, ne_eq, not_true_eq_false, if_false, Option.some.injEq,
            Prod.mk.injEq] at h
          rw [← h.2]
          exact h2
        · simp only [ne_eq, hk, not_false_eq_true, if_true] at h
          rcases hL _ _ _ _ _ h with h3 | h3
          · rw [h3]
            exact h2
          · exact Or.inr h3

theorem JsonArrayDataLength_state_step (f : Nat)
    (hL : ∀ json pos st o st1, JsonArrayDataLength_loop f json pos st = some (o, st1) →
      st1 = st ∨ (st1 ≠ JSON_STATE_ERROR_VALUE_CASE ∧ st1 ≠ JSON_STATE_ERROR_LEADING_DECIMAL ∧
        st1 ≠ JSON_STATE_ERROR_TOO_MANY_DECIMALS)) :
    ∀ json st n st1, JsonArrayDataLength (f + 1) json st = some (n, st1) →
      st1 = st ∨ (st1 ≠ JSON_STATE_ERROR_VALUE_CASE ∧ st1 ≠ JSON_STATE_ERROR_LEADING_DECIMAL ∧
        st1 ≠ JSON_STATE_ERROR_TOO_MANY_DECIMALS) := by
  intro json st n st1 h
  rw [JsonArrayDataLength] at h
  by_cases h91 : charAt json 0 = 91
  · simp only [h91, ne_eq, not_true_eq_false, if_false] at h
    cases hl : JsonArrayDataLength_loop f json 1 st with
    | none =>
      simp only [hl] at h
      simp at h
    | some r =>
      obtain ⟨o, st2⟩ := r
      cases o with
      | none =>
        simp only [hl, Option.some.injEq, Prod.mk.injEq] at h
        rw [← h.2]
        exact Or.inr (by decide)
      | some m =>
        simp only [hl, Option.some.injEq, Prod.mk.injEq] at h
        rw [← h.2]
        exact hL _ _ _ _ _ hl
  · simp only [h91, ne_eq, not_false_eq_true, if_true, Option.some.injEq, Prod.mk.injEq] at h
    rw [← h.2]
    exact Or.inr (by decide)

theorem JsonObjectDataLength_loop_state_step (f : Nat)
    (hS : ∀ json st n st1, JsonSkip f json st = some (n, st1) →
      st1 = st ∨ (st1 ≠ JSON_STATE_ERROR_VALUE_CASE ∧ st1 ≠ JSON_STATE_ERROR_LEADING_DECIMAL ∧
        st1 ≠ JSON_STATE_ERROR_TOO_MANY_DECIMALS))
    (hL : ∀ json pos st o st1, JsonObjectDataLength_loop f json pos st = some (o, st1) →
      st1 = st ∨ (st1 ≠ JSON_STATE_ERROR_VALUE_CASE ∧ st1 ≠ JSON_STATE_ERROR_LEADING_DECIMAL ∧
        st1 ≠ JSON_STATE_ERROR_TOO_MANY_DECIMALS)) :
    ∀ json pos st o st1, JsonObjectDataLength_loop (f + 1) json pos st = some (o, st1) →
      st1 = st ∨ (st1 ≠ JSON_STATE_ERROR_VALUE_CASE ∧ st1 ≠ JSON_STATE_ERROR_LEADING_DECIMAL ∧
        st1 ≠ JSON_STATE_ERROR_TOO_MANY_DECIMALS) := by
  intro json pos st o st1 h
  rw [JsonObjectDataLength_loop] at h
  by_cases h0 : charAt json pos = 0
  · simp only [h0, if_true, Option.some.injEq, Prod.mk.injEq] at h
    exact Or.inl h.2.symm
  · by_cases h125 : charAt json pos = 125
    · simp only [h125, show ¬ ((125 : Int) = 0) by decide, if_false, if_true,
        Option.some.injEq, Prod.mk.injEq] at h
      exact Or.inl h.2.symm
    · simp only [h0, h125, if_false] at h
      cases hsk : JsonSkip f (json.drop pos) st with
      | none =>
        simp only [hsk] at h
        simp at h
      | some r =>
        obtain ⟨skip, st2⟩ := r
        simp only [hsk] at h
        have h2 := hS _ _ _ _ hsk
        by_cases hk : skip = 0
        · simp only [hk, ne_eq, not_true_eq_false, if_false, Option.some.injEq,
            Prod.mk.injEq] at h
          rw [← h.2]
          exact h2
        · simp only [ne_eq, hk, not_false_eq_true, if_true] at h
          rcases hL _ _ _ _ _ h with h3 | h3
          · rw [h3]
            exact h2
          · exact Or.inr h3

theorem JsonObjectDataLength_state_step (f : Nat)
    (hL : ∀ json pos st o st1, JsonObjectDataLength_loop f json pos st = some (o, st1) →
      st1 = st ∨ (st1 ≠ JSON_STATE_ERROR_VALUE_CASE ∧ st1 ≠ JSON_STATE_ERROR_LEADING_DECIMAL ∧
        st1 ≠ JSON_STATE_ERROR_TOO_MANY_DECIMALS)) :
    ∀ json st n st1, JsonObjectDataLength (f + 1) json st = some (n, st1) →
      st1 = st ∨ (st1 ≠ JSON_STATE_ERROR_VALUE_CASE ∧ st1 ≠ JSON_STATE_ERROR_LEADING_DECIMAL ∧
        st1 ≠ JSON_STATE_ERROR_TOO_MANY_DECIMALS) := by
  intro json st n st1 h
  rw [JsonObjectDataLength] at h
  by_cases h123 : charAt json 0 = 123
  · simp only [h123, ne_eq, not_true_eq_false, if_false] at h
    cases hl : JsonObjectDataLength_loop f json 1 st with
    | none =>
      simp only [hl] at h
      simp at h
    | some r =>
      obtain ⟨o, st2⟩ := r
      cases o with
      | none =>
        simp only [hl, Option.some.injEq, Prod.mk.injEq] at h
        rw [← h.2]
        exact Or.inr (by decide)
      | some m =>
        simp only [hl, Option.some.injEq, Prod.mk.injEq] at h
        rw [← h.2]
        exact hL _ _ _ _ _ hl
  · simp only [h123, ne_eq, not_false_eq_true, if_true, Option.some.injEq, Prod.mk.injEq] at h
    rw [← h.2]
    exact Or.inr (by decide)

theorem JsonSkip_state_step (f : Nat)
    (hA : ∀ json st n st1, JsonArrayDataLength f json st = some (n, st1) →
      st1 = st ∨ (st1 ≠ JSON_STATE_ERROR_VALUE_CASE ∧ st1 ≠ JSON_STATE_ERROR_LEADING_DECIMAL ∧
        st1 ≠ JSON_STATE_ERROR_TOO_MANY_DECIMALS))
    (hO : ∀ json st n st1, JsonObjectDataLength f json st = some (n, st1) →
      st1 = st ∨ (st1 ≠ JSON_STATE_ERROR_VALUE_CASE ∧ st1 ≠ JSON_STATE_ERROR_LEADING_DECIMAL ∧
        st1 ≠ JSON_STATE_ERROR_TOO_MANY_DECIMALS))
    (hV : ∀ json st n st1, JsonValueDataLength f json st = some (n, st1) →
      st1 = st ∨ (st1 ≠ JSON_STATE_ERROR_VALUE_CASE ∧ st1 ≠ JSON_STATE_ERROR_LEADING_DECIMAL ∧
        st1 ≠ JSON_STATE_ERROR_TOO_MANY_DECIMALS)) :
    ∀ json st n st1, JsonSkip (f + 1) json st = some (n, st1) →
      st1 = st ∨ (st1 ≠ JSON_STATE_ERROR_VALUE_CASE ∧ st1 ≠ JSON_STATE_ERROR_LEADING_DECIMAL ∧
        st1 ≠ JSON_STATE_ERROR_TOO_MANY_DECIMALS) := by
  intro json st n st1 h
  rw [JsonSkip] at h
  by_cases h91 : charAt json 0 = 91
  · simp only [h91, if_true] at h
    cases hr : JsonArrayDataLength f json st with
    | none =>
      simp only [hr] at h
      simp at h
    | some r =>
      obtain ⟨dl, s⟩ := r
      have hb := hA json st dl s hr
      simp only [hr] at h
      split_ifs at h <;> simp only [Option.some.injEq, Prod.mk.injEq] at h <;>
        (rw [← h.2]; exact hb)
  · by_cases h123 : charAt json 0 = 123
    · simp only [h123, show ¬ ((123 : Int) = 91) by decide, if_false, if_true] at h
      cases hr : JsonObjectDataLength f json st with
      | none =>
        simp only [hr] at h
        simp at h
      | some r =>
        obtain ⟨dl, s⟩ := r
        have hb := hO json st dl s hr
        simp only [hr] at h
        split_ifs at h <;> simp only [Option.some.injEq, Prod.mk.injEq] at h <;>
          (rw [← h.2]; exact hb)
    · by_cases h34 : charAt json 0 = 34
      · simp only [h34, show ¬ ((34 : Int) = 91) by decide, show ¬ ((34 : Int) = 123) by decide,
          if_false, if_true] at h
        have hw := JsonStringDataLength_written json st
        cases hr : JsonStringDataLength json st with
        | mk dl s =>
          rw [hr] at h hw
          dsimp only at h hw
          have hb : s = st ∨ (s ≠ JSON_STATE_ERROR_VALUE_CASE ∧
              s ≠ JSON_STATE_ERROR_LEADING_DECIMAL ∧ s ≠ JSON_STATE_ERROR_TOO_MANY_DECIMALS) := by
            rcases hw with hw | hw | hw
            · exact Or.inl hw
            · exact Or.inr (by rw [hw]; decide)
            · exact Or.inr (by rw [hw]; decide)
          split_ifs at h <;> simp only [Option.some.injEq, Prod.mk.injEq] at h
          · rw [← h.2]
            exact Or.inr (by decide)
          · rw [← h.2]
            exact hb
          · rw [← h.2]
            exact hb
      · by_cases h58 : charAt json 0 = 58
        · simp only [h58, show ¬ ((58 : Int) = 91) by decide,
            show ¬ ((58 : Int) = 123) by decide, show ¬ ((58 : Int) = 34) by decide,
            if_false, if_true] at h
          cases hr : JsonValueDataLength f (json.drop (1 + SKIP_WHITESPACE (json.drop 1))) st with
          | none =>
            simp only [hr] at h
            simp at h
          | some r =>
            obtain ⟨vl, s⟩ := r
            have hb := hV _ st vl s hr
            simp only [hr] at h
            split_ifs at h <;> simp only [Option.some.injEq, Prod.mk.injEq] at h
            · rw [← h.2]
              exact Or.inr (by decide)
            · rw [← h.2]
              exact hb
            · rw [← h.2]
              exact hb
        · by_cases h44 : charAt json 0 = 44
          · simp only [h44, show ¬ ((44 : Int) = 91) by decide,
              show ¬ ((44 : Int) = 123) by decide, show ¬ ((44 : Int) = 34) by decide,
              show ¬ ((44 : Int) = 58) by decide, if_false, if_true] at h
            split_ifs at h <;> simp only [Option.some.injEq, Prod.mk.injEq] at h
            · rw [← h.2]
              exact Or.inr (by decide)
            · exact Or.inl h.2.symm
          · simp only [h91, h123, h34, h58, h44, if_false] at h
            split_ifs at h <;> simp only [Option.some.injEq, Prod.mk.injEq] at h
            · exact Or.inl h.2.symm
            · rw [← h.2]
              exact Or.inr (by decide)

theorem scan_states : ∀ (fuel : Nat),
    (∀ json st n st1, JsonValueDataLength fuel json st = some (n, st1) →
      st1 = st ∨ (st1 ≠ JSON_STATE_ERROR_VALUE_CASE ∧ st1 ≠ JSON_STATE_ERROR_LEADING_DECIMAL ∧
        st1 ≠ JSON_STATE_ERROR_TOO_MANY_DECIMALS)) ∧
    (∀ json pos st o st1, JsonArrayDataLength_loop fuel json pos st = some (o, st1) →
      st1 = st ∨ (st1 ≠ JSON_STATE_ERROR_VALUE_CASE ∧ st1 ≠ JSON_STATE_ERROR_LEADING_DECIMAL ∧
        st1 ≠ JSON_STATE_ERROR_TOO_MANY_DECIMALS)) ∧
    (∀ json st n st1, JsonArrayDataLength fuel json st = some (n, st1) →
      st1 = st ∨ (st1 ≠ JSON_STATE_ERROR_VALUE_CASE ∧ st1 ≠ JSON_STATE_ERROR_LEADING_DECIMAL ∧
        st1 ≠ JSON_STATE_ERROR_TOO_MANY_DECIMALS)) ∧
    (∀ json pos st o st1, JsonObjectDataLength_loop fuel json pos st = some (o, st1) →
      st1 = st ∨ (st1 ≠ JSON_STATE_ERROR_VALUE_CASE ∧ st1 ≠ JSON_STATE_ERROR_LEADING_DECIMAL ∧
        st1 ≠ JSON_STATE_ERROR_TOO_MANY_DECIMALS)) ∧
    (∀ json st n st1, JsonObjectDataLength fuel json st = some (n, st1) →
      st1 = st ∨ (st1 ≠ JSON_STATE_ERROR_VALUE_CASE ∧ st1 ≠ JSON_STATE_ERROR_LEADING_DECIMAL ∧
        st1 ≠ JSON_STATE_ERROR_TOO_MANY_DECIMALS)) ∧
    (∀ json st n st1, JsonSkip fuel json st = some (n, st1) →
      st1 = st ∨ (st1 ≠ JSON_STATE_ERROR_VALUE_CASE ∧ st1 ≠ JSON_STATE_ERROR_LEADING_DECIMAL ∧
        st1 ≠ JSON_STATE_ERROR_TOO_MANY_DECIMALS)) := by
  intro fuel
  induction fuel with
  | zero =>
    refine ⟨?_, ?_, ?_, ?_, ?_, ?_⟩
    · intro json st n st1 h
      simp [JsonValueDataLength] at h
    · intro json pos st n st1 h
      simp [JsonArrayDataLength_loop] at h
    · intro json st n st1 h
      simp [JsonArrayDataLength] at h
    · intro json pos st n st1 h
      simp [JsonObjectDataLength_loop] at h
    · intro json st n st1 h
      simp [JsonObjectDataLength] at h
    · intro json st n st1 h
      simp [JsonSkip] at h
  | succ f ih =>
    obtain ⟨hV, hAL, hA, hOL, hO, hS⟩ := ih
    exact ⟨JsonValueDataLength_state_step f hA hO,
      JsonArrayDataLength_loop_state_step f hS hAL,
      JsonArrayDataLength_state_step f hAL,
      JsonObjectDataLength_loop_state_step f hS hOL,
      JsonObjectDataLength_state_step f hOL,
      JsonSkip_state_step f hA hO hV⟩

/-- C35: for every buffer and every state passed in, `JsonValueDataLength` (with
`fuelFor json` or more fuel) returns a length and a state such that: when the length
is 0 the state is value-invalid, whatever `JsonNumberDataLength` or the keyword branch
wrote before; and the state returned is value-case, leading-decimal or
too-many-decimals only if that was the state passed in (the call never leaves one of
these three codes that it or a nested call has written). -/
theorem C35_JsonValueDataLength_masks (json : List Int) (st : JsonState) (fuel : Nat)
    (hf : fuelFor json ≤ fuel) :
    ∃ n st1, JsonValueDataLength fuel json st = some (n, st1) ∧
      (n = 0 → st1 = JSON_STATE_ERROR_VALUE_INVALID) ∧
      (st1 = JSON_STATE_ERROR_VALUE_CASE ∨ st1 = JSON_STATE_ERROR_LEADING_DECIMAL ∨
        st1 = JSON_STATE_ERROR_TOO_MANY_DECIMALS → st1 = st) := by
  obtain ⟨⟨n, st1⟩, hr⟩ :=
    Option.isSome_iff_exists.mp (JsonValueDataLength_terminates json fuel st hf)
  refine ⟨n, st1, hr, ?_, ?_⟩
  · intro hn
    rw [hn] at hr
    exact JsonValueDataLength_zero fuel json st st1 hr
  · intro hm
    rcases (scan_states fuel).1 json st n st1 hr with h | h
    · exact h
    · rcases hm with hm | hm | hm
      · exact absurd hm h.1
      · exact absurd hm h.2.1
      · exact absurd hm h.2.2

/-- C35 at the buffer `1..2`, where `JsonNumberDataLength` writes too-many-decimals. -/
theorem C35_JsonValueDataLength_masks_witness :
    ∃ n st1, JsonValueDataLength 20 (ofString "1..2") JSON_STATE_OK = some (n, st1) ∧
      (n = 0 → st1 = JSON_STATE_ERROR_VALUE_INVALID) ∧
      (st1 = JSON_STATE_ERROR_VALUE_CASE ∨ st1 = JSON_STATE_ERROR_LEADING_DECIMAL ∨
        st1 = JSON_STATE_ERROR_TOO_MANY_DECIMALS → st1 = JSON_STATE_OK) :=
  C35_JsonValueDataLength_masks (ofString "1..2") JSON_STATE_OK 20 (by decide)

/-! ## C36: a stalled `JsonSkip` -/

theorem JsonArrayDataLength_short (fuel : Nat) (json : List Int) (st st1 : JsonState) (n : Nat)
    (h91 : charAt json 0 = 91) (h : JsonArrayDataLength fuel json st = some (n, st1))
    (hn : n < 2) : st1 = JSON_STATE_ERROR_ARRAY_MISSING_END := by
  cases fuel with
  | zero => simp [JsonArrayDataLength] at h
  | succ f =>
    have h1 : 1 ≤ strlen json := by
      have := succ_le_strlen json 0 (Nat.zero_le _) (by rw [h91]; decide)
      omega
    rw [JsonArrayDataLength] at h
    simp only [h91, ne_eq, not_true_eq_false, if_false] at h
    cases hl : JsonArrayDataLength_loop f json 1 st with
    | none =>
      simp only [hl] at h
      simp at h
    | some r =>
      obtain ⟨o, st2⟩ := r
      cases o with
      | none =>
        simp only [hl, Option.some.injEq, Prod.mk.injEq] at h
        exact h.2.symm
      | some m =>
        simp only [hl, Option.some.injEq, Prod.mk.injEq] at h
        have := ((scan_bounds f).2.1 json 1 st m st2 h1 hl).2.1
        omega

theorem JsonObjectDataLength_short (fuel : Nat) (json : List Int) (st st1 : JsonState) (n : Nat)
    (h123 : charAt json 0 = 123) (h : JsonObjectDataLength fuel json st = some (n, st1))
    (hn : n < 2) : st1 = JSON_STATE_ERROR_OBJECT_MISSING_END := by
  cases fuel with
  | zero => simp [JsonObjectDataLength] at h
  | succ f =>
    have h1 : 1 ≤ strlen json := by
      have := succ_le_strlen json 0 (Nat.zero_le _) (by rw [h123]; decide)
      omega
    rw [JsonObjectDataLength] at h
    simp only [h123, ne_eq, not_true_eq_false, if_false] at h
    cases hl : JsonObjectDataLength_loop f json 1 st with
    | none =>
      simp only [hl] at h
      simp at h
    | some r =>
      obtain ⟨o, st2⟩ := r
      cases o with
      | none =>
        simp only [hl, Option.some.injEq, Prod.mk.injEq] at h
        exact h.2.symm
      | some m =>
        simp only [hl, Option.some.injEq, Prod.mk.injEq] at h
        have := ((scan_bounds f).2.2.2.1 json 1 st m st2 h1 hl).2.1
        omega

theorem JsonStringDataLength_short (json : List Int) (st : JsonState)
    (h34 : charAt json 0 = 34) (hn : (JsonStringDataLength json st).1 < 2) :
    (JsonStringDataLength json st).2 = JSON_STATE_ERROR_STRING_MISSING_END := by
  rcases JsonStringDataLength_cases json st with hc | hc | hc
  · unfold JsonStringDataLength at hc
    simp only [h34, ne_eq, not_true_eq_false, if_false] at hc
    cases hl : JsonStringDataLength_loop (json.drop 1) 1 st with
    | mk o st1 =>
      rw [hl] at hc
      cases o with
      | none => simp at hc
      | some m =>
        have := (JsonStringDataLength_loop_le _ (json.drop 1) 1 m st st1 (le_refl _) hl).2.1
        simp only [Prod.mk.injEq] at hc
        omega
  · rw [hc.1]
  · omega

theorem JsonSkip_whitespace (f : Nat) (json : List Int) (st : JsonState)
    (hw : IS_WHITESPACE (charAt json 0) = true) :
    JsonSkip (f + 1) json st = some (1 + SKIP_WHITESPACE (json.drop 1), st) := by
  have hle : charAt json 0 ≤ 32 := by
    unfold IS_WHITESPACE at hw
    exact of_decide_eq_true hw
  rw [JsonSkip]
  simp only [show ¬ charAt json 0 = 91 by omega, show ¬ charAt json 0 = 123 by omega,
    show ¬ charAt json 0 = 34 by omega, show ¬ charAt json 0 = 58 by omega,
    show ¬ charAt json 0 = 44 by omega, if_false, hw, if_true]

theorem JsonSkip_stall (f : Nat) (json : List Int) (st st1 : JsonState)
    (h : JsonSkip (f + 1) json st = some (0, st1)) :
    st1 = JSON_STATE_ERROR_ARRAY_MISSING_END ∨ st1 = JSON_STATE_ERROR_OBJECT_MISSING_END ∨
      st1 = JSON_STATE_ERROR_STRING_MISSING_END ∨
      st1 = JSON_STATE_ERROR_STRING_INVALID_FOLLOWER ∨
      st1 = JSON_STATE_ERROR_VALUE_INVALID ∨ st1 = JSON_STATE_ERROR_VALUE_INVALID_FOLLOWER ∨
      st1 = JSON_STATE_ERROR_COMMA_INVALID_FOLLOWER ∨
      st1 = JSON_STATE_ERROR_UNEXPECTED_CHAR := by
  rw [JsonSkip] at h
  by_cases h91 : charAt json 0 = 91
  · simp only [h91, if_true] at h
    cases hr : JsonArrayDataLength f json st with
    | none =>
      simp only [hr] at h
      simp at h
    | some r =>
      obtain ⟨dl, s⟩ := r
      simp only [hr] at h
      split_ifs at h with hdl <;> simp only [Option.some.injEq, Prod.mk.injEq] at h
      · omega
      · rw [← h.2]
        exact Or.inl (JsonArrayDataLength_short f json st s dl h91 hr (by omega))
  · by_cases h123 : charAt json 0 = 123
    · simp only [h123, show ¬ ((123 : Int) = 91) by decide, if_false, if_true] at h
      cases hr : JsonObjectDataLength f json st with
      | none =>
        simp only [hr] at h
        simp at h
      | some r =>
        obtain ⟨dl, s⟩ := r
        simp only [hr] at h
        split_ifs at h with hdl <;> simp only [Option.some.injEq, Prod.mk.injEq] at h
        · omega
        · rw [← h.2]
          exact Or.inr (Or.inl (JsonObjectDataLength_short f json st s dl h123 hr (by omega)))
    · by_cases h34 : charAt json 0 = 34
      · simp only [h34, show ¬ ((34 : Int) = 91) by decide, show ¬ ((34 : Int) = 123) by decide,
          if_false, if_true] at h
        have hs := JsonStringDataLength_short json st h34
        cases hr : JsonStringDataLength json st with
        | mk dl s =>
          rw [hr] at h hs
          dsimp only at h hs
          split_ifs at h with hdl <;> simp only [Option.some.injEq, Prod.mk.injEq] at h
          · rw [← h.2]
            exact Or.inr (Or.inr (Or.inr (Or.inl rfl)))
          · omega
          · rw [← h.2]
            exact Or.inr (Or.inr (Or.inl (hs (by omega))))
      · by_cases h58 : charAt json 0 = 58
        · simp only [h58, show ¬ ((58 : Int) = 91) by decide,
            show ¬ ((58 : Int) = 123) by decide, show ¬ ((58 : Int) = 34) by decide,
            if_false, if_true] at h
          cases hr : JsonValueDataLength f (json.drop (1 + SKIP_WHITESPACE (json.drop 1))) st with
          | none =>
            simp only [hr] at h
            simp at h
          | some r =>
            obtain ⟨vl, s⟩ := r
            simp only [hr] at h
            split_ifs at h with hvl <;> simp only [Option.some.injEq, Prod.mk.injEq] at h
            · rw [← h.2]
              exact Or.inr (Or.inr (Or.inr (Or.inr (Or.inr (Or.inl rfl)))))
            · omega
            · have hz : vl = 0 := by omega
              rw [hz] at hr
              rw [← h.2]
              exact Or.inr (Or.inr (Or.inr (Or.inr (Or.inl
                (JsonValueDataLength_zero f _ st s hr)))))
        · by_cases h44 : charAt json 0 = 44
          · simp only [h44, show ¬ ((44 : Int) = 91) by decide,
              show ¬ ((44 : Int) = 123) by decide, show ¬ ((44 : Int) = 34) by decide,
              show ¬ ((44 : Int) = 58) by decide, if_false, if_true] at h
            split_ifs at h <;> simp only [Option.some.injEq, Prod.mk.injEq] at h
            · rw [← h.2]
              exact Or.inr (Or.inr (Or.inr (Or.inr (Or.inr (Or.inr (Or.inl rfl))))))
            · omega
          · simp only [h91, h123, h34, h58, h44, if_false] at h
            split_ifs at h <;> simp only [Option.some.injEq, Prod.mk.injEq] at h
            · omega
            · rw [← h.2]
              exact Or.inr (Or.inr (Or.inr (Or.inr (Or.inr (Or.inr (Or.inr rfl))))))

/-- C36: for every buffer and every state passed in (with the cursor at a non-NUL byte
or not), `JsonSkip` (with `fuelFor json` or more fuel) returns a cursor and a state such
that:
when the cursor is the input cursor (offset 0) the state is one of the error codes
array-missing-end, object-missing-end, string-missing-end, string-invalid-follower,
value-invalid, value-invalid-follower, comma-invalid-follower or unexpected-char,
whatever the state passed in, so the call has written it; and when the byte at the
cursor is whitespace the cursor has advanced by at least 1 and no state was written. -/
theorem C36_JsonSkip_stall_has_error (json : List Int) (st : JsonState) (fuel : Nat)
    (hf : fuelFor json ≤ fuel) :
    ∃ n st1, JsonSkip fuel json st = some (n, st1) ∧
      (n = 0 →
        st1 = JSON_STATE_ERROR_ARRAY_MISSING_END ∨ st1 = JSON_STATE_ERROR_OBJECT_MISSING_END ∨
        st1 = JSON_STATE_ERROR_STRING_MISSING_END ∨
        st1 = JSON_STATE_ERROR_STRING_INVALID_FOLLOWER ∨
        st1 = JSON_STATE_ERROR_VALUE_INVALID ∨ st1 = JSON_STATE_ERROR_VALUE_INVALID_FOLLOWER ∨
        st1 = JSON_STATE_ERROR_COMMA_INVALID_FOLLOWER ∨
        st1 = JSON_STATE_ERROR_UNEXPECTED_CHAR) ∧
      (IS_WHITESPACE (charAt json 0) = true → 1 ≤ n ∧ st1 = st) := by
  obtain ⟨f, rfl⟩ : ∃ f, fuel = f + 1 := ⟨fuel - 1, by unfold fuelFor at hf; omega⟩
  obtain ⟨⟨n, st1⟩, hr⟩ :=
    Option.isSome_iff_exists.mp (JsonSkip_terminates json (f + 1) st hf)
  refine ⟨n, st1, hr, ?_, ?_⟩
  · intro hn
    rw [hn] at hr
    exact JsonSkip_stall f json st st1 hr
  · intro hw
    rw [JsonSkip_whitespace f json st hw] at hr
    simp only [Option.some.injEq, Prod.mk.injEq] at hr
    exact ⟨by omega, hr.2.symm⟩

/-- C36 at the buffer `,x`: a comma with an invalid follower stalls with
comma-invalid-follower. -/
theorem C36_JsonSkip_stall_has_error_witness :
    ∃ n st1, JsonSkip 12 (ofString ",x") JSON_STATE_OK = some (n, st1) ∧
      (n = 0 →
        st1 = JSON_STATE_ERROR_ARRAY_MISSING_END ∨ st1 = JSON_STATE_ERROR_OBJECT_MISSING_END ∨
        st1 = JSON_STATE_ERROR_STRING_MISSING_END ∨
        st1 = JSON_STATE_ERROR_STRING_INVALID_FOLLOWER ∨
        st1 = JSON_STATE_ERROR_VALUE_INVALID ∨ st1 = JSON_STATE_ERROR_VALUE_INVALID_FOLLOWER ∨
        st1 = JSON_STATE_ERROR_COMMA_INVALID_FOLLOWER ∨
        st1 = JSON_STATE_ERROR_UNEXPECTED_CHAR) ∧
      (IS_WHITESPACE (charAt (ofString ",x") 0) = true → 1 ≤ n ∧ st1 = JSON_STATE_OK) :=
  C36_JsonSkip_stall_has_error (ofString ",x") JSON_STATE_OK 12 (by decide)

/-! ## C16: the element loop of `ResumeFillEntriesFromJsonArray` -/

theorem strlen_le_length : ∀ (json : List Int), strlen json ≤ json.length
  | [] => by simp [strlen]
  | c :: cs => by
    have ih := strlen_le_length cs
    by_cases hc : c = 0
    · simp [strlen, hc]
    · simp only [strlen, hc, if_false, List.length_cons]
      omega

theorem JsonSkipToNextValue_key (json : List Int) (st : JsonState)
    (h : 2 ≤ (JsonSkipToNextValue json st).keyLength) :
    ((JsonSkipToNextValue json st).key).isSome := by
  unfold JsonSkipToNextValue at h ⊢
  simp only at h ⊢
  split_ifs at h ⊢ <;> first | rfl | (exfalso; dsimp only at h; omega)

theorem ResumeFillEntriesFromJsonArray_keys_isSome (fuel : Nat) (json : List Int)
    (hf : fuelFor json ≤ fuel) :
    ∀ (count nextJson : Nat) (key : Option Nat) (keyLength : Nat) (fields : EntryFields)
      (result : Result_t) (st : JsonState),
      json.length - nextJson + 1 ≤ count → (2 < keyLength → key.isSome) →
      (ResumeFillEntriesFromJsonArray_keys fuel json count nextJson key keyLength fields
        result st).isSome := by
  intro count
  induction count with
  | zero => intro nextJson key keyLength fields result st h; omega
  | succ n ih =>
    intro nextJson key keyLength fields result st hc hk
    rw [ResumeFillEntriesFromJsonArray_keys]
    by_cases hlen : keyLength > 2
    · have hl : (json.drop nextJson).length = json.length - nextJson :=
        List.length_drop nextJson json
      have hfd : fuelFor (json.drop nextJson) ≤ fuel := by
        unfold fuelFor at hf ⊢
        omega
      obtain ⟨⟨valueLength, st1⟩, hv⟩ := Option.isSome_iff_exists.mp
        (JsonValueDataLength_terminates (json.drop nextJson) fuel st hfd)
      have hb : valueLength ≤ strlen (json.drop nextJson) :=
        (scan_bounds fuel).1 _ _ _ _ hv
      have hb2 := strlen_le_length (json.drop nextJson)
      obtain ⟨keyPtr, hkey⟩ := Option.isSome_iff_exists.mp (hk hlen)
      simp only [hlen, if_true, hv, hkey]
      by_cases hz : valueLength = 0
      · simp [hz]
      · simp only [hz, if_false]
        apply ih
        · omega
        · intro h2
          rw [Option.isSome_map']
          exact JsonSkipToNextValue_key _ _ (by omega)
    · simp [hlen]

theorem ResumeGetSectionIndex_loop_isSome (me : Resume_t) (sectionData : SectionPtr) :
    ∀ (l : List Nat) (p : Option SectionPtr) (count sectionIndex : Nat),
      IsChain me.allocated p l → l.length + 1 ≤ count →
      (ResumeGetSectionIndex_loop me sectionData count p sectionIndex).isSome := by
  intro l
  induction l with
  | nil =>
    intro p count sectionIndex hc hf
    obtain ⟨f, rfl⟩ : ∃ f, count = f + 1 := ⟨count - 1, by simp at hf; omega⟩
    rw [show p = none from hc]
    rfl
  | cons a rest ih =>
    intro p count sectionIndex hc hf
    obtain ⟨hp, s, hs, hrest⟩ := hc
    simp only [List.length_cons] at hf
    obtain ⟨f, rfl⟩ : ∃ f, count = f + 1 := ⟨count - 1, by omega⟩
    rw [hp, ResumeGetSectionIndex_loop]
    split_ifs
    · rfl
    · simp only [Resume_t.read, hs]
      exact ih _ _ _ hrest (by omega)

theorem ResumeGetSectionIndex_isSome (me : Resume_t) (sectionData : SectionPtr)
    (l : List Nat) (count : Nat)
    (hc : IsChain me.allocated me.m_ResumeSectionRuntime l) (hf : l.length + 1 ≤ count) :
    (ResumeGetSectionIndex count me sectionData).isSome := by
  unfold ResumeGetSectionIndex
  split
  · rfl
  · exact ResumeGetSectionIndex_loop_isSome me sectionData l _ count _ hc hf

theorem IsChain_update (h1 h2 : Nat → Option SectionData_t)
    (hn : ∀ b s, h1 b = some s → ∃ s2, h2 b = some s2 ∧ s2.m_SectionNext = s.m_SectionNext) :
    ∀ (l : List Nat) (p : Option SectionPtr), IsChain h1 p l → IsChain h2 p l := by
  intro l
  induction l with
  | nil => intro p h; exact h
  | cons a rest ih =>
    intro p h
    obtain ⟨hp, s, hs, hrest⟩ := h
    obtain ⟨s2, hs2, hnext⟩ := hn a s hs
    exact ⟨hp, s2, hs2, by rw [hnext]; exact ih _ hrest⟩

theorem Resume_t_write_chain (me : Resume_t) (p : SectionPtr) (s s2 : SectionData_t)
    (l : List Nat) (hs : me.read p = some s) (hn : s2.m_SectionNext = s.m_SectionNext)
    (hc : IsChain me.allocated me.m_ResumeSectionRuntime l) :
    IsChain (me.write p s2).allocated (me.write p s2).m_ResumeSectionRuntime l ∧
      ((me.write p s2).read p).isSome := by
  cases p with
  | hardCoded index =>
    refine ⟨hc, ?_⟩
    simp only [Resume_t.read] at hs
    have hlt : index < me.m_ResumeSection.length := by
      by_contra hge
      rw [List.getElem?_eq_none (by omega)] at hs
      exact Option.noConfusion hs
    simp [Resume_t.write, Resume_t.read, hlt]
  | allocated address =>
    simp only [Resume_t.read] at hs
    refine ⟨?_, ?_⟩
    · apply IsChain_update me.allocated _ _ l _ hc
      intro b t ht
      by_cases hb : b = address
      · refine ⟨s2, by simp [Resume_t.write, hb], ?_⟩
        rw [hb, hs] at ht
        rw [hn, Option.some.inj ht]
      · exact ⟨t, by simp [Resume_t.write, hb, ht], rfl⟩
    · simp [Resume_t.write, Resume_t.read]

theorem SectionAddEntry_isSome (sscanf : List Int → Option (Int × Int × Int))
    (mktime : Int → Int → Int → Int) (mallocEntry mallocText realloc : Bool) (count : Nat)
    (me : SectionPtr) (resume : ResumeEntries_t) (text : Option (List Int))
    (textLength : Int) (start end1 : Option (List Int)) (l : List Nat)
    (hv : SectionsValid resume.toResume_t me l) (hf : l.length + 1 ≤ count) :
    ∃ result resume1, SectionAddEntry sscanf mktime mallocEntry mallocText realloc count me
        resume text textLength start end1 = some (result, resume1) ∧
      SectionsValid resume1.toResume_t me l := by
  obtain ⟨hc, hr⟩ := hv
  obtain ⟨s, hs⟩ := Option.isSome_iff_exists.mp hr
  unfold SectionAddEntry
  cases hm : ManagedEntriesAppendSubstr sscanf mktime mallocEntry mallocText
      resume.m_ResumeAllEntries text textLength start end1 with
  | mk entry pool =>
    cases entry with
    | none =>
      dsimp only
      obtain ⟨i, hi⟩ := Option.isSome_iff_exists.mp
        (ResumeGetSectionIndex_isSome resume.toResume_t me l count hc hf)
      rw [hi]
      exact ⟨_, _, rfl, hc, hr⟩
    | some e =>
      dsimp only
      rw [hs]
      dsimp only
      cases ha : EntriesAppend realloc s.m_SectionEntries (some e) with
      | mk result entries =>
        dsimp only
        have hw := Resume_t_write_chain resume.toResume_t me s
          { s with m_SectionEntries := entries } l hs rfl hc
        by_cases hres : result = RESULT_ERROR
        · obtain ⟨i, hi⟩ := Option.isSome_iff_exists.mp
            (ResumeGetSectionIndex_isSome _ me l count hw.1 hf)
          rw [if_pos hres, hi]
          exact ⟨_, _, rfl, hw⟩
        · rw [if_neg hres]
          exact ⟨_, _, rfl, hw⟩

theorem ResumeFillEntriesFromJsonArray_element_isSome
    (sscanf : List Int → Option (Int × Int × Int))
    (mktime : Int → Int → Int → Int) (mallocEntry mallocText realloc : Bool)
    (fuel count : Nat) (sectionData : SectionPtr) (json : List Int) (cursor : Nat)
    (me : ResumeEntries_t) (result : Result_t) (jsonState : JsonState) (l : List Nat)
    (hf : fuelFor json ≤ fuel) (hcount : json.length + 2 ≤ count)
    (hl : l.length + 1 ≤ count) (hv : SectionsValid me.toResume_t sectionData l) :
    ∃ me1 result1 jsonState1,
      ResumeFillEntriesFromJsonArray_element sscanf mktime mallocEntry mallocText realloc
        fuel count sectionData json cursor me result jsonState
          = some (me1, result1, jsonState1) ∧
      SectionsValid me1.toResume_t sectionData l := by
  unfold ResumeFillEntriesFromJsonArray_element
  by_cases hb : charAt json cursor = 123
  · simp only [hb, if_true]
    obtain ⟨⟨fields, result1, st1⟩, hk⟩ := Option.isSome_iff_exists.mp
      (ResumeFillEntriesFromJsonArray_keys_isSome fuel json hf count
        (cursor + 1 + (JsonSkipToNextValue (json.drop (cursor + 1)) jsonState).json)
        ((JsonSkipToNextValue (json.drop (cursor + 1)) jsonState).key.map
          (fun k => cursor + 1 + k))
        (JsonSkipToNextValue (json.drop (cursor + 1)) jsonState).keyLength
        { text := none, textLength := 0, startDate := none, endDate := none }
        result (JsonSkipToNextValue (json.drop (cursor + 1)) jsonState).jsonState
        (by omega)
        (by
          intro h2
          rw [Option.isSome_map']
          exact JsonSkipToNextValue_key _ _ (by omega)))
    rw [hk]
    dsimp only
    obtain ⟨added, me1, ha, hv1⟩ := SectionAddEntry_isSome sscanf mktime mallocEntry
      mallocText realloc count sectionData me (fields.text.map (fun p => json.drop p))
      fields.textLength (fields.startDate.map (fun p => json.drop p))
      (fields.endDate.map (fun p => json.drop p)) l hv hl
    rw [ha]
    exact ⟨_, _, _, rfl, hv1⟩
  · simp only [hb, if_false]
    exact ⟨_, _, _, rfl, hv⟩

theorem ResumeFillEntriesFromJsonArray_loop_isSome
    (sscanf : List Int → Option (Int × Int × Int))
    (mktime : Int → Int → Int → Int) (mallocEntry mallocText realloc : Int → Bool)
    (fuel count : Nat) (sectionData : SectionPtr) (json : List Int) (l : List Nat)
    (hf : fuelFor json ≤ fuel) (hcount : json.length + 2 ≤ count)
    (hl : l.length + 1 ≤ count) :
    ∀ (remaining cursor : Nat) (index : Int) (me : ResumeEntries_t) (result : Result_t)
      (st : JsonState), json.length - cursor + 2 ≤ remaining →
      SectionsValid me.toResume_t sectionData l →
      (ResumeFillEntriesFromJsonArray_loop sscanf mktime mallocEntry mallocText realloc
        fuel count sectionData json remaining cursor index me result st).isSome := by
  intro remaining
  induction remaining with
  | zero => intro cursor index me result st h; omega
  | succ n ih =>
    intro cursor index me result st hc hv
    rw [ResumeFillEntriesFromJsonArray_loop]
    by_cases hi : index = INVALID_POSITION
    · simp [hi]
    · obtain ⟨me1, result1, st1, he, hv1⟩ :=
        ResumeFillEntriesFromJsonArray_element_isSome sscanf mktime (mallocEntry index)
          (mallocText index) (realloc index) fuel count sectionData json cursor me result st
          l hf hcount hl hv
      have hlen : (json.drop cursor).length = json.length - cursor :=
        List.length_drop cursor json
      have hfd : fuelFor (json.drop cursor) ≤ fuel := by
        unfold fuelFor at hf ⊢
        omega
      obtain ⟨next, index1, st2, hr, hprog⟩ :=
        JsonArrayNextIndex_advances (json.drop cursor) index st1 fuel hfd hi
      simp only [ne_eq, hi, not_false_eq_true, if_true, he, hr]
      rcases hprog with hinv | ⟨hpos, hne⟩
      · obtain ⟨m, rfl⟩ : ∃ m, n = m + 1 := ⟨n - 1, by omega⟩
        rw [hinv, ResumeFillEntriesFromJsonArray_loop]
        simp
      · have hlt : 0 < (json.drop cursor).length := List.length_pos.mpr hne
        exact ih (cursor + next) index1 me1 _ st2 (by omega) hv1

theorem ResumeFillEntriesFromJsonArray_isSome
    (sscanf : List Int → Option (Int × Int × Int))
    (mktime : Int → Int → Int → Int) (mallocEntry mallocText realloc : Int → Bool)
    (fuel count : Nat) (me : ResumeEntries_t) (sectionData : SectionPtr) (json : List Int)
    (l : List Nat)
    (hf : fuelFor json ≤ fuel) (hcount : json.length + 2 ≤ count)
    (hl : l.length + 1 ≤ count) (hv : SectionsValid me.toResume_t sectionData l) :
    (ResumeFillEntriesFromJsonArray sscanf mktime mallocEntry mallocText realloc fuel count
      me sectionData json).isSome := by
  unfold ResumeFillEntriesFromJsonArray
  simp only
  split_ifs with hb
  · have hlen : (json.drop (SKIP_WHITESPACE json + 1)).length
        = json.length - (SKIP_WHITESPACE json + 1) := List.length_drop _ json
    have hfd : fuelFor (json.drop (SKIP_WHITESPACE json + 1)) ≤ fuel := by
      unfold fuelFor at hf ⊢
      omega
    have hfirst : ∃ first index st, JsonArrayNextIndex fuel
        (json.drop (SKIP_WHITESPACE json + 1)) INVALID_POSITION JSON_STATE_OK
          = some (first, index, st) := by
      unfold JsonArrayNextIndex
      simp only
      split_ifs
      · exact ⟨_, _, _, rfl⟩
      · exact ⟨_, _, _, rfl⟩
    obtain ⟨first, index, st, hr⟩ := hfirst
    rw [hr]
    dsimp only
    split_ifs
    · exact ResumeFillEntriesFromJsonArray_loop_isSome sscanf mktime mallocEntry mallocText
        realloc fuel count sectionData json l hf hcount hl count _ index me RESULT_OK st
        (by omega) hv
    · rfl
  · rfl

/-- C16: with `fuelFor json` or more fuel, every call of `JsonArrayNextIndex` on a
buffer `json` with an index other than `INVALID_POSITION` returns, and either leaves
`INVALID_POSITION` in the index or returns a cursor strictly greater than its input
cursor; and the element loop of `ResumeFillEntriesFromJsonArray`, with its whole body
(the key loop, `SectionAddEntry` and `ResumeGetSectionIndex`), leaves the loop from any
cursor, index, result and state after at most `len(json) - cursor + 2` iterations, and
`ResumeFillEntriesFromJsonArray` returns: whatever `sscanf`, `mktime` and the
allocations give, when the runtime sections form a list and `sectionData` points to a
section object, with `count` at least `len(json) + 2` and above the length of that
list. -/
theorem C16_JsonArrayNextIndex_terminates (json : List Int) (fuel : Nat)
    (hf : fuelFor json ≤ fuel) :
    (∀ (index : Int) (st : JsonState), index ≠ INVALID_POSITION →
        ∃ next index1 st1, JsonArrayNextIndex fuel json index st = some (next, index1, st1) ∧
          (index1 = INVALID_POSITION ∨ 0 < next)) ∧
      (∀ (sscanf : List Int → Option (Int × Int × Int)) (mktime : Int → Int → Int → Int)
          (mallocEntry mallocText realloc : Int → Bool) (count : Nat) (me : ResumeEntries_t)
          (sectionData : SectionPtr) (l : List Nat),
        json.length + 2 ≤ count → l.length + 1 ≤ count →
        IsChain me.allocated me.m_ResumeSectionRuntime l →
        (me.toResume_t.read sectionData).isSome →
        (∀ (remaining cursor : Nat) (index : Int) (result : Result_t) (st : JsonState),
            json.length - cursor + 2 ≤ remaining →
            (ResumeFillEntriesFromJsonArray_loop sscanf mktime mallocEntry mallocText realloc
              fuel count sectionData json remaining cursor index me result st).isSome) ∧
          (ResumeFillEntriesFromJsonArray sscanf mktime mallocEntry mallocText realloc fuel
            count me sectionData json).isSome) := by
  refine ⟨?_, ?_⟩
  · intro index st hi
    obtain ⟨next, index1, st1, hr, hprog⟩ :=
      JsonArrayNextIndex_advances json index st fuel hf hi
    exact ⟨next, index1, st1, hr, hprog.imp id (fun h => h.1)⟩
  · intro sscanf mktime mallocEntry mallocText realloc count me sectionData l hcount hl
      hchain hread
    refine ⟨?_, ?_⟩
    · intro remaining cursor index result st hrem
      exact ResumeFillEntriesFromJsonArray_loop_isSome sscanf mktime mallocEntry mallocText
        realloc fuel count sectionData json l hf hcount hl remaining cursor index me result
        st hrem ⟨hchain, hread⟩
    · exact ResumeFillEntriesFromJsonArray_isSome sscanf mktime mallocEntry mallocText
        realloc fuel count me sectionData json l hf hcount hl ⟨hchain, hread⟩

/-- C16 at the buffer `[{"text":"a"},x,y` with no closing bracket, for a resume of seven
empty sections whose pool holds up to ten entries, every allocation succeeding: the call
of `JsonArrayNextIndex` with index 0 returns with `INVALID_POSITION` or a greater
cursor, and `ResumeFillEntriesFromJsonArray` returns. -/
theorem C16_JsonArrayNextIndex_terminates_witness :
    (∃ next index1 st1,
        JsonArrayNextIndex 76 (ofString "[\x7b\"text\":\"a\"\x7d,x,y") 0 JSON_STATE_OK
          = some (next, index1, st1) ∧
          (index1 = INVALID_POSITION ∨ 0 < next)) ∧
      (ResumeFillEntriesFromJsonArray (fun _ => none) (fun _ _ _ => 0) (fun _ => true)
        (fun _ => true) (fun _ => true) 76 19
        { m_ResumeSection := List.replicate 7 SectionDataInit,
          m_ResumeSectionRuntime := none,
          allocated := fun _ => none,
          m_ResumeAllEntries := (ManagedEntriesInit true 10).2,
          m_ResumeErrorInSection := INVALID_SECTION,
          m_ResumeErrorInEntry := ENTRY_STATE_OK }
        (SectionPtr.hardCoded 2) (ofString "[\x7b\"text\":\"a\"\x7d,x,y")).isSome :=
  ⟨(C16_JsonArrayNextIndex_terminates (ofString "[\x7b\"text\":\"a\"\x7d,x,y") 76
      (by decide)).1 0 JSON_STATE_OK (by decide),
    ((C16_JsonArrayNextIndex_terminates (ofString "[\x7b\"text\":\"a\"\x7d,x,y") 76
      (by decide)).2 (fun _ => none) (fun _ _ _ => 0) (fun _ => true) (fun _ => true)
      (fun _ => true) 19
      { m_ResumeSection := List.replicate 7 SectionDataInit,
        m_ResumeSectionRuntime := none,
        allocated := fun _ => none,
        m_ResumeAllEntries := (ManagedEntriesInit true 10).2,
        m_ResumeErrorInSection := INVALID_SECTION,
        m_ResumeErrorInEntry := ENTRY_STATE_OK }
      (SectionPtr.hardCoded 2) [] (by decide) (by decide) rfl rfl).2⟩

end Resume
